import Mathlib

/-!
# SCHC compression and fragmentation (IoTrust, `smelion_lorawan_schc_lo-coap-eap_class_c`)

A shallow embedding of `schc.cpp`, `context.cpp`, `utils.cpp` and the parts of
`ipv6_layer.cpp` they call, followed by theorems about it.

Conventions of the embedding.

* A byte is a `Nat` below 256; wider machine integers are `Nat` with an explicit
  `% 2 ^ w` wherever the C code can wrap.
* A C buffer is a `List Nat`.  `mem_read` and `mem_write` are `memcpy` from and
  to a buffer.  They agree with the C code whenever the access is inside the
  buffer; an access outside it is undefined behaviour in C, and the embedding
  then reads zeros (`mem_read`) or grows the list (`mem_write`).
* The target is the SAMD21 (ARM Cortex-M0+), a little-endian machine with a
  32-bit `size_t`: a `uint16_t` read through a pointer takes the low byte first.
* Global variables are explicit state: the transmit queue, the reassembly
  buffer and its offset.
-/

namespace SCHC

/-! ## Memory helpers -/

/-- The bytes `src[off], ..., src[off + n - 1]`, as `memcpy` reads them. -/
def mem_read (src : List Nat) (off n : Nat) : List Nat :=
  (List.range n).map (fun k => src.getD (off + k) 0)

/-- The buffer `dst` after `memcpy (&dst[off], src, src.length)`. -/
def mem_write (dst : List Nat) (off : Nat) (src : List Nat) : List Nat :=
  dst.take off ++ src ++ dst.drop (off + src.length)

/-- Modelled from the spec: `htons` comes from a header that is not part of the
sources; on the little-endian target, host to network order swaps the two
bytes of a 16-bit value. -/
def htons (v : Nat) : Nat :=
  (v % 256) * 256 + (v / 256) % 256

/-- Modelled from the spec: `ntohs` is the same byte swap as `htons`. -/
def ntohs (v : Nat) : Nat :=
  htons v

/-- The two bytes of a `uint16_t` as they lie in memory on the target. -/
def le16_bytes (v : Nat) : List Nat :=
  [v % 256, (v / 256) % 256]

/-! ## `utils.cpp`: `crc16` -/

/-- The first loop of `crc16` and the odd last byte: the 32-bit sum of the
16-bit words read through `const uint16_t *p`. -/
def crc16_sum : List Nat → Nat → Nat
  | a :: b :: rest, sum => crc16_sum rest ((sum + (a + 256 * b)) % 2 ^ 32)
  | [a], sum => (sum + a) % 2 ^ 32
  | [], sum => sum

/-- The `do ... while (upper_half != 0)` loop of `crc16`, run for at most
`fuel` iterations; the value is the final `sum`. -/
def crc16_fold_aux : Nat → Nat → Nat → Nat
  | 0, upper_half, lower_half => upper_half + lower_half
  | fuel + 1, upper_half, lower_half =>
    let sum := upper_half + lower_half
    if sum / 65536 ≠ 0 then crc16_fold_aux fuel (sum / 65536) (sum % 65536) else sum

/-- The folding loop of `crc16`.  Every iteration that continues lowers
`upper_half + lower_half`, so that many iterations are enough fuel
(`crc16_fold_exit` below: the loop has reached its exit condition). -/
def crc16_fold (upper_half lower_half : Nat) : Nat :=
  crc16_fold_aux (upper_half + lower_half) upper_half lower_half

/-- `uint16_t crc16(const uint8_t *data, size_t len)`. -/
def crc16 (data : List Nat) (len : Nat) : Nat :=
  if len = 0 then 0xFFFF
  else
    let sum := crc16_sum (mem_read data 0 len) 0
    let sum := crc16_fold (sum / 65536) (sum % 65536)
    let sum := htons (sum % 65536)
    (2 ^ 32 - 1 - sum) % 65536

/-! ## `schc.h`: constants -/

def MAX_SCHC_PKT_LEN : Nat := 40
def SCHC_MAX_COAP_OPT : Nat := 4
def SCHC_FRG_TILE_SIZE : Nat := 40
def SCHC_FRG_RULEID : Nat := 0x80
def SIZE_IPV6 : Nat := 40
def SIZE_UDP : Nat := 8
def SIZE_MTU_IPV6 : Nat := 1280

/-! ## `schc.cpp`: `schc_fragmentate` -/

/-- One `lorawan_msg_tx_cb.push (len)` followed by the pushes of
`buf[0], ..., buf[len - 1]`.  The queue is the sequence of pushed bytes. -/
def tx_push_message (queue : List Nat) (len : Nat) (buf : List Nat) : List Nat :=
  queue ++ [len % 256] ++ mem_read buf 0 len

/-- The variables of `schc_fragmentate` that live across loop iterations. -/
structure FragState where
  offset : Nat
  bytes_left : Nat
  fr_buff : List Nat
  queue : List Nat
deriving Repr, DecidableEq

/-- The body of `for (int i = 0 ; i < nfrag ; i++)` in `schc_fragmentate`. -/
def frag_iter (schc_packet : List Nat) (schc_packet_len nfrag i : Nat) (s : FragState) :
    FragState :=
  let frg_siz := min SCHC_FRG_TILE_SIZE s.bytes_left
  -- fragments[i] was zeroed by memset; rule_id = 0x80, fcn = 0
  let payload := mem_write (List.replicate SCHC_FRG_TILE_SIZE 0) 0
    (mem_read schc_packet s.offset frg_siz)
  if i + 1 < nfrag then
    let fr_buff := mem_write s.fr_buff 0 (mem_read ([0x80, 0] ++ payload) 0 (min 42 255))
    let fr_buff_len := (frg_siz + (42 - 40)) % 256
    { offset := s.offset + frg_siz
      bytes_left := s.bytes_left - frg_siz
      fr_buff := fr_buff
      queue := tx_push_message s.queue fr_buff_len fr_buff }
  else
    let mic := crc16 schc_packet schc_packet_len
    let mic := htons mic
    let fr_buff := mem_write s.fr_buff 0 [0x80]
    let fr_buff := mem_write fr_buff 1 [0xFF]
    let fr_buff := mem_write fr_buff 2 (le16_bytes mic)
    let fr_buff := mem_write fr_buff 4 (mem_read payload 0 (min 255 frg_siz))
    let fr_buff_len := (frg_siz + 2 + (42 - 40)) % 256
    { offset := s.offset + frg_siz
      bytes_left := s.bytes_left - frg_siz
      fr_buff := fr_buff
      queue := tx_push_message s.queue fr_buff_len fr_buff }

/-- The loop `for (int i = 0 ; i < nfrag ; i++)`: `n` iterations from index `i`. -/
def frag_loop (schc_packet : List Nat) (schc_packet_len nfrag : Nat) :
    Nat → Nat → FragState → FragState
  | 0, _, s => s
  | n + 1, i, s =>
    frag_loop schc_packet schc_packet_len nfrag n (i + 1)
      (frag_iter schc_packet schc_packet_len nfrag i s)

/-- What `schc_fragmentate` leaves behind: the transmit queue and the returned
value. -/
structure FragResult where
  queue : List Nat
  ret : Int
deriving Repr, DecidableEq

/-- `static int schc_fragmentate(const uint8_t *schc_packet, size_t schc_packet_len)`,
started with the transmit queue `queue`. -/
def schc_fragmentate (queue : List Nat) (schc_packet : List Nat) (schc_packet_len : Nat) :
    FragResult :=
  if schc_packet_len ≤ MAX_SCHC_PKT_LEN then
    { queue := tx_push_message queue schc_packet_len schc_packet, ret := 0 }
  else
    let nfrag := schc_packet_len / SCHC_FRG_TILE_SIZE +
      (if schc_packet_len % SCHC_FRG_TILE_SIZE ≠ 0 then 1 else 0)
    let s := frag_loop schc_packet schc_packet_len nfrag nfrag 0
      { offset := 0, bytes_left := schc_packet_len,
        fr_buff := List.replicate 255 0, queue := queue }
    { queue := s.queue, ret := 0 }

/-! ## `schc.h`: the data model -/

/-- `enum MO`. -/
inductive MO where
  | EQUALS | IGNORE | MATCH_MAPPING | MSB
deriving Repr, DecidableEq

/-- `enum fieldid`. -/
inductive fieldid where
  | IPV6_VERSION | IPV6_TRAFFIC_CLASS | IPV6_FLOW_LABEL | IPV6_PAYLOAD_LENGTH
  | IPV6_NEXT_HEADER | IPV6_HOP_LIMIT | IPV6_DEV_PREFIX | IPV6_DEVIID
  | IPV6_APP_PREFIX | IPV6_APPIID
  | UDP_DEVPORT | UDP_APPPORT | UDP_LENGTH | UDP_CHECKSUM
  | COAP_VERSION | COAP_TYPE | COAP_TKL | COAP_CODE | COAP_MESSAGE_ID | COAP_TOKEN
  | COAP_OPTION_DELTA | COAP_OPTION_LENGTH | COAP_OPTION_VALUE
  | END_OF_RULE
deriving Repr, DecidableEq

/-- `enum direction`. -/
inductive direction where
  | UPLINK | DOWNLINK | BI
deriving Repr, DecidableEq

/-- `enum CDA`. -/
inductive CDA where
  | NOT_SENT | VALUE_SENT | MAPPING_SENT | LSB
  | COMPUTE_LENGTH | COMPUTE_CHECKSUM | DEVIID | APPIID
deriving Repr, DecidableEq

/-- `struct field_description`: one row of a rule. -/
structure field_description where
  fieldid : fieldid
  field_length : Nat
  field_position : Int
  direction : direction
  tv : String
  MO : MO
  CDA : CDA
deriving Repr, DecidableEq

/-- The anonymous struct of `coap_option[SCHC_MAX_COAP_OPT]` in
`struct field_values`: `uint16_t delta`, `uint16_t length`, `uint8_t value[16]`. -/
structure coap_option_entry where
  delta : Nat
  length : Nat
  value : List Nat
deriving Repr, DecidableEq

/-- `struct field_values`.  Arrays are lists: the four address halves have 8
bytes, `coap_message_id` 2, `coap_token` 16, `coap_option` has
`SCHC_MAX_COAP_OPT` entries and `coap_payload` `SIZE_MTU_IPV6` bytes. -/
structure field_values where
  ipv6_version : Nat
  ipv6_traffic_class : Nat
  ipv6_flow_label : Nat
  ipv6_payload_length : Nat
  ipv6_next_header : Nat
  ipv6_hop_limit : Nat
  ipv6_dev_prefix : List Nat
  ipv6_dev_iid : List Nat
  ipv6_app_prefix : List Nat
  ipv6_app_iid : List Nat
  udp_dev_port : Nat
  udp_app_port : Nat
  udp_length : Nat
  udp_checksum : Nat
  coap_version : Nat
  coap_type : Nat
  coap_tkl : Nat
  coap_code : Nat
  coap_message_id : List Nat
  coap_token : List Nat
  coap_option_num : Nat
  coap_option : List coap_option_entry
  coap_payload_length : Nat
  coap_payload : List Nat
deriving Repr, DecidableEq

/-- A `coap_option` entry after `memset (fv, 0, sizeof (*fv))`. -/
def coap_option_zero : coap_option_entry :=
  { delta := 0, length := 0, value := List.replicate 16 0 }

/-- The struct after `memset (fv, 0, sizeof (*fv))`. -/
def field_values_zero : field_values :=
  { ipv6_version := 0, ipv6_traffic_class := 0, ipv6_flow_label := 0,
    ipv6_payload_length := 0, ipv6_next_header := 0, ipv6_hop_limit := 0,
    ipv6_dev_prefix := List.replicate 8 0, ipv6_dev_iid := List.replicate 8 0,
    ipv6_app_prefix := List.replicate 8 0, ipv6_app_iid := List.replicate 8 0,
    udp_dev_port := 0, udp_app_port := 0, udp_length := 0, udp_checksum := 0,
    coap_version := 0, coap_type := 0, coap_tkl := 0, coap_code := 0,
    coap_message_id := List.replicate 2 0, coap_token := List.replicate 16 0,
    coap_option_num := 0,
    coap_option := List.replicate SCHC_MAX_COAP_OPT coap_option_zero,
    coap_payload_length := 0, coap_payload := List.replicate SIZE_MTU_IPV6 0 }

/-- Every byte of the list is below 256. -/
def bytes_ok (l : List Nat) : Prop :=
  ∀ b ∈ l, b < 256

instance (l : List Nat) : Decidable (bytes_ok l) := by
  unfold bytes_ok; infer_instance

/-- A `coap_option` entry that fits its C type. -/
def coap_option_entry.wf (o : coap_option_entry) : Prop :=
  o.delta < 65536 ∧ o.length < 65536 ∧ o.value.length = 16 ∧ bytes_ok o.value

instance (o : coap_option_entry) : Decidable o.wf := by
  unfold coap_option_entry.wf; infer_instance

/-- The value fits `struct field_values`: every scalar is in the range of its
C type and every array has its declared size. -/
def field_values.wf (fv : field_values) : Prop :=
  fv.ipv6_version < 256 ∧ fv.ipv6_traffic_class < 256 ∧ fv.ipv6_flow_label < 2 ^ 32 ∧
  fv.ipv6_payload_length < 2 ^ 32 ∧ fv.ipv6_next_header < 256 ∧ fv.ipv6_hop_limit < 256 ∧
  (fv.ipv6_dev_prefix.length = 8 ∧ bytes_ok fv.ipv6_dev_prefix) ∧
  (fv.ipv6_dev_iid.length = 8 ∧ bytes_ok fv.ipv6_dev_iid) ∧
  (fv.ipv6_app_prefix.length = 8 ∧ bytes_ok fv.ipv6_app_prefix) ∧
  (fv.ipv6_app_iid.length = 8 ∧ bytes_ok fv.ipv6_app_iid) ∧
  fv.udp_dev_port < 65536 ∧ fv.udp_app_port < 65536 ∧ fv.udp_length < 2 ^ 32 ∧
  fv.udp_checksum < 65536 ∧
  fv.coap_version < 256 ∧ fv.coap_type < 256 ∧ fv.coap_tkl < 256 ∧ fv.coap_code < 256 ∧
  (fv.coap_message_id.length = 2 ∧ bytes_ok fv.coap_message_id) ∧
  (fv.coap_token.length = 16 ∧ bytes_ok fv.coap_token) ∧
  fv.coap_option_num < 256 ∧
  (fv.coap_option.length = SCHC_MAX_COAP_OPT ∧ ∀ o ∈ fv.coap_option, o.wf) ∧
  fv.coap_payload_length < 256 ∧
  (fv.coap_payload.length = SIZE_MTU_IPV6 ∧ bytes_ok fv.coap_payload)

instance (fv : field_values) : Decidable fv.wf := by
  unfold field_values.wf; infer_instance

/-! ## `context.cpp`: the rule table -/

/-- The row `{ END_OF_RULE }`: the remaining members are zero-initialised. -/
def end_of_rule_row : field_description :=
  ⟨.END_OF_RULE, 0, 0, .UPLINK, "", .EQUALS, .NOT_SENT⟩

/-- `const struct field_description rules[][33]` of `context.cpp`.  Every rule is
listed up to and including its `END_OF_RULE` row; the loops over a rule stop at
that row, so the zero rows that pad a rule to 33 rows are never read. -/
def rules : List (List field_description) :=
  [ -- rule 0
    [ ⟨.IPV6_VERSION, 4, 1, .BI, "1", .EQUALS, .NOT_SENT⟩,
      ⟨.IPV6_TRAFFIC_CLASS, 8, 1, .BI, "0", .EQUALS, .NOT_SENT⟩,
      ⟨.IPV6_FLOW_LABEL, 20, 1, .BI, "0", .IGNORE, .NOT_SENT⟩,
      ⟨.IPV6_PAYLOAD_LENGTH, 16, 1, .BI, "0", .IGNORE, .COMPUTE_LENGTH⟩,
      ⟨.IPV6_NEXT_HEADER, 8, 1, .BI, "17", .EQUALS, .NOT_SENT⟩,
      ⟨.IPV6_HOP_LIMIT, 8, 1, .BI, "64", .IGNORE, .NOT_SENT⟩,
      ⟨.IPV6_DEV_PREFIX, 64, 1, .BI, "1234567891234567", .EQUALS, .NOT_SENT⟩,
      ⟨.IPV6_DEVIID, 64, 1, .BI, "7157084458723854", .EQUALS, .NOT_SENT⟩,
      ⟨.IPV6_APP_PREFIX, 64, 1, .BI, "1234567890123456", .EQUALS, .NOT_SENT⟩,
      ⟨.IPV6_APPIID, 64, 1, .BI, "1478585784768976", .EQUALS, .NOT_SENT⟩,
      ⟨.UDP_DEVPORT, 16, 1, .BI, "0", .IGNORE, .VALUE_SENT⟩,
      ⟨.UDP_APPPORT, 16, 1, .BI, "5683", .IGNORE, .NOT_SENT⟩,
      ⟨.UDP_LENGTH, 16, 1, .BI, "0", .IGNORE, .COMPUTE_LENGTH⟩,
      ⟨.UDP_CHECKSUM, 16, 1, .BI, "0", .IGNORE, .COMPUTE_CHECKSUM⟩,
      ⟨.COAP_VERSION, 2, 1, .BI, "1", .EQUALS, .NOT_SENT⟩,
      ⟨.COAP_TYPE, 2, 1, .BI, "0", .EQUALS, .NOT_SENT⟩,
      ⟨.COAP_TKL, 4, 1, .BI, "2", .EQUALS, .NOT_SENT⟩,
      ⟨.COAP_CODE, 8, 1, .BI, "2", .EQUALS, .NOT_SENT⟩,
      ⟨.COAP_MESSAGE_ID, 16, 1, .BI, "0", .IGNORE, .VALUE_SENT⟩,
      ⟨.COAP_TOKEN, 16, 1, .BI, "0", .IGNORE, .VALUE_SENT⟩,
      ⟨.COAP_OPTION_DELTA, 8, 1, .BI, "0", .IGNORE, .VALUE_SENT⟩,
      ⟨.COAP_OPTION_LENGTH, 8, 1, .BI, "0", .IGNORE, .VALUE_SENT⟩,
      ⟨.COAP_OPTION_VALUE, 16, 1, .BI, "0", .IGNORE, .VALUE_SENT⟩,
      end_of_rule_row ],
    -- rule 1
    [ ⟨.IPV6_VERSION, 4, 1, .BI, "6", .EQUALS, .NOT_SENT⟩,
      ⟨.IPV6_TRAFFIC_CLASS, 8, 1, .BI, "0", .EQUALS, .NOT_SENT⟩,
      ⟨.IPV6_FLOW_LABEL, 20, 1, .BI, "0", .IGNORE, .NOT_SENT⟩,
      ⟨.IPV6_PAYLOAD_LENGTH, 16, 1, .BI, "0", .IGNORE, .COMPUTE_LENGTH⟩,
      ⟨.IPV6_NEXT_HEADER, 8, 1, .BI, "17", .EQUALS, .NOT_SENT⟩,
      ⟨.IPV6_HOP_LIMIT, 8, 1, .BI, "64", .IGNORE, .NOT_SENT⟩,
      ⟨.IPV6_DEV_PREFIX, 64, 1, .BI, "FE80000000000000", .EQUALS, .NOT_SENT⟩,
      ⟨.IPV6_DEVIID, 64, 1, .BI, "080027fffe000000", .EQUALS, .NOT_SENT⟩,
      ⟨.IPV6_APP_PREFIX, 64, 1, .BI, "FE80000000000000", .EQUALS, .NOT_SENT⟩,
      ⟨.IPV6_APPIID, 64, 1, .BI, "0A0027FFFE542E4A", .EQUALS, .NOT_SENT⟩,
      ⟨.UDP_DEVPORT, 16, 1, .BI, "59355", .EQUALS, .NOT_SENT⟩,
      ⟨.UDP_APPPORT, 16, 1, .BI, "5683", .EQUALS, .NOT_SENT⟩,
      ⟨.UDP_LENGTH, 16, 1, .BI, "0", .IGNORE, .COMPUTE_LENGTH⟩,
      ⟨.UDP_CHECKSUM, 16, 1, .BI, "0", .IGNORE, .COMPUTE_CHECKSUM⟩,
      ⟨.COAP_VERSION, 2, 1, .BI, "1", .EQUALS, .NOT_SENT⟩,
      ⟨.COAP_TYPE, 2, 1, .BI, "1", .EQUALS, .NOT_SENT⟩,
      ⟨.COAP_TKL, 4, 1, .BI, "0", .EQUALS, .NOT_SENT⟩,
      ⟨.COAP_CODE, 8, 1, .BI, "2", .EQUALS, .NOT_SENT⟩,
      ⟨.COAP_MESSAGE_ID, 16, 1, .BI, "0", .IGNORE, .VALUE_SENT⟩,
      ⟨.COAP_TOKEN, 16, 1, .BI, "0", .IGNORE, .NOT_SENT⟩,
      ⟨.COAP_OPTION_DELTA, 8, 1, .BI, "11", .EQUALS, .NOT_SENT⟩,
      ⟨.COAP_OPTION_LENGTH, 8, 1, .BI, "1", .EQUALS, .NOT_SENT⟩,
      ⟨.COAP_OPTION_VALUE, 16, 1, .BI, "b", .EQUALS, .NOT_SENT⟩,
      ⟨.COAP_OPTION_DELTA, 8, 1, .BI, "28", .EQUALS, .NOT_SENT⟩,
      ⟨.COAP_OPTION_LENGTH, 8, 1, .BI, "4", .EQUALS, .NOT_SENT⟩,
      ⟨.COAP_OPTION_VALUE, 16, 1, .BI, "", .IGNORE, .VALUE_SENT⟩,
      ⟨.COAP_OPTION_DELTA, 8, 1, .BI, "29", .EQUALS, .NOT_SENT⟩,
      ⟨.COAP_OPTION_LENGTH, 8, 1, .BI, "1", .EQUALS, .NOT_SENT⟩,
      ⟨.COAP_OPTION_VALUE, 16, 1, .BI, "", .IGNORE, .VALUE_SENT⟩,
      end_of_rule_row ],
    -- rule 2
    [ ⟨.IPV6_VERSION, 4, 1, .BI, "6", .EQUALS, .NOT_SENT⟩,
      ⟨.IPV6_TRAFFIC_CLASS, 8, 1, .BI, "0", .EQUALS, .NOT_SENT⟩,
      ⟨.IPV6_FLOW_LABEL, 20, 1, .BI, "0", .IGNORE, .NOT_SENT⟩,
      ⟨.IPV6_PAYLOAD_LENGTH, 16, 1, .BI, "0", .IGNORE, .COMPUTE_LENGTH⟩,
      ⟨.IPV6_NEXT_HEADER, 8, 1, .BI, "17", .EQUALS, .NOT_SENT⟩,
      ⟨.IPV6_HOP_LIMIT, 8, 1, .BI, "64", .IGNORE, .NOT_SENT⟩,
      ⟨.IPV6_DEV_PREFIX, 64, 1, .BI, "FE80000000000000", .EQUALS, .NOT_SENT⟩,
      ⟨.IPV6_DEVIID, 64, 1, .BI, "080027fffe000000", .EQUALS, .NOT_SENT⟩,
      ⟨.IPV6_APP_PREFIX, 64, 1, .BI, "FE80000000000000", .EQUALS, .NOT_SENT⟩,
      ⟨.IPV6_APPIID, 64, 1, .BI, "0A0027FFFE542E4A", .EQUALS, .NOT_SENT⟩,
      ⟨.UDP_DEVPORT, 16, 1, .BI, "59355", .EQUALS, .NOT_SENT⟩,
      ⟨.UDP_APPPORT, 16, 1, .BI, "5683", .EQUALS, .NOT_SENT⟩,
      ⟨.UDP_LENGTH, 16, 1, .BI, "0", .IGNORE, .COMPUTE_LENGTH⟩,
      ⟨.UDP_CHECKSUM, 16, 1, .BI, "0", .IGNORE, .COMPUTE_CHECKSUM⟩,
      ⟨.COAP_VERSION, 2, 1, .BI, "1", .EQUALS, .NOT_SENT⟩,
      ⟨.COAP_TYPE, 2, 1, .BI, "0", .EQUALS, .NOT_SENT⟩,
      ⟨.COAP_TKL, 4, 1, .BI, "0", .EQUALS, .NOT_SENT⟩,
      ⟨.COAP_CODE, 8, 1, .BI, "2", .EQUALS, .NOT_SENT⟩,
      ⟨.COAP_MESSAGE_ID, 16, 1, .BI, "0", .IGNORE, .VALUE_SENT⟩,
      ⟨.COAP_TOKEN, 16, 1, .BI, "0", .IGNORE, .NOT_SENT⟩,
      ⟨.COAP_OPTION_DELTA, 8, 1, .BI, "11", .EQUALS, .NOT_SENT⟩,
      ⟨.COAP_OPTION_LENGTH, 8, 1, .BI, "1", .EQUALS, .NOT_SENT⟩,
      ⟨.COAP_OPTION_VALUE, 16, 1, .BI, "b", .EQUALS, .NOT_SENT⟩,
      end_of_rule_row ],
    -- rule 3
    [ ⟨.IPV6_VERSION, 4, 1, .BI, "6", .EQUALS, .NOT_SENT⟩,
      ⟨.IPV6_TRAFFIC_CLASS, 8, 1, .BI, "0", .EQUALS, .NOT_SENT⟩,
      ⟨.IPV6_FLOW_LABEL, 20, 1, .BI, "0", .IGNORE, .NOT_SENT⟩,
      ⟨.IPV6_PAYLOAD_LENGTH, 16, 1, .BI, "0", .IGNORE, .COMPUTE_LENGTH⟩,
      ⟨.IPV6_NEXT_HEADER, 8, 1, .BI, "17", .EQUALS, .NOT_SENT⟩,
      ⟨.IPV6_HOP_LIMIT, 8, 1, .BI, "64", .IGNORE, .NOT_SENT⟩,
      ⟨.IPV6_DEV_PREFIX, 64, 1, .BI, "FE80000000000000", .EQUALS, .NOT_SENT⟩,
      ⟨.IPV6_DEVIID, 64, 1, .BI, "080027fffe000000", .EQUALS, .NOT_SENT⟩,
      ⟨.IPV6_APP_PREFIX, 64, 1, .BI, "FE80000000000000", .EQUALS, .NOT_SENT⟩,
      ⟨.IPV6_APPIID, 64, 1, .BI, "0A0027FFFE542E4A", .EQUALS, .NOT_SENT⟩,
      ⟨.UDP_DEVPORT, 16, 1, .BI, "59355", .EQUALS, .NOT_SENT⟩,
      ⟨.UDP_APPPORT, 16, 1, .BI, "5683", .EQUALS, .NOT_SENT⟩,
      ⟨.UDP_LENGTH, 16, 1, .BI, "0", .IGNORE, .COMPUTE_LENGTH⟩,
      ⟨.UDP_CHECKSUM, 16, 1, .BI, "0", .IGNORE, .COMPUTE_CHECKSUM⟩,
      ⟨.COAP_VERSION, 2, 1, .BI, "1", .EQUALS, .NOT_SENT⟩,
      ⟨.COAP_TYPE, 2, 1, .BI, "2", .EQUALS, .NOT_SENT⟩,
      ⟨.COAP_TKL, 4, 1, .BI, "0", .EQUALS, .NOT_SENT⟩,
      ⟨.COAP_CODE, 8, 1, .BI, "65", .EQUALS, .NOT_SENT⟩,
      ⟨.COAP_MESSAGE_ID, 16, 1, .BI, "0", .IGNORE, .VALUE_SENT⟩,
      ⟨.COAP_TOKEN, 16, 1, .BI, "0", .IGNORE, .NOT_SENT⟩,
      ⟨.COAP_OPTION_DELTA, 8, 1, .BI, "11", .EQUALS, .NOT_SENT⟩,
      ⟨.COAP_OPTION_LENGTH, 8, 1, .BI, "1", .EQUALS, .NOT_SENT⟩,
      ⟨.COAP_OPTION_VALUE, 16, 1, .BI, "b", .EQUALS, .NOT_SENT⟩,
      ⟨.COAP_OPTION_DELTA, 8, 1, .BI, "11", .EQUALS, .NOT_SENT⟩,
      ⟨.COAP_OPTION_LENGTH, 8, 1, .BI, "1", .EQUALS, .NOT_SENT⟩,
      ⟨.COAP_OPTION_VALUE, 16, 1, .BI, "", .IGNORE, .VALUE_SENT⟩,
      end_of_rule_row ],
    -- rule 4
    [ ⟨.IPV6_VERSION, 4, 1, .BI, "6", .EQUALS, .NOT_SENT⟩,
      ⟨.IPV6_TRAFFIC_CLASS, 8, 1, .BI, "0", .EQUALS, .NOT_SENT⟩,
      ⟨.IPV6_FLOW_LABEL, 20, 1, .BI, "0", .IGNORE, .NOT_SENT⟩,
      ⟨.IPV6_PAYLOAD_LENGTH, 16, 1, .BI, "0", .IGNORE, .COMPUTE_LENGTH⟩,
      ⟨.IPV6_NEXT_HEADER, 8, 1, .BI, "17", .EQUALS, .NOT_SENT⟩,
      ⟨.IPV6_HOP_LIMIT, 8, 1, .BI, "64", .IGNORE, .NOT_SENT⟩,
      ⟨.IPV6_DEV_PREFIX, 64, 1, .BI, "FE80000000000000", .EQUALS, .NOT_SENT⟩,
      ⟨.IPV6_DEVIID, 64, 1, .BI, "080027fffe000000", .EQUALS, .NOT_SENT⟩,
      ⟨.IPV6_APP_PREFIX, 64, 1, .BI, "FE80000000000000", .EQUALS, .NOT_SENT⟩,
      ⟨.IPV6_APPIID, 64, 1, .BI, "0A0027FFFE542E4A", .EQUALS, .NOT_SENT⟩,
      ⟨.UDP_DEVPORT, 16, 1, .BI, "59355", .EQUALS, .NOT_SENT⟩,
      ⟨.UDP_APPPORT, 16, 1, .BI, "5683", .EQUALS, .NOT_SENT⟩,
      ⟨.UDP_LENGTH, 16, 1, .BI, "0", .IGNORE, .COMPUTE_LENGTH⟩,
      ⟨.UDP_CHECKSUM, 16, 1, .BI, "0", .IGNORE, .COMPUTE_CHECKSUM⟩,
      ⟨.COAP_VERSION, 2, 1, .BI, "1", .EQUALS, .NOT_SENT⟩,
      ⟨.COAP_TYPE, 2, 1, .BI, "0", .EQUALS, .NOT_SENT⟩,
      ⟨.COAP_TKL, 4, 1, .BI, "0", .EQUALS, .NOT_SENT⟩,
      ⟨.COAP_CODE, 8, 1, .BI, "2", .EQUALS, .NOT_SENT⟩,
      ⟨.COAP_MESSAGE_ID, 16, 1, .BI, "0", .IGNORE, .VALUE_SENT⟩,
      ⟨.COAP_TOKEN, 16, 1, .BI, "0", .IGNORE, .NOT_SENT⟩,
      ⟨.COAP_OPTION_DELTA, 8, 1, .BI, "11", .EQUALS, .NOT_SENT⟩,
      ⟨.COAP_OPTION_LENGTH, 8, 1, .BI, "1", .EQUALS, .NOT_SENT⟩,
      ⟨.COAP_OPTION_VALUE, 16, 1, .BI, "b", .EQUALS, .NOT_SENT⟩,
      ⟨.COAP_OPTION_DELTA, 8, 1, .BI, "11", .EQUALS, .NOT_SENT⟩,
      ⟨.COAP_OPTION_LENGTH, 8, 1, .BI, "1", .EQUALS, .NOT_SENT⟩,
      ⟨.COAP_OPTION_VALUE, 16, 1, .BI, "", .IGNORE, .VALUE_SENT⟩,
      end_of_rule_row ],
    -- rule 5
    [ ⟨.IPV6_VERSION, 4, 1, .BI, "6", .EQUALS, .NOT_SENT⟩,
      ⟨.IPV6_TRAFFIC_CLASS, 8, 1, .BI, "0", .EQUALS, .NOT_SENT⟩,
      ⟨.IPV6_FLOW_LABEL, 20, 1, .BI, "0", .IGNORE, .NOT_SENT⟩,
      ⟨.IPV6_PAYLOAD_LENGTH, 16, 1, .BI, "0", .IGNORE, .COMPUTE_LENGTH⟩,
      ⟨.IPV6_NEXT_HEADER, 8, 1, .BI, "17", .EQUALS, .NOT_SENT⟩,
      ⟨.IPV6_HOP_LIMIT, 8, 1, .BI, "64", .IGNORE, .NOT_SENT⟩,
      ⟨.IPV6_DEV_PREFIX, 64, 1, .BI, "FE80000000000000", .EQUALS, .NOT_SENT⟩,
      ⟨.IPV6_DEVIID, 64, 1, .BI, "080027fffe000000", .EQUALS, .NOT_SENT⟩,
      ⟨.IPV6_APP_PREFIX, 64, 1, .BI, "FE80000000000000", .EQUALS, .NOT_SENT⟩,
      ⟨.IPV6_APPIID, 64, 1, .BI, "0A0027FFFE542E4A", .EQUALS, .NOT_SENT⟩,
      ⟨.UDP_DEVPORT, 16, 1, .BI, "59355", .EQUALS, .NOT_SENT⟩,
      ⟨.UDP_APPPORT, 16, 1, .BI, "5683", .EQUALS, .NOT_SENT⟩,
      ⟨.UDP_LENGTH, 16, 1, .BI, "0", .IGNORE, .COMPUTE_LENGTH⟩,
      ⟨.UDP_CHECKSUM, 16, 1, .BI, "0", .IGNORE, .COMPUTE_CHECKSUM⟩,
      ⟨.COAP_VERSION, 2, 1, .BI, "1", .EQUALS, .NOT_SENT⟩,
      ⟨.COAP_TYPE, 2, 1, .BI, "2", .EQUALS, .NOT_SENT⟩,
      ⟨.COAP_TKL, 4, 1, .BI, "0", .EQUALS, .NOT_SENT⟩,
      ⟨.COAP_CODE, 8, 1, .BI, "68", .EQUALS, .NOT_SENT⟩,
      ⟨.COAP_MESSAGE_ID, 16, 1, .BI, "0", .IGNORE, .VALUE_SENT⟩,
      ⟨.COAP_TOKEN, 16, 1, .BI, "0", .IGNORE, .NOT_SENT⟩,
      end_of_rule_row ],
    -- rule 6
    [ ⟨.IPV6_VERSION, 4, 1, .BI, "6", .EQUALS, .NOT_SENT⟩,
      ⟨.IPV6_TRAFFIC_CLASS, 8, 1, .BI, "0", .EQUALS, .NOT_SENT⟩,
      ⟨.IPV6_FLOW_LABEL, 20, 1, .BI, "0", .IGNORE, .NOT_SENT⟩,
      ⟨.IPV6_PAYLOAD_LENGTH, 16, 1, .BI, "0", .IGNORE, .COMPUTE_LENGTH⟩,
      ⟨.IPV6_NEXT_HEADER, 8, 1, .BI, "17", .EQUALS, .NOT_SENT⟩,
      ⟨.IPV6_HOP_LIMIT, 8, 1, .BI, "64", .IGNORE, .NOT_SENT⟩,
      ⟨.IPV6_DEV_PREFIX, 64, 1, .BI, "FE80000000000000", .EQUALS, .NOT_SENT⟩,
      ⟨.IPV6_DEVIID, 64, 1, .BI, "080027fffe000000", .EQUALS, .NOT_SENT⟩,
      ⟨.IPV6_APP_PREFIX, 64, 1, .BI, "FE80000000000000", .EQUALS, .NOT_SENT⟩,
      ⟨.IPV6_APPIID, 64, 1, .BI, "0A0027FFFE542E4A", .EQUALS, .NOT_SENT⟩,
      ⟨.UDP_DEVPORT, 16, 1, .BI, "59355", .EQUALS, .NOT_SENT⟩,
      ⟨.UDP_APPPORT, 16, 1, .BI, "5683", .EQUALS, .NOT_SENT⟩,
      ⟨.UDP_LENGTH, 16, 1, .BI, "0", .IGNORE, .COMPUTE_LENGTH⟩,
      ⟨.UDP_CHECKSUM, 16, 1, .BI, "0", .IGNORE, .COMPUTE_CHECKSUM⟩,
      ⟨.COAP_VERSION, 2, 1, .BI, "1", .EQUALS, .NOT_SENT⟩,
      ⟨.COAP_TYPE, 2, 1, .BI, "0", .EQUALS, .NOT_SENT⟩,
      ⟨.COAP_TKL, 4, 1, .BI, "0", .EQUALS, .NOT_SENT⟩,
      ⟨.COAP_CODE, 8, 1, .BI, "2", .EQUALS, .NOT_SENT⟩,
      ⟨.COAP_MESSAGE_ID, 16, 1, .BI, "0", .IGNORE, .VALUE_SENT⟩,
      ⟨.COAP_TOKEN, 16, 1, .BI, "0", .IGNORE, .NOT_SENT⟩,
      ⟨.COAP_OPTION_DELTA, 8, 1, .BI, "11", .EQUALS, .NOT_SENT⟩,
      ⟨.COAP_OPTION_LENGTH, 8, 1, .BI, "1", .EQUALS, .NOT_SENT⟩,
      ⟨.COAP_OPTION_VALUE, 16, 1, .BI, "b", .EQUALS, .NOT_SENT⟩,
      ⟨.COAP_OPTION_DELTA, 8, 1, .BI, "11", .EQUALS, .NOT_SENT⟩,
      ⟨.COAP_OPTION_LENGTH, 8, 1, .BI, "1", .EQUALS, .NOT_SENT⟩,
      ⟨.COAP_OPTION_VALUE, 16, 1, .BI, "", .IGNORE, .VALUE_SENT⟩,
      ⟨.COAP_OPTION_DELTA, 8, 1, .BI, "28", .EQUALS, .NOT_SENT⟩,
      ⟨.COAP_OPTION_LENGTH, 8, 1, .BI, "4", .EQUALS, .NOT_SENT⟩,
      ⟨.COAP_OPTION_VALUE, 16, 1, .BI, "", .IGNORE, .VALUE_SENT⟩,
      ⟨.COAP_OPTION_DELTA, 8, 1, .BI, "92", .EQUALS, .NOT_SENT⟩,
      ⟨.COAP_OPTION_LENGTH, 8, 1, .BI, "16", .EQUALS, .NOT_SENT⟩,
      ⟨.COAP_OPTION_VALUE, 16, 1, .BI, "", .IGNORE, .VALUE_SENT⟩,
      end_of_rule_row ],
    -- rule 7
    [ ⟨.IPV6_VERSION, 4, 1, .BI, "6", .EQUALS, .NOT_SENT⟩,
      ⟨.IPV6_TRAFFIC_CLASS, 8, 1, .BI, "0", .EQUALS, .NOT_SENT⟩,
      ⟨.IPV6_FLOW_LABEL, 20, 1, .BI, "0", .IGNORE, .NOT_SENT⟩,
      ⟨.IPV6_PAYLOAD_LENGTH, 16, 1, .BI, "0", .IGNORE, .COMPUTE_LENGTH⟩,
      ⟨.IPV6_NEXT_HEADER, 8, 1, .BI, "17", .EQUALS, .NOT_SENT⟩,
      ⟨.IPV6_HOP_LIMIT, 8, 1, .BI, "64", .IGNORE, .NOT_SENT⟩,
      ⟨.IPV6_DEV_PREFIX, 64, 1, .BI, "FE80000000000000", .EQUALS, .NOT_SENT⟩,
      ⟨.IPV6_DEVIID, 64, 1, .BI, "080027fffe000000", .EQUALS, .NOT_SENT⟩,
      ⟨.IPV6_APP_PREFIX, 64, 1, .BI, "FE80000000000000", .EQUALS, .NOT_SENT⟩,
      ⟨.IPV6_APPIID, 64, 1, .BI, "0A0027FFFE542E4A", .EQUALS, .NOT_SENT⟩,
      ⟨.UDP_DEVPORT, 16, 1, .BI, "59355", .EQUALS, .NOT_SENT⟩,
      ⟨.UDP_APPPORT, 16, 1, .BI, "5683", .EQUALS, .NOT_SENT⟩,
      ⟨.UDP_LENGTH, 16, 1, .BI, "0", .IGNORE, .COMPUTE_LENGTH⟩,
      ⟨.UDP_CHECKSUM, 16, 1, .BI, "0", .IGNORE, .COMPUTE_CHECKSUM⟩,
      ⟨.COAP_VERSION, 2, 1, .BI, "1", .EQUALS, .NOT_SENT⟩,
      ⟨.COAP_TYPE, 2, 1, .BI, "2", .EQUALS, .NOT_SENT⟩,
      ⟨.COAP_TKL, 4, 1, .BI, "0", .EQUALS, .NOT_SENT⟩,
      ⟨.COAP_CODE, 8, 1, .BI, "68", .EQUALS, .NOT_SENT⟩,
      ⟨.COAP_MESSAGE_ID, 16, 1, .BI, "0", .IGNORE, .VALUE_SENT⟩,
      ⟨.COAP_TOKEN, 16, 1, .BI, "0", .IGNORE, .NOT_SENT⟩,
      ⟨.COAP_OPTION_DELTA, 8, 1, .BI, "92", .EQUALS, .NOT_SENT⟩,
      ⟨.COAP_OPTION_LENGTH, 8, 1, .BI, "16", .EQUALS, .NOT_SENT⟩,
      ⟨.COAP_OPTION_VALUE, 16, 1, .BI, "", .IGNORE, .VALUE_SENT⟩,
      end_of_rule_row ],
    -- rule 8
    [ ⟨.IPV6_VERSION, 4, 1, .BI, "6", .EQUALS, .NOT_SENT⟩,
      ⟨.IPV6_TRAFFIC_CLASS, 8, 1, .BI, "0", .EQUALS, .NOT_SENT⟩,
      ⟨.IPV6_FLOW_LABEL, 20, 1, .BI, "0", .IGNORE, .NOT_SENT⟩,
      ⟨.IPV6_PAYLOAD_LENGTH, 16, 1, .BI, "0", .IGNORE, .COMPUTE_LENGTH⟩,
      ⟨.IPV6_NEXT_HEADER, 8, 1, .BI, "17", .EQUALS, .NOT_SENT⟩,
      ⟨.IPV6_HOP_LIMIT, 8, 1, .BI, "64", .IGNORE, .NOT_SENT⟩,
      ⟨.IPV6_DEV_PREFIX, 64, 1, .BI, "FE80000000000000", .EQUALS, .NOT_SENT⟩,
      ⟨.IPV6_DEVIID, 64, 1, .BI, "080027fffe000000", .EQUALS, .NOT_SENT⟩,
      ⟨.IPV6_APP_PREFIX, 64, 1, .BI, "FE80000000000000", .EQUALS, .NOT_SENT⟩,
      ⟨.IPV6_APPIID, 64, 1, .BI, "0A0027FFFE542E4A", .EQUALS, .NOT_SENT⟩,
      ⟨.UDP_DEVPORT, 16, 1, .BI, "59355", .EQUALS, .NOT_SENT⟩,
      ⟨.UDP_APPPORT, 16, 1, .BI, "5683", .EQUALS, .NOT_SENT⟩,
      ⟨.UDP_LENGTH, 16, 1, .BI, "0", .IGNORE, .COMPUTE_LENGTH⟩,
      ⟨.UDP_CHECKSUM, 16, 1, .BI, "0", .IGNORE, .COMPUTE_CHECKSUM⟩,
      ⟨.COAP_VERSION, 2, 1, .BI, "1", .EQUALS, .NOT_SENT⟩,
      ⟨.COAP_TYPE, 2, 1, .BI, "2", .EQUALS, .NOT_SENT⟩,
      ⟨.COAP_TKL, 4, 1, .BI, "2", .EQUALS, .NOT_SENT⟩,
      ⟨.COAP_CODE, 8, 1, .BI, "65", .EQUALS, .NOT_SENT⟩,
      ⟨.COAP_MESSAGE_ID, 16, 1, .BI, "0", .IGNORE, .VALUE_SENT⟩,
      ⟨.COAP_TOKEN, 16, 1, .BI, "0", .IGNORE, .VALUE_SENT⟩,
      ⟨.COAP_OPTION_DELTA, 8, 1, .BI, "0", .IGNORE, .VALUE_SENT⟩,
      ⟨.COAP_OPTION_LENGTH, 8, 1, .BI, "0", .IGNORE, .VALUE_SENT⟩,
      ⟨.COAP_OPTION_VALUE, 16, 1, .BI, "", .IGNORE, .VALUE_SENT⟩,
      end_of_rule_row ],
    -- rule 9
    [ ⟨.IPV6_VERSION, 4, 1, .BI, "6", .EQUALS, .NOT_SENT⟩,
      ⟨.IPV6_TRAFFIC_CLASS, 8, 1, .BI, "0", .EQUALS, .NOT_SENT⟩,
      ⟨.IPV6_FLOW_LABEL, 20, 1, .BI, "0", .IGNORE, .NOT_SENT⟩,
      ⟨.IPV6_PAYLOAD_LENGTH, 16, 1, .BI, "0", .IGNORE, .COMPUTE_LENGTH⟩,
      ⟨.IPV6_NEXT_HEADER, 8, 1, .BI, "17", .EQUALS, .NOT_SENT⟩,
      ⟨.IPV6_HOP_LIMIT, 8, 1, .BI, "64", .IGNORE, .NOT_SENT⟩,
      ⟨.IPV6_DEV_PREFIX, 64, 1, .BI, "FE80000000000000", .EQUALS, .NOT_SENT⟩,
      ⟨.IPV6_DEVIID, 64, 1, .BI, "080027fffe000000", .EQUALS, .NOT_SENT⟩,
      ⟨.IPV6_APP_PREFIX, 64, 1, .BI, "FE80000000000000", .EQUALS, .NOT_SENT⟩,
      ⟨.IPV6_APPIID, 64, 1, .BI, "0A0027FFFE542E4A", .EQUALS, .NOT_SENT⟩,
      ⟨.UDP_DEVPORT, 16, 1, .BI, "59355", .EQUALS, .NOT_SENT⟩,
      ⟨.UDP_APPPORT, 16, 1, .BI, "5683", .EQUALS, .NOT_SENT⟩,
      ⟨.UDP_LENGTH, 16, 1, .BI, "0", .IGNORE, .COMPUTE_LENGTH⟩,
      ⟨.UDP_CHECKSUM, 16, 1, .BI, "0", .IGNORE, .COMPUTE_CHECKSUM⟩,
      ⟨.COAP_VERSION, 2, 1, .BI, "1", .EQUALS, .NOT_SENT⟩,
      ⟨.COAP_TYPE, 2, 1, .BI, "2", .EQUALS, .NOT_SENT⟩,
      ⟨.COAP_TKL, 4, 1, .BI, "2", .EQUALS, .NOT_SENT⟩,
      ⟨.COAP_CODE, 8, 1, .BI, "65", .EQUALS, .NOT_SENT⟩,
      ⟨.COAP_MESSAGE_ID, 16, 1, .BI, "0", .IGNORE, .VALUE_SENT⟩,
      ⟨.COAP_TOKEN, 16, 1, .BI, "0", .IGNORE, .VALUE_SENT⟩,
      ⟨.COAP_OPTION_DELTA, 8, 1, .BI, "0", .IGNORE, .VALUE_SENT⟩,
      ⟨.COAP_OPTION_LENGTH, 8, 1, .BI, "0", .IGNORE, .VALUE_SENT⟩,
      ⟨.COAP_OPTION_VALUE, 16, 1, .BI, "", .IGNORE, .VALUE_SENT⟩,
      ⟨.COAP_OPTION_DELTA, 8, 1, .BI, "0", .IGNORE, .VALUE_SENT⟩,
      ⟨.COAP_OPTION_LENGTH, 8, 1, .BI, "0", .IGNORE, .VALUE_SENT⟩,
      ⟨.COAP_OPTION_VALUE, 16, 1, .BI, "", .IGNORE, .VALUE_SENT⟩,
      end_of_rule_row ],
    -- rule 10
    [ ⟨.IPV6_VERSION, 4, 1, .BI, "6", .EQUALS, .NOT_SENT⟩,
      ⟨.IPV6_TRAFFIC_CLASS, 8, 1, .BI, "0", .EQUALS, .NOT_SENT⟩,
      ⟨.IPV6_FLOW_LABEL, 20, 1, .BI, "0", .IGNORE, .NOT_SENT⟩,
      ⟨.IPV6_PAYLOAD_LENGTH, 16, 1, .BI, "0", .IGNORE, .COMPUTE_LENGTH⟩,
      ⟨.IPV6_NEXT_HEADER, 8, 1, .BI, "17", .EQUALS, .NOT_SENT⟩,
      ⟨.IPV6_HOP_LIMIT, 8, 1, .BI, "64", .IGNORE, .NOT_SENT⟩,
      ⟨.IPV6_DEV_PREFIX, 64, 1, .BI, "FE80000000000000", .EQUALS, .NOT_SENT⟩,
      ⟨.IPV6_DEVIID, 64, 1, .BI, "080027fffe000000", .EQUALS, .NOT_SENT⟩,
      ⟨.IPV6_APP_PREFIX, 64, 1, .BI, "FE80000000000000", .EQUALS, .NOT_SENT⟩,
      ⟨.IPV6_APPIID, 64, 1, .BI, "0A0027FFFE542E4A", .EQUALS, .NOT_SENT⟩,
      ⟨.UDP_DEVPORT, 16, 1, .BI, "59355", .EQUALS, .NOT_SENT⟩,
      ⟨.UDP_APPPORT, 16, 1, .BI, "5683", .EQUALS, .NOT_SENT⟩,
      ⟨.UDP_LENGTH, 16, 1, .BI, "0", .IGNORE, .COMPUTE_LENGTH⟩,
      ⟨.UDP_CHECKSUM, 16, 1, .BI, "0", .IGNORE, .COMPUTE_CHECKSUM⟩,
      ⟨.COAP_VERSION, 2, 1, .BI, "1", .EQUALS, .NOT_SENT⟩,
      ⟨.COAP_TYPE, 2, 1, .BI, "2", .EQUALS, .NOT_SENT⟩,
      ⟨.COAP_TKL, 4, 1, .BI, "2", .EQUALS, .NOT_SENT⟩,
      ⟨.COAP_CODE, 8, 1, .BI, "65", .EQUALS, .NOT_SENT⟩,
      ⟨.COAP_MESSAGE_ID, 16, 1, .BI, "0", .IGNORE, .VALUE_SENT⟩,
      ⟨.COAP_TOKEN, 16, 1, .BI, "0", .IGNORE, .VALUE_SENT⟩,
      ⟨.COAP_OPTION_DELTA, 8, 1, .BI, "0", .IGNORE, .VALUE_SENT⟩,
      ⟨.COAP_OPTION_LENGTH, 8, 1, .BI, "0", .IGNORE, .VALUE_SENT⟩,
      ⟨.COAP_OPTION_VALUE, 16, 1, .BI, "", .IGNORE, .VALUE_SENT⟩,
      ⟨.COAP_OPTION_DELTA, 8, 1, .BI, "0", .IGNORE, .VALUE_SENT⟩,
      ⟨.COAP_OPTION_LENGTH, 8, 1, .BI, "0", .IGNORE, .VALUE_SENT⟩,
      ⟨.COAP_OPTION_VALUE, 16, 1, .BI, "", .IGNORE, .VALUE_SENT⟩,
      ⟨.COAP_OPTION_DELTA, 8, 1, .BI, "0", .IGNORE, .VALUE_SENT⟩,
      ⟨.COAP_OPTION_LENGTH, 8, 1, .BI, "0", .IGNORE, .VALUE_SENT⟩,
      ⟨.COAP_OPTION_VALUE, 16, 1, .BI, "", .IGNORE, .VALUE_SENT⟩,
      end_of_rule_row ],
    -- rule 11
    [ ⟨.IPV6_VERSION, 4, 1, .BI, "6", .EQUALS, .NOT_SENT⟩,
      ⟨.IPV6_TRAFFIC_CLASS, 8, 1, .BI, "0", .EQUALS, .NOT_SENT⟩,
      ⟨.IPV6_FLOW_LABEL, 20, 1, .BI, "0", .IGNORE, .NOT_SENT⟩,
      ⟨.IPV6_PAYLOAD_LENGTH, 16, 1, .BI, "0", .IGNORE, .COMPUTE_LENGTH⟩,
      ⟨.IPV6_NEXT_HEADER, 8, 1, .BI, "17", .EQUALS, .NOT_SENT⟩,
      ⟨.IPV6_HOP_LIMIT, 8, 1, .BI, "64", .IGNORE, .NOT_SENT⟩,
      ⟨.IPV6_DEV_PREFIX, 64, 1, .BI, "FE80000000000000", .EQUALS, .NOT_SENT⟩,
      ⟨.IPV6_DEVIID, 64, 1, .BI, "080027fffe000000", .EQUALS, .NOT_SENT⟩,
      ⟨.IPV6_APP_PREFIX, 64, 1, .BI, "FE80000000000000", .EQUALS, .NOT_SENT⟩,
      ⟨.IPV6_APPIID, 64, 1, .BI, "0A0027FFFE542E4A", .EQUALS, .NOT_SENT⟩,
      ⟨.UDP_DEVPORT, 16, 1, .BI, "59355", .EQUALS, .NOT_SENT⟩,
      ⟨.UDP_APPPORT, 16, 1, .BI, "5683", .EQUALS, .NOT_SENT⟩,
      ⟨.UDP_LENGTH, 16, 1, .BI, "0", .IGNORE, .COMPUTE_LENGTH⟩,
      ⟨.UDP_CHECKSUM, 16, 1, .BI, "0", .IGNORE, .COMPUTE_CHECKSUM⟩,
      ⟨.COAP_VERSION, 2, 1, .BI, "1", .EQUALS, .NOT_SENT⟩,
      ⟨.COAP_TYPE, 2, 1, .BI, "2", .EQUALS, .NOT_SENT⟩,
      ⟨.COAP_TKL, 4, 1, .BI, "2", .EQUALS, .NOT_SENT⟩,
      ⟨.COAP_CODE, 8, 1, .BI, "65", .EQUALS, .NOT_SENT⟩,
      ⟨.COAP_MESSAGE_ID, 16, 1, .BI, "0", .IGNORE, .VALUE_SENT⟩,
      ⟨.COAP_TOKEN, 16, 1, .BI, "0", .IGNORE, .VALUE_SENT⟩,
      ⟨.COAP_OPTION_DELTA, 8, 1, .BI, "0", .IGNORE, .VALUE_SENT⟩,
      ⟨.COAP_OPTION_LENGTH, 8, 1, .BI, "0", .IGNORE, .VALUE_SENT⟩,
      ⟨.COAP_OPTION_VALUE, 16, 1, .BI, "", .IGNORE, .VALUE_SENT⟩,
      ⟨.COAP_OPTION_DELTA, 8, 1, .BI, "0", .IGNORE, .VALUE_SENT⟩,
      ⟨.COAP_OPTION_LENGTH, 8, 1, .BI, "0", .IGNORE, .VALUE_SENT⟩,
      ⟨.COAP_OPTION_VALUE, 16, 1, .BI, "", .IGNORE, .VALUE_SENT⟩,
      ⟨.COAP_OPTION_DELTA, 8, 1, .BI, "0", .IGNORE, .VALUE_SENT⟩,
      ⟨.COAP_OPTION_LENGTH, 8, 1, .BI, "0", .IGNORE, .VALUE_SENT⟩,
      ⟨.COAP_OPTION_VALUE, 16, 1, .BI, "", .IGNORE, .VALUE_SENT⟩,
      ⟨.COAP_OPTION_DELTA, 8, 1, .BI, "0", .IGNORE, .VALUE_SENT⟩,
      ⟨.COAP_OPTION_LENGTH, 8, 1, .BI, "0", .IGNORE, .VALUE_SENT⟩,
      ⟨.COAP_OPTION_VALUE, 16, 1, .BI, "", .IGNORE, .VALUE_SENT⟩,
      end_of_rule_row ] ]

/-! ## C library functions used on target values -/

/-- The bytes of a C string literal: its characters and the terminating NUL. -/
def str_bytes (tv : String) : List Nat :=
  tv.toList.map Char.toNat ++ [0]

/-- The C library predicate `isspace` in the "C" locale. -/
def c_isspace (c : Nat) : Bool :=
  c = 32 || (9 ≤ c && c ≤ 13)

/-- The digits read by `atoi`, accumulated in base ten. -/
def atoi_digits : List Nat → Int → Int
  | c :: cs, acc => if 48 ≤ c ∧ c ≤ 57 then atoi_digits cs (acc * 10 + ((c : Int) - 48)) else acc
  | [], acc => acc

/-- The C library function `atoi`: leading white space, an optional sign and
decimal digits; `0` when there is no digit.  (A value outside the range of
`int` is undefined in C and not modelled.) -/
def atoi (tv : String) : Int :=
  match (str_bytes tv).dropWhile c_isspace with
  | 45 :: cs => - atoi_digits cs 0
  | 43 :: cs => atoi_digits cs 0
  | cs => atoi_digits cs 0

/-- Conversion of an `int` to an unsigned type of `w` bits. -/
def to_uint (w : Nat) (v : Int) : Nat :=
  (v % (2 ^ w : Int)).toNat

/-- The value of a hexadecimal digit, as the C library reads it. -/
def hex_digit (c : Nat) : Option Nat :=
  if 48 ≤ c ∧ c ≤ 57 then some (c - 48)
  else if 65 ≤ c ∧ c ≤ 70 then some (c - 55)
  else if 97 ≤ c ∧ c ≤ 102 then some (c - 87)
  else none

/-- The C library call `sscanf (pos, "%2hhx", &x)` on the bytes `s` at `pos`:
after leading white space at most two hexadecimal digits are read.  `none`
when no digit is found, in which case `x` is left as it was.  (A sign or a
`0x` prefix inside the two characters is not modelled.) -/
def sscanf_2hhx (s : List Nat) : Option Nat :=
  match s.dropWhile c_isspace with
  | c0 :: rest =>
    match hex_digit c0 with
    | none => none
    | some d0 =>
      match rest with
      | c1 :: _ =>
        match hex_digit c1 with
        | some d1 => some (d0 * 16 + d1)
        | none => some d0
      | [] => some d0
  | [] => none

/-! ## `schc.cpp`: `string_to_bin` -/

/-- The first `switch (src[0])` of `string_to_bin`: the new value of `tmp`.
There is no `case '9'` and no `default`, so any other character leaves `tmp`
as it was. -/
def string_to_bin_hi (c tmp : Nat) : Nat :=
  if c = 48 then 0x0 else if c = 49 then 0x1 else if c = 50 then 0x2
  else if c = 51 then 0x3 else if c = 52 then 0x4 else if c = 53 then 0x5
  else if c = 54 then 0x6 else if c = 55 then 0x7 else if c = 56 then 0x8
  else if c = 65 ∨ c = 97 then 0xa else if c = 66 ∨ c = 98 then 0xb
  else if c = 67 ∨ c = 99 then 0xc else if c = 68 ∨ c = 100 then 0xd
  else if c = 69 ∨ c = 101 then 0xe else if c = 70 ∨ c = 102 then 0xf
  else tmp

/-- The second `switch (src[1])` of `string_to_bin`: the new value of `tmp`. -/
def string_to_bin_lo (c tmp : Nat) : Nat :=
  if c = 48 then tmp ||| 0x0 else if c = 49 then tmp ||| 0x1 else if c = 50 then tmp ||| 0x2
  else if c = 51 then tmp ||| 0x3 else if c = 52 then tmp ||| 0x4
  else if c = 53 then tmp ||| 0x5 else if c = 54 then tmp ||| 0x6
  else if c = 55 then tmp ||| 0x7 else if c = 56 then tmp ||| 0x8
  else if c = 65 ∨ c = 97 then tmp ||| 0xa else if c = 66 ∨ c = 98 then tmp ||| 0xb
  else if c = 67 ∨ c = 99 then tmp ||| 0xc else if c = 68 ∨ c = 100 then tmp ||| 0xd
  else if c = 69 ∨ c = 101 then tmp ||| 0xe else if c = 70 ∨ c = 102 then tmp ||| 0xf
  else tmp

/-- The loop `for (i = 0 ; i < 8 ; i++)` of `string_to_bin`: `n` iterations on
the rest `src` of the string, with the current `tmp`; the bytes written to
`dst[8 - n], ..., dst[7]`. -/
def string_to_bin_loop : Nat → List Nat → Nat → List Nat
  | 0, _, _ => []
  | n + 1, src, tmp =>
    let tmp := string_to_bin_hi (src.getD 0 0) tmp
    let tmp := (tmp <<< 4) % 256
    let tmp := string_to_bin_lo (src.getD 1 0) tmp
    tmp :: string_to_bin_loop n (src.drop 2) tmp

/-- `int string_to_bin(uint8_t dst[8], const char *src)`: the 8 bytes written
to `dst` (the function always returns 0). -/
def string_to_bin (src : String) : List Nat :=
  string_to_bin_loop 8 (str_bytes src) 0


/-! ## `schc.cpp`: matching and compression -/

/-- The entry `fv->coap_option[i]`.  (An index past the array is undefined in
C; the embedding then reads a zero entry.) -/
def field_values.option_at (fv : field_values) (i : Nat) : coap_option_entry :=
  fv.coap_option.getD i coap_option_zero

/-- The C value of a comparison: 1 when it holds, 0 otherwise. -/
def c_bool (p : Prop) [Decidable p] : Nat :=
  if p then 1 else 0

/-- `static int check_matching(struct field_description rule_row, struct
field_values ipv6_packet, int *current_coap_option_num)`: the returned value
and the new `*current_coap_option_num`.  `tkl_indet` is the indeterminate
value of the local `uint8_t tkl = tkl;` of the `COAP_TOKEN` case. -/
def check_matching (tkl_indet : Nat) (rule_row : field_description)
    (ipv6_packet : field_values) (current_coap_option_num : Nat) : Nat × Nat :=
  match rule_row.MO with
  | .IGNORE =>
    if rule_row.fieldid = .COAP_OPTION_VALUE then (1, current_coap_option_num + 1)
    else (1, current_coap_option_num)
  | .EQUALS =>
    match rule_row.fieldid with
    | .IPV6_VERSION =>
      (c_bool (atoi rule_row.tv = (ipv6_packet.ipv6_version : Int)), current_coap_option_num)
    | .IPV6_TRAFFIC_CLASS =>
      (c_bool (atoi rule_row.tv = (ipv6_packet.ipv6_traffic_class : Int)),
        current_coap_option_num)
    | .IPV6_FLOW_LABEL =>
      (c_bool (to_uint 32 (atoi rule_row.tv) = ipv6_packet.ipv6_flow_label),
        current_coap_option_num)
    | .IPV6_PAYLOAD_LENGTH =>
      (c_bool (to_uint 32 (atoi rule_row.tv) = ipv6_packet.ipv6_payload_length),
        current_coap_option_num)
    | .IPV6_NEXT_HEADER =>
      (c_bool (atoi rule_row.tv = (ipv6_packet.ipv6_next_header : Int)),
        current_coap_option_num)
    | .IPV6_HOP_LIMIT =>
      (c_bool (atoi rule_row.tv = (ipv6_packet.ipv6_hop_limit : Int)), current_coap_option_num)
    | .IPV6_DEV_PREFIX =>
      (c_bool (mem_read ipv6_packet.ipv6_dev_prefix 0 8 = mem_read (string_to_bin rule_row.tv) 0 8),
        current_coap_option_num)
    | .IPV6_DEVIID =>
      (c_bool (mem_read ipv6_packet.ipv6_dev_iid 0 8 = mem_read (string_to_bin rule_row.tv) 0 8),
        current_coap_option_num)
    | .IPV6_APP_PREFIX =>
      (c_bool (mem_read ipv6_packet.ipv6_app_prefix 0 8 = mem_read (string_to_bin rule_row.tv) 0 8),
        current_coap_option_num)
    | .IPV6_APPIID =>
      (c_bool (mem_read ipv6_packet.ipv6_app_iid 0 8 = mem_read (string_to_bin rule_row.tv) 0 8),
        current_coap_option_num)
    | .UDP_DEVPORT =>
      (c_bool (atoi rule_row.tv = (ipv6_packet.udp_dev_port : Int)), current_coap_option_num)
    | .UDP_APPPORT =>
      (c_bool (atoi rule_row.tv = (ipv6_packet.udp_app_port : Int)), current_coap_option_num)
    | .UDP_LENGTH =>
      (c_bool (to_uint 32 (atoi rule_row.tv) = ipv6_packet.udp_length), current_coap_option_num)
    | .UDP_CHECKSUM =>
      (c_bool (atoi rule_row.tv = (ipv6_packet.udp_checksum : Int)), current_coap_option_num)
    | .COAP_VERSION =>
      (c_bool (atoi rule_row.tv = (ipv6_packet.coap_version : Int)), current_coap_option_num)
    | .COAP_TYPE =>
      (c_bool (atoi rule_row.tv = (ipv6_packet.coap_type : Int)), current_coap_option_num)
    | .COAP_TKL =>
      (c_bool (atoi rule_row.tv = (ipv6_packet.coap_tkl : Int)), current_coap_option_num)
    | .COAP_CODE =>
      (c_bool (atoi rule_row.tv = (ipv6_packet.coap_code : Int)), current_coap_option_num)
    | .COAP_MESSAGE_ID =>
      (c_bool (mem_read ipv6_packet.coap_message_id 0 2 = mem_read (string_to_bin rule_row.tv) 0 2),
        current_coap_option_num)
    | .COAP_TOKEN =>
      (c_bool (mem_read ipv6_packet.coap_token 0 tkl_indet =
          mem_read (string_to_bin rule_row.tv) 0 tkl_indet),
        current_coap_option_num)
    | .COAP_OPTION_DELTA =>
      (c_bool (atoi rule_row.tv =
          ((ipv6_packet.option_at current_coap_option_num).delta : Int)),
        current_coap_option_num)
    | .COAP_OPTION_LENGTH =>
      (c_bool (atoi rule_row.tv =
          ((ipv6_packet.option_at current_coap_option_num).length : Int)),
        current_coap_option_num)
    | .COAP_OPTION_VALUE =>
      -- `string_to_bin (tv, rule_row.tv)` is called, but the comparison reads
      -- the string `rule_row.tv` itself
      (c_bool (mem_read (ipv6_packet.option_at current_coap_option_num).value 0
            (ipv6_packet.option_at current_coap_option_num).length =
          mem_read (str_bytes rule_row.tv) 0
            (ipv6_packet.option_at current_coap_option_num).length),
        current_coap_option_num + 1)
    | .END_OF_RULE => (0, current_coap_option_num)
  | .MATCH_MAPPING => (0, current_coap_option_num)
  | .MSB => (0, current_coap_option_num)

/-- Modelled from the spec: `htonl` comes from a header that is not part of the
sources; on the little-endian target it reverses the four bytes of a 32-bit
value. -/
def htonl (v : Nat) : Nat :=
  (v % 256) * 2 ^ 24 + (v / 2 ^ 8 % 256) * 2 ^ 16 + (v / 2 ^ 16 % 256) * 2 ^ 8 + v / 2 ^ 24 % 256

/-- Modelled from the spec: `ntohl` is the same byte reversal as `htonl`. -/
def ntohl (v : Nat) : Nat :=
  htonl v

/-- The four bytes of a `uint32_t` as they lie in memory on the target. -/
def le32_bytes (v : Nat) : List Nat :=
  [v % 256, v / 2 ^ 8 % 256, v / 2 ^ 16 % 256, v / 2 ^ 24 % 256]

/-- The value of a little-endian byte sequence. -/
def le_value : List Nat → Nat
  | [] => 0
  | b :: bs => b + 256 * le_value bs

/-- The state threaded through the calls of `do_compression_action`:
`schc_packet`, `*offset` and `*current_coap_option_num`. -/
structure CompressState where
  schc_packet : List Nat
  offset : Nat
  current_coap_option_num : Nat
deriving Repr, DecidableEq

/-- The common tail of the `VALUE_SENT` cases of `do_compression_action`:
`memcpy (&schc_packet[*offset], src, n); *offset += n; return 0;`. -/
def append_residue (s : CompressState) (bytes : List Nat) : Int × CompressState :=
  (0, { s with schc_packet := mem_write s.schc_packet s.offset bytes,
               offset := (s.offset + bytes.length) % 2 ^ 32 })

/-- `static int do_compression_action(const struct field_description *rule_row,
const struct field_values *ipv6_packet, uint8_t schc_packet[SIZE_MTU_IPV6],
size_t *offset, int *current_coap_option_num)`: the returned value and the
new state.  (Both pointers are never `NULL` at the only call.) -/
def do_compression_action (rule_row : field_description) (ipv6_packet : field_values)
    (s : CompressState) : Int × CompressState :=
  if rule_row.CDA = .COMPUTE_LENGTH ∨ rule_row.CDA = .NOT_SENT ∨
      rule_row.CDA = .COMPUTE_CHECKSUM then
    if rule_row.fieldid = .COAP_OPTION_VALUE then
      (0, { s with current_coap_option_num := s.current_coap_option_num + 1 })
    else (0, s)
  else if rule_row.CDA = .VALUE_SENT then
    match rule_row.fieldid with
    | .IPV6_VERSION => append_residue s (mem_read [ipv6_packet.ipv6_version] 0 1)
    | .IPV6_TRAFFIC_CLASS => append_residue s (mem_read [ipv6_packet.ipv6_traffic_class] 0 1)
    | .IPV6_FLOW_LABEL =>
      let udp_flow_label := htonl ipv6_packet.ipv6_flow_label
      let udp_flow_label := (udp_flow_label <<< 8) % 2 ^ 32
      append_residue s (mem_read (le32_bytes udp_flow_label) 0 3)
    | .IPV6_PAYLOAD_LENGTH =>
      let ipv6_payload_length := htons (ipv6_packet.ipv6_payload_length % 65536)
      append_residue s (mem_read (le16_bytes ipv6_payload_length) 0 2)
    | .IPV6_NEXT_HEADER => append_residue s (mem_read [ipv6_packet.ipv6_next_header] 0 1)
    | .IPV6_HOP_LIMIT => append_residue s (mem_read [ipv6_packet.ipv6_hop_limit] 0 1)
    | .IPV6_DEV_PREFIX => append_residue s (mem_read ipv6_packet.ipv6_dev_prefix 0 8)
    | .IPV6_DEVIID => append_residue s (mem_read ipv6_packet.ipv6_dev_iid 0 8)
    | .IPV6_APP_PREFIX => append_residue s (mem_read ipv6_packet.ipv6_app_prefix 0 8)
    | .IPV6_APPIID => append_residue s (mem_read ipv6_packet.ipv6_app_iid 0 8)
    | .UDP_DEVPORT =>
      let udp_dev_port := htons ipv6_packet.udp_dev_port
      append_residue s (mem_read (le16_bytes udp_dev_port) 0 2)
    | .UDP_APPPORT =>
      let udp_app_port := htons ipv6_packet.udp_app_port
      append_residue s (mem_read (le16_bytes udp_app_port) 0 2)
    | .UDP_LENGTH =>
      let udp_length := htons (ipv6_packet.udp_length % 65536)
      append_residue s (mem_read (le16_bytes udp_length) 0 2)
    | .UDP_CHECKSUM =>
      let udp_checksum := htons ipv6_packet.udp_checksum
      append_residue s (mem_read (le16_bytes udp_checksum) 0 2)
    | .COAP_VERSION => append_residue s (mem_read [ipv6_packet.coap_version] 0 1)
    | .COAP_TYPE => append_residue s (mem_read [ipv6_packet.coap_type] 0 1)
    | .COAP_TKL => append_residue s (mem_read [ipv6_packet.coap_tkl] 0 1)
    | .COAP_CODE => append_residue s (mem_read [ipv6_packet.coap_code] 0 1)
    | .COAP_MESSAGE_ID => append_residue s (mem_read ipv6_packet.coap_message_id 0 2)
    | .COAP_TOKEN =>
      append_residue s (mem_read ipv6_packet.coap_token 0 ipv6_packet.coap_tkl)
    | .COAP_OPTION_DELTA =>
      append_residue s
        (mem_read (le16_bytes (ipv6_packet.option_at s.current_coap_option_num).delta) 0 1)
    | .COAP_OPTION_LENGTH =>
      append_residue s
        (mem_read (le16_bytes (ipv6_packet.option_at s.current_coap_option_num).length) 0 1)
    | .COAP_OPTION_VALUE =>
      let r := append_residue s
        (mem_read (ipv6_packet.option_at s.current_coap_option_num).value 0
          (ipv6_packet.option_at s.current_coap_option_num).length)
      (r.1, { r.2 with current_coap_option_num := s.current_coap_option_num + 1 })
    | .END_OF_RULE => (-1, s)
  else (-1, s)

/-- The first loop over the rows of a rule in `schc_compress`: the rows are
checked up to `END_OF_RULE` or the first mismatch.  The value is
`(rule_matches, current_coap_option_num)`.  `tkl_indet j` is the indeterminate
`tkl` of the call for row `j`. -/
def match_rows (tkl_indet : Nat → Nat) (ipv6_packet : field_values) :
    List field_description → Nat → Nat → Nat × Nat
  | [], _, cur => (1, cur)
  | row :: rest, j, cur =>
    if row.fieldid = .END_OF_RULE then (1, cur)
    else
      let r := check_matching (tkl_indet j) row ipv6_packet cur
      if r.1 = 0 then (0, r.2) else match_rows tkl_indet ipv6_packet rest (j + 1) r.2

/-- The second loop over the rows of a rule in `schc_compress`: the
compression actions up to `END_OF_RULE`; `none` when an action failed and
`schc_compress` returned `-1`. -/
def compress_rows (ipv6_packet : field_values) :
    List field_description → CompressState → Option CompressState
  | [], s => some s
  | row :: rest, s =>
    if row.fieldid = .END_OF_RULE then some s
    else
      let r := do_compression_action row ipv6_packet s
      if r.1 ≠ 0 then none else compress_rows ipv6_packet rest r.2

/-- Whether rule `rule` passes the test of `schc_compress`: every row up to
`END_OF_RULE` matches and the number of options counted equals
`ipv6_packet.coap_option_num`. -/
def rule_matches (tkl_indet : Nat → Nat) (ipv6_packet : field_values)
    (rule : List field_description) : Bool :=
  let r := match_rows tkl_indet ipv6_packet rule 0 0
  r.1 ≠ 0 && r.2 = ipv6_packet.coap_option_num

/-- How the loop over the rules of `schc_compress` ends. -/
inductive CompressOutcome where
  /-- No rule matched: the final `return -1`. -/
  | no_match
  /-- A compression action of the matched rule `i` failed: `return -1`. -/
  | action_failed (i : Nat)
  /-- Rule `i` matched; `schc_packet` and `schc_packet_len` are handed to
  `schc_fragmentate`. -/
  | packet (i : Nat) (schc_packet : List Nat) (schc_packet_len : Nat)
deriving Repr, DecidableEq

/-- The loop `for (int i = 0 ; i < nrules ; i++)` of `schc_compress` over the
rules still to try, `i` being the index of the first of them.
`schc_packet_len` is 0 whenever a rule is tried. -/
def compress_rules (tkl_indet : Nat → Nat → Nat) (ipv6_packet : field_values) :
    List (List field_description) → Nat → CompressOutcome
  | [], _ => .no_match
  | rule :: rest, i =>
    if rule_matches (tkl_indet i) ipv6_packet rule then
      -- schc_packet[schc_packet_len] = i; schc_packet_len++;
      let s : CompressState :=
        { schc_packet := mem_write (List.replicate SIZE_MTU_IPV6 0) 0 [i % 256],
          offset := 1, current_coap_option_num := 0 }
      match compress_rows ipv6_packet rule s with
      | none => .action_failed i
      | some s =>
        let app_payload_len := ipv6_packet.coap_payload_length
        let schc_packet := mem_write s.schc_packet s.offset
          (mem_read ipv6_packet.coap_payload 0 app_payload_len)
        .packet i schc_packet ((s.offset + app_payload_len) % 2 ^ 32)
    else compress_rules tkl_indet ipv6_packet rest (i + 1)

/-- What `schc_compress` leaves behind: the transmit queue and the returned
value. -/
structure CompressResult where
  queue : List Nat
  ret : Int
deriving Repr, DecidableEq

/-- `schc_compress` over an arbitrary rule table `table`, started with the
transmit queue `queue`. -/
def schc_compress_with (table : List (List field_description)) (tkl_indet : Nat → Nat → Nat)
    (queue : List Nat) (ipv6_packet : field_values) : CompressResult :=
  match compress_rules tkl_indet ipv6_packet table 0 with
  | .no_match => { queue := queue, ret := -1 }
  | .action_failed _ => { queue := queue, ret := -1 }
  | .packet _ schc_packet schc_packet_len =>
    let r := schc_fragmentate queue schc_packet schc_packet_len
    { queue := r.queue, ret := r.ret }

/-- `int schc_compress(const struct field_values ipv6_packet)` with the rule
table of `context.cpp`. -/
def schc_compress (tkl_indet : Nat → Nat → Nat) (queue : List Nat)
    (ipv6_packet : field_values) : CompressResult :=
  schc_compress_with rules tkl_indet queue ipv6_packet


/-! ## `ipv6_layer.cpp`: `checksum_udp_ipv6` -/

/-- `uint16_t checksum_udp_ipv6(uint8_t *buffer, int length_buffer)`. -/
def checksum_udp_ipv6 (buffer : List Nat) (length_buffer : Int) : Nat :=
  let aux := List.replicate SIZE_MTU_IPV6 0
  -- IPv6 addresses
  let aux := mem_write aux 0 (mem_read buffer 8 32)
  -- protocol (UDP 0x11)
  let aux := mem_write aux 32 [0x0, 0x11]
  -- payload length
  let aux := mem_write aux 34 [buffer.getD 4 0, buffer.getD 5 0]
  let aux_offset := 36
  let udp_payload_length := to_uint 16 (length_buffer - 40)
  let aux := mem_write aux aux_offset (mem_read buffer 40 udp_payload_length)
  let aux_offset := aux_offset + udp_payload_length
  crc16 aux aux_offset

/-! ## `schc.cpp`: decompression -/

/-- The contents of the automatic variables that the decompressor reads
before writing them; C leaves them indeterminate.  `tmp i` is `char tmp[8]`
of the call of `schc_DA_not_sent` for row `i`, `packet` the stack at the
variable-length array `packet` of `compute_udp_checksum`: the array and the
bytes behind it. -/
structure Indeterminate where
  tmp : Nat → List Nat
  packet : List Nat

/-- The entry `fv->coap_option[i]` replaced by `f` of it.  (An index past the
array is undefined in C; the embedding then changes nothing.) -/
def field_values.modify_option (fv : field_values) (i : Nat)
    (f : coap_option_entry → coap_option_entry) : field_values :=
  { fv with coap_option := fv.coap_option.set i (f (fv.option_at i)) }

/-- The loop `for (i = 0 ; i < fv->coap_option_num ; i++)` of
`compute_udp_checksum`, from index `i` with `n` options left: the buffer and
`coap_offset` after it.  The test `if (i >= SCHC_MAX_COAP_OPT) break;` comes
after the body. -/
def compute_udp_checksum_options (fv : field_values) :
    Nat → Nat → List Nat → Nat → List Nat × Nat
  | 0, _, packet, coap_offset => (packet, coap_offset)
  | n + 1, i, packet, coap_offset =>
    let r :=
      if (fv.option_at i).length > 0 then
        let option := ((fv.option_at i).length ||| ((fv.option_at i).delta <<< 4)) % 256
        let packet := mem_write packet coap_offset [option]
        let packet := mem_write packet (coap_offset + 1) (mem_read (fv.option_at i).value 0 1)
        (packet, coap_offset + 2)
      else (packet, coap_offset)
    if i ≥ SCHC_MAX_COAP_OPT then r
    else compute_udp_checksum_options fv n (i + 1) r.1 r.2

/-- `uint16_t compute_udp_checksum (struct field_values *fv)`; `packet_indet`
is the indeterminate content of the stack at the array
`packet[SIZE_IPV6 + SIZE_UDP + payload_len]`: of the array itself and, as
`checksum_udp_ipv6` is called with the length
`SIZE_IPV6 + SIZE_UDP + 9 + fv->coap_payload_length` whatever the size of the
array, of the bytes behind it that the sum reads. -/
def compute_udp_checksum (packet_indet : List Nat) (fv : field_values) : Nat :=
  let ip6 :=
    le32_bytes (htonl ((fv.ipv6_version <<< (7 * 4) + fv.ipv6_traffic_class <<< (6 * 4) +
      fv.ipv6_flow_label) % 2 ^ 32)) ++
    le16_bytes (htons (fv.ipv6_payload_length % 65536)) ++
    [fv.ipv6_next_header, fv.ipv6_hop_limit] ++
    mem_read fv.ipv6_dev_prefix 0 8 ++ mem_read fv.ipv6_dev_iid 0 8 ++
    mem_read fv.ipv6_app_prefix 0 8 ++ mem_read fv.ipv6_app_iid 0 8
  let udp :=
    le16_bytes (htons fv.udp_dev_port) ++ le16_bytes (htons fv.udp_app_port) ++
    le16_bytes (htons (fv.udp_length % 65536)) ++ le16_bytes 0
  let payload_len := (fv.udp_length + 2 ^ 32 - SIZE_UDP) % 2 ^ 32
  let packet := mem_read packet_indet 0
    (max ((SIZE_IPV6 + SIZE_UDP + payload_len) % 2 ^ 32)
      (SIZE_IPV6 + SIZE_UDP + 9 + fv.coap_payload_length))
  let packet := mem_write packet 0 (mem_read ip6 0 SIZE_IPV6)
  let packet := mem_write packet SIZE_IPV6 (mem_read udp 0 SIZE_UDP)
  let coap_offset := SIZE_IPV6 + SIZE_UDP
  let packet :=
    if fv.coap_type = 0 then mem_write packet coap_offset [0x42]
    else if fv.coap_type = 2 then mem_write packet coap_offset [0x62]
    else packet
  let coap_offset := coap_offset + 1
  let packet := mem_write packet coap_offset [fv.coap_code]
  let coap_offset := coap_offset + 1
  let packet := mem_write packet coap_offset (mem_read fv.coap_message_id 0 2)
  let coap_offset := coap_offset + 2
  let packet :=
    if fv.coap_tkl > 0 then mem_write packet coap_offset (mem_read fv.coap_token 0 fv.coap_tkl)
    else packet
  let coap_offset := if fv.coap_tkl > 0 then coap_offset + fv.coap_tkl else coap_offset
  let r := compute_udp_checksum_options fv fv.coap_option_num 0 packet coap_offset
  let packet := r.1
  let coap_offset := r.2
  let packet :=
    if fv.coap_payload_length > 0 then
      mem_write (mem_write packet coap_offset [0xFF]) (coap_offset + 1)
        (mem_read fv.coap_payload 0 fv.coap_payload_length)
    else packet
  checksum_udp_ipv6 packet
    ((SIZE_IPV6 : Int) + SIZE_UDP + 9 + fv.coap_payload_length) % 65536

/-- The two `sscanf (pos, "%2hhx", &tmp[i]); pos += 2;` of `schc_DA_not_sent`
followed by `memcpy (dst, tmp, 2)`: the new `dst`. -/
def not_sent_hex2 (tmp_indet : List Nat) (tv : String) (dst : List Nat) : List Nat :=
  let tmp0 := (sscanf_2hhx (str_bytes tv)).getD (tmp_indet.getD 0 0)
  let tmp1 := (sscanf_2hhx ((str_bytes tv).drop 2)).getD (tmp_indet.getD 1 0)
  mem_write dst 0 [tmp0, tmp1]

/-- `void schc_DA_not_sent(struct field_values *fv, enum fieldid fieldid, char *tv)`:
the new `*fv`. -/
def schc_DA_not_sent (tmp_indet : List Nat) (fv : field_values) (fid : fieldid)
    (tv : String) : field_values :=
  match fid with
  | .IPV6_VERSION => { fv with ipv6_version := to_uint 8 (atoi tv) }
  | .IPV6_TRAFFIC_CLASS => { fv with ipv6_traffic_class := to_uint 8 (atoi tv) }
  | .IPV6_FLOW_LABEL => { fv with ipv6_flow_label := to_uint 32 (atoi tv) }
  | .IPV6_NEXT_HEADER => { fv with ipv6_next_header := to_uint 8 (atoi tv) }
  | .IPV6_HOP_LIMIT => { fv with ipv6_hop_limit := to_uint 8 (atoi tv) }
  | .IPV6_DEV_PREFIX =>
    { fv with ipv6_dev_prefix := mem_write fv.ipv6_dev_prefix 0 (string_to_bin tv) }
  | .IPV6_DEVIID => { fv with ipv6_dev_iid := mem_write fv.ipv6_dev_iid 0 (string_to_bin tv) }
  | .IPV6_APP_PREFIX =>
    { fv with ipv6_app_prefix := mem_write fv.ipv6_app_prefix 0 (string_to_bin tv) }
  | .IPV6_APPIID => { fv with ipv6_app_iid := mem_write fv.ipv6_app_iid 0 (string_to_bin tv) }
  | .UDP_DEVPORT => { fv with udp_dev_port := to_uint 16 (atoi tv) }
  | .UDP_APPPORT => { fv with udp_app_port := to_uint 16 (atoi tv) }
  | .COAP_VERSION => { fv with coap_version := to_uint 8 (atoi tv) }
  | .COAP_TYPE => { fv with coap_type := to_uint 8 (atoi tv) }
  | .COAP_TKL => { fv with coap_tkl := to_uint 8 (atoi tv) }
  | .COAP_CODE => { fv with coap_code := to_uint 8 (atoi tv) }
  | .COAP_MESSAGE_ID =>
    { fv with coap_message_id := not_sent_hex2 tmp_indet tv fv.coap_message_id }
  | .COAP_TOKEN => { fv with coap_token := not_sent_hex2 tmp_indet tv fv.coap_token }
  | .COAP_OPTION_DELTA =>
    fv.modify_option fv.coap_option_num (fun o => { o with delta := to_uint 16 (atoi tv) })
  | .COAP_OPTION_LENGTH =>
    fv.modify_option fv.coap_option_num (fun o => { o with length := to_uint 16 (atoi tv) })
  | .COAP_OPTION_VALUE =>
    let fv := fv.modify_option fv.coap_option_num
      (fun o => { o with value := mem_write o.value 0 (mem_read (str_bytes tv) 0 o.length) })
    { fv with coap_option_num := (fv.coap_option_num + 1) % 256 }
  | _ => fv

/-- An unsigned integer of `w` bytes after `memcpy` wrote `bytes` over its
first bytes. -/
def overwrite_low (w : Nat) (old : Nat) (bytes : List Nat) : Nat :=
  le_value (mem_write (mem_read (le32_bytes old) 0 w) 0 bytes)

/-- `void schc_DA_value_sent(struct field_values *fv, enum fieldid fieldid,
uint8_t *schc_packet, uint8_t *offset)`: the new `*fv` and `*offset`.  The
copies into `coap_token[16]` and `value[16]` are those of the code as long as
the token length and the option length are at most 16; a longer copy runs
over the members that follow in the struct in C, and makes the list longer
here. -/
def schc_DA_value_sent (fv : field_values) (fid : fieldid) (schc_packet : List Nat)
    (offset : Nat) : field_values × Nat :=
  match fid with
  | .IPV6_VERSION =>
    ({ fv with ipv6_version := schc_packet.getD offset 0 }, (offset + 1) % 256)
  | .IPV6_TRAFFIC_CLASS =>
    ({ fv with ipv6_traffic_class := schc_packet.getD offset 0 }, (offset + 1) % 256)
  | .IPV6_FLOW_LABEL =>
    let v := overwrite_low 4 fv.ipv6_flow_label (mem_read schc_packet offset 3)
    let v := (v <<< 8) % 2 ^ 32
    ({ fv with ipv6_flow_label := ntohl v }, (offset + 3) % 256)
  | .IPV6_PAYLOAD_LENGTH =>
    let v := overwrite_low 4 fv.ipv6_payload_length (mem_read schc_packet offset 2)
    ({ fv with ipv6_payload_length := ntohs (v % 65536) }, (offset + 2) % 256)
  | .IPV6_NEXT_HEADER =>
    ({ fv with ipv6_next_header := schc_packet.getD offset 0 }, (offset + 1) % 256)
  | .IPV6_HOP_LIMIT =>
    ({ fv with ipv6_hop_limit := schc_packet.getD offset 0 }, (offset + 1) % 256)
  | .IPV6_DEV_PREFIX =>
    ({ fv with ipv6_dev_prefix := mem_write fv.ipv6_dev_prefix 0 (mem_read schc_packet offset 8) },
      (offset + 8) % 256)
  | .IPV6_DEVIID =>
    ({ fv with ipv6_dev_iid := mem_write fv.ipv6_dev_iid 0 (mem_read schc_packet offset 8) },
      (offset + 8) % 256)
  | .IPV6_APP_PREFIX =>
    ({ fv with ipv6_app_prefix := mem_write fv.ipv6_app_prefix 0 (mem_read schc_packet offset 8) },
      (offset + 8) % 256)
  | .IPV6_APPIID =>
    ({ fv with ipv6_app_iid := mem_write fv.ipv6_app_iid 0 (mem_read schc_packet offset 8) },
      (offset + 8) % 256)
  | .UDP_DEVPORT =>
    let v := overwrite_low 2 fv.udp_dev_port (mem_read schc_packet offset 2)
    ({ fv with udp_dev_port := ntohs v }, (offset + 2) % 256)
  | .UDP_APPPORT =>
    let v := overwrite_low 2 fv.udp_app_port (mem_read schc_packet offset 2)
    ({ fv with udp_app_port := ntohs v }, (offset + 2) % 256)
  | .UDP_LENGTH =>
    let v := overwrite_low 4 fv.udp_length (mem_read schc_packet offset 2)
    ({ fv with udp_length := ntohs (v % 65536) }, (offset + 2) % 256)
  | .UDP_CHECKSUM =>
    let v := overwrite_low 2 fv.udp_checksum (mem_read schc_packet offset 2)
    ({ fv with udp_checksum := ntohs v }, (offset + 2) % 256)
  | .COAP_VERSION =>
    ({ fv with coap_version := schc_packet.getD offset 0 }, (offset + 1) % 256)
  | .COAP_TYPE =>
    ({ fv with coap_type := schc_packet.getD offset 0 }, (offset + 1) % 256)
  | .COAP_TKL =>
    ({ fv with coap_tkl := schc_packet.getD offset 0 }, (offset + 1) % 256)
  | .COAP_CODE =>
    ({ fv with coap_code := schc_packet.getD offset 0 }, (offset + 1) % 256)
  | .COAP_MESSAGE_ID =>
    ({ fv with coap_message_id := mem_write fv.coap_message_id 0 (mem_read schc_packet offset 2) },
      (offset + 2) % 256)
  | .COAP_TOKEN =>
    ({ fv with coap_token := mem_write fv.coap_token 0 (mem_read schc_packet offset fv.coap_tkl) },
      (offset + fv.coap_tkl) % 256)
  | .COAP_OPTION_DELTA =>
    (fv.modify_option fv.coap_option_num
      (fun o => { o with delta := overwrite_low 2 o.delta (mem_read schc_packet offset 1) }),
      (offset + 1) % 256)
  | .COAP_OPTION_LENGTH =>
    (fv.modify_option fv.coap_option_num
      (fun o => { o with length := overwrite_low 2 o.length (mem_read schc_packet offset 1) }),
      (offset + 1) % 256)
  | .COAP_OPTION_VALUE =>
    let len := (fv.option_at fv.coap_option_num).length
    let fv := fv.modify_option fv.coap_option_num
      (fun o => { o with value := mem_write o.value 0 (mem_read schc_packet offset o.length) })
    ({ fv with coap_option_num := (fv.coap_option_num + 1) % 256 }, (offset + len) % 256)
  | .END_OF_RULE => (fv, offset)

/-- The variables of `schc_decompress` that change in its loop over the rows:
`*fv`, `offset` and the two flags `compute_length` and `compute_checksum`.
(The flags are static variables; every call that sets one clears it before it
returns, so both are 0 when a call starts.) -/
structure DecompressState where
  fv : field_values
  offset : Nat
  compute_length : Nat
  compute_checksum : Nat
deriving Repr, DecidableEq

/-- The loop `for (int i = 0; i < field_description_size; i++)` of
`schc_decompress` over the rows still to read, `i` being the index of the
first of them. -/
def decompress_rows (u : Indeterminate) (schc_packet : List Nat) :
    List field_description → Nat → DecompressState → DecompressState
  | [], _, s => s
  | row :: rest, i, s =>
    if row.fieldid = .END_OF_RULE then s
    else
      let s :=
        match row.CDA with
        | .NOT_SENT => { s with fv := schc_DA_not_sent (u.tmp i) s.fv row.fieldid row.tv }
        | .VALUE_SENT =>
          let r := schc_DA_value_sent s.fv row.fieldid schc_packet s.offset
          { s with fv := r.1, offset := r.2 }
        | .COMPUTE_LENGTH => { s with compute_length := 1 }
        | .COMPUTE_CHECKSUM => { s with compute_checksum := 1 }
        | _ => s
      decompress_rows u schc_packet rest (i + 1) s

/-- The loop `for (i = 0; i < fv->coap_option_num ; i++)` of `schc_decompress`
that adds the encoded size of every option to `coap_header_len`: `n` options
left from index `i`. -/
def coap_options_len (fv : field_values) : Nat → Nat → Nat → Nat → Nat
  | 0, _, _, coap_header_len => coap_header_len
  | n + 1, i, last_delta, coap_header_len =>
    let coap_header_len := coap_header_len + 1
    let d : Int := ((fv.option_at i).delta : Int) - (last_delta : Int)
    let coap_header_len :=
      if d ≤ 12 then coap_header_len
      else if d ≤ 255 then coap_header_len + 1
      else coap_header_len + 2
    let coap_header_len :=
      if (fv.option_at i).length ≤ 12 then coap_header_len
      else if (fv.option_at i).length ≤ 255 then coap_header_len + 1
      else coap_header_len + 2
    let coap_header_len := coap_header_len + (fv.option_at i).length
    coap_options_len fv n (i + 1) (fv.option_at i).delta coap_header_len

/-- What `schc_decompress` leaves behind: the returned value and the struct
handed to `ipv6_process_rx`, if that call is reached. -/
structure DecompressResult where
  ret : Int
  rx : Option field_values
deriving Repr, DecidableEq

/-- `schc_decompress` over an arbitrary rule table `table`.  The value is that
of the code as long as the call stays inside the arrays of the code (for the
table of `context.cpp`: `decompress_in_bounds`).  For a packet that ends
before its residue the code computes `schc_packet_len - offset` modulo
`2 ^ 32` and copies that many bytes into `coap_payload[SIZE_MTU_IPV6]`. -/
def schc_decompress_with (table : List (List field_description)) (u : Indeterminate)
    (schc_packet : List Nat) (schc_packet_len : Nat) : DecompressResult :=
  let rule_id := schc_packet.getD 0 0
  let nrules := table.length
  if rule_id ≥ nrules then { ret := -1, rx := none }
  else
    let s := decompress_rows u schc_packet (table.getD rule_id []) 0
      { fv := field_values_zero, offset := 1, compute_length := 0, compute_checksum := 0 }
    let fv := s.fv
    let offset := s.offset
    let coap_payload_length :=
      if s.compute_length ≠ 0 then (schc_packet_len + 2 ^ 32 - offset) % 2 ^ 32 else 0
    let fv :=
      if s.compute_length ≠ 0 then
        let coap_header_len := 4 + fv.coap_tkl
        let coap_header_len := coap_options_len fv fv.coap_option_num 0 0 coap_header_len
        let coap_header_len :=
          if coap_payload_length > 0 then coap_header_len + 1 else coap_header_len
        let udp_payload_length := (coap_header_len + coap_payload_length) % 2 ^ 32
        { fv with coap_payload_length := coap_payload_length % 256,
                  ipv6_payload_length := (udp_payload_length + SIZE_UDP) % 2 ^ 32,
                  udp_length := (udp_payload_length + SIZE_UDP) % 2 ^ 32 }
      else fv
    let fv :=
      if coap_payload_length > 0 then
        { fv with coap_payload :=
            mem_write fv.coap_payload 0 (mem_read schc_packet offset coap_payload_length) }
      else fv
    let fv :=
      if s.compute_checksum ≠ 0 then
        { fv with udp_checksum := compute_udp_checksum u.packet fv }
      else fv
    let fv := { fv with ipv6_hop_limit := 255 }
    { ret := 0, rx := some fv }

/-- `static int schc_decompress(uint8_t *schc_packet, size_t schc_packet_len)`
with the rule table of `context.cpp`. -/
def schc_decompress (u : Indeterminate) (schc_packet : List Nat) (schc_packet_len : Nat) :
    DecompressResult :=
  schc_decompress_with rules u schc_packet schc_packet_len

/-! ## `ipv6_layer.cpp`: `create_udpIp6_packet` -/

/-- The `struct ip6_hdr` that `create_udpIp6_packet` fills, as its 40 bytes lie
in memory: the flow word, the payload length, next header, hop limit, the
source address (application prefix and IID) and the destination address
(device prefix and IID). -/
def create_udpIp6_ip6 (fv : field_values) : List Nat :=
  le32_bytes (htonl ((fv.ipv6_version <<< (7 * 4) + fv.ipv6_traffic_class <<< (6 * 4) +
    fv.ipv6_flow_label) % 2 ^ 32)) ++
  le16_bytes (htons (fv.ipv6_payload_length % 65536)) ++
  [fv.ipv6_next_header, fv.ipv6_hop_limit] ++
  mem_read fv.ipv6_app_prefix 0 8 ++ mem_read fv.ipv6_app_iid 0 8 ++
  mem_read fv.ipv6_dev_prefix 0 8 ++ mem_read fv.ipv6_dev_iid 0 8

/-- The `struct udphdr` that `create_udpIp6_packet` fills, as its 8 bytes lie
in memory, `uh_sum` being the current value of its checksum member. -/
def create_udpIp6_udp (fv : field_values) (uh_sum : Nat) : List Nat :=
  le16_bytes (htons fv.udp_app_port) ++ le16_bytes (htons fv.udp_dev_port) ++
  le16_bytes (htons (fv.udp_length % 65536)) ++ le16_bytes uh_sum

/-- The `initial_byte` of an option in `create_udpIp6_packet`; `delta` is the
`int delta` of the loop body and `length` the length of the option.  (The
byte is 0 before the first `|`; a negative `delta` is shifted as a two's
complement value.) -/
def option_initial_byte (delta : Int) (length : Nat) : Nat :=
  let initial_byte :=
    if delta ≤ 12 then to_uint 8 (delta * 16)
    else if delta ≤ 255 then 13 <<< 4
    else 14 <<< 4
  if length ≤ 12 then initial_byte ||| (length &&& 0x0F)
  else if length ≤ 255 then initial_byte ||| (13 &&& 0x0F)
  else initial_byte ||| (14 &&& 0x0F)

/-- The bytes that one of the two cascades `if (v <= 12) ... else if (v <=
255) ... else ...` of `create_udpIp6_packet` writes at `coap_offset` for the
value `v`, the `int delta` or the length of the option: nothing, the byte
`v - 13`, or the 16-bit value `htons (v - 269)` as it lies in memory. -/
def option_extension (v : Int) : List Nat :=
  if v ≤ 12 then []
  else if v ≤ 255 then [to_uint 8 (v - 13)]
  else le16_bytes (htons (to_uint 16 (v - 269)))

/-- The loop `for (i = 0 ; i < fv->coap_option_num ; i++)` of
`create_udpIp6_packet`, from index `i` with `n` options left: the buffer and
`coap_offset` (as an index into the buffer) after it.  The test
`if (i >= SCHC_MAX_COAP_OPT) break;` comes after the body. -/
def create_udpIp6_options (fv : field_values) :
    Nat → Nat → Nat → List Nat → Nat → List Nat × Nat
  | 0, _, _, packet, coap_offset => (packet, coap_offset)
  | n + 1, i, last_delta, packet, coap_offset =>
    let r : List Nat × Nat × Nat :=
      if (fv.option_at i).length > 0 then
        let delta : Int := ((fv.option_at i).delta : Int) - (last_delta : Int)
        let last_delta := (fv.option_at i).delta
        let initial_byte := option_initial_byte delta (fv.option_at i).length
        let packet := mem_write packet coap_offset [initial_byte]
        let coap_offset := coap_offset + 1
        let packet := mem_write packet coap_offset (option_extension delta)
        let coap_offset := coap_offset + (option_extension delta).length
        let packet := mem_write packet coap_offset
          (option_extension ((fv.option_at i).length : Int))
        let coap_offset := coap_offset +
          (option_extension ((fv.option_at i).length : Int)).length
        let packet := mem_write packet coap_offset
          (mem_read (fv.option_at i).value 0 (fv.option_at i).length)
        let coap_offset := coap_offset + (fv.option_at i).length
        (packet, coap_offset, last_delta)
      else (packet, coap_offset, last_delta)
    if i ≥ SCHC_MAX_COAP_OPT then (r.1, r.2.1)
    else create_udpIp6_options fv n (i + 1) r.2.2 r.1 r.2.1

/-- The part of `create_udpIp6_packet` from `coap_offset = packet + SIZE_IPV6
+ SIZE_UDP` up to the call of `checksum_udp_ipv6`, which writes the CoAP
message: the first byte (version 1, type, token length), code, message id,
token, options, and the marker 0xFF and the payload when there is one.  The
value is the buffer and the final `coap_offset` as an index into it. -/
def create_udpIp6_coap (packet : List Nat) (fv : field_values) : List Nat × Nat :=
  let coap_offset := SIZE_IPV6 + SIZE_UDP
  let b := (packet.getD coap_offset 0 ||| (0x1 <<< 6)) % 256
  let b := (b ||| (fv.coap_type <<< 4)) % 256
  let b := (b ||| (fv.coap_tkl &&& 0x0F)) % 256
  let packet := mem_write packet coap_offset [b]
  let coap_offset := coap_offset + 1
  let packet := mem_write packet coap_offset [fv.coap_code]
  let coap_offset := coap_offset + 1
  let packet := mem_write packet coap_offset (mem_read fv.coap_message_id 0 2)
  let coap_offset := coap_offset + 2
  let packet :=
    if fv.coap_tkl > 0 then mem_write packet coap_offset (mem_read fv.coap_token 0 fv.coap_tkl)
    else packet
  let coap_offset := if fv.coap_tkl > 0 then coap_offset + fv.coap_tkl else coap_offset
  let r := create_udpIp6_options fv fv.coap_option_num 0 0 packet coap_offset
  let packet := r.1
  let coap_offset := r.2
  if fv.coap_payload_length > 0 then
    (mem_write (mem_write packet coap_offset [0xFF]) (coap_offset + 1)
        (mem_read fv.coap_payload 0 fv.coap_payload_length),
      coap_offset + 1 + fv.coap_payload_length)
  else (packet, coap_offset)

/-- `void create_udpIp6_packet(uint8_t * packet, const struct field_values
*fv)`: the buffer `packet` after the call.  (The length handed to
`checksum_udp_ipv6` is `SIZE_IPV6 + SIZE_UDP + payload_len` as a `size_t`; its
conversion to `int` does not change the 16 bits that function uses.) -/
def create_udpIp6_packet (packet : List Nat) (fv : field_values) : List Nat :=
  let payload_len := (fv.udp_length + 2 ^ 32 - SIZE_UDP) % 2 ^ 32
  let packet := mem_write packet 0 (mem_read (create_udpIp6_ip6 fv) 0 SIZE_IPV6)
  let packet := mem_write packet SIZE_IPV6 (mem_read (create_udpIp6_udp fv 0) 0 SIZE_UDP)
  let packet := (create_udpIp6_coap packet fv).1
  let sum := checksum_udp_ipv6 packet
    (((SIZE_IPV6 + SIZE_UDP + payload_len) % 2 ^ 32 : Nat) : Int)
  mem_write packet SIZE_IPV6 (mem_read (create_udpIp6_udp fv (htons sum)) 0 SIZE_UDP)

/-! ## `ipv6_layer.cpp`: `read_coap_packet` -/

/-- The variables of `read_coap_packet` that change in its loop over the
options: `*fv`, the pointer `offset` as an index into `payload`, the 16-bit
`coap_length` and `last_delta`. -/
structure ReadState where
  fv : field_values
  offset : Nat
  coap_length : Nat
  last_delta : Nat
deriving Repr, DecidableEq

/-- One of the two cascades `if (v == 13) ... else if (v == 14) ...` of
`read_coap_packet` for the 4-bit value `v` of the initial byte, a delta or a
length: the 16-bit value after it, and the number of bytes by which `offset`
and `coap_length` moved on. -/
def read_coap_extended (payload : List Nat) (offset v : Nat) : Nat × Nat :=
  if v = 13 then ((v + payload.getD offset 0) % 65536, 1)
  else if v = 14 then
    (((v + 255) % 65536 + ntohs (le_value (mem_read payload offset 2))) % 65536, 2)
  else (v, 0)

/-- The body of the `while` loop of `read_coap_packet`: one option is read.
(The values read back from `fv->coap_option[...]` are those just written.)
The copy into `value[16]` is that of the code as long as the length of the
option is at most 16; a longer copy runs over the entries that follow in C,
and makes the list longer here. -/
def read_coap_option (payload : List Nat) (s : ReadState) : ReadState :=
  let delta := (payload.getD s.offset 0 &&& 0xF0) >>> 4
  let length := payload.getD s.offset 0 &&& 0x0F
  let offset := s.offset + 1
  let coap_length := (s.coap_length + 1) % 65536
  let d := read_coap_extended payload offset delta
  let offset := offset + d.2
  let coap_length := (coap_length + d.2) % 65536
  let delta := (d.1 + s.last_delta) % 65536
  let l := read_coap_extended payload offset length
  let offset := offset + l.2
  let coap_length := (coap_length + l.2) % 65536
  let length := l.1
  let fv := s.fv.modify_option s.fv.coap_option_num
    (fun o => { delta := delta, length := length,
                value := mem_write o.value 0 (mem_read payload offset length) })
  { fv := { fv with coap_option_num := (fv.coap_option_num + 1) % 256 },
    offset := offset + length,
    coap_length := (coap_length + length) % 65536,
    last_delta := delta }

/-- The test of the `while` loop of `read_coap_packet`. -/
def read_coap_more (payload : List Nat) (packet_length : Nat) (s : ReadState) : Bool :=
  decide (s.coap_length < packet_length) && !decide (payload.getD s.offset 0 = 0xff) &&
    decide (s.fv.coap_option_num < SCHC_MAX_COAP_OPT)

/-- The `while` loop of `read_coap_packet`, run for at most `fuel`
iterations.  Every iteration adds one to `coap_option_num`, which the test
keeps below `SCHC_MAX_COAP_OPT`, so that many iterations are enough fuel from
`coap_option_num = 0`. -/
def read_coap_options (payload : List Nat) (packet_length : Nat) :
    Nat → ReadState → ReadState
  | 0, s => s
  | fuel + 1, s =>
    if read_coap_more payload packet_length s then
      read_coap_options payload packet_length fuel (read_coap_option payload s)
    else s

/-- The state of `read_coap_packet` when it reaches its loop: the CoAP header
and the token have been read, `coap_option_num` is 0. -/
def read_coap_header (fv : field_values) (payload : List Nat) : ReadState :=
  let tkl := payload.getD 0 0 &&& 0x0F
  { fv :=
      { fv with
        coap_version := payload.getD 0 0 >>> 6
        coap_type := (payload.getD 0 0 &&& 0x30) >>> 4
        coap_tkl := tkl
        coap_code := payload.getD 1 0
        coap_message_id := (fv.coap_message_id.set 0 (payload.getD 2 0)).set 1 (payload.getD 3 0)
        coap_token :=
          if tkl > 0 then mem_write fv.coap_token 0 (mem_read payload 4 tkl) else fv.coap_token
        coap_option_num := 0 },
    offset := 4 + tkl,
    coap_length := (4 + tkl) % 65536,
    last_delta := 0 }

/-- The end of `read_coap_packet`, after its loop: the payload, if there is
one. -/
def read_coap_payload (payload : List Nat) (packet_length : Nat) (s : ReadState) :
    field_values :=
  if s.coap_length < packet_length ∧ payload.getD s.offset 0 = 0xff then
    let offset := s.offset + 1
    let coap_length := (s.coap_length + 1) % 65536
    let n := to_uint 8 ((packet_length : Int) - (coap_length : Int))
    { s.fv with coap_payload_length := n,
                coap_payload := mem_write s.fv.coap_payload 0 (mem_read payload offset n) }
  else { s.fv with coap_payload_length := 0 }

/-- `void read_coap_packet(struct field_values *fv, uint8_t * payload)`: the
new `*fv`.  `packet_length` is a `uint8_t`. -/
def read_coap_packet (fv : field_values) (payload : List Nat) : field_values :=
  let packet_length := (fv.udp_length + 2 ^ 32 - 8) % 2 ^ 32 % 256
  read_coap_payload payload packet_length
    (read_coap_options payload packet_length SCHC_MAX_COAP_OPT (read_coap_header fv payload))

/-! ## `schc.cpp`: `schc_reassemble` -/

/-- The static variables `schc_reassemble_buf` and `schc_reassemble_offset`. -/
structure ReassemblyState where
  schc_reassemble_buf : List Nat
  schc_reassemble_offset : Nat
deriving Repr, DecidableEq

/-- The reassembly state when the program starts. -/
def ReassemblyState.init : ReassemblyState :=
  { schc_reassemble_buf := List.replicate SIZE_MTU_IPV6 0, schc_reassemble_offset := 0 }

/-- What one call of `schc_reassemble` leaves behind: the static variables, the
returned value, the arguments of the call of `schc_decompress` if there was
one, and what that call did. -/
structure ReassembleResult where
  state : ReassemblyState
  ret : Int
  decompress_call : Option (List Nat × Nat)
  decompressed : Option DecompressResult
deriving Repr, DecidableEq

/-- `int schc_reassemble(uint8_t *lorawan_payload, uint8_t lorawan_payload_len)`.
The state is that of the code as long as the bytes appended end inside
`schc_reassemble_buf[SIZE_MTU_IPV6]`; a copy that ends behind the array
lands on the variables that follow it in C, and makes the list longer
here. -/
def schc_reassemble (u : Indeterminate) (st : ReassemblyState) (lorawan_payload : List Nat)
    (lorawan_payload_len : Nat) : ReassembleResult :=
  if lorawan_payload.getD 0 0 ≠ SCHC_FRG_RULEID then
    let r := schc_decompress u lorawan_payload lorawan_payload_len
    { state := st, ret := r.ret,
      decompress_call := some (lorawan_payload, lorawan_payload_len), decompressed := some r }
  else if lorawan_payload.getD 1 0 ≠ 0xFF then
    let n := to_uint 32 ((lorawan_payload_len : Int) - 2)
    let buf := mem_write st.schc_reassemble_buf st.schc_reassemble_offset
      (mem_read lorawan_payload 2 n)
    { state := { schc_reassemble_buf := buf,
                 schc_reassemble_offset := (st.schc_reassemble_offset + n) % 2 ^ 32 },
      ret := 0, decompress_call := none, decompressed := none }
  else
    let n := to_uint 32 ((lorawan_payload_len : Int) - 4)
    let buf := mem_write st.schc_reassemble_buf st.schc_reassemble_offset
      (mem_read lorawan_payload 4 n)
    let offset := (st.schc_reassemble_offset + n) % 2 ^ 32
    let mic := crc16 buf offset
    let mic := ntohs mic
    if mem_read lorawan_payload 2 2 = le16_bytes mic then
      { state := { schc_reassemble_buf := buf, schc_reassemble_offset := 0 },
        ret := 0, decompress_call := some (buf, offset),
        decompressed := some (schc_decompress u buf offset) }
    else
      { state := { schc_reassemble_buf := buf, schc_reassemble_offset := 0 },
        ret := 0, decompress_call := none, decompressed := none }

/-- Modelled from the spec: the caller of `schc_reassemble` is not part of the
sources; the link messages are delivered one by one, each with its own length,
and the reassembly state is kept between the calls.  The value lists what
every call left behind. -/
def reassemble_run (u : Indeterminate) : ReassemblyState → List (List Nat) →
    List ReassembleResult
  | _, [] => []
  | st, msg :: rest =>
    let r := schc_reassemble u st msg (msg.length % 256)
    r :: reassemble_run u r.state rest


/-! ## The consumer of the transmit queue -/

/-- Modelled from the spec: the consumer of the transmit queue is not part of
the sources; each link message is handed over length-prefixed, so the consumer
reads one length byte and then that many bytes. -/
def tx_messages_aux : Nat → List Nat → List (List Nat)
  | 0, _ => []
  | _ + 1, [] => []
  | fuel + 1, n :: rest => rest.take n :: tx_messages_aux fuel (rest.drop n)

/-- Modelled from the spec: the link messages held by a transmit queue.  Every
step removes at least the length byte, so the length of the queue is enough
fuel. -/
def tx_messages (queue : List Nat) : List (List Nat) :=
  tx_messages_aux queue.length queue

/-! ## The fragments the spec asks for -/

/-- A link message as it lies in the transmit queue: one length byte, then
the bytes of the message. -/
def tx_frame (msg : List Nat) : List Nat :=
  msg.length % 256 :: msg

/-- Tile `k` of a packet: its bytes from `SCHC_FRG_TILE_SIZE * k` on, at most
`SCHC_FRG_TILE_SIZE` of them. -/
def tile (p : List Nat) (k : Nat) : List Nat :=
  (p.drop (SCHC_FRG_TILE_SIZE * k)).take SCHC_FRG_TILE_SIZE

/-- The fragment that the spec asks for tile `k` of `n`: rule id 0x80 and
FCN 0 before every tile but the last; rule id 0x80, FCN 0xFF and the two
big-endian bytes of the integrity value `mic` before the last tile. -/
def spec_fragment (p : List Nat) (mic n k : Nat) : List Nat :=
  if k + 1 < n then [0x80, 0x00] ++ tile p k
  else [0x80, 0xFF, mic / 256, mic % 256] ++ tile p k

/-- The fragments that the spec asks for a packet of more than
`MAX_SCHC_PKT_LEN` bytes, in order, the last one carrying `mic`. -/
def spec_fragments (p : List Nat) (mic : Nat) : List (List Nat) :=
  (List.range ((p.length + 39) / 40)).map (spec_fragment p mic ((p.length + 39) / 40))

/-! ## The reassembly the spec asks for -/

/-- The accumulated buffer once a last fragment has been taken in: the bytes
accumulated so far and the bytes of the message after its 4-byte header. -/
def accumulated_last (st : ReassemblyState) (msg : List Nat) : List Nat :=
  st.schc_reassemble_buf.take st.schc_reassemble_offset ++ msg.drop 4

/-- The big-endian bytes of a 16-bit value. -/
def be16_bytes (v : Nat) : List Nat :=
  [v / 256 % 256, v % 256]

/-! ## The Internet checksum the spec asks for -/

/-- The 16-bit words of a byte buffer in network byte order (first byte high);
a last odd byte forms a word whose other byte is zero. -/
def be_words : List Nat → List Nat
  | a :: b :: rest => (256 * a + b) :: be_words rest
  | [a] => [256 * a]
  | [] => []

/-- One's-complement addition of two 16-bit values: the carry out of bit 15 is
added back in (end-around carry). -/
def ones_add (x y : Nat) : Nat :=
  (x + y) % 65536 + (x + y) / 65536

/-- The one's-complement sum of a list of 16-bit words. -/
def ones_sum (ws : List Nat) : Nat :=
  ws.foldl ones_add 0

/-- The Internet checksum of RFC 1071 of a byte buffer: the bitwise complement
(in 16 bits) of the one's-complement sum of its words in network byte
order. -/
def internet_checksum (data : List Nat) : Nat :=
  65535 - ones_sum (be_words data)

/-! ## The checksum input the spec asks for -/

/-- The aligned 2-byte words of a buffer: the pairs of bytes at the offsets
`2 i`, `2 i + 1`. -/
def words16 : List Nat → List (Nat × Nat)
  | a :: b :: rest => (a, b) :: words16 rest
  | _ => []

/-- The IPv6 pseudo-header of RFC 8200, section 8.1, for the packet in
`buffer`: source address, destination address, the upper-layer length as a
32-bit value, taken from the payload length bytes 4 and 5 of the IPv6 header,
three zero bytes and the next-header value 17 (UDP). -/
def udp_pseudo_header (buffer : List Nat) : List Nat :=
  (buffer.drop 8).take 16 ++ (buffer.drop 24).take 16 ++
    [0, 0, buffer.getD 4 0, buffer.getD 5 0] ++ [0, 0, 0] ++ [17]

/-- The bytes the UDP checksum of a packet of `n` bytes is computed over: the
pseudo-header followed by the bytes after the 40-byte IPv6 header. -/
def udp_checksum_input (buffer : List Nat) (n : Nat) : List Nat :=
  udp_pseudo_header buffer ++ (buffer.drop 40).take (n - 40)

/-! ## The residue the spec asks for -/

/-- The invariant of a NormalizedPacket: the struct fits its C type and the
lengths it records stay inside its arrays (`coap_token[16]`, `value[16]`,
`coap_option[SCHC_MAX_COAP_OPT]`). -/
def field_values.valid (fv : field_values) : Prop :=
  fv.wf ∧ fv.coap_tkl ≤ 16 ∧ fv.coap_option_num ≤ SCHC_MAX_COAP_OPT ∧
  ∀ o ∈ fv.coap_option, o.length ≤ 16

instance (fv : field_values) : Decidable fv.valid := by
  unfold field_values.valid; infer_instance

/-- The rows of a rule that the loops of `schc_compress` and `schc_decompress`
visit: those before the `END_OF_RULE` row. -/
def rule_rows (rule : List field_description) : List field_description :=
  rule.takeWhile (fun row => decide (row.fieldid ≠ .END_OF_RULE))

/-- The number of CoAP options the rows of a rule consume: one per
`COAP_OPTION_VALUE` row. -/
def option_rows (rule : List field_description) : Nat :=
  ((rule_rows rule).filter (fun row => decide (row.fieldid = .COAP_OPTION_VALUE))).length

/-- The bytes of a field of the packet as a `VALUE_SENT` row puts them into
the residue; `cur` is the index of the current CoAP option.  16-bit fields
are in network byte order; for the flow label these are the three bytes the
code produces on the target. -/
def field_bytes (fv : field_values) (fid : fieldid) (cur : Nat) : List Nat :=
  match fid with
  | .IPV6_VERSION => [fv.ipv6_version]
  | .IPV6_TRAFFIC_CLASS => [fv.ipv6_traffic_class]
  | .IPV6_FLOW_LABEL =>
    [0, fv.ipv6_flow_label / 2 ^ 24 % 256, fv.ipv6_flow_label / 2 ^ 16 % 256]
  | .IPV6_PAYLOAD_LENGTH =>
    [fv.ipv6_payload_length / 256 % 256, fv.ipv6_payload_length % 256]
  | .IPV6_NEXT_HEADER => [fv.ipv6_next_header]
  | .IPV6_HOP_LIMIT => [fv.ipv6_hop_limit]
  | .IPV6_DEV_PREFIX => mem_read fv.ipv6_dev_prefix 0 8
  | .IPV6_DEVIID => mem_read fv.ipv6_dev_iid 0 8
  | .IPV6_APP_PREFIX => mem_read fv.ipv6_app_prefix 0 8
  | .IPV6_APPIID => mem_read fv.ipv6_app_iid 0 8
  | .UDP_DEVPORT => [fv.udp_dev_port / 256 % 256, fv.udp_dev_port % 256]
  | .UDP_APPPORT => [fv.udp_app_port / 256 % 256, fv.udp_app_port % 256]
  | .UDP_LENGTH => [fv.udp_length / 256 % 256, fv.udp_length % 256]
  | .UDP_CHECKSUM => [fv.udp_checksum / 256 % 256, fv.udp_checksum % 256]
  | .COAP_VERSION => [fv.coap_version]
  | .COAP_TYPE => [fv.coap_type]
  | .COAP_TKL => [fv.coap_tkl]
  | .COAP_CODE => [fv.coap_code]
  | .COAP_MESSAGE_ID => mem_read fv.coap_message_id 0 2
  | .COAP_TOKEN => mem_read fv.coap_token 0 fv.coap_tkl
  | .COAP_OPTION_DELTA => [(fv.option_at cur).delta % 256]
  | .COAP_OPTION_LENGTH => [(fv.option_at cur).length % 256]
  | .COAP_OPTION_VALUE => mem_read (fv.option_at cur).value 0 (fv.option_at cur).length
  | .END_OF_RULE => []

/-- The compression residue of a list of rows: the bytes of the fields whose
row has action `VALUE_SENT`, in row order, and nothing for any other row.
`cur` counts the `COAP_OPTION_VALUE` rows passed so far. -/
def residue_rows (fv : field_values) : List field_description → Nat → List Nat
  | [], _ => []
  | row :: rest, cur =>
    (if row.CDA = .VALUE_SENT then field_bytes fv row.fieldid cur else []) ++
      residue_rows fv rest (if row.fieldid = .COAP_OPTION_VALUE then cur + 1 else cur)

/-- The compression residue of a packet under a rule. -/
def residue (fv : field_values) (rule : List field_description) : List Nat :=
  residue_rows fv (rule_rows rule) 0

/-- The compression actions that `do_compression_action` implements. -/
def action_implemented (row : field_description) : Bool :=
  row.CDA = .NOT_SENT || row.CDA = .VALUE_SENT || row.CDA = .COMPUTE_LENGTH ||
    row.CDA = .COMPUTE_CHECKSUM

/-! ## The size of a field in the residue -/

/-- The number of residue bytes of a field sent by value: 1, 2, 3 or 8 bytes
for the fields of fixed size, `tkl` bytes for the token and `len` bytes for an
option value, `tkl` being the token length and `len` the length of the
current option. -/
def residue_size (fid : fieldid) (tkl len : Nat) : Nat :=
  match fid with
  | .IPV6_VERSION | .IPV6_TRAFFIC_CLASS | .IPV6_NEXT_HEADER | .IPV6_HOP_LIMIT => 1
  | .IPV6_FLOW_LABEL => 3
  | .IPV6_PAYLOAD_LENGTH | .UDP_DEVPORT | .UDP_APPPORT | .UDP_LENGTH | .UDP_CHECKSUM => 2
  | .IPV6_DEV_PREFIX | .IPV6_DEVIID | .IPV6_APP_PREFIX | .IPV6_APPIID => 8
  | .COAP_VERSION | .COAP_TYPE | .COAP_TKL | .COAP_CODE => 1
  | .COAP_MESSAGE_ID => 2
  | .COAP_TOKEN => tkl
  | .COAP_OPTION_DELTA | .COAP_OPTION_LENGTH => 1
  | .COAP_OPTION_VALUE => len
  | .END_OF_RULE => 0

/-! ## What the round trip recovers -/

/-- Whether the field is one of the three CoAP option fields, which occur
once per option in a rule. -/
def fieldid.is_option (fid : fieldid) : Bool :=
  fid = .COAP_OPTION_DELTA || fid = .COAP_OPTION_LENGTH || fid = .COAP_OPTION_VALUE

/-- Whether a row lets the receiver recover the value the field has in the
packet whatever the packet is: the value is sent, or it is implied by an
`EQUALS` match. -/
def row_recovers (row : field_description) : Bool :=
  row.CDA = .VALUE_SENT || (row.CDA = .NOT_SENT && row.MO = .EQUALS)

/-- Whether the value the field of `row` has in `P` is the target value of
the row, as the `EQUALS` comparison of `check_matching` decides it (`cur` is
the index of the current CoAP option). -/
def target_equal (P : field_values) (row : field_description) (cur : Nat) : Bool :=
  decide ((check_matching 0 { row with MO := .EQUALS } P cur).1 ≠ 0)

/-- The rows whose field the round trip gives back for the packet `P`: the
value is sent, or the row is `NOT_SENT` and the value in `P` is the target
value.  Left out are the `NOT_SENT` rows of the token and the message id
(the decompressor reads two hexadecimal bytes where the matcher reads eight)
and the `NOT_SENT` rows of an option value under another operator than
`EQUALS` (the length the decompressor copies need not be that of `P`). -/
def row_recovers_in (P : field_values) (row : field_description) (cur : Nat) : Bool :=
  row.CDA = .VALUE_SENT ||
  (row.CDA = .NOT_SENT && target_equal P row cur &&
    !(row.fieldid = .COAP_TOKEN || row.fieldid = .COAP_MESSAGE_ID) &&
    (row.fieldid != .COAP_OPTION_VALUE || row.MO = .EQUALS))

/-- The field of row `row`, for the CoAP option `idx`, has in the
reconstructed packet `P'` the value it has in the packet `P`.  For the token
and an option value these are the bytes in use (`coap_tkl`, respectively the
option length); an option delta sent by value is one byte, so it is recovered
modulo 256.  Nothing is asked of the hop limit, which the decompressor sets
to 255, and of the length and checksum fields, which it computes. -/
def field_recovered (P P' : field_values) (row : field_description) (idx : Nat) : Prop :=
  match row.fieldid with
  | .IPV6_VERSION => P'.ipv6_version = P.ipv6_version
  | .IPV6_TRAFFIC_CLASS => P'.ipv6_traffic_class = P.ipv6_traffic_class
  | .IPV6_FLOW_LABEL => P'.ipv6_flow_label = P.ipv6_flow_label
  | .IPV6_PAYLOAD_LENGTH => True
  | .IPV6_NEXT_HEADER => P'.ipv6_next_header = P.ipv6_next_header
  | .IPV6_HOP_LIMIT => True
  | .IPV6_DEV_PREFIX => P'.ipv6_dev_prefix = P.ipv6_dev_prefix
  | .IPV6_DEVIID => P'.ipv6_dev_iid = P.ipv6_dev_iid
  | .IPV6_APP_PREFIX => P'.ipv6_app_prefix = P.ipv6_app_prefix
  | .IPV6_APPIID => P'.ipv6_app_iid = P.ipv6_app_iid
  | .UDP_DEVPORT => P'.udp_dev_port = P.udp_dev_port
  | .UDP_APPPORT => P'.udp_app_port = P.udp_app_port
  | .UDP_LENGTH => True
  | .UDP_CHECKSUM => True
  | .COAP_VERSION => P'.coap_version = P.coap_version
  | .COAP_TYPE => P'.coap_type = P.coap_type
  | .COAP_TKL => P'.coap_tkl = P.coap_tkl
  | .COAP_CODE => P'.coap_code = P.coap_code
  | .COAP_MESSAGE_ID => P'.coap_message_id = P.coap_message_id
  | .COAP_TOKEN => P'.coap_token.take P.coap_tkl = P.coap_token.take P.coap_tkl
  | .COAP_OPTION_DELTA =>
    (P'.option_at idx).delta =
      if row.CDA = .VALUE_SENT then (P.option_at idx).delta % 256 else (P.option_at idx).delta
  | .COAP_OPTION_LENGTH => (P'.option_at idx).length = (P.option_at idx).length
  | .COAP_OPTION_VALUE =>
    (P'.option_at idx).value.take (P.option_at idx).length =
      (P.option_at idx).value.take (P.option_at idx).length
  | .END_OF_RULE => True

/-- The index of the CoAP option that row `n` of `rows` belongs to: the number
of `COAP_OPTION_VALUE` rows before it. -/
def option_index (rows : List field_description) (n : Nat) : Nat :=
  ((rows.take n).filter (fun row => decide (row.fieldid = .COAP_OPTION_VALUE))).length

/-- What is known about the struct under reconstruction after some rows of a
rule: the fields already written (`seen`), whether `coap_tkl` and the length
of the current option hold the values of the packet, whether delta and
length of the current option are still untouched, and whether a
`COMPUTE_LENGTH` row was passed. -/
structure Known where
  seen : List fieldid
  tkl : Bool
  len : Bool
  delta_fresh : Bool
  len_fresh : Bool
  clen : Bool
deriving Repr, DecidableEq

/-- Nothing is known before the first row. -/
def Known.init : Known :=
  { seen := [], tkl := false, len := false, delta_fresh := true, len_fresh := true,
    clen := false }

/-- The condition on one row under which compressor and decompressor stay in
step and the recovered fields are kept: the action is implemented; a field
other than an option field occurs once; an option field belongs to one of the
`SCHC_MAX_COAP_OPT` options and delta and length occur once per option; a
token or an option value is sent only after its length is known, and an
option value is implied by `EQUALS` only then; an option value row is
`NOT_SENT` or `VALUE_SENT`; and the flow label is not sent by value (the
two directions disagree on its three bytes). -/
def row_ok (k : Known) (cur : Nat) (row : field_description) : Bool :=
  action_implemented row &&
  (match row.fieldid with
   | .COAP_OPTION_DELTA => decide (cur < SCHC_MAX_COAP_OPT) && k.delta_fresh
   | .COAP_OPTION_LENGTH => decide (cur < SCHC_MAX_COAP_OPT) && k.len_fresh
   | .COAP_OPTION_VALUE =>
     decide (cur < SCHC_MAX_COAP_OPT) &&
     (row.CDA = .NOT_SENT || row.CDA = .VALUE_SENT) && (!row_recovers row || k.len)
   | .COAP_TOKEN => !k.seen.contains row.fieldid && (row.CDA != .VALUE_SENT || k.tkl)
   | .IPV6_FLOW_LABEL => !k.seen.contains row.fieldid && row.CDA != .VALUE_SENT
   | .END_OF_RULE => false
   | _ => !k.seen.contains row.fieldid)

/-- What is known after one more row. -/
def known_next (k : Known) (row : field_description) : Known :=
  match row.fieldid with
  | .COAP_OPTION_DELTA => { k with delta_fresh := false }
  | .COAP_OPTION_LENGTH => { k with len_fresh := false, len := row_recovers row }
  | .COAP_OPTION_VALUE => { k with delta_fresh := true, len_fresh := true, len := false }
  | .COAP_TKL =>
    { k with seen := row.fieldid :: k.seen, tkl := row_recovers row,
             clen := k.clen || row.CDA = .COMPUTE_LENGTH }
  | _ => { k with seen := row.fieldid :: k.seen, clen := k.clen || row.CDA = .COMPUTE_LENGTH }

/-- The option index after one more row. -/
def cur_next (cur : Nat) (row : field_description) : Nat :=
  if row.fieldid = .COAP_OPTION_VALUE then cur + 1 else cur

/-- `row_ok` for every row of a list, and a `COMPUTE_LENGTH` row among them
(without one the decompressor recovers no payload). -/
def rows_ok : Known → Nat → List field_description → Bool
  | k, _, [] => k.clen
  | k, cur, row :: rest => row_ok k cur row && rows_ok (known_next k row) (cur_next cur row) rest

/-- The rules for which the round trip is proved. -/
def rule_ok (rule : List field_description) : Bool :=
  rows_ok Known.init 0 (rule_rows rule)

/-! ## What the spec asks of `NOT_SENT` and `COMPUTE_LENGTH` -/

/-- The bytes written as pairs of hexadecimal digits: each pair of characters
gives one byte, first digit high; a character that is no hexadecimal digit
counts as 0. -/
def hex_pairs : List Nat → List Nat
  | c0 :: c1 :: rest => ((hex_digit c0).getD 0 * 16 + (hex_digit c1).getD 0) :: hex_pairs rest
  | _ => []

/-- A target value decoded from its hexadecimal string form. -/
def hex_decode (tv : String) : List Nat :=
  hex_pairs (tv.toList.map Char.toNat)

/-- Whether the digit 9 does not occur in a target value. -/
def nine_free (tv : String) : Bool :=
  !(tv.toList.map Char.toNat).contains 57

/-- The field of a `NOT_SENT` row `row`, for the CoAP option `idx`, has in the
reconstructed packet `F` the target value of the row decoded from its string
form: decimal (`atoi`) for the scalar fields, option delta and option length
included; hexadecimal for the four address fields, when the digit 9 does not
occur in the target value; for an option value the characters of the string
themselves, as many as the option is long.  Nothing is asked of the hop
limit, which the decompressor sets to 255, of token and message id, and of
the fields that have no `NOT_SENT` action (the computed lengths and the
checksum). -/
def field_is_target (F : field_values) (row : field_description) (idx : Nat) : Prop :=
  match row.fieldid with
  | .IPV6_VERSION => (F.ipv6_version : Int) = atoi row.tv
  | .IPV6_TRAFFIC_CLASS => (F.ipv6_traffic_class : Int) = atoi row.tv
  | .IPV6_FLOW_LABEL => (F.ipv6_flow_label : Int) = atoi row.tv
  | .IPV6_PAYLOAD_LENGTH => True
  | .IPV6_NEXT_HEADER => (F.ipv6_next_header : Int) = atoi row.tv
  | .IPV6_HOP_LIMIT => True
  | .IPV6_DEV_PREFIX => nine_free row.tv = true → F.ipv6_dev_prefix = hex_decode row.tv
  | .IPV6_DEVIID => nine_free row.tv = true → F.ipv6_dev_iid = hex_decode row.tv
  | .IPV6_APP_PREFIX => nine_free row.tv = true → F.ipv6_app_prefix = hex_decode row.tv
  | .IPV6_APPIID => nine_free row.tv = true → F.ipv6_app_iid = hex_decode row.tv
  | .UDP_DEVPORT => (F.udp_dev_port : Int) = atoi row.tv
  | .UDP_APPPORT => (F.udp_app_port : Int) = atoi row.tv
  | .UDP_LENGTH => True
  | .UDP_CHECKSUM => True
  | .COAP_VERSION => (F.coap_version : Int) = atoi row.tv
  | .COAP_TYPE => (F.coap_type : Int) = atoi row.tv
  | .COAP_TKL => (F.coap_tkl : Int) = atoi row.tv
  | .COAP_CODE => (F.coap_code : Int) = atoi row.tv
  | .COAP_MESSAGE_ID => True
  | .COAP_TOKEN => True
  | .COAP_OPTION_DELTA => ((F.option_at idx).delta : Int) = atoi row.tv
  | .COAP_OPTION_LENGTH => ((F.option_at idx).length : Int) = atoi row.tv
  | .COAP_OPTION_VALUE =>
    (F.option_at idx).length ≤ row.tv.length →
      (F.option_at idx).value.take (F.option_at idx).length =
        (row.tv.toList.map Char.toNat).take (F.option_at idx).length
  | .END_OF_RULE => True

/-- The number of extension bytes that the CoAP option encoding of RFC 7252
uses for a delta or a length: none below 13, one below 269, two from 269
on. -/
def ext_bytes (v : Int) : Nat :=
  if v < 13 then 0 else if v < 269 then 1 else 2

/-- The encoded size of the options `i, ..., i + n - 1` of a packet: for each
the initial byte, the extension bytes of its delta (the difference to the
option number stored for the option before it, `last_delta`), the extension
bytes of its length, and the value bytes. -/
def options_encoded_size (fv : field_values) : Nat → Nat → Nat → Nat
  | 0, _, _ => 0
  | n + 1, i, last_delta =>
    1 + ext_bytes (((fv.option_at i).delta : Int) - (last_delta : Int)) +
      ext_bytes ((fv.option_at i).length : Int) + (fv.option_at i).length +
      options_encoded_size fv n (i + 1) (fv.option_at i).delta

/-- Whether the target value of the field is written in hexadecimal and read
by `string_to_bin`: the four address fields, the message id and the token. -/
def hex_target (fid : fieldid) : Bool :=
  fid = .IPV6_DEV_PREFIX || fid = .IPV6_DEVIID || fid = .IPV6_APP_PREFIX ||
    fid = .IPV6_APPIID || fid = .COAP_MESSAGE_ID || fid = .COAP_TOKEN

/-- The field of row `row`, for the CoAP option `idx`, has in the packet `P`
the target value of the row: the decimal value (`atoi`) for a scalar field,
option delta and option length included; the eight bytes decoded from
hexadecimal for an address field, and the first two of them for the message
id; for an option value the characters of the target string themselves, as
many as the option is long, when the string has that many.  Nothing is asked
of the token, of which `check_matching` compares an indeterminate number of
bytes. -/
def field_equals_target (P : field_values) (row : field_description) (idx : Nat) : Prop :=
  match row.fieldid with
  | .IPV6_VERSION => (P.ipv6_version : Int) = atoi row.tv
  | .IPV6_TRAFFIC_CLASS => (P.ipv6_traffic_class : Int) = atoi row.tv
  | .IPV6_FLOW_LABEL => (P.ipv6_flow_label : Int) = atoi row.tv
  | .IPV6_PAYLOAD_LENGTH => (P.ipv6_payload_length : Int) = atoi row.tv
  | .IPV6_NEXT_HEADER => (P.ipv6_next_header : Int) = atoi row.tv
  | .IPV6_HOP_LIMIT => (P.ipv6_hop_limit : Int) = atoi row.tv
  | .IPV6_DEV_PREFIX => P.ipv6_dev_prefix = hex_decode row.tv
  | .IPV6_DEVIID => P.ipv6_dev_iid = hex_decode row.tv
  | .IPV6_APP_PREFIX => P.ipv6_app_prefix = hex_decode row.tv
  | .IPV6_APPIID => P.ipv6_app_iid = hex_decode row.tv
  | .UDP_DEVPORT => (P.udp_dev_port : Int) = atoi row.tv
  | .UDP_APPPORT => (P.udp_app_port : Int) = atoi row.tv
  | .UDP_LENGTH => (P.udp_length : Int) = atoi row.tv
  | .UDP_CHECKSUM => (P.udp_checksum : Int) = atoi row.tv
  | .COAP_VERSION => (P.coap_version : Int) = atoi row.tv
  | .COAP_TYPE => (P.coap_type : Int) = atoi row.tv
  | .COAP_TKL => (P.coap_tkl : Int) = atoi row.tv
  | .COAP_CODE => (P.coap_code : Int) = atoi row.tv
  | .COAP_MESSAGE_ID => P.coap_message_id = (hex_decode row.tv).take 2
  | .COAP_TOKEN => True
  | .COAP_OPTION_DELTA => ((P.option_at idx).delta : Int) = atoi row.tv
  | .COAP_OPTION_LENGTH => ((P.option_at idx).length : Int) = atoi row.tv
  | .COAP_OPTION_VALUE =>
    (P.option_at idx).length ≤ row.tv.length →
      (P.option_at idx).value.take (P.option_at idx).length =
        (row.tv.toList.map Char.toNat).take (P.option_at idx).length
  | .END_OF_RULE => True

/-! ## The options on the wire -/

/-- The value that a 4-bit field `nib` of the initial byte of a CoAP option
stands for, a delta or a length (RFC 7252, section 3.1), `ext` being the bytes
that follow: the field itself below 13; for 13 the next byte plus 13; for 14
the next two bytes, in network byte order, plus 269. -/
def wire_value (nib : Nat) (ext : List Nat) : Nat :=
  if nib = 13 then 13 + ext.getD 0 0
  else if nib = 14 then 269 + (256 * ext.getD 0 0 + ext.getD 1 0)
  else nib

/-- The number of extension bytes that the 4-bit field `nib` announces. -/
def wire_ext_size (nib : Nat) : Nat :=
  if nib = 13 then 1 else if nib = 14 then 2 else 0

/-- The delta on the wire of the option that starts at `off`: its distance
from the number of the option before it. -/
def wire_delta (payload : List Nat) (off : Nat) : Nat :=
  wire_value (payload.getD off 0 / 16) (payload.drop (off + 1))

/-- The length on the wire of the option that starts at `off`. -/
def wire_length (payload : List Nat) (off : Nat) : Nat :=
  wire_value (payload.getD off 0 % 16)
    (payload.drop (off + 1 + wire_ext_size (payload.getD off 0 / 16)))

/-- The number of bytes of the option that starts at `off`: initial byte,
extension bytes and value. -/
def wire_option_size (payload : List Nat) (off : Nat) : Nat :=
  1 + wire_ext_size (payload.getD off 0 / 16) + wire_ext_size (payload.getD off 0 % 16) +
    wire_length payload off

/-- The offset at which option `i` of a message starts, option 0 starting at
`start`. -/
def wire_option_start (payload : List Nat) (start : Nat) : Nat → Nat
  | 0 => start
  | i + 1 =>
    wire_option_start payload start i +
      wire_option_size payload (wire_option_start payload start i)

/-- The option number of option `i` of a message: the sum of the deltas on
the wire of the options 0 to `i`. -/
def wire_option_number (payload : List Nat) (start : Nat) : Nat → Nat
  | 0 => wire_delta payload start
  | i + 1 =>
    wire_option_number payload start i +
      wire_delta payload (wire_option_start payload start (i + 1))

/-! ## Corrupted link messages -/

/-- The sequence of link messages `msgs` after byte `j` of message `k` has
been replaced by `v`. -/
def corrupt_byte (msgs : List (List Nat)) (k j v : Nat) : List (List Nat) :=
  msgs.set k ((msgs.getD k []).set j v)

/-- The index `k` after the indices `a` and `b` have been exchanged. -/
def exchange (a b k : Nat) : Nat :=
  if k = a then b else if k = b then a else k

/-- The sequence of link messages `msgs` with the messages `a` and `b`
exchanged. -/
def exchange_msgs (msgs : List (List Nat)) (a b : Nat) : List (List Nat) :=
  (List.range msgs.length).map (fun k => msgs.getD (exchange a b k) [])

/-- The packet `p` with its tiles `a` and `b` exchanged. -/
def exchange_tiles (p : List Nat) (a b : Nat) : List Nat :=
  ((List.range ((p.length + 39) / 40)).map (fun k => tile p (exchange a b k))).flatten

/-! ## Example inputs -/

/-- An example packet: CoAP request (type 0, code 2, no token) from the device
address of the rule table with the single option 11 = "b", message id 0x1234
and the payload 7, 8, 9.  It matches rule 2 of `context.cpp`. -/
def example_packet : field_values :=
  { field_values_zero with
    ipv6_version := 6, ipv6_next_header := 17, ipv6_hop_limit := 64,
    ipv6_dev_prefix := [0xFE, 0x80, 0, 0, 0, 0, 0, 0],
    ipv6_dev_iid := [0x08, 0x00, 0x27, 0xFF, 0xFE, 0, 0, 0],
    ipv6_app_prefix := [0xFE, 0x80, 0, 0, 0, 0, 0, 0],
    ipv6_app_iid := [0x0A, 0x00, 0x27, 0xFF, 0xFE, 0x54, 0x2E, 0x4A],
    udp_dev_port := 59355, udp_app_port := 5683, udp_length := 18,
    ipv6_payload_length := 18,
    coap_version := 1, coap_type := 0, coap_code := 2,
    coap_message_id := [0x12, 0x34], coap_option_num := 1,
    coap_option := [⟨11, 1, 98 :: List.replicate 15 0⟩, coap_option_zero, coap_option_zero,
      coap_option_zero],
    coap_payload_length := 3, coap_payload := [7, 8, 9] ++ List.replicate 1277 0 }

/-- An indeterminate `tkl` for every call of `check_matching`, used in
examples. -/
def example_tkl : Nat → Nat → Nat :=
  fun _ _ => 0

/-- Indeterminate contents of the automatic variables of the decompressor,
used in examples. -/
def example_indeterminate : Indeterminate :=
  { tmp := fun _ => [0xAA, 0xBB, 0xCC, 0xDD, 0xEE, 0xFF, 0x11, 0x22],
    packet := List.replicate 128 0x5A }

/-- The packet of the end-to-end scenario of the spec: the example packet as
a non-confirmable request (CoAP type 1) with message id 0x0000. -/
def scenario_packet : field_values :=
  { example_packet with coap_type := 1, coap_message_id := [0, 0] }

/-- The scenario packet as a confirmable request (CoAP type 0). -/
def scenario_packet_con : field_values :=
  { scenario_packet with coap_type := 0 }

/-- A struct with one CoAP option whose number 260 lies between 256 and 268,
of length 1 and value "x". -/
def option_260_packet : field_values :=
  { field_values_zero with
    coap_option_num := 1
    coap_option := [⟨260, 1, 120 :: List.replicate 15 0⟩, coap_option_zero, coap_option_zero,
      coap_option_zero] }

/-! ## Auxiliary definitions for the proofs -/

/-- The arrays of the struct that a row overwrites as a whole have their
declared size. -/
def lengths_ok (F : field_values) : Prop :=
  F.ipv6_dev_prefix.length = 8 ∧ F.ipv6_dev_iid.length = 8 ∧ F.ipv6_app_prefix.length = 8 ∧
  F.ipv6_app_iid.length = 8 ∧ F.coap_message_id.length = 2 ∧
  F.coap_option.length = SCHC_MAX_COAP_OPT

/-- The invariant of the loop of `schc_decompress` over the rows of a rule, in
terms of what is known at that point: the arrays keep their size,
`coap_option_num` is the index of the current option, the options from the
current one on are untouched as far as `k` says, and the values `k` marks as
known are those of the packet `P`. -/
def decompress_inv (P : field_values) (s : DecompressState) (cur : Nat) (k : Known) : Prop :=
  lengths_ok s.fv ∧ s.fv.coap_option_num = cur ∧
  (∀ idx, cur < idx → (s.fv.option_at idx).delta = 0 ∧ (s.fv.option_at idx).length = 0) ∧
  (k.delta_fresh = true → (s.fv.option_at cur).delta = 0) ∧
  (k.len_fresh = true → (s.fv.option_at cur).length = 0) ∧
  (k.tkl = true → s.fv.coap_tkl = P.coap_tkl) ∧
  (k.len = true → (s.fv.option_at cur).length = (P.option_at cur).length) ∧
  (k.clen = true → s.compute_length ≠ 0)

/-- The rows of a list whose field the round trip gives back have in `P'`
the value they have in `P`; `cur` is the index of the current CoAP option at
the first row. -/
def rows_recovered (P P' : field_values) : List field_description → Nat → Prop
  | [], _ => True
  | row :: rest, cur =>
    (row_recovers_in P row cur = true → field_recovered P P' row cur) ∧
      rows_recovered P P' rest (cur_next cur row)

/-- The field `fid` of option `idx` was written by a row already passed and
is not written again by a row that `row_ok` accepts. -/
def key_done (k : Known) (cur : Nat) (fid : fieldid) (idx : Nat) : Prop :=
  match fid with
  | .COAP_OPTION_DELTA => idx < cur ∨ (idx = cur ∧ k.delta_fresh = false)
  | .COAP_OPTION_LENGTH => idx < cur ∨ (idx = cur ∧ k.len_fresh = false)
  | .COAP_OPTION_VALUE => idx < cur
  | _ => fid ∈ k.seen

/-- The value of `coap_payload_length` in `schc_decompress` after its loop
over the rows, which ended in state `s`. -/
def finish_payload_length (len : Nat) (s : DecompressState) : Nat :=
  if s.compute_length ≠ 0 then (len + 2 ^ 32 - s.offset) % 2 ^ 32 else 0

/-- The struct after the block `if (compute_length)` of `schc_decompress`. -/
def finish_lengths (len : Nat) (s : DecompressState) : field_values :=
  if s.compute_length ≠ 0 then
    let coap_header_len := 4 + s.fv.coap_tkl
    let coap_header_len := coap_options_len s.fv s.fv.coap_option_num 0 0 coap_header_len
    let coap_header_len :=
      if finish_payload_length len s > 0 then coap_header_len + 1 else coap_header_len
    let udp_payload_length := (coap_header_len + finish_payload_length len s) % 2 ^ 32
    { s.fv with coap_payload_length := finish_payload_length len s % 256,
                ipv6_payload_length := (udp_payload_length + SIZE_UDP) % 2 ^ 32,
                udp_length := (udp_payload_length + SIZE_UDP) % 2 ^ 32 }
  else s.fv

/-- The struct after the block `if (coap_payload_length > 0)` of
`schc_decompress`. -/
def finish_payload (pkt : List Nat) (offset n : Nat) (fv : field_values) : field_values :=
  if n > 0 then
    { fv with coap_payload := mem_write fv.coap_payload 0 (mem_read pkt offset n) }
  else fv

/-- The struct after the block `if (compute_checksum)` of `schc_decompress`. -/
def finish_checksum (u : Indeterminate) (c : Nat) (fv : field_values) : field_values :=
  if c ≠ 0 then { fv with udp_checksum := compute_udp_checksum u.packet fv } else fv

/-- The struct `G` has the option count of `F` and the value of `F` in every
field that a row can recover. -/
def same_recoverable (F G : field_values) : Prop :=
  G.coap_option_num = F.coap_option_num ∧
  ∀ (P : field_values) (row : field_description) (idx : Nat),
    field_recovered P G row idx ↔ field_recovered P F row idx

/-- The target value of a `NOT_SENT` row fits the field it is written to: a
decimal value in the range of the field (one byte for an option delta or
length), and for an address without the digit 9 the hexadecimal value as
`string_to_bin` reads it. -/
def target_fits (row : field_description) : Bool :=
  row.CDA != .NOT_SENT ||
  (match row.fieldid with
   | .IPV6_VERSION | .IPV6_TRAFFIC_CLASS | .IPV6_NEXT_HEADER | .IPV6_HOP_LIMIT
   | .COAP_VERSION | .COAP_TYPE | .COAP_TKL | .COAP_CODE
   | .COAP_OPTION_DELTA | .COAP_OPTION_LENGTH =>
     decide (0 ≤ atoi row.tv ∧ atoi row.tv < 256)
   | .UDP_DEVPORT | .UDP_APPPORT => decide (0 ≤ atoi row.tv ∧ atoi row.tv < 65536)
   | .IPV6_FLOW_LABEL => decide (0 ≤ atoi row.tv ∧ atoi row.tv < 2 ^ 32)
   | .IPV6_DEV_PREFIX | .IPV6_DEVIID | .IPV6_APP_PREFIX | .IPV6_APPIID =>
     !nine_free row.tv || decide (string_to_bin row.tv = hex_decode row.tv)
   | _ => true)

/-- The invariant of the loop of `schc_decompress` over the rows of a rule on
any packet: the arrays keep their size, `coap_option_num` is the index of the
current option, the options from the current one on are untouched as far as
`k` says, a `COMPUTE_LENGTH` row passed has set the flag, and, when the
packet holds bytes, every option delta and length recovered and the token
length fit one byte. -/
def decompress_inv_any (pkt : List Nat) (s : DecompressState) (cur : Nat) (k : Known) : Prop :=
  lengths_ok s.fv ∧ s.fv.coap_option_num = cur ∧
  (∀ idx, cur < idx → (s.fv.option_at idx).delta = 0 ∧ (s.fv.option_at idx).length = 0) ∧
  (k.delta_fresh = true → (s.fv.option_at cur).delta = 0) ∧
  (k.len_fresh = true → (s.fv.option_at cur).length = 0) ∧
  (k.clen = true → s.compute_length ≠ 0) ∧
  (bytes_ok pkt → ∀ idx, (s.fv.option_at idx).delta ≤ 255 ∧ (s.fv.option_at idx).length ≤ 255) ∧
  (bytes_ok pkt → s.fv.coap_tkl ≤ 255)

/-- The `NOT_SENT` rows of a list have their target value in `F`; `cur` is the
index of the current CoAP option at the first row. -/
def rows_target (F : field_values) : List field_description → Nat → Prop
  | [], _ => True
  | row :: rest, cur =>
    (row.CDA = .NOT_SENT → field_is_target F row cur) ∧ rows_target F rest (cur_next cur row)

/-- The target value of an `EQUALS` row is one that `check_matching` reads as
the spec decodes it: in the range of a field compared as a 32-bit unsigned
value; for an address or the message id without the digit 9, the bytes that
`string_to_bin` gives are those of the hexadecimal decoding. -/
def equals_target_ok (row : field_description) : Bool :=
  row.MO != .EQUALS ||
  (match row.fieldid with
   | .IPV6_FLOW_LABEL | .IPV6_PAYLOAD_LENGTH | .UDP_LENGTH =>
     decide (0 ≤ atoi row.tv ∧ atoi row.tv < 2 ^ 32)
   | .IPV6_DEV_PREFIX | .IPV6_DEVIID | .IPV6_APP_PREFIX | .IPV6_APPIID =>
     !nine_free row.tv || decide (string_to_bin row.tv = hex_decode row.tv)
   | .COAP_MESSAGE_ID =>
     !nine_free row.tv || decide ((string_to_bin row.tv).take 2 = (hex_decode row.tv).take 2)
   | _ => true)

/-- The sum of the 16-bit words of a buffer as the target reads them (low
byte first; an odd last byte counts as it is), without the reduction modulo
`2 ^ 32`.  Used to reason about `crc16_sum`. -/
def word_sum : List Nat → Nat
  | a :: b :: rest => a + 256 * b + word_sum rest
  | [a] => a
  | [] => 0

/-- The invariant of the writes of `create_udpIp6_packet` behind the UDP
header: the buffer `p` still starts with the first 48 bytes of `base`, the
write offset `off` lies behind them and inside `p`, `p` is not shorter than
`base`, and `p` holds bytes. -/
def coap_write_inv (base p : List Nat) (off : Nat) : Prop :=
  p.take 48 = base.take 48 ∧ 48 ≤ off ∧ off ≤ p.length ∧ base.length ≤ p.length ∧ bytes_ok p

/-- The state in which `schc_decompress` leaves its loop over the rows of the
rule that byte 0 of the packet names. -/
def decompress_loop (u : Indeterminate) (schc_packet : List Nat) : DecompressState :=
  decompress_rows u schc_packet (rules.getD (schc_packet.getD 0 0) []) 0
    { fv := field_values_zero, offset := 1, compute_length := 0, compute_checksum := 0 }

/-- The call `schc_decompress (schc_packet, schc_packet_len)` stays inside the
arrays of the code: the buffer holds `schc_packet_len` bytes, at most
`SIZE_MTU_IPV6` (the size of the reassembly buffer); the rows have read no
further than that, so that `schc_packet_len - offset` does not wrap; the
token length recovered fits `coap_token[16]` and the length recovered for
every option fits `value[16]`; and the packet of `SIZE_IPV6 + udp_length`
bytes fits the buffers of `SIZE_MTU_IPV6` bytes that `ipv6_process_rx`
fills. -/
def decompress_in_bounds (u : Indeterminate) (schc_packet : List Nat)
    (schc_packet_len : Nat) : Prop :=
  schc_packet_len ≤ schc_packet.length ∧ schc_packet_len ≤ SIZE_MTU_IPV6 ∧
  (decompress_loop u schc_packet).offset ≤ schc_packet_len ∧
  (decompress_loop u schc_packet).fv.coap_tkl ≤ 16 ∧
  (∀ i, i < SCHC_MAX_COAP_OPT → ((decompress_loop u schc_packet).fv.option_at i).length ≤ 16) ∧
  SIZE_IPV6 + (finish_lengths schc_packet_len (decompress_loop u schc_packet)).udp_length ≤
    SIZE_MTU_IPV6

instance (u : Indeterminate) (schc_packet : List Nat) (schc_packet_len : Nat) :
    Decidable (decompress_in_bounds u schc_packet schc_packet_len) := by
  unfold decompress_in_bounds; infer_instance

/-! ## Lemmas on the memory helpers -/

theorem mem_read_length (src : List Nat) (off n : Nat) : (mem_read src off n).length = n := by
  simp [mem_read]

theorem mem_read_eq_take_drop (src : List Nat) (off n : Nat) (h : off + n ≤ src.length) :
    mem_read src off n = (src.drop off).take n := by
  apply List.ext_getElem
  · simp [mem_read]; omega
  · intro k h1 h2
    simp [mem_read] at h1 ⊢
    rw [List.getElem?_eq_getElem (by omega)]
    simp

theorem mem_read_all (p : List Nat) : mem_read p 0 p.length = p := by
  rw [mem_read_eq_take_drop _ _ _ (by simp)]
  simp

theorem mem_read_append_left (a b : List Nat) : mem_read (a ++ b) 0 a.length = a := by
  rw [mem_read_eq_take_drop _ _ _ (by simp)]
  simp

theorem mem_read_append_right (a b : List Nat) (n : Nat) (h : n ≤ b.length) :
    mem_read (a ++ b) a.length n = b.take n := by
  rw [mem_read_eq_take_drop _ _ _ (by simp; omega)]
  simp

theorem mem_write_length (dst : List Nat) (off : Nat) (src : List Nat)
    (h : off + src.length ≤ dst.length) : (mem_write dst off src).length = dst.length := by
  simp [mem_write]
  omega

theorem mem_write_zero (dst src : List Nat) :
    mem_write dst 0 src = src ++ dst.drop src.length := by
  simp [mem_write]

theorem mem_write_append (a rest src : List Nat) :
    mem_write (a ++ rest) a.length src = a ++ src ++ rest.drop src.length := by
  simp [mem_write]

theorem crc16_lt (data : List Nat) (len : Nat) : crc16 data len < 65536 := by
  unfold crc16
  split
  · decide
  · exact Nat.mod_lt _ (by decide)

theorem le16_bytes_htons (v : Nat) : le16_bytes (htons v) = [v / 256 % 256, v % 256] := by
  have h : (v % 256 * 256 + v / 256 % 256) / 256 = v % 256 := by
    rw [Nat.add_comm, Nat.add_mul_div_right _ _ (by decide),
      Nat.div_eq_of_lt (Nat.mod_lt _ (by decide))]
    simp
  simp only [le16_bytes, htons, h]
  congr 1
  · omega
  · congr 1; omega

theorem drop_four_add (n a b c d : Nat) (rest : List Nat) :
    List.drop (4 + n) (a :: b :: c :: d :: rest) = List.drop n rest := by
  rw [Nat.add_comm]; rfl

theorem tile_length_full (p : List Nat) (k : Nat) (h : 40 * (k + 1) ≤ p.length) :
    (tile p k).length = 40 := by
  simp [tile, SCHC_FRG_TILE_SIZE]; omega

theorem frag_iter_spec (p : List Nat) (nfrag i : Nat) (s : FragState)
    (hn : nfrag = (p.length + 39) / 40) (hi : i < nfrag)
    (hs : s.offset = 40 * i) (hb : s.bytes_left = p.length - 40 * i)
    (hf : s.fr_buff.length = 255) :
    (frag_iter p p.length nfrag i s).queue = s.queue ++ tx_frame (spec_fragment p (crc16 p p.length) nfrag i) ∧
    (i + 1 < nfrag → (frag_iter p p.length nfrag i s).offset = 40 * (i + 1) ∧
      (frag_iter p p.length nfrag i s).bytes_left = p.length - 40 * (i + 1)) ∧
    (frag_iter p p.length nfrag i s).fr_buff.length = 255 := by
  unfold frag_iter
  by_cases hlast : i + 1 < nfrag
  · have h1 : 40 * (i + 1) < p.length := by omega
    have hmin : min SCHC_FRG_TILE_SIZE s.bytes_left = 40 := by
      simp [SCHC_FRG_TILE_SIZE]; omega
    have htile : mem_read p s.offset 40 = tile p i := by
      rw [mem_read_eq_take_drop _ _ _ (by omega), hs]; rfl
    have htl : (tile p i).length = 40 := tile_length_full p i (by omega)
    simp only [hlast, if_true, hmin, htile]
    have hpay : mem_write (List.replicate SCHC_FRG_TILE_SIZE 0) 0 (tile p i) = tile p i := by
      simp [mem_write_zero, htl, SCHC_FRG_TILE_SIZE]
    have hrd : mem_read ([0x80, 0] ++ tile p i) 0 (min 42 255) = [0x80, 0] ++ tile p i := by
      have : min 42 255 = ([0x80, 0] ++ tile p i).length := by simp [htl]
      rw [this, mem_read_all]
    rw [hpay, hrd]
    refine ⟨?_, fun _ => ⟨by omega, by omega⟩, ?_⟩
    · simp only [tx_push_message, spec_fragment, hlast, if_true, tx_frame]
      have h42 : (40 + (42 - 40)) % 256 = ([0x80, 0] ++ tile p i).length := by simp [htl]
      rw [h42, mem_write_zero, mem_read_append_left]
      simp [htl]
    · rw [mem_write_length]
      · exact hf
      · simp [htl, hf]
  · have hi1 : i + 1 = nfrag := by omega
    have hlo : 40 * i < p.length := by omega
    have hhi : p.length ≤ 40 * (i + 1) := by omega
    have hmin : min SCHC_FRG_TILE_SIZE s.bytes_left = p.length - 40 * i := by
      simp [SCHC_FRG_TILE_SIZE]; omega
    have htile : mem_read p s.offset (p.length - 40 * i) = tile p i := by
      rw [mem_read_eq_take_drop _ _ _ (by omega), hs]
      simp [tile, SCHC_FRG_TILE_SIZE]
      omega
    have htl : (tile p i).length = p.length - 40 * i := by
      rw [← htile, mem_read_length]
    simp only [hlast, if_false, hmin, htile]
    have hpay : mem_read (mem_write (List.replicate SCHC_FRG_TILE_SIZE 0) 0 (tile p i)) 0
        (min 255 (p.length - 40 * i)) = tile p i := by
      have : min 255 (p.length - 40 * i) = (tile p i).length := by rw [htl]; omega
      rw [this, mem_write_zero, mem_read_append_left]
    rw [hpay, le16_bytes_htons]
    have hc := crc16_lt p p.length
    have hw : mem_write (mem_write (mem_write (mem_write s.fr_buff 0 [0x80]) 1 [0xFF]) 2
        [crc16 p p.length / 256 % 256, crc16 p p.length % 256]) 4 (tile p i) =
        ([0x80, 0xFF, crc16 p p.length / 256, crc16 p p.length % 256] ++ tile p i) ++
          s.fr_buff.drop (4 + (tile p i).length) := by
      have h256 : crc16 p p.length / 256 % 256 = crc16 p p.length / 256 := by omega
      rw [h256]
      obtain ⟨a, b, c, d, rest, hr⟩ : ∃ a b c d rest, s.fr_buff = a :: b :: c :: d :: rest := by
        match hfb : s.fr_buff with
        | a :: b :: c :: d :: rest => exact ⟨a, b, c, d, rest, rfl⟩
        | [] => simp [hfb] at hf
        | [_] => simp [hfb] at hf
        | [_, _] => simp [hfb] at hf
        | [_, _, _] => simp [hfb] at hf
      rw [hr]
      simp [mem_write, drop_four_add]
    rw [hw]
    refine ⟨?_, fun h => False.elim h, ?_⟩
    · simp only [tx_push_message, spec_fragment, hlast, if_false, tx_frame]
      have hlen : (p.length - 40 * i + 2 + (42 - 40)) % 256 =
          ([0x80, 0xFF, crc16 p p.length / 256, crc16 p p.length % 256] ++ tile p i).length := by
        simp [htl]; omega
      rw [hlen, mem_read_append_left]
      simp
    · simp [htl, hf]
      omega

theorem frag_loop_queue (p : List Nat) (nfrag : Nat) (hn : nfrag = (p.length + 39) / 40) :
    ∀ (n i : Nat) (s : FragState), i + n = nfrag →
      (0 < n → s.offset = 40 * i ∧ s.bytes_left = p.length - 40 * i) →
      s.fr_buff.length = 255 →
      (frag_loop p p.length nfrag n i s).queue =
        s.queue ++ ((List.range n).map (fun k => tx_frame (spec_fragment p (crc16 p p.length) nfrag (i + k)))).flatten := by
  intro n
  induction n with
  | zero => intro i s _ _ _; simp [frag_loop]
  | succ n ih =>
    intro i s hin hinv hf
    obtain ⟨hs, hb⟩ := hinv (Nat.succ_pos n)
    obtain ⟨hq, hnext, hf2⟩ := frag_iter_spec p nfrag i s hn (by omega) hs hb hf
    rw [frag_loop, ih (i + 1) _ (by omega) (fun hpos => hnext (by omega)) hf2, hq,
      List.range_succ_eq_map]
    simp [List.map_map, Function.comp_def, Nat.add_assoc, Nat.add_comm 1]

theorem schc_fragmentate_queue (queue p : List Nat) (hL : 40 < p.length) :
    (schc_fragmentate queue p p.length).queue =
      queue ++ ((spec_fragments p (crc16 p p.length)).map tx_frame).flatten := by
  have hnf : p.length / SCHC_FRG_TILE_SIZE +
      (if p.length % SCHC_FRG_TILE_SIZE ≠ 0 then 1 else 0) = (p.length + 39) / 40 := by
    simp only [SCHC_FRG_TILE_SIZE]
    split <;> omega
  have hgt : ¬ p.length ≤ MAX_SCHC_PKT_LEN := by simp [MAX_SCHC_PKT_LEN]; omega
  simp only [schc_fragmentate, hgt, if_false, hnf]
  rw [frag_loop_queue p _ rfl _ 0 _ (Nat.zero_add _) (fun _ => ⟨rfl, by simp⟩)
    (List.length_replicate _ _)]
  simp [spec_fragments, List.map_map, Function.comp_def]

theorem tx_messages_aux_frames (msgs : List (List Nat)) (h : ∀ m ∈ msgs, m.length < 256) :
    ∀ fuel, msgs.length ≤ fuel →
      tx_messages_aux fuel ((msgs.map tx_frame).flatten) = msgs := by
  induction msgs with
  | nil => intro fuel _; cases fuel <;> simp [tx_messages_aux]
  | cons m rest ih =>
    intro fuel hfuel
    cases fuel with
    | zero => simp at hfuel
    | succ fuel =>
      have hm : m.length % 256 = m.length := Nat.mod_eq_of_lt (h m (by simp))
      have hshape : ((m :: rest).map tx_frame).flatten =
          m.length :: (m ++ (rest.map tx_frame).flatten) := by
        simp [tx_frame, hm]
      rw [hshape, tx_messages_aux, List.take_left, List.drop_left,
        ih (fun x hx => h x (by simp [hx])) fuel (by simpa using hfuel)]

theorem frames_length_ge (msgs : List (List Nat)) :
    msgs.length ≤ ((msgs.map tx_frame).flatten).length := by
  induction msgs with
  | nil => simp
  | cons m rest ih =>
    simp only [List.map_cons, List.flatten_cons, List.length_append, List.length_cons, tx_frame]
    omega

theorem tx_messages_frames (msgs : List (List Nat)) (h : ∀ m ∈ msgs, m.length < 256) :
    tx_messages ((msgs.map tx_frame).flatten) = msgs :=
  tx_messages_aux_frames msgs h _ (frames_length_ge msgs)

theorem mem_read_take (buf : List Nat) (len off n : Nat) (h : off + n ≤ len) :
    mem_read (buf.take len) off n = mem_read buf off n := by
  unfold mem_read
  apply List.map_congr_left
  intro k hk
  have hk' : k < n := by simpa using hk
  simp only [List.getD_eq_getElem?_getD]
  rw [List.getElem?_take_of_lt (by omega)]

theorem crc16_take (buf : List Nat) (len : Nat) : crc16 (buf.take len) len = crc16 buf len := by
  unfold crc16
  rw [mem_read_take buf len 0 len (by omega)]

theorem frag_iter_take (buf : List Nat) (len nfrag i : Nat) (s : FragState)
    (h : s.offset + s.bytes_left = len) :
    frag_iter (buf.take len) len nfrag i s = frag_iter buf len nfrag i s := by
  have h1 : mem_read (buf.take len) s.offset (min SCHC_FRG_TILE_SIZE s.bytes_left) =
      mem_read buf s.offset (min SCHC_FRG_TILE_SIZE s.bytes_left) :=
    mem_read_take buf len _ _ (by have := Nat.min_le_right SCHC_FRG_TILE_SIZE s.bytes_left; omega)
  simp only [frag_iter, h1, crc16_take]

theorem frag_iter_inv (buf : List Nat) (len nfrag i : Nat) (s : FragState)
    (h : s.offset + s.bytes_left = len) :
    (frag_iter buf len nfrag i s).offset + (frag_iter buf len nfrag i s).bytes_left = len := by
  unfold frag_iter
  split <;> simp only <;> omega

theorem frag_loop_take (buf : List Nat) (len nfrag : Nat) :
    ∀ (n i : Nat) (s : FragState), s.offset + s.bytes_left = len →
      frag_loop (buf.take len) len nfrag n i s = frag_loop buf len nfrag n i s := by
  intro n
  induction n with
  | zero => intro i s _; rfl
  | succ n ih =>
    intro i s h
    rw [frag_loop, frag_loop, frag_iter_take buf len nfrag i s h,
      ih (i + 1) _ (frag_iter_inv buf len nfrag i s h)]

theorem schc_fragmentate_take (queue buf : List Nat) (len : Nat) :
    schc_fragmentate queue (buf.take len) len = schc_fragmentate queue buf len := by
  simp only [schc_fragmentate, tx_push_message, mem_read_take buf len 0 len (by omega)]
  split
  · rfl
  · rw [frag_loop_take buf len _ _ _ _ (by simp)]

theorem tile_length_le (p : List Nat) (k : Nat) : (tile p k).length ≤ 40 := by
  simp [tile, SCHC_FRG_TILE_SIZE]

theorem spec_fragment_length_lt (p : List Nat) (mic n k : Nat) :
    (spec_fragment p mic n k).length < 256 := by
  have := tile_length_le p k
  unfold spec_fragment
  split <;> simp <;> omega

theorem spec_fragments_length (p : List Nat) (mic : Nat) :
    (spec_fragments p mic).length = (p.length + 39) / 40 := by
  simp [spec_fragments]

theorem spec_fragments_getD (p : List Nat) (mic k : Nat) (hk : k < (p.length + 39) / 40) :
    (spec_fragments p mic).getD k [] = spec_fragment p mic ((p.length + 39) / 40) k := by
  simp [spec_fragments, List.getD_eq_getElem?_getD, List.getElem?_map, List.getElem?_range hk]

theorem tx_messages_fragmentate (buf : List Nat) (len : Nat) (hbuf : len ≤ buf.length)
    (hL : 40 < len) :
    tx_messages (schc_fragmentate [] buf len).queue =
      spec_fragments (buf.take len) (crc16 buf len) := by
  have hl : (buf.take len).length = len := by simp; omega
  rw [← schc_fragmentate_take, ← crc16_take]
  have := schc_fragmentate_queue [] (buf.take len) (by omega)
  rw [hl] at this
  rw [this, List.nil_append, tx_messages_frames]
  intro m hm
  simp only [spec_fragments, List.mem_map] at hm
  obtain ⟨k, _, rfl⟩ := hm
  exact spec_fragment_length_lt _ _ _ _

theorem schc_fragmentate_ret (queue buf : List Nat) (len : Nat) :
    (schc_fragmentate queue buf len).ret = 0 := by
  unfold schc_fragmentate
  split <;> rfl

/-- C7 (pass-through): a compressed packet of `schc_packet_len ≤ 40` bytes,
40 included, is pushed onto the transmit queue as its length byte followed by
its bytes, unchanged; the queue then holds exactly one link message, the
packet itself, with no fragmentation header and no integrity bytes. -/
theorem schc_fragmentate_pass_through (queue schc_packet : List Nat) (schc_packet_len : Nat)
    (hbuf : schc_packet_len ≤ schc_packet.length)
    (hL : schc_packet_len ≤ MAX_SCHC_PKT_LEN) :
    schc_fragmentate queue schc_packet schc_packet_len =
      { queue := queue ++ schc_packet_len :: schc_packet.take schc_packet_len, ret := 0 } ∧
    tx_messages (schc_fragmentate [] schc_packet schc_packet_len).queue =
      [schc_packet.take schc_packet_len] := by
  have hread : mem_read schc_packet 0 schc_packet_len = schc_packet.take schc_packet_len := by
    rw [mem_read_eq_take_drop _ _ _ (by omega)]; simp
  have hmod : schc_packet_len % 256 = schc_packet_len :=
    Nat.mod_eq_of_lt (by simp only [MAX_SCHC_PKT_LEN] at hL; omega)
  have hq : ∀ q, schc_fragmentate q schc_packet schc_packet_len =
      { queue := q ++ schc_packet_len :: schc_packet.take schc_packet_len, ret := 0 } := by
    intro q
    simp [schc_fragmentate, hL, tx_push_message, hread, hmod]
  refine ⟨hq queue, ?_⟩
  rw [hq []]
  have hl : (schc_packet.take schc_packet_len).length = schc_packet_len := by simp; omega
  have := tx_messages_frames [schc_packet.take schc_packet_len] (by
    intro m hm
    simp only [List.mem_singleton] at hm
    subst hm
    simp only [MAX_SCHC_PKT_LEN] at hL
    rw [hl]; omega)
  simpa [tx_frame, hl, hmod] using this

/-- Witness of C7 at the boundary: a packet of exactly 40 bytes. -/
theorem schc_fragmentate_pass_through_witness :
    40 ≤ (List.range 40).length ∧ 40 ≤ MAX_SCHC_PKT_LEN ∧
    tx_messages (schc_fragmentate [] (List.range 40) 40).queue = [(List.range 40).take 40] :=
  ⟨by decide, by decide,
    (schc_fragmentate_pass_through [] (List.range 40) 40 (by decide) (by decide)).2⟩

/-- C8 (fragment count): a compressed packet of `schc_packet_len > 40` bytes
is queued as exactly `ceil (schc_packet_len / 40)` link messages and nothing
else; message `k` but the last carries, after its 2-byte header, the 40 bytes
of the packet from `40 * k` on, and the last carries, after its 4-byte header,
the rest of the packet: `schc_packet_len % 40` bytes, or 40 when that is 0. -/
theorem schc_fragmentate_count (queue schc_packet : List Nat) (schc_packet_len : Nat)
    (hbuf : schc_packet_len ≤ schc_packet.length)
    (hL : MAX_SCHC_PKT_LEN < schc_packet_len) :
    (schc_fragmentate queue schc_packet schc_packet_len).queue =
      queue ++ ((tx_messages (schc_fragmentate [] schc_packet schc_packet_len).queue).map
        tx_frame).flatten ∧
    (tx_messages (schc_fragmentate [] schc_packet schc_packet_len).queue).length =
      (schc_packet_len + 39) / 40 ∧
    (∀ k, k + 1 < (schc_packet_len + 39) / 40 →
      ((tx_messages (schc_fragmentate [] schc_packet schc_packet_len).queue).getD k []).drop 2 =
        ((schc_packet.take schc_packet_len).drop (40 * k)).take 40 ∧
      (((schc_packet.take schc_packet_len).drop (40 * k)).take 40).length = 40) ∧
    ((tx_messages (schc_fragmentate [] schc_packet schc_packet_len).queue).getD
        ((schc_packet_len + 39) / 40 - 1) []).drop 4 =
      (schc_packet.take schc_packet_len).drop (40 * ((schc_packet_len + 39) / 40 - 1)) ∧
    ((schc_packet.take schc_packet_len).drop (40 * ((schc_packet_len + 39) / 40 - 1))).length =
      (if schc_packet_len % 40 = 0 then 40 else schc_packet_len % 40) := by
  simp only [MAX_SCHC_PKT_LEN] at hL
  have hl : (schc_packet.take schc_packet_len).length = schc_packet_len := by simp; omega
  rw [tx_messages_fragmentate _ _ hbuf hL]
  refine ⟨?_, ?_, ?_, ?_, ?_⟩
  · rw [← schc_fragmentate_take, ← crc16_take]
    have := schc_fragmentate_queue queue (schc_packet.take schc_packet_len) (by omega)
    rw [hl] at this
    exact this
  · rw [spec_fragments_length, hl]
  · intro k hk
    rw [spec_fragments_getD _ _ _ (by rw [hl]; omega), hl]
    simp only [spec_fragment, hk, if_true, tile, SCHC_FRG_TILE_SIZE]
    refine ⟨by simp, ?_⟩
    simp
    omega
  · rw [spec_fragments_getD _ _ _ (by rw [hl]; omega), hl]
    have hlast : ¬ ((schc_packet_len + 39) / 40 - 1 + 1 < (schc_packet_len + 39) / 40) := by
      omega
    simp only [spec_fragment, hlast, if_false, tile, SCHC_FRG_TILE_SIZE]
    simp
    omega
  · simp
    split <;> omega

/-- Witness of C8 at the boundary `limit + 1`: a packet of 41 bytes gives 2
messages, carrying 40 bytes and 1 byte of the packet. -/
theorem schc_fragmentate_count_witness :
    41 ≤ (List.range 41).length ∧ MAX_SCHC_PKT_LEN < 41 ∧
    (tx_messages (schc_fragmentate [] (List.range 41) 41).queue).length = 2 ∧
    ((tx_messages (schc_fragmentate [] (List.range 41) 41).queue).getD 0 []).drop 2 =
      List.range 40 ∧
    ((tx_messages (schc_fragmentate [] (List.range 41) 41).queue).getD 1 []).drop 4 = [40] :=
  ⟨by decide, by decide,
    (schc_fragmentate_count [] (List.range 41) 41 (by decide) (by decide)).2.1,
    ((schc_fragmentate_count [] (List.range 41) 41 (by decide) (by decide)).2.2.1 0
      (by decide)).1,
    (schc_fragmentate_count [] (List.range 41) 41 (by decide) (by decide)).2.2.2.1⟩

/-! ## Lemmas on `crc16` -/

theorem crc16_sum_eq (l : List Nat) : ∀ acc, acc < 2 ^ 32 →
    crc16_sum l acc = (acc + word_sum l) % 2 ^ 32 := by
  induction l using word_sum.induct with
  | case1 a b rest ih =>
    intro acc hacc
    rw [crc16_sum, ih _ (Nat.mod_lt _ (by decide)), word_sum]
    omega
  | case2 a =>
    intro acc _
    simp [crc16_sum, word_sum]
  | case3 =>
    intro acc hacc
    simp only [crc16_sum, word_sum]
    omega

theorem word_sum_le (l : List Nat) (h : bytes_ok l) :
    word_sum l ≤ 65535 * ((l.length + 1) / 2) := by
  induction l using word_sum.induct with
  | case1 a b rest ih =>
    have ha : a < 256 := h a (by simp)
    have hb : b < 256 := h b (by simp)
    have := ih (fun x hx => h x (by simp [hx]))
    simp only [word_sum, List.length_cons]
    omega
  | case2 a =>
    have ha : a < 256 := h a (by simp)
    simp only [word_sum, List.length_cons, List.length_nil]
    omega
  | case3 => simp [word_sum]

/-- The weight of byte `i` in `word_sum`. -/
theorem word_sum_set (l : List Nat) : ∀ (i v : Nat), i < l.length →
    word_sum (l.set i v) + (if i % 2 = 0 then 1 else 256) * l.getD i 0 =
      word_sum l + (if i % 2 = 0 then 1 else 256) * v := by
  induction l using word_sum.induct with
  | case1 a b rest ih =>
    intro i v hi
    match i with
    | 0 => simp [word_sum]; omega
    | 1 => simp [word_sum]; omega
    | i + 2 =>
      have := ih i v (by simpa using hi)
      simp only [List.set_cons_succ, word_sum, List.getD_cons_succ]
      have hmod : (i + 2) % 2 = i % 2 := by omega
      rw [hmod]
      omega
  | case2 a =>
    intro i v hi
    have : i = 0 := by simpa using hi
    subst this
    simp [word_sum]
    omega
  | case3 => intro i v hi; simp at hi

theorem crc16_fold_aux_eq (fuel u l : Nat) (hu : u < 65536) (hl : l < 65536)
    (hfuel : u + l ≤ fuel) :
    crc16_fold_aux fuel u l = if u + l < 65536 then u + l else u + l - 65535 := by
  match fuel with
  | 0 =>
    have : u + l = 0 := by omega
    simp [crc16_fold_aux, this]
  | 1 =>
    have hlt : u + l < 65536 := by omega
    have hdiv : (u + l) / 65536 = 0 := Nat.div_eq_of_lt hlt
    simp [crc16_fold_aux, hdiv, hlt]
  | fuel + 2 =>
    by_cases hlt : u + l < 65536
    · have hdiv : (u + l) / 65536 = 0 := Nat.div_eq_of_lt hlt
      simp [crc16_fold_aux, hdiv, hlt]
    · have hdiv : (u + l) / 65536 = 1 := by omega
      have hmod : (u + l) % 65536 = u + l - 65536 := by omega
      have h2 : (1 + (u + l - 65536)) / 65536 = 0 := by omega
      simp only [crc16_fold_aux, hdiv, hmod, h2, hlt, if_false]
      simp
      omega

/-- The folding loop has reached its exit condition: the upper half of the
returned sum is 0, and the sum is the one the C loop ends with. -/
theorem crc16_fold_exit (u l : Nat) (hu : u < 65536) (hl : l < 65536) :
    crc16_fold u l / 65536 = 0 ∧
    crc16_fold u l = if u + l < 65536 then u + l else u + l - 65535 := by
  have h := crc16_fold_aux_eq (u + l) u l hu hl (Nat.le_refl _)
  unfold crc16_fold
  rw [h]
  refine ⟨?_, rfl⟩
  split <;> omega

theorem htons_lt (v : Nat) : htons v < 65536 := by
  unfold htons
  omega

theorem htons_inj (a b : Nat) (ha : a < 65536) (hb : b < 65536) (h : htons a = htons b) :
    a = b := by
  unfold htons at h
  omega

/-- The value of `crc16` on a buffer of bytes short enough for the 32-bit sum
not to wrap. -/
theorem crc16_eq (p : List Nat) (hp : bytes_ok p) (hlen : p.length ≤ 1280)
    (hne : p.length ≠ 0) :
    crc16 p p.length =
      65535 - htons (crc16_fold (word_sum p / 65536) (word_sum p % 65536)) ∧
    crc16_fold (word_sum p / 65536) (word_sum p % 65536) < 65536 ∧
    crc16_fold (word_sum p / 65536) (word_sum p % 65536) % 65535 = word_sum p % 65535 ∧
    word_sum p < 2 ^ 32 := by
  have hb := word_sum_le p hp
  have hlt : word_sum p < 2 ^ 32 := by
    have : (p.length + 1) / 2 ≤ 640 := by omega
    have : 65535 * ((p.length + 1) / 2) ≤ 65535 * 640 := Nat.mul_le_mul_left _ this
    omega
  have hsum : crc16_sum (mem_read p 0 p.length) 0 = word_sum p := by
    rw [mem_read_all, crc16_sum_eq _ _ (by decide), Nat.zero_add, Nat.mod_eq_of_lt hlt]
  have hu : word_sum p / 65536 < 65536 := by omega
  have hl : word_sum p % 65536 < 65536 := Nat.mod_lt _ (by decide)
  obtain ⟨_, hfold⟩ := crc16_fold_exit _ _ hu hl
  have hF : crc16_fold (word_sum p / 65536) (word_sum p % 65536) < 65536 := by
    rw [hfold]; split <;> omega
  refine ⟨?_, hF, ?_, hlt⟩
  · simp only [crc16, hne, if_false, hsum, Nat.mod_eq_of_lt hF]
    have := htons_lt (crc16_fold (word_sum p / 65536) (word_sum p % 65536))
    omega
  · rw [hfold]; split <;> omega

theorem crc16_set_ne (p : List Nat) (i v : Nat) (hp : bytes_ok p) (hv : v < 256)
    (hlen : p.length ≤ 1280) (hi : i < p.length) (hne : p.getD i 0 ≠ v) :
    crc16 (p.set i v) p.length ≠ crc16 p p.length := by
  have hp' : bytes_ok (p.set i v) := by
    intro b hb
    rcases List.mem_or_eq_of_mem_set hb with h | h
    · exact hp b h
    · rw [h]; exact hv
  have hold : p.getD i 0 < 256 := by
    rw [List.getD_eq_getElem _ _ hi]
    exact hp _ (List.getElem_mem _)
  obtain ⟨h1, h2, h3, h4⟩ := crc16_eq p hp hlen (by omega)
  obtain ⟨h1', h2', h3', h4'⟩ := crc16_eq (p.set i v) hp' (by simpa using hlen)
    (by rw [List.length_set]; omega)
  rw [List.length_set] at h1'
  intro heq
  rw [h1, h1'] at heq
  have hh1 := htons_lt (crc16_fold (word_sum p / 65536) (word_sum p % 65536))
  have hh2 := htons_lt (crc16_fold (word_sum (p.set i v) / 65536) (word_sum (p.set i v) % 65536))
  have hfe := htons_inj _ _ h2' h2 (by omega)
  rw [hfe] at h3'
  have hws := word_sum_set p i v hi
  have hmod : word_sum (p.set i v) % 65535 = word_sum p % 65535 := by rw [← h3', h3]
  split at hws <;> omega

/-! ## Lemmas on `schc_reassemble` -/

theorem schc_reassemble_nonlast (u : Indeterminate) (st : ReassemblyState) (t : List Nat)
    (ht : t.length = 40) :
    schc_reassemble u st ([0x80, 0x00] ++ t) 42 =
      { state := { schc_reassemble_buf :=
                     mem_write st.schc_reassemble_buf st.schc_reassemble_offset t,
                   schc_reassemble_offset := (st.schc_reassemble_offset + 40) % 2 ^ 32 },
        ret := 0, decompress_call := none, decompressed := none } := by
  have hn : to_uint 32 (((42 : Nat) : Int) - 2) = 40 := by decide
  have hr : mem_read ([0x80, 0x00] ++ t) 2 40 = t := by
    have := mem_read_append_right [0x80, 0x00] t 40 (by omega)
    simp only [List.length_cons, List.length_nil] at this
    rw [this, ← ht, List.take_length]
  have h0 : ([0x80, 0x00] ++ t).getD 0 0 = 0x80 := rfl
  have h1 : ([0x80, 0x00] ++ t).getD 1 0 = 0 := rfl
  simp only [schc_reassemble, h0, h1, SCHC_FRG_RULEID, hn, hr]
  simp

theorem schc_reassemble_last (u : Indeterminate) (st : ReassemblyState) (hi lo : Nat)
    (t : List Nat) (ht : t.length ≤ 40) :
    schc_reassemble u st ([0x80, 0xFF, hi, lo] ++ t) (t.length + 4) =
      if [hi, lo] = le16_bytes (ntohs (crc16
          (mem_write st.schc_reassemble_buf st.schc_reassemble_offset t)
          ((st.schc_reassemble_offset + t.length) % 2 ^ 32))) then
        { state := { schc_reassemble_buf :=
                       mem_write st.schc_reassemble_buf st.schc_reassemble_offset t,
                     schc_reassemble_offset := 0 },
          ret := 0,
          decompress_call := some
            (mem_write st.schc_reassemble_buf st.schc_reassemble_offset t,
              (st.schc_reassemble_offset + t.length) % 2 ^ 32),
          decompressed := some (schc_decompress u
            (mem_write st.schc_reassemble_buf st.schc_reassemble_offset t)
            ((st.schc_reassemble_offset + t.length) % 2 ^ 32)) }
      else
        { state := { schc_reassemble_buf :=
                       mem_write st.schc_reassemble_buf st.schc_reassemble_offset t,
                     schc_reassemble_offset := 0 },
          ret := 0, decompress_call := none, decompressed := none } := by
  have hn : to_uint 32 (((t.length + 4 : Nat) : Int) - 4) = t.length := by
    simp only [to_uint]
    have : ((t.length + 4 : Nat) : Int) - 4 = (t.length : Int) := by omega
    rw [this]
    have h2 : (t.length : Int) % (2 ^ 32 : Int) = (t.length : Int) := by omega
    rw [h2]
    simp
  have hr : mem_read ([0x80, 0xFF, hi, lo] ++ t) 4 t.length = t := by
    have := mem_read_append_right [0x80, 0xFF, hi, lo] t t.length (Nat.le_refl _)
    simp only [List.length_cons, List.length_nil] at this
    rw [this, List.take_length]
  have hm : mem_read ([0x80, 0xFF, hi, lo] ++ t) 2 2 = [hi, lo] := by
    simp [mem_read, List.range_succ]
  have h0 : ([0x80, 0xFF, hi, lo] ++ t).getD 0 0 = 0x80 := rfl
  have h1 : ([0x80, 0xFF, hi, lo] ++ t).getD 1 0 = 0xFF := rfl
  simp only [schc_reassemble, h0, h1, SCHC_FRG_RULEID, hn, hr, hm]
  simp

theorem take_mem_write (b : List Nat) (off : Nat) (t : List Nat) (h : off ≤ b.length) :
    (mem_write b off t).take (off + t.length) = b.take off ++ t := by
  unfold mem_write
  have hl : (b.take off ++ t).length = off + t.length := by simp; omega
  rw [← hl, List.take_left]

theorem tile_eq_drop (p : List Nat) (i : Nat) (h : p.length ≤ 40 * (i + 1)) :
    tile p i = p.drop (40 * i) := by
  simp only [tile, SCHC_FRG_TILE_SIZE]
  apply List.take_of_length_le
  simp; omega

theorem take_append_tile (p : List Nat) (i : Nat) :
    p.take (40 * i) ++ tile p i = p.take (40 * (i + 1)) := by
  simp only [tile, SCHC_FRG_TILE_SIZE]
  rw [Nat.mul_add, Nat.mul_one, List.take_add]

theorem mic_bytes_eq (mic c : Nat) (hm : mic < 65536) (hc : c < 65536) :
    [mic / 256, mic % 256] = le16_bytes (ntohs c) ↔ mic = c := by
  rw [ntohs, le16_bytes_htons]
  constructor
  · intro h
    simp only [List.cons.injEq, and_true] at h
    omega
  · intro h
    subst h
    simp only [List.cons.injEq, and_true]
    omega

/-- Feeding the fragments of `p` from tile `i` on, the last one carrying the
integrity value `mic`, to a reassembler that holds the first `40 * i` bytes
of `p`: no call reaches `schc_decompress` before the last one, and the last
one does exactly when `mic` is the checksum of `p`. -/
theorem reassemble_run_fragments (u : Indeterminate) (p : List Nat) (mic : Nat)
    (hmic : mic < 65536) (hp : p.length ≤ 1280) :
    ∀ (m i : Nat) (st : ReassemblyState), i + m = (p.length + 39) / 40 → 0 < m →
      st.schc_reassemble_offset = 40 * i → st.schc_reassemble_buf.length = 1280 →
      st.schc_reassemble_buf.take (40 * i) = p.take (40 * i) →
      ∃ pre buf,
        reassemble_run u st
          ((List.range m).map (fun k => spec_fragment p mic ((p.length + 39) / 40) (i + k))) =
          pre ++ [if mic = crc16 p p.length then
              { state := { schc_reassemble_buf := buf, schc_reassemble_offset := 0 },
                ret := 0, decompress_call := some (buf, p.length),
                decompressed := some (schc_decompress u buf p.length) }
            else
              { state := { schc_reassemble_buf := buf, schc_reassemble_offset := 0 },
                ret := 0, decompress_call := none, decompressed := none }] ∧
        (∀ r ∈ pre, r.decompress_call = none ∧ r.decompressed = none ∧ r.ret = 0) ∧
        pre.length + 1 = m ∧ buf.length = 1280 ∧ buf.take p.length = p := by
  intro m
  induction m with
  | zero => intro i st _ h; omega
  | succ m ih =>
    intro i st him _ hoff hlen htake
    by_cases hlast : i + 1 < (p.length + 39) / 40
    · -- a fragment that is not the last one
      have hm : 0 < m := by omega
      have h40 : 40 * (i + 1) < p.length := by omega
      have htl : (tile p i).length = 40 := tile_length_full p i (by omega)
      have hstep := schc_reassemble_nonlast u st (tile p i) htl
      have hmsg : spec_fragment p mic ((p.length + 39) / 40) i = [0x80, 0x00] ++ tile p i := by
        simp [spec_fragment, hlast]
      have hbl : (mem_write st.schc_reassemble_buf st.schc_reassemble_offset (tile p i)).length
          = 1280 := by
        rw [mem_write_length _ _ _ (by rw [hoff, htl, hlen]; omega), hlen]
      have hbt : (mem_write st.schc_reassemble_buf st.schc_reassemble_offset (tile p i)).take
          (40 * (i + 1)) = p.take (40 * (i + 1)) := by
        have := take_mem_write st.schc_reassemble_buf st.schc_reassemble_offset (tile p i)
          (by rw [hoff, hlen]; omega)
        rw [hoff, htl] at this
        rw [hoff, Nat.mul_add, Nat.mul_one, this, htake, take_append_tile, Nat.mul_add,
          Nat.mul_one]
      obtain ⟨pre, buf, hrun, hpre, hpl, hbuf, hbp⟩ := ih (i + 1)
        { schc_reassemble_buf :=
            mem_write st.schc_reassemble_buf st.schc_reassemble_offset (tile p i),
          schc_reassemble_offset := (st.schc_reassemble_offset + 40) % 2 ^ 32 }
        (by omega) hm (by simp only [hoff]; omega) hbl hbt
      refine ⟨(ReassembleResult.mk
          (ReassemblyState.mk
            (mem_write st.schc_reassemble_buf st.schc_reassemble_offset (tile p i))
            ((st.schc_reassemble_offset + 40) % 2 ^ 32)) 0 none none) :: pre, buf, ?_, ?_,
        by simp; omega, hbuf, hbp⟩
      · rw [List.range_succ_eq_map, List.map_cons, List.map_map, reassemble_run]
        simp only [Nat.add_zero, hmsg]
        have h42 : ([0x80, 0x00] ++ tile p i).length % 256 = 42 := by simp [htl]
        rw [h42, hstep]
        simp only [List.cons_append, List.cons.injEq, true_and]
        rw [← hrun]
        congr 2
        funext k
        simp [Function.comp, Nat.add_assoc, Nat.add_comm 1]
      · intro r hr
        rcases List.mem_cons.mp hr with h | h
        · subst h; exact ⟨rfl, rfl, rfl⟩
        · exact hpre r h
    · -- the last fragment
      have hm : m = 0 := by omega
      subst hm
      have hlo : 40 * i < p.length := by omega
      have hhi : p.length ≤ 40 * (i + 1) := by omega
      have htd : tile p i = p.drop (40 * i) := tile_eq_drop p i hhi
      have htl : (tile p i).length = p.length - 40 * i := by rw [htd]; simp
      have hmsg : spec_fragment p mic ((p.length + 39) / 40) i =
          [0x80, 0xFF, mic / 256, mic % 256] ++ tile p i := by
        simp [spec_fragment, hlast]
      have hstep := schc_reassemble_last u st (mic / 256) (mic % 256) (tile p i)
        (by rw [htl]; omega)
      have hoff2 : (st.schc_reassemble_offset + (tile p i).length) % 2 ^ 32 = p.length := by
        rw [hoff, htl]; omega
      have hbl : (mem_write st.schc_reassemble_buf st.schc_reassemble_offset (tile p i)).length
          = 1280 := by
        rw [mem_write_length _ _ _ (by rw [hoff, htl, hlen]; omega), hlen]
      have hbt : (mem_write st.schc_reassemble_buf st.schc_reassemble_offset (tile p i)).take
          p.length = p := by
        have := take_mem_write st.schc_reassemble_buf st.schc_reassemble_offset (tile p i)
          (by rw [hoff, hlen]; omega)
        rw [hoff, htl] at this
        have hpl : 40 * i + (p.length - 40 * i) = p.length := by omega
        rw [hpl] at this
        rw [hoff, this, htake, htd, List.take_append_drop]
      have hcrc : crc16 (mem_write st.schc_reassemble_buf st.schc_reassemble_offset (tile p i))
          p.length = crc16 p p.length := by
        rw [← crc16_take, hbt]
      rw [hoff2, hcrc] at hstep
      refine ⟨[], _, ?_, by simp, by simp, hbl, hbt⟩
      have hr1 : List.range (0 + 1) = [0] := rfl
      simp only [hr1, List.map_cons, List.map_nil, Nat.add_zero, hmsg,
        reassemble_run, List.nil_append]
      have h4 : ([0x80, 0xFF, mic / 256, mic % 256] ++ tile p i).length % 256 =
          (tile p i).length + 4 := by
        simp [htl]; omega
      rw [h4, hstep]
      by_cases hmc : mic = crc16 p p.length
      · rw [if_pos ((mic_bytes_eq _ _ hmic (crc16_lt _ _)).mpr hmc), if_pos hmc]
      · rw [if_neg (mt (mic_bytes_eq _ _ hmic (crc16_lt _ _)).mp hmc), if_neg hmc]

/-- C9 (fragment format): for a compressed packet of `schc_packet_len > 40`
bytes every queued message but the last is `[0x80, 0x00]` followed by its
40-byte tile, 42 bytes in all, and the last message is `[0x80, 0xFF, hi, lo]`
followed by the last tile, where `hi`, `lo` are the big-endian bytes of
`crc16` of the whole packet. -/
theorem schc_fragmentate_format (schc_packet : List Nat) (schc_packet_len : Nat)
    (hbuf : schc_packet_len ≤ schc_packet.length)
    (hL : MAX_SCHC_PKT_LEN < schc_packet_len) :
    (∀ k, k + 1 < (schc_packet_len + 39) / 40 →
      (tx_messages (schc_fragmentate [] schc_packet schc_packet_len).queue).getD k [] =
        [0x80, 0x00] ++ ((schc_packet.take schc_packet_len).drop (40 * k)).take 40 ∧
      ((tx_messages (schc_fragmentate [] schc_packet schc_packet_len).queue).getD k []).length
        = 42) ∧
    (tx_messages (schc_fragmentate [] schc_packet schc_packet_len).queue).getD
        ((schc_packet_len + 39) / 40 - 1) [] =
      [0x80, 0xFF, crc16 schc_packet schc_packet_len / 256,
          crc16 schc_packet schc_packet_len % 256] ++
        (schc_packet.take schc_packet_len).drop (40 * ((schc_packet_len + 39) / 40 - 1)) ∧
    256 * (crc16 schc_packet schc_packet_len / 256) + crc16 schc_packet schc_packet_len % 256 =
      crc16 (schc_packet.take schc_packet_len) schc_packet_len ∧
    crc16 schc_packet schc_packet_len / 256 < 256 := by
  simp only [MAX_SCHC_PKT_LEN] at hL
  have hl : (schc_packet.take schc_packet_len).length = schc_packet_len := by simp; omega
  have hc := crc16_lt schc_packet schc_packet_len
  rw [tx_messages_fragmentate _ _ hbuf hL]
  refine ⟨?_, ?_, ?_, by omega⟩
  · intro k hk
    rw [spec_fragments_getD _ _ _ (by rw [hl]; omega), hl]
    simp only [spec_fragment, hk, if_true, tile, SCHC_FRG_TILE_SIZE]
    refine ⟨trivial, ?_⟩
    simp
    omega
  · rw [spec_fragments_getD _ _ _ (by rw [hl]; omega), hl]
    have hlast : ¬ ((schc_packet_len + 39) / 40 - 1 + 1 < (schc_packet_len + 39) / 40) := by
      omega
    simp only [spec_fragment, hlast, if_false]
    rw [tile_eq_drop _ _ (by rw [hl]; omega)]
  · rw [crc16_take]
    omega

/-- Witness of C9: the two messages of a packet of 41 bytes. -/
theorem schc_fragmentate_format_witness :
    41 ≤ (List.range 41).length ∧ MAX_SCHC_PKT_LEN < 41 ∧
    (tx_messages (schc_fragmentate [] (List.range 41) 41).queue).getD 0 [] =
      [0x80, 0x00] ++ List.range 40 ∧
    (tx_messages (schc_fragmentate [] (List.range 41) 41).queue).getD 1 [] =
      [0x80, 0xFF, crc16 (List.range 41) 41 / 256, crc16 (List.range 41) 41 % 256] ++ [40] :=
  ⟨by decide, by decide,
    ((schc_fragmentate_format (List.range 41) 41 (by decide) (by decide)).1 0 (by decide)).1,
    (schc_fragmentate_format (List.range 41) 41 (by decide) (by decide)).2.1⟩

/-- C2 (fragmentation and reassembly round trip): for a compressed packet of
`40 < schc_packet_len ≤ 1280` bytes, feeding the messages queued by
`schc_fragmentate`, in order, to `schc_reassemble` from an idle state (offset
0) gives no call of `schc_decompress` before the last message; at the last
message the accumulation buffer starts with exactly the `schc_packet_len`
bytes of the packet, the integrity check passes, `schc_decompress` is called
on that buffer with length `schc_packet_len`, and the offset is back to 0. -/
theorem reassemble_fragments_roundtrip (u : Indeterminate) (st : ReassemblyState)
    (schc_packet : List Nat) (schc_packet_len : Nat)
    (hbuf : schc_packet_len ≤ schc_packet.length)
    (hL : MAX_SCHC_PKT_LEN < schc_packet_len) (hmax : schc_packet_len ≤ SIZE_MTU_IPV6)
    (hidle : st.schc_reassemble_offset = 0)
    (hsize : st.schc_reassemble_buf.length = SIZE_MTU_IPV6) :
    ∃ pre last,
      reassemble_run u st (tx_messages (schc_fragmentate [] schc_packet schc_packet_len).queue) =
        pre ++ [last] ∧
      (∀ r ∈ pre, r.decompress_call = none ∧ r.ret = 0) ∧
      last.state.schc_reassemble_buf.take schc_packet_len =
        schc_packet.take schc_packet_len ∧
      last.decompress_call = some (last.state.schc_reassemble_buf, schc_packet_len) ∧
      last.decompressed =
        some (schc_decompress u last.state.schc_reassemble_buf schc_packet_len) ∧
      last.state.schc_reassemble_offset = 0 ∧ last.ret = 0 := by
  simp only [MAX_SCHC_PKT_LEN] at hL
  simp only [SIZE_MTU_IPV6] at hmax hsize
  have hl : (schc_packet.take schc_packet_len).length = schc_packet_len := by simp; omega
  rw [tx_messages_fragmentate _ _ hbuf hL, ← crc16_take]
  obtain ⟨pre, buf, hrun, hpre, _, _, hbp⟩ :=
    reassemble_run_fragments u (schc_packet.take schc_packet_len)
      (crc16 (schc_packet.take schc_packet_len) (schc_packet.take schc_packet_len).length)
      (crc16_lt _ _) (by omega) ((schc_packet_len + 39) / 40) 0 st (by rw [hl]; omega)
      (by omega) (by rw [hidle]) hsize (by simp)
  rw [if_pos rfl] at hrun
  simp only [Nat.zero_add, hl] at hrun hbp
  refine ⟨pre, ReassembleResult.mk (ReassemblyState.mk buf 0) 0 (some (buf, schc_packet_len))
    (some (schc_decompress u buf schc_packet_len)), ?_,
    fun r hr => ⟨(hpre r hr).1, (hpre r hr).2.2⟩, ?_, rfl, rfl, rfl, rfl⟩
  · simpa [spec_fragments, hl] using hrun
  · exact hbp

/-- Witness of C2: a packet of 81 bytes, three fragments, fed to the
reassembler in its initial state. -/
theorem reassemble_fragments_roundtrip_witness :
    81 ≤ (List.range 81).length ∧ MAX_SCHC_PKT_LEN < 81 ∧ 81 ≤ SIZE_MTU_IPV6 ∧
    ReassemblyState.init.schc_reassemble_offset = 0 ∧
    ReassemblyState.init.schc_reassemble_buf.length = SIZE_MTU_IPV6 ∧
    ∃ pre last,
      reassemble_run ⟨fun _ => [], []⟩ ReassemblyState.init
          (tx_messages (schc_fragmentate [] (List.range 81) 81).queue) = pre ++ [last] ∧
      (∀ r ∈ pre, r.decompress_call = none ∧ r.ret = 0) ∧
      last.state.schc_reassemble_buf.take 81 = (List.range 81).take 81 ∧
      last.decompress_call = some (last.state.schc_reassemble_buf, 81) ∧
      last.decompressed =
        some (schc_decompress ⟨fun _ => [], []⟩ last.state.schc_reassemble_buf 81) ∧
      last.state.schc_reassemble_offset = 0 ∧ last.ret = 0 :=
  ⟨by decide, by decide, by decide, rfl, List.length_replicate _ _,
    reassemble_fragments_roundtrip ⟨fun _ => [], []⟩ ReassemblyState.init (List.range 81) 81
      (by decide) (by decide) (by decide) rfl (List.length_replicate _ _)⟩

/-! ## Lemmas on a corrupted fragment -/

theorem getElem?_tile (p : List Nat) (i a : Nat) :
    (tile p i)[a]? = if a < 40 then p[40 * i + a]? else none := by
  simp only [tile, SCHC_FRG_TILE_SIZE, List.getElem?_take, List.getElem?_drop]

theorem tile_set_same (p : List Nat) (k t v : Nat) (ht : t < 40) :
    tile (p.set (40 * k + t) v) k = (tile p k).set t v := by
  apply List.ext_getElem?
  intro a
  rw [getElem?_tile, List.getElem?_set, List.getElem?_set, getElem?_tile]
  have hlen : (tile p k).length = min 40 (p.length - 40 * k) := by
    simp [tile, SCHC_FRG_TILE_SIZE]
  by_cases ha : a < 40
  · by_cases hta : t = a
    · subst hta
      simp only [ha, if_true]
      by_cases hl : 40 * k + t < p.length
      · have : t < (tile p k).length := by rw [hlen]; omega
        simp [hl, this]
      · have : ¬ t < (tile p k).length := by rw [hlen]; omega
        simp [hl, this]
    · have : 40 * k + t ≠ 40 * k + a := by omega
      simp [ha, hta, this]
  · have hta : t ≠ a := by omega
    simp [ha, hta]

theorem tile_set_other (p : List Nat) (i idx v : Nat) (h : idx < 40 * i ∨ 40 * i + 40 ≤ idx) :
    tile (p.set idx v) i = tile p i := by
  apply List.ext_getElem?
  intro a
  rw [getElem?_tile, getElem?_tile]
  by_cases ha : a < 40
  · have : idx ≠ 40 * i + a := by omega
    simp [ha, List.getElem?_set_ne this]
  · simp [ha]

theorem spec_fragments_corrupt (p : List Nat) (mic k j v : Nat)
    (hk : k + 1 < (p.length + 39) / 40) (hj : 2 ≤ j) (hj2 : j < 42) :
    corrupt_byte (spec_fragments p mic) k j v =
      spec_fragments (p.set (40 * k + (j - 2)) v) mic := by
  obtain ⟨t, rfl⟩ : ∃ t, j = t + 2 := ⟨j - 2, by omega⟩
  have ht : t < 40 := by omega
  simp only [Nat.add_sub_cancel]
  unfold corrupt_byte
  rw [spec_fragments_getD p mic k (by omega)]
  apply List.ext_getElem?
  intro i
  rw [List.getElem?_set]
  simp only [spec_fragments, List.length_map, List.length_range, List.length_set,
    List.getElem?_map]
  by_cases hi : i < (p.length + 39) / 40
  · rw [List.getElem?_range hi]
    simp only [Option.map_some']
    by_cases hki : k = i
    · subst hki
      simp only [if_true, hi, spec_fragment, hk]
      rw [tile_set_same p k t v ht]
      rfl
    · simp only [hki, if_false, List.getElem?_range hi, Option.map_some', spec_fragment]
      rw [tile_set_other p i (40 * k + t) v (by omega)]
  · have hnone : (List.range ((p.length + 39) / 40))[i]? = none := by
      rw [List.getElem?_eq_none]; simpa using hi
    have hki : k ≠ i := by omega
    simp [hnone, hki]

theorem spec_fragments_getD_getD (p : List Nat) (mic k j : Nat)
    (hk : k + 1 < (p.length + 39) / 40) (hj : 2 ≤ j) (hj2 : j < 42) :
    ((spec_fragments p mic).getD k []).getD j 0 = p.getD (40 * k + (j - 2)) 0 := by
  obtain ⟨t, rfl⟩ : ∃ t, j = t + 2 := ⟨j - 2, by omega⟩
  rw [spec_fragments_getD p mic k (by omega)]
  have ht : t < 40 := by omega
  simp only [spec_fragment, hk, if_true, Nat.add_sub_cancel, List.cons_append, List.nil_append,
    List.getD_cons_succ, List.getD_eq_getElem?_getD]
  rw [List.getElem?_cons_succ, List.getElem?_cons_succ, getElem?_tile, if_pos ht]

/-- C10 as stated fails: in the first of the two fragments of a 41-byte
packet, byte 1 (the FCN) is changed from 0 to 1.  `schc_reassemble` only tests
the FCN against 0xFF, so the reassembly is unchanged, the integrity check
passes and the buffer holding the 41 bytes is passed to `schc_decompress`. -/
theorem reassemble_fcn_corruption_undetected :
    ((tx_messages (schc_fragmentate [] (List.range 41) 41).queue).getD 0 []).getD 1 0 ≠ 1 ∧
    ((reassemble_run ⟨fun _ => [], []⟩ ReassemblyState.init
        (corrupt_byte (tx_messages (schc_fragmentate [] (List.range 41) 41).queue) 0 1 1)).map
      (fun r => r.decompress_call.map (fun c => (c.1.take c.2, c.2)))) =
      [none, some (List.range 41, 41)] := by
  decide!

/-- C10 as amended (corruption detection for the tile bytes): for a
compressed packet of `40 < schc_packet_len ≤ 1280` bytes, replacing one byte
of the tile of a fragment that is not the last (byte `j` of message `k`,
`2 ≤ j < 42`) by a different byte value and feeding the messages in order to
an idle `schc_reassemble` makes the final integrity check fail: no call
reaches `schc_decompress`, and the last call leaves the offset at 0. -/
theorem reassemble_detects_tile_corruption (u : Indeterminate) (st : ReassemblyState)
    (schc_packet : List Nat) (schc_packet_len : Nat) (k j v : Nat)
    (hbuf : schc_packet_len ≤ schc_packet.length)
    (hbytes : bytes_ok (schc_packet.take schc_packet_len))
    (hL : MAX_SCHC_PKT_LEN < schc_packet_len) (hmax : schc_packet_len ≤ SIZE_MTU_IPV6)
    (hidle : st.schc_reassemble_offset = 0)
    (hsize : st.schc_reassemble_buf.length = SIZE_MTU_IPV6)
    (hk : k + 1 < (tx_messages (schc_fragmentate [] schc_packet schc_packet_len).queue).length)
    (hj : 2 ≤ j) (hj2 : j < 42) (hv : v < 256)
    (hne : ((tx_messages (schc_fragmentate [] schc_packet schc_packet_len).queue).getD k []).getD
      j 0 ≠ v) :
    (∀ r ∈ reassemble_run u st
        (corrupt_byte (tx_messages (schc_fragmentate [] schc_packet schc_packet_len).queue) k j v),
      r.decompress_call = none ∧ r.decompressed = none) ∧
    ((reassemble_run u st
        (corrupt_byte (tx_messages (schc_fragmentate [] schc_packet schc_packet_len).queue)
          k j v)).getLast?.map (fun r => r.state.schc_reassemble_offset)) = some 0 := by
  simp only [MAX_SCHC_PKT_LEN] at hL
  simp only [SIZE_MTU_IPV6] at hmax hsize
  have hl : (schc_packet.take schc_packet_len).length = schc_packet_len := by simp; omega
  rw [tx_messages_fragmentate _ _ hbuf hL] at hk hne ⊢
  rw [spec_fragments_length, hl] at hk
  rw [spec_fragments_getD_getD _ _ _ _ (by rw [hl]; exact hk) hj hj2] at hne
  rw [spec_fragments_corrupt _ _ _ _ _ (by rw [hl]; exact hk) hj hj2, ← crc16_take]
  have hidx : 40 * k + (j - 2) < (schc_packet.take schc_packet_len).length := by
    rw [hl]; omega
  have hcrc := crc16_set_ne (schc_packet.take schc_packet_len) (40 * k + (j - 2)) v hbytes hv
    (by rw [hl]; exact hmax) hidx hne
  have hl' : ((schc_packet.take schc_packet_len).set (40 * k + (j - 2)) v).length =
      schc_packet_len := by rw [List.length_set, hl]
  obtain ⟨pre, buf, hrun, hpre, _, _, _⟩ :=
    reassemble_run_fragments u ((schc_packet.take schc_packet_len).set (40 * k + (j - 2)) v)
      (crc16 (schc_packet.take schc_packet_len) schc_packet_len)
      (crc16_lt _ _) (by rw [hl']; exact hmax) ((schc_packet_len + 39) / 40) 0 st
      (by rw [hl']; omega) (by omega) (by rw [hidle]) hsize (by simp)
  rw [hl'] at hrun
  rw [hl] at hcrc
  rw [if_neg (fun h => hcrc h.symm)] at hrun
  have hrun' : reassemble_run u st
      (spec_fragments ((schc_packet.take schc_packet_len).set (40 * k + (j - 2)) v)
        (crc16 (schc_packet.take schc_packet_len) schc_packet_len)) = pre ++
      [ReassembleResult.mk (ReassemblyState.mk buf 0) 0 none none] := by
    simpa [spec_fragments, hl'] using hrun
  rw [hrun']
  refine ⟨?_, by simp⟩
  intro r hr
  rcases List.mem_append.mp hr with h | h
  · exact ⟨(hpre r h).1, (hpre r h).2.1⟩
  · simp only [List.mem_singleton] at h
    subst h
    exact ⟨rfl, rfl⟩

/-- Witness of the amended C10: byte 5 of the first of the three fragments of
an 81-byte packet is replaced by 200. -/
theorem reassemble_detects_tile_corruption_witness :
    bytes_ok ((List.range 81).take 81) ∧
    0 + 1 < (tx_messages (schc_fragmentate [] (List.range 81) 81).queue).length ∧
    ((tx_messages (schc_fragmentate [] (List.range 81) 81).queue).getD 0 []).getD 5 0 ≠ 200 ∧
    (∀ r ∈ reassemble_run ⟨fun _ => [], []⟩ ReassemblyState.init
        (corrupt_byte (tx_messages (schc_fragmentate [] (List.range 81) 81).queue) 0 5 200),
      r.decompress_call = none ∧ r.decompressed = none) ∧
    ((reassemble_run ⟨fun _ => [], []⟩ ReassemblyState.init
        (corrupt_byte (tx_messages (schc_fragmentate [] (List.range 81) 81).queue)
          0 5 200)).getLast?.map (fun r => r.state.schc_reassemble_offset)) = some 0 :=
  ⟨by decide!, by decide!, by decide!,
    reassemble_detects_tile_corruption ⟨fun _ => [], []⟩ ReassemblyState.init (List.range 81) 81
      0 5 200 (by decide) (by decide!) (by decide) (by decide) rfl (List.length_replicate _ _)
      (by decide!) (by decide) (by decide) (by decide) (by decide!)⟩

/-! ## Lemmas on `schc_compress` -/

theorem rule_rows_cons (row : field_description) (rest : List field_description) :
    rule_rows (row :: rest) =
      if row.fieldid = .END_OF_RULE then [] else row :: rule_rows rest := by
  unfold rule_rows
  by_cases h : row.fieldid = .END_OF_RULE <;> simp [List.takeWhile, h]

theorem option_rows_cons (row : field_description) (rest : List field_description) :
    option_rows (row :: rest) =
      if row.fieldid = .END_OF_RULE then 0
      else if row.fieldid = .COAP_OPTION_VALUE then option_rows rest + 1
      else option_rows rest := by
  unfold option_rows
  rw [rule_rows_cons]
  by_cases h : row.fieldid = .END_OF_RULE
  · simp [h]
  · by_cases h2 : row.fieldid = .COAP_OPTION_VALUE <;> simp [h, h2, List.filter]

theorem check_matching_cur (t : Nat) (row : field_description) (P : field_values) (cur : Nat)
    (h : (check_matching t row P cur).1 ≠ 0) :
    (check_matching t row P cur).2 =
      if row.fieldid = .COAP_OPTION_VALUE then cur + 1 else cur := by
  unfold check_matching at h ⊢
  cases hmo : row.MO <;> simp only [hmo] at h ⊢
  · cases hf : row.fieldid <;> simp [hf] at h ⊢
  · split <;> simp_all
  · simp at h
  · simp at h

theorem match_rows_cur (tkl : Nat → Nat) (P : field_values) :
    ∀ (rows : List field_description) (j cur : Nat),
      (match_rows tkl P rows j cur).1 ≠ 0 →
      (match_rows tkl P rows j cur).2 = cur + option_rows rows := by
  intro rows
  induction rows with
  | nil => intro j cur _; simp [match_rows, option_rows, rule_rows]
  | cons row rest ih =>
    intro j cur h
    rw [option_rows_cons]
    unfold match_rows at h ⊢
    by_cases hend : row.fieldid = .END_OF_RULE
    · simp [hend]
    · simp only [hend, if_false] at h ⊢
      by_cases hc : (check_matching (tkl j) row P cur).1 = 0
      · simp [hc] at h
      · simp only [hc, if_false] at h ⊢
        rw [ih _ _ h, check_matching_cur _ _ _ _ hc]
        split <;> omega

theorem rule_matches_option_rows (tkl : Nat → Nat) (P : field_values)
    (rule : List field_description) (h : rule_matches tkl P rule = true) :
    option_rows rule = P.coap_option_num := by
  unfold rule_matches at h
  simp only [Bool.and_eq_true, decide_eq_true_eq] at h
  have := match_rows_cur tkl P rule 0 0 (by simpa using h.1)
  omega

/-- The initial state of the compression actions for rule `i`. -/
theorem compress_rules_spec (tkl : Nat → Nat → Nat) (P : field_values) :
    ∀ (table : List (List field_description)) (k : Nat),
      (compress_rules tkl P table k = .no_match ∧
        ∀ j, j < table.length → rule_matches (tkl (k + j)) P (table.getD j []) = false) ∨
      (∃ j, j < table.length ∧ rule_matches (tkl (k + j)) P (table.getD j []) = true ∧
        (∀ j', j' < j → rule_matches (tkl (k + j')) P (table.getD j' []) = false) ∧
        ((compress_rules tkl P table k = .action_failed (k + j) ∧
            compress_rows P (table.getD j [])
              { schc_packet := mem_write (List.replicate SIZE_MTU_IPV6 0) 0 [(k + j) % 256],
                offset := 1, current_coap_option_num := 0 } = none) ∨
          ∃ s, compress_rows P (table.getD j [])
              { schc_packet := mem_write (List.replicate SIZE_MTU_IPV6 0) 0 [(k + j) % 256],
                offset := 1, current_coap_option_num := 0 } = some s ∧
            compress_rules tkl P table k =
              .packet (k + j)
                (mem_write s.schc_packet s.offset
                  (mem_read P.coap_payload 0 P.coap_payload_length))
                ((s.offset + P.coap_payload_length) % 2 ^ 32))) := by
  intro table
  induction table with
  | nil => intro k; left; exact ⟨rfl, fun j hj => absurd hj (by simp)⟩
  | cons rule rest ih =>
    intro k
    by_cases hm : rule_matches (tkl k) P rule = true
    · right
      refine ⟨0, by simp, by simpa using hm, fun j' hj' => absurd hj' (by omega), ?_⟩
      simp only [compress_rules, hm, if_true, Nat.add_zero, List.getD_cons_zero]
      cases hc : compress_rows P rule
        { schc_packet := mem_write (List.replicate SIZE_MTU_IPV6 0) 0 [k % 256],
          offset := 1, current_coap_option_num := 0 } with
      | none => left; exact ⟨rfl, rfl⟩
      | some s => right; exact ⟨s, rfl, rfl⟩
    · have hm' : rule_matches (tkl k) P rule = false := by simpa using hm
      have hstep : compress_rules tkl P (rule :: rest) k = compress_rules tkl P rest (k + 1) := by
        simp [compress_rules, hm']
      rcases ih (k + 1) with ⟨hno, hall⟩ | ⟨j, hj, hmj, hbefore, hout⟩
      · left
        refine ⟨by rw [hstep, hno], ?_⟩
        intro j hj
        cases j with
        | zero => simpa using hm'
        | succ j =>
          have := hall j (by simpa using hj)
          simpa [Nat.add_assoc, Nat.add_comm 1] using this
      · right
        have hk : k + 1 + j = k + (j + 1) := by omega
        rw [hk] at hmj hout
        refine ⟨j + 1, by simpa using hj, by simpa using hmj, ?_, ?_⟩
        · intro j' hj'
          cases j' with
          | zero => simpa using hm'
          | succ j' =>
            have := hbefore j' (by omega)
            simpa [Nat.add_assoc, Nat.add_comm 1] using this
        · simpa [hstep] using hout

theorem mem_read_one (v : Nat) : mem_read [v] 0 1 = [v] := rfl

theorem mem_read_le16_htons (v : Nat) :
    mem_read (le16_bytes (htons v)) 0 2 = [v / 256 % 256, v % 256] := by
  rw [le16_bytes_htons]; rfl

theorem mem_read_le16_one (v : Nat) : mem_read (le16_bytes v) 0 1 = [v % 256] := rfl

theorem mod_65536_div_256 (v : Nat) : v % 65536 / 256 % 256 = v / 256 % 256 := by omega

theorem mod_65536_mod_256 (v : Nat) : v % 65536 % 256 = v % 256 := by omega

theorem le32_bytes_shift (b0 b1 b2 b3 : Nat) (h1 : b1 < 256) (h2 : b2 < 256)
    (h3 : b3 < 256) :
    le32_bytes (((b0 * 2 ^ 24 + b1 * 2 ^ 16 + b2 * 2 ^ 8 + b3) <<< 8) % 2 ^ 32) =
      [0, b3, b2, b1] := by
  have e0 : ((b0 * 2 ^ 24 + b1 * 2 ^ 16 + b2 * 2 ^ 8 + b3) <<< 8) % 2 ^ 32 =
      b1 * 16777216 + b2 * 65536 + b3 * 256 := by
    rw [Nat.shiftLeft_eq]
    omega
  rw [e0]
  unfold le32_bytes
  congr 1
  · omega
  · congr 1
    · omega
    · congr 1
      · omega
      · congr 1; omega

theorem mem_read_flow_label (f : Nat) :
    mem_read (le32_bytes ((htonl f <<< 8) % 2 ^ 32)) 0 3 =
      [0, f / 2 ^ 24 % 256, f / 2 ^ 16 % 256] := by
  unfold htonl
  rw [le32_bytes_shift _ _ _ _ (Nat.mod_lt _ (by decide)) (Nat.mod_lt _ (by decide))
    (Nat.mod_lt _ (by decide))]
  rfl

/-- A `VALUE_SENT` row appends the bytes of its field. -/
theorem do_compression_action_value_sent (row : field_description) (P : field_values)
    (s : CompressState) (hc : row.CDA = .VALUE_SENT) (hf : row.fieldid ≠ .END_OF_RULE) :
    do_compression_action row P s =
      (0, { schc_packet := mem_write s.schc_packet s.offset
              (field_bytes P row.fieldid s.current_coap_option_num),
            offset := (s.offset + (field_bytes P row.fieldid s.current_coap_option_num).length)
              % 2 ^ 32,
            current_coap_option_num :=
              if row.fieldid = .COAP_OPTION_VALUE then s.current_coap_option_num + 1
              else s.current_coap_option_num }) := by
  unfold do_compression_action
  simp only [hc]
  cases hfid : row.fieldid <;>
    simp only [hfid, append_residue, field_bytes, mem_read_one, mem_read_le16_htons,
      mod_65536_div_256, mod_65536_mod_256, mem_read_le16_one, mem_read_flow_label, mem_read_length,
      List.length_cons, List.length_nil, if_true, if_false, reduceCtorEq, ne_eq,
      not_true_eq_false, or_self] at hf ⊢

/-- A `NOT_SENT`, `COMPUTE_LENGTH` or `COMPUTE_CHECKSUM` row appends nothing. -/
theorem do_compression_action_not_sent (row : field_description) (P : field_values)
    (s : CompressState)
    (hc : row.CDA = .NOT_SENT ∨ row.CDA = .COMPUTE_LENGTH ∨ row.CDA = .COMPUTE_CHECKSUM) :
    do_compression_action row P s =
      (0, { s with current_coap_option_num :=
              if row.fieldid = .COAP_OPTION_VALUE then s.current_coap_option_num + 1
              else s.current_coap_option_num }) := by
  unfold do_compression_action
  have : row.CDA = .COMPUTE_LENGTH ∨ row.CDA = .NOT_SENT ∨ row.CDA = .COMPUTE_CHECKSUM := by
    tauto
  simp only [this, if_true]
  split <;> rfl

theorem option_at_length_le (P : field_values) (hv : P.valid) (cur : Nat) :
    (P.option_at cur).length ≤ 16 := by
  unfold field_values.option_at
  rw [List.getD_eq_getElem?_getD]
  cases h : P.coap_option[cur]? with
  | none => simp [coap_option_zero]
  | some o => exact hv.2.2.2 o (List.getElem?_mem h)

theorem field_bytes_length_le (P : field_values) (hv : P.valid) (fid : fieldid) (cur : Nat) :
    (field_bytes P fid cur).length ≤ 16 := by
  have h1 := hv.2.1
  have h2 := option_at_length_le P hv cur
  cases fid <;> simp [field_bytes, mem_read_length] <;> omega

theorem compress_rows_some (P : field_values) :
    ∀ (rows : List field_description) (s : CompressState),
      (∀ row ∈ rule_rows rows, action_implemented row = true) →
      ∃ s', compress_rows P rows s = some s' := by
  intro rows
  induction rows with
  | nil => intro s _; exact ⟨s, rfl⟩
  | cons row rest ih =>
    intro s hok
    unfold compress_rows
    by_cases hend : row.fieldid = .END_OF_RULE
    · exact ⟨s, by simp [hend]⟩
    · rw [rule_rows_cons, if_neg hend] at hok
      have hrow := hok row (by simp)
      have hrest : ∀ r ∈ rule_rows rest, action_implemented r = true :=
        fun r hr => hok r (by simp [hr])
      simp only [hend, if_false]
      simp only [action_implemented, Bool.or_eq_true, decide_eq_true_eq] at hrow
      by_cases hvs : row.CDA = .VALUE_SENT
      · rw [do_compression_action_value_sent row P s hvs hend]
        simpa using ih _ hrest
      · rw [do_compression_action_not_sent row P s (by tauto)]
        simpa using ih _ hrest

theorem compress_rows_eq (P : field_values) (hv : P.valid) :
    ∀ (rows : List field_description) (s : CompressState),
      (∀ row ∈ rule_rows rows, action_implemented row = true) →
      s.offset + 16 * rows.length ≤ s.schc_packet.length →
      s.schc_packet.length < 2 ^ 32 →
      ∃ s', compress_rows P rows s = some s' ∧
        s'.schc_packet.take s'.offset =
          s.schc_packet.take s.offset ++
            residue_rows P (rule_rows rows) s.current_coap_option_num ∧
        s'.offset = s.offset +
          (residue_rows P (rule_rows rows) s.current_coap_option_num).length ∧
        s'.schc_packet.length = s.schc_packet.length ∧
        s'.offset ≤ s.offset + 16 * rows.length := by
  intro rows
  induction rows with
  | nil =>
    intro s _ _ _
    exact ⟨s, rfl, by simp [rule_rows, residue_rows], by simp [rule_rows, residue_rows], rfl,
      by omega⟩
  | cons row rest ih =>
    intro s hok hb hlt
    simp only [List.length_cons] at hb
    unfold compress_rows
    rw [rule_rows_cons] at hok ⊢
    by_cases hend : row.fieldid = .END_OF_RULE
    · simp only [hend, if_true]
      exact ⟨s, rfl, by simp [residue_rows], by simp [residue_rows], rfl, by omega⟩
    · simp only [hend, if_false] at hok ⊢
      have hrow := hok row (by simp)
      have hrest : ∀ r ∈ rule_rows rest, action_implemented r = true :=
        fun r hr => hok r (by simp [hr])
      simp only [action_implemented, Bool.or_eq_true, decide_eq_true_eq] at hrow
      have hlen := field_bytes_length_le P hv row.fieldid s.current_coap_option_num
      by_cases hvs : row.CDA = .VALUE_SENT
      · rw [do_compression_action_value_sent row P s hvs hend]
        have hmod : (s.offset + (field_bytes P row.fieldid s.current_coap_option_num).length)
            % 2 ^ 32 =
            s.offset + (field_bytes P row.fieldid s.current_coap_option_num).length :=
          Nat.mod_eq_of_lt (by omega)
        have hwl : (mem_write s.schc_packet s.offset
            (field_bytes P row.fieldid s.current_coap_option_num)).length =
            s.schc_packet.length := mem_write_length _ _ _ (by omega)
        obtain ⟨s', h1, h2, h3, h4, h5⟩ := ih
          { schc_packet := mem_write s.schc_packet s.offset
              (field_bytes P row.fieldid s.current_coap_option_num),
            offset := (s.offset + (field_bytes P row.fieldid s.current_coap_option_num).length)
              % 2 ^ 32,
            current_coap_option_num :=
              if row.fieldid = .COAP_OPTION_VALUE then s.current_coap_option_num + 1
              else s.current_coap_option_num }
          hrest (by simp only [hmod, hwl]; omega) (by simp only [hwl]; exact hlt)
        simp only [hmod, hwl] at h2 h3 h4 h5
        rw [take_mem_write _ _ _ (by omega)] at h2
        refine ⟨s', by simpa using h1, ?_, ?_, h4, by simp only [List.length_cons]; omega⟩
        · rw [h2]; simp [residue_rows, hvs]
        · rw [h3]; simp [residue_rows, hvs]; omega
      · rw [do_compression_action_not_sent row P s (by tauto)]
        obtain ⟨s', h1, h2, h3, h4, h5⟩ := ih
          { s with current_coap_option_num :=
              if row.fieldid = .COAP_OPTION_VALUE then s.current_coap_option_num + 1
              else s.current_coap_option_num }
          hrest (by simp only; omega) (by simpa using hlt)
        simp only at h2 h3 h4 h5
        refine ⟨s', by simpa using h1, ?_, ?_, h4, by simp only [List.length_cons]; omega⟩
        · rw [h2]; simp [residue_rows, hvs]
        · rw [h3]; simp [residue_rows, hvs]

theorem rules_implemented :
    ∀ rule ∈ rules, (∀ row ∈ rule_rows rule, action_implemented row = true) ∧
      rule.length ≤ 33 := by
  decide

theorem rules_length : rules.length = 12 := rfl

theorem rules_getD_mem (i : Nat) (hi : i < rules.length) : rules.getD i [] ∈ rules := by
  rw [List.getD_eq_getElem _ _ hi]
  exact List.getElem_mem _

theorem compress_rules_outcome (tkl : Nat → Nat → Nat) (P : field_values)
    (table : List (List field_description)) (i : Nat) (buf : List Nat) (len : Nat)
    (h : compress_rules tkl P table 0 = .packet i buf len) :
    i < table.length ∧ rule_matches (tkl i) P (table.getD i []) = true ∧
    (∀ j, j < i → rule_matches (tkl j) P (table.getD j []) = false) ∧
    ∃ s, compress_rows P (table.getD i [])
        { schc_packet := mem_write (List.replicate SIZE_MTU_IPV6 0) 0 [i % 256],
          offset := 1, current_coap_option_num := 0 } = some s ∧
      buf = mem_write s.schc_packet s.offset (mem_read P.coap_payload 0 P.coap_payload_length) ∧
      len = (s.offset + P.coap_payload_length) % 2 ^ 32 := by
  rcases compress_rules_spec tkl P table 0 with ⟨hno, _⟩ | ⟨j, hj, hmj, hbefore, hout⟩
  · rw [hno] at h; cases h
  · simp only [Nat.zero_add] at hmj hbefore hout
    rcases hout with ⟨hfail, _⟩ | ⟨s, hs, hpkt⟩
    · rw [hfail] at h; cases h
    · rw [hpkt] at h
      injection h with h1 h2 h3
      subst h1
      exact ⟨hj, hmj, hbefore, s, hs, h2.symm, h3.symm⟩

/-- The packet that `schc_compress` hands to `schc_fragmentate` when rule `i`
of the table of `context.cpp` matches a valid packet. -/
theorem compress_rules_packet (tkl : Nat → Nat → Nat) (P : field_values) (hv : P.valid)
    (i : Nat) (buf : List Nat) (len : Nat)
    (h : compress_rules tkl P rules 0 = .packet i buf len) :
    buf.take len = [i] ++ residue P (rules.getD i []) ++
        P.coap_payload.take P.coap_payload_length ∧
    len = 1 + (residue P (rules.getD i [])).length + P.coap_payload_length ∧
    buf.length = SIZE_MTU_IPV6 ∧ len ≤ 784 := by
  obtain ⟨hi, _, _, s, hs, hbuf, hlen⟩ := compress_rules_outcome tkl P rules i buf len h
  have hmem := rules_getD_mem i hi
  obtain ⟨hok, hrl⟩ := rules_implemented _ hmem
  have hi12 : i < 12 := by simpa [rules_length] using hi
  have hw0 : (mem_write (List.replicate SIZE_MTU_IPV6 0) 0 [i % 256]).length = 1280 := by
    rw [mem_write_length _ _ _ (by rw [List.length_replicate]; simp [SIZE_MTU_IPV6]),
      List.length_replicate]
    rfl
  obtain ⟨s', h1, h2, h3, h4, h5⟩ := compress_rows_eq P hv (rules.getD i [])
    { schc_packet := mem_write (List.replicate SIZE_MTU_IPV6 0) 0 [i % 256],
      offset := 1, current_coap_option_num := 0 } hok (by simp only [hw0]; omega)
    (by simp only [hw0]; omega)
  rw [hs] at h1
  injection h1 with h1
  subst h1
  simp only [hw0] at h2 h3 h4 h5
  have hpl : P.coap_payload_length < 256 := hv.1.2.2.2.2.2.2.2.2.2.2.2.2.2.2.2.2.2.2.2.2.2.2.1
  have hpay : P.coap_payload.length = 1280 :=
    hv.1.2.2.2.2.2.2.2.2.2.2.2.2.2.2.2.2.2.2.2.2.2.2.2.1
  have hrd : mem_read P.coap_payload 0 P.coap_payload_length =
      P.coap_payload.take P.coap_payload_length := by
    rw [mem_read_eq_take_drop _ _ _ (by omega)]; simp
  have hlen' : len = s.offset + P.coap_payload_length := by
    rw [hlen]; exact Nat.mod_eq_of_lt (by omega)
  have hrl' : (mem_read P.coap_payload 0 P.coap_payload_length).length = P.coap_payload_length :=
    mem_read_length _ _ _
  have htake0 : (mem_write (List.replicate SIZE_MTU_IPV6 0) 0 [i % 256]).take 1 = [i] := by
    rw [mem_write_zero, Nat.mod_eq_of_lt (show i < 256 by omega)]
    rfl
  refine ⟨?_, ?_, ?_, by omega⟩
  · have := take_mem_write s.schc_packet s.offset
      (mem_read P.coap_payload 0 P.coap_payload_length) (by omega)
    rw [hrl'] at this
    rw [hbuf, hlen', this, h2, htake0, hrd]
    rfl
  · rw [hlen', h3]
    simp only [residue]
  · rw [hbuf, mem_write_length _ _ _ (by rw [hrl']; omega), h4]
    rfl

theorem compress_rules_not_failed (tkl : Nat → Nat → Nat) (P : field_values) (i : Nat) :
    compress_rules tkl P rules 0 ≠ .action_failed i := by
  intro h
  rcases compress_rules_spec tkl P rules 0 with ⟨hno, _⟩ | ⟨j, hj, _, _, hout⟩
  · rw [hno] at h; cases h
  · rcases hout with ⟨_, hnone⟩ | ⟨s, _, hpkt⟩
    · obtain ⟨s', hs'⟩ := compress_rows_some P (rules.getD j [])
        { schc_packet := mem_write (List.replicate SIZE_MTU_IPV6 0) 0 [(0 + j) % 256],
          offset := 1, current_coap_option_num := 0 }
        (rules_implemented _ (rules_getD_mem j hj)).1
      rw [hs'] at hnone
      cases hnone
    · rw [hpkt] at h; cases h

theorem schc_fragmentate_frames (queue buf : List Nat) (len : Nat) (hbuf : len ≤ buf.length) :
    ∃ msgs, msgs ≠ [] ∧ (∀ m ∈ msgs, m.length < 256) ∧
      (schc_fragmentate queue buf len).queue = queue ++ (msgs.map tx_frame).flatten := by
  have hl : (buf.take len).length = len := by simp; omega
  by_cases hL : len ≤ 40
  · refine ⟨[buf.take len], by simp, ?_, ?_⟩
    · intro m hm
      simp only [List.mem_singleton] at hm
      subst hm; rw [hl]; omega
    · have hread : mem_read buf 0 len = buf.take len := by
        rw [mem_read_eq_take_drop _ _ _ (by omega)]; simp
      have hmod : len % 256 = len := Nat.mod_eq_of_lt (by omega)
      simp [schc_fragmentate, MAX_SCHC_PKT_LEN, hL, tx_push_message, hread, tx_frame, hl, hmod]
  · refine ⟨spec_fragments (buf.take len) (crc16 (buf.take len) (buf.take len).length), ?_, ?_, ?_⟩
    · intro h
      have := spec_fragments_length (buf.take len) (crc16 (buf.take len) (buf.take len).length)
      rw [h, hl] at this
      simp at this
      omega
    · intro m hm
      simp only [spec_fragments, List.mem_map] at hm
      obtain ⟨k, _, rfl⟩ := hm
      exact spec_fragment_length_lt _ _ _ _
    · rw [← schc_fragmentate_take]
      have := schc_fragmentate_queue queue (buf.take len) (by omega)
      rw [hl] at this ⊢
      exact this

theorem compress_rows_implemented (P : field_values) :
    ∀ (rows : List field_description) (s s' : CompressState),
      compress_rows P rows s = some s' →
      ∀ row ∈ rule_rows rows, action_implemented row = true := by
  intro rows
  induction rows with
  | nil => intro s s' _ row hrow; simp [rule_rows] at hrow
  | cons r rest ih =>
    intro s s' h row hrow
    rw [rule_rows_cons] at hrow
    unfold compress_rows at h
    by_cases hend : r.fieldid = .END_OF_RULE
    · simp [hend] at hrow
    · simp only [hend, if_false] at h hrow
      by_cases hfail : (do_compression_action r P s).1 ≠ 0
      · simp [hfail] at h
      · simp only [hfail, if_false] at h
        have hr : action_implemented r = true := by
          by_contra hni
          apply hfail
          simp only [action_implemented, Bool.or_eq_true, decide_eq_true_eq, not_or] at hni
          unfold do_compression_action
          simp [hni.1.1.1, hni.1.1.2, hni.1.2, hni.2]
        rcases List.mem_cons.mp hrow with h1 | h1
        · rw [h1]; exact hr
        · exact ih _ _ h row h1

/-- C3 (first-match determinism): over any rule table with at most 256 rules
of at most 33 rows, when a valid packet satisfies the rules `a` and `b` and
`schc_compress` produces a compressed packet, the rule it selected is a
matching rule with no matching rule before it, so its index is at most `a`
and `b`, and byte 0 of the compressed packet is that index. -/
theorem schc_compress_first_match (tkl : Nat → Nat → Nat) (P : field_values)
    (table : List (List field_description)) (i : Nat) (buf : List Nat) (len a b : Nat)
    (hv : P.valid) (htable : table.length ≤ 256) (hrows : ∀ rule ∈ table, rule.length ≤ 33)
    (hpkt : compress_rules tkl P table 0 = .packet i buf len)
    (hma : rule_matches (tkl a) P (table.getD a []) = true)
    (hmb : rule_matches (tkl b) P (table.getD b []) = true) :
    rule_matches (tkl i) P (table.getD i []) = true ∧
    (∀ j, j < i → rule_matches (tkl j) P (table.getD j []) = false) ∧
    i ≤ a ∧ i ≤ b ∧ buf.getD 0 0 = i := by
  obtain ⟨hi, hmi, hbefore, s, hs, hbuf, _⟩ := compress_rules_outcome tkl P table i buf len hpkt
  have hia : i ≤ a := by
    by_contra h
    have := hbefore a (by omega)
    rw [this] at hma; cases hma
  have hib : i ≤ b := by
    by_contra h
    have := hbefore b (by omega)
    rw [this] at hmb; cases hmb
  refine ⟨hmi, hbefore, hia, hib, ?_⟩
  have hmem : table.getD i [] ∈ table := by
    rw [List.getD_eq_getElem _ _ hi]; exact List.getElem_mem _
  have hw0 : (mem_write (List.replicate SIZE_MTU_IPV6 0) 0 [i % 256]).length = 1280 := by
    rw [mem_write_length _ _ _ (by rw [List.length_replicate]; simp [SIZE_MTU_IPV6]),
      List.length_replicate]
    rfl
  have hrl := hrows _ hmem
  obtain ⟨s', h1, h2, h3, h4, h5⟩ := compress_rows_eq P hv (table.getD i [])
    { schc_packet := mem_write (List.replicate SIZE_MTU_IPV6 0) 0 [i % 256],
      offset := 1, current_coap_option_num := 0 }
    (compress_rows_implemented P _ _ _ hs) (by simp only [hw0]; omega)
    (by simp only [hw0]; omega)
  rw [hs] at h1
  injection h1 with h1
  subst h1
  simp only [hw0] at h2 h3 h4 h5
  have htake0 : (mem_write (List.replicate SIZE_MTU_IPV6 0) 0 [i % 256]).take 1 = [i] := by
    rw [mem_write_zero, Nat.mod_eq_of_lt (show i < 256 by omega)]
    rfl
  have hpre : buf.take s.offset = [i] ++
      residue_rows P (rule_rows (table.getD i [])) 0 := by
    rw [hbuf]
    unfold mem_write
    rw [List.append_assoc, List.take_append_of_le_length (by simp; omega), List.take_take,
      Nat.min_self, h2, htake0]
  have h0 : (buf.take s.offset).getD 0 0 = i := by rw [hpre]; rfl
  rw [List.getD_eq_getElem?_getD, List.getElem?_take_of_lt (by omega)] at h0
  rw [List.getD_eq_getElem?_getD]
  exact h0

/-- Witness of C3: a table that holds rule 2 of `context.cpp` twice; the
example packet satisfies both copies and is compressed under index 0. -/
theorem schc_compress_first_match_witness :
    example_packet.valid ∧
    rule_matches (example_tkl 0) example_packet
      ([rules.getD 2 [], rules.getD 2 []].getD 0 []) = true ∧
    rule_matches (example_tkl 1) example_packet
      ([rules.getD 2 [], rules.getD 2 []].getD 1 []) = true ∧
    (mem_write (mem_write (mem_write (List.replicate SIZE_MTU_IPV6 0) 0 [0]) 1 [0x12, 0x34]) 3
      [7, 8, 9]).getD 0 0 = 0 :=
  ⟨by decide!, by decide!, by decide!,
    (schc_compress_first_match example_tkl example_packet [rules.getD 2 [], rules.getD 2 []] 0
      (mem_write (mem_write (mem_write (List.replicate SIZE_MTU_IPV6 0) 0 [0]) 1 [0x12, 0x34]) 3
        [7, 8, 9]) 6 0 1
      (by decide!) (by decide) (by decide) (by decide!)
      (by decide!) (by decide!)).2.2.2.2⟩

/-- C4: with the rule table of `context.cpp` and a valid packet,
`schc_compress` returns non-zero exactly when no rule matches; then the
transmit queue is left as it was; and when it returns zero at least one link
message has been appended to the queue. -/
theorem schc_compress_ret (tkl : Nat → Nat → Nat) (queue : List Nat) (P : field_values)
    (hv : P.valid) :
    ((schc_compress tkl queue P).ret ≠ 0 ↔
      ∀ i, i < rules.length → rule_matches (tkl i) P (rules.getD i []) = false) ∧
    ((schc_compress tkl queue P).ret ≠ 0 → (schc_compress tkl queue P).queue = queue) ∧
    ((schc_compress tkl queue P).ret = 0 →
      ∃ msgs, msgs ≠ [] ∧ (schc_compress tkl queue P).queue =
        queue ++ (msgs.map tx_frame).flatten) := by
  unfold schc_compress schc_compress_with
  rcases compress_rules_spec tkl P rules 0 with ⟨hno, hall⟩ | ⟨j, hj, hmj, _, hout⟩
  · simp only [Nat.zero_add] at hall
    rw [hno]
    refine ⟨⟨fun _ => hall, fun _ => by simp⟩, fun _ => rfl, fun h => by simp at h⟩
  · simp only [Nat.zero_add] at hmj hout
    rcases hout with ⟨hfail, _⟩ | ⟨s, _, hpkt⟩
    · exact absurd hfail (compress_rules_not_failed tkl P j)
    · rw [hpkt]
      simp only [schc_fragmentate_ret]
      obtain ⟨_, _, hbl, hlen⟩ := compress_rules_packet tkl P hv j _ _ hpkt
      refine ⟨⟨fun h => absurd rfl h, fun h => ?_⟩, fun h => absurd rfl h, fun _ => ?_⟩
      · have := h j hj
        rw [this] at hmj; cases hmj
      · obtain ⟨msgs, hne, _, hq⟩ := schc_fragmentate_frames queue _ _
          (show (s.offset + P.coap_payload_length) % 2 ^ 32 ≤ (mem_write s.schc_packet s.offset
            (mem_read P.coap_payload 0 P.coap_payload_length)).length by
            rw [hbl]; simp only [SIZE_MTU_IPV6]; omega)
        exact ⟨msgs, hne, hq⟩

/-- Witness of C4: the example packet is compressed (return value 0, one
message queued), the all-zero packet matches no rule (return value -1, queue
untouched). -/
theorem schc_compress_ret_witness :
    example_packet.valid ∧
    schc_compress example_tkl [5, 6] example_packet =
      { queue := [5, 6, 6, 2, 0x12, 0x34, 7, 8, 9], ret := 0 } ∧
    schc_compress example_tkl [5, 6] field_values_zero = { queue := [5, 6], ret := -1 } ∧
    ((schc_compress example_tkl [5, 6] example_packet).ret ≠ 0 ↔
      ∀ i, i < rules.length →
        rule_matches (example_tkl i) example_packet (rules.getD i []) = false) :=
  ⟨by decide!, by decide!, by decide!,
    (schc_compress_ret example_tkl [5, 6] example_packet (by decide!)).1⟩

/-- C5 (option-count condition): over any rule table, the rule that
`schc_compress` selects has as many `COAP_OPTION_VALUE` rows as the packet has
options (`coap_option_num`); and a rule whose every row passes its match test
but whose number of `COAP_OPTION_VALUE` rows differs from `coap_option_num`
does not match, is skipped by the loop over the rules, and is never the rule
of the compressed packet. -/
theorem schc_compress_option_count (tkl : Nat → Nat → Nat) (P : field_values)
    (table : List (List field_description)) :
    (∀ i buf len, compress_rules tkl P table 0 = .packet i buf len →
      option_rows (table.getD i []) = P.coap_option_num) ∧
    (∀ rule rest k, (match_rows (tkl k) P rule 0 0).1 ≠ 0 →
      option_rows rule ≠ P.coap_option_num →
      rule_matches (tkl k) P rule = false ∧
      compress_rules tkl P (rule :: rest) k = compress_rules tkl P rest (k + 1)) ∧
    (∀ j buf len, (match_rows (tkl j) P (table.getD j []) 0 0).1 ≠ 0 →
      option_rows (table.getD j []) ≠ P.coap_option_num →
      compress_rules tkl P table 0 ≠ .packet j buf len) := by
  have hskip : ∀ (t : Nat → Nat) rule, (match_rows t P rule 0 0).1 ≠ 0 →
      option_rows rule ≠ P.coap_option_num → rule_matches t P rule = false := by
    intro t rule hrows hcount
    have hcur := match_rows_cur t P rule 0 0 hrows
    unfold rule_matches
    simp only [Bool.and_eq_false_iff, decide_eq_false_iff_not]
    right
    omega
  refine ⟨?_, ?_, ?_⟩
  · intro i buf len h
    exact rule_matches_option_rows _ _ _ (compress_rules_outcome tkl P table i buf len h).2.1
  · intro rule rest k hrows hcount
    have := hskip (tkl k) rule hrows hcount
    exact ⟨this, by simp [compress_rules, this]⟩
  · intro j buf len hrows hcount h
    have h1 := (compress_rules_outcome tkl P table j buf len h).2.1
    rw [hskip (tkl j) _ hrows hcount] at h1
    cases h1

/-- Witness of C5: the example packet with `coap_option_num` set to 2 passes
every row of rule 2, which has one `COAP_OPTION_VALUE` row; the rule does not
match and no rule is selected. -/
theorem schc_compress_option_count_witness :
    (match_rows (example_tkl 2) { example_packet with coap_option_num := 2 }
      (rules.getD 2 []) 0 0).1 ≠ 0 ∧
    option_rows (rules.getD 2 []) = 1 ∧
    rule_matches (example_tkl 2) { example_packet with coap_option_num := 2 }
      (rules.getD 2 []) = false ∧
    rule_matches (example_tkl 2) example_packet (rules.getD 2 []) = true ∧
    compress_rules example_tkl { example_packet with coap_option_num := 2 } rules 0 =
      .no_match :=
  ⟨by decide!, by decide!,
    ((schc_compress_option_count example_tkl { example_packet with coap_option_num := 2 }
      rules).2.1 (rules.getD 2 []) [] 2 (by decide!) (by decide!)).1,
    by decide!, by decide!⟩

/-- C6 (compressed packet layout): when rule `i` of the table of `context.cpp`
matches a valid packet, the bytes that `schc_compress` hands to
`schc_fragmentate` are `[i]`, then the residue (the bytes of the fields whose
row has action `VALUE_SENT`, in row order, nothing for the other rows), then
the first `coap_payload_length` bytes of the CoAP payload; the length is
`1 + residue length + coap_payload_length`, and the result of `schc_compress`
is that of `schc_fragmentate` on them. -/
theorem schc_compress_layout (tkl : Nat → Nat → Nat) (queue : List Nat) (P : field_values)
    (i : Nat) (buf : List Nat) (len : Nat) (hv : P.valid)
    (hpkt : compress_rules tkl P rules 0 = .packet i buf len) :
    buf.take len = [i] ++ residue P (rules.getD i []) ++
        P.coap_payload.take P.coap_payload_length ∧
    len = 1 + (residue P (rules.getD i [])).length + P.coap_payload_length ∧
    len ≤ buf.length ∧
    schc_compress tkl queue P =
      { queue := (schc_fragmentate queue buf len).queue,
        ret := (schc_fragmentate queue buf len).ret } := by
  obtain ⟨h1, h2, h3, h4⟩ := compress_rules_packet tkl P hv i buf len hpkt
  refine ⟨h1, h2, by rw [h3]; simp only [SIZE_MTU_IPV6]; omega, ?_⟩
  simp only [schc_compress, schc_compress_with, hpkt]

/-- Witness of C6: the example packet under rule 2, whose only `VALUE_SENT`
row is the message id: rule id 2, residue `12 34`, payload `7 8 9`. -/
theorem schc_compress_layout_witness :
    example_packet.valid ∧
    compress_rules example_tkl example_packet rules 0 =
      .packet 2 (mem_write (mem_write (mem_write (List.replicate SIZE_MTU_IPV6 0) 0 [2]) 1
        [0x12, 0x34]) 3 [7, 8, 9]) 6 ∧
    residue example_packet (rules.getD 2 []) = [0x12, 0x34] ∧
    (mem_write (mem_write (mem_write (List.replicate SIZE_MTU_IPV6 0) 0 [2]) 1
        [0x12, 0x34]) 3 [7, 8, 9]).take 6 =
      [2] ++ residue example_packet (rules.getD 2 []) ++
        example_packet.coap_payload.take example_packet.coap_payload_length :=
  ⟨by decide!, by decide!, by decide!,
    (schc_compress_layout example_tkl [] example_packet 2 _ 6 (by decide!) (by decide!)).1⟩

/-! ## Lemmas on the decompression of one row -/

theorem option_at_modify (F : field_values) (i j : Nat) (f : coap_option_entry → coap_option_entry) :
    (F.modify_option i f).option_at j =
      if j = i ∧ i < F.coap_option.length then f (F.option_at i) else F.option_at j := by
  unfold field_values.modify_option field_values.option_at
  simp only [List.getD_eq_getElem?_getD, List.getElem?_set]
  by_cases hji : j = i
  · subst hji
    by_cases hlt : j < F.coap_option.length
    · simp [hlt]
    · simp [hlt]
      rw [List.getElem?_eq_none (by omega)]
      rfl
  · have : ¬ i = j := fun h => hji h.symm
    simp [hji, this]

theorem option_at_num (F : field_values) (n j : Nat) :
    ({ F with coap_option_num := n } : field_values).option_at j = F.option_at j := rfl

theorem modify_option_length (F : field_values) (i : Nat)
    (f : coap_option_entry → coap_option_entry) :
    (F.modify_option i f).coap_option.length = F.coap_option.length := by
  simp [field_values.modify_option]

theorem modify_option_num (F : field_values) (i : Nat)
    (f : coap_option_entry → coap_option_entry) :
    (F.modify_option i f).coap_option_num = F.coap_option_num := rfl

/-- A `NOT_SENT` row accepted by `row_ok` leaves the fields recovered so far
as they are. -/
theorem not_sent_frame (P F : field_values) (tmp : List Nat) (k : Known) (cur : Nat)
    (row row' : field_description) (idx' : Nat)
    (hok : row_ok k cur row = true) (hnum : F.coap_option_num = cur)
    (hdone : key_done k cur row'.fieldid idx') :
    field_recovered P (schc_DA_not_sent tmp F row.fieldid row.tv) row' idx' ↔
      field_recovered P F row' idx' := by
  unfold row_ok at hok
  unfold key_done at hdone
  unfold field_recovered schc_DA_not_sent
  cases hf : row.fieldid <;> cases hf' : row'.fieldid <;>
    simp only [hf, hf'] at hok hdone ⊢ <;>
    first
    | rfl
    | (simp_all [option_at_modify, option_at_num, modify_option_num]
       done)
    | (simp [option_at_modify, option_at_num, modify_option_num, hnum] at hok hdone ⊢
       split <;> simp_all)

/-- A `VALUE_SENT` row accepted by `row_ok` leaves the fields recovered so far
as they are. -/
theorem value_sent_frame (P F : field_values) (pkt : List Nat) (off : Nat) (k : Known) (cur : Nat)
    (row row' : field_description) (idx' : Nat)
    (hok : row_ok k cur row = true) (hnum : F.coap_option_num = cur)
    (hdone : key_done k cur row'.fieldid idx') :
    field_recovered P (schc_DA_value_sent F row.fieldid pkt off).1 row' idx' ↔
      field_recovered P F row' idx' := by
  unfold row_ok at hok
  unfold key_done at hdone
  unfold field_recovered schc_DA_value_sent
  cases hf : row.fieldid <;> cases hf' : row'.fieldid <;>
    simp only [hf, hf'] at hok hdone ⊢ <;>
    first
    | rfl
    | (simp_all [option_at_modify, option_at_num, modify_option_num]
       done)
    | (simp [option_at_modify, option_at_num, modify_option_num, hnum] at hok hdone ⊢
       split <;> simp_all)

theorem to_uint_eq (w : Nat) (v : Int) (n : Nat) (h : v = (n : Int)) (hn : n < 2 ^ w) :
    to_uint w v = n := by
  subst h
  unfold to_uint
  have : ((n : Int) % (2 ^ w : Int)) = ((n % 2 ^ w : Nat) : Int) := by
    push_cast; rfl
  rw [this, Int.toNat_ofNat, Nat.mod_eq_of_lt hn]

theorem valid_tkl_lt (P : field_values) (hv : P.valid) : P.coap_tkl < 2 ^ 8 := by
  have := hv.2.1
  omega

theorem valid_length_lt (P : field_values) (hv : P.valid) (cur : Nat) :
    (P.option_at cur).length < 2 ^ 16 := by
  have := option_at_length_le P hv cur
  omega

theorem string_to_bin_loop_length :
    ∀ (n : Nat) (src : List Nat) (tmp : Nat), (string_to_bin_loop n src tmp).length = n := by
  intro n
  induction n with
  | zero => intro src tmp; rfl
  | succ n ih => intro src tmp; simp [string_to_bin_loop, ih]

theorem string_to_bin_length (tv : String) : (string_to_bin tv).length = 8 :=
  string_to_bin_loop_length 8 _ 0

theorem mem_write_zero_length (dst src : List Nat) (h : dst.length = src.length) :
    (mem_write dst 0 src).length = src.length := by
  rw [mem_write_length _ _ _ (by omega)]
  exact h

/-- A `NOT_SENT` row accepted by `row_ok` on which the packet matched keeps
the invariant of the loop. -/
theorem not_sent_inv (P : field_values) (hv : P.valid) (s : DecompressState) (tmp : List Nat)
    (t : Nat) (k : Known) (cur : Nat) (row : field_description)
    (hok : row_ok k cur row = true) (hcda : row.CDA = .NOT_SENT)
    (hm : (check_matching t row P cur).1 ≠ 0) (hinv : decompress_inv P s cur k) :
    decompress_inv P { s with fv := schc_DA_not_sent tmp s.fv row.fieldid row.tv }
      (cur_next cur row) (known_next k row) := by
  obtain ⟨⟨l1, l2, l3, l4, l5, l6⟩, hnum, hzero, hdf, hlf, htkl, hlen, hclen⟩ := hinv
  have hP1 := valid_tkl_lt P hv
  have hP2 := valid_length_lt P hv cur
  have hc : (k.clen || decide (row.CDA = .COMPUTE_LENGTH)) = true → s.compute_length ≠ 0 := by
    simpa [hcda] using hclen
  unfold row_ok at hok
  unfold check_matching at hm
  unfold decompress_inv lengths_ok cur_next known_next row_recovers schc_DA_not_sent
  cases hf : row.fieldid
  case COAP_OPTION_DELTA =>
    simp only [hf, reduceCtorEq, ↓reduceIte] at hok hm ⊢
    have hcur : cur < s.fv.coap_option.length := by
      simp only [Bool.and_eq_true, decide_eq_true_eq] at hok
      omega
    rw [hnum]
    refine ⟨⟨l1, l2, l3, l4, l5, by rw [modify_option_length]; exact l6⟩, hnum, ?_, ?_, ?_,
      htkl, ?_, hclen⟩
    · intro idx hidx
      rw [option_at_modify, if_neg (by omega)]
      exact hzero idx hidx
    · intro h; simp at h
    · intro h
      rw [option_at_modify, if_pos ⟨rfl, hcur⟩]
      exact hlf h
    · intro h
      rw [option_at_modify, if_pos ⟨rfl, hcur⟩]
      exact hlen h
  case COAP_OPTION_LENGTH =>
    simp only [hf, reduceCtorEq, ↓reduceIte] at hok hm ⊢
    have hcur : cur < s.fv.coap_option.length := by
      simp only [Bool.and_eq_true, decide_eq_true_eq] at hok
      omega
    rw [hnum]
    refine ⟨⟨l1, l2, l3, l4, l5, by rw [modify_option_length]; exact l6⟩, hnum, ?_, ?_, ?_,
      htkl, ?_, hclen⟩
    · intro idx hidx
      rw [option_at_modify, if_neg (by omega)]
      exact hzero idx hidx
    · intro h
      rw [option_at_modify, if_pos ⟨rfl, hcur⟩]
      exact hdf h
    · intro h; simp at h
    · intro hr
      have hmo : row.MO = .EQUALS := by simpa [hcda] using hr
      simp only [hmo, c_bool] at hm
      have : atoi row.tv = ((P.option_at cur).length : Int) := by
        by_contra h; simp [h] at hm
      rw [option_at_modify, if_pos ⟨rfl, hcur⟩]
      exact to_uint_eq 16 _ _ this hP2
  case COAP_OPTION_VALUE =>
    simp only [hf, reduceCtorEq, ↓reduceIte] at hok hm ⊢
    have hcur4 : cur < 4 := by
      simp only [Bool.and_eq_true, decide_eq_true_eq, SCHC_MAX_COAP_OPT] at hok
      omega
    rw [hnum]
    refine ⟨⟨l1, l2, l3, l4, l5, by rw [modify_option_length]; exact l6⟩, ?_, ?_, ?_, ?_,
      htkl, ?_, hclen⟩
    · show ((s.fv.modify_option cur _).coap_option_num + 1) % 256 = cur + 1
      rw [modify_option_num, hnum]
      omega
    · intro idx hidx
      rw [option_at_num, option_at_modify, if_neg (by omega)]
      exact hzero idx (by omega)
    · intro _
      rw [option_at_num, option_at_modify, if_neg (by omega)]
      exact (hzero (cur + 1) (by omega)).1
    · intro _
      rw [option_at_num, option_at_modify, if_neg (by omega)]
      exact (hzero (cur + 1) (by omega)).2
    · intro h; simp at h
  case COAP_TKL =>
    simp only [hf] at hok hm ⊢
    refine ⟨⟨l1, l2, l3, l4, l5, l6⟩, hnum, hzero, hdf, hlf, ?_, hlen, hc⟩
    intro hr
    have hmo : row.MO = .EQUALS := by simpa [hcda] using hr
    simp only [hmo, c_bool] at hm
    have : atoi row.tv = (P.coap_tkl : Int) := by
      by_contra h; simp [h] at hm
    exact to_uint_eq 8 _ _ this hP1
  all_goals
    simp only [hf] at hok hm ⊢
    refine ⟨⟨?_, ?_, ?_, ?_, ?_, l6⟩, hnum, hzero, hdf, hlf, htkl, hlen, hc⟩ <;>
    first
    | assumption
    | simp [not_sent_hex2, mem_write_zero_length, string_to_bin_length, *]

theorem c_bool_atoi8 (tv : String) (n : Nat) (hn : n < 256)
    (h : c_bool (atoi tv = (n : Int)) ≠ 0) : to_uint 8 (atoi tv) = n := by
  have : atoi tv = (n : Int) := by
    by_contra hne; simp [c_bool, hne] at h
  exact to_uint_eq 8 _ _ this hn

theorem c_bool_atoi16 (tv : String) (n : Nat) (hn : n < 65536)
    (h : c_bool (atoi tv = (n : Int)) ≠ 0) : to_uint 16 (atoi tv) = n := by
  have : atoi tv = (n : Int) := by
    by_contra hne; simp [c_bool, hne] at h
  exact to_uint_eq 16 _ _ this hn

theorem c_bool_eq (p : Prop) [Decidable p] (h : c_bool p ≠ 0) : p := by
  by_contra hne; simp [c_bool, hne] at h

theorem mem_read_whole (p : List Nat) (n : Nat) (h : p.length = n) : mem_read p 0 n = p := by
  subst h; exact mem_read_all p

theorem mem_write_whole (dst src : List Nat) (h : dst.length = src.length) :
    mem_write dst 0 src = src := by
  rw [mem_write_zero, List.drop_of_length_le (by omega), List.append_nil]

theorem c_bool_address (a : List Nat) (tv : String) (dst : List Nat) (ha : a.length = 8)
    (hd : dst.length = 8)
    (h : c_bool (mem_read a 0 8 = mem_read (string_to_bin tv) 0 8) ≠ 0) :
    mem_write dst 0 (string_to_bin tv) = a := by
  have h1 := c_bool_eq _ h
  rw [mem_read_whole a 8 ha, mem_read_whole _ 8 (string_to_bin_length tv)] at h1
  rw [mem_write_whole _ _ (by rw [string_to_bin_length]; exact hd)]
  exact h1.symm

theorem option_at_wf (P : field_values) (hv : P.valid) (cur : Nat) : (P.option_at cur).wf := by
  unfold field_values.option_at
  rw [List.getD_eq_getElem?_getD]
  cases h : P.coap_option[cur]? with
  | none => simp [coap_option_zero, coap_option_entry.wf, bytes_ok]
  | some o =>
    have hw := hv.1
    unfold field_values.wf at hw
    exact hw.2.2.2.2.2.2.2.2.2.2.2.2.2.2.2.2.2.2.2.2.2.1.2 o (List.getElem?_mem h)

theorem take_mem_write_zero (dst src : List Nat) (n : Nat) (h : src.length = n) :
    (mem_write dst 0 src).take n = src := by
  rw [mem_write_zero, ← h, List.take_left]

theorem mem_read_eq_take (p : List Nat) (n : Nat) (h : n ≤ p.length) :
    mem_read p 0 n = p.take n := by
  rw [mem_read_eq_take_drop _ _ _ (by omega)]
  simp

/-- A `NOT_SENT` row whose target value is the value in the packet gives the
field the value it has in the packet. -/
theorem not_sent_recovers (P : field_values) (hv : P.valid) (F : field_values) (tmp : List Nat)
    (k : Known) (cur : Nat) (row : field_description)
    (hok : row_ok k cur row = true) (hcda : row.CDA = .NOT_SENT)
    (hl : lengths_ok F) (hnum : F.coap_option_num = cur)
    (hlen : k.len = true → (F.option_at cur).length = (P.option_at cur).length)
    (hr : row_recovers_in P row cur = true) :
    field_recovered P (schc_DA_not_sent tmp F row.fieldid row.tv) row cur := by
  obtain ⟨l1, l2, l3, l4, l5, l6⟩ := hl
  have hw := hv.1
  unfold field_values.wf at hw
  obtain ⟨w1, w2, w3, w4, w5, w6, w7, w8, w9, w10, w11, w12, w13, w14, w15, w16, w17, w18, w19,
    w20, w21, w22, w23, w24⟩ := hw
  obtain ⟨o1, o2, o3, o4⟩ := option_at_wf P hv cur
  have o5 := option_at_length_le P hv cur
  unfold row_recovers_in target_equal at hr
  simp only [hcda, reduceCtorEq, decide_False, Bool.false_or, Bool.and_eq_true, decide_eq_true_eq,
    Bool.not_eq_true', Bool.or_eq_false_iff, decide_eq_false_iff_not, Bool.or_eq_true,
    bne_iff_ne, decide_True, Bool.true_and] at hr
  obtain ⟨⟨hm, hnt, hnm⟩, hv2⟩ := hr
  unfold check_matching at hm
  unfold row_ok at hok
  unfold field_recovered schc_DA_not_sent
  cases hf : row.fieldid <;> simp only [hf, reduceCtorEq, not_true_eq_false, not_false_eq_true,
    ne_eq, false_or, true_or] at hok hm hnt hnm hv2 ⊢
  case COAP_OPTION_DELTA =>
    have hcur : cur < F.coap_option.length := by
      simp only [Bool.and_eq_true, decide_eq_true_eq] at hok
      omega
    rw [hnum, option_at_modify, if_pos ⟨rfl, hcur⟩]
    simp only [hcda, reduceCtorEq, ↓reduceIte]
    exact c_bool_atoi16 _ _ o1 hm
  case COAP_OPTION_LENGTH =>
    have hcur : cur < F.coap_option.length := by
      simp only [Bool.and_eq_true, decide_eq_true_eq] at hok
      omega
    rw [hnum, option_at_modify, if_pos ⟨rfl, hcur⟩]
    exact c_bool_atoi16 _ _ o2 hm
  case COAP_OPTION_VALUE =>
    have hcur : cur < F.coap_option.length := by
      simp only [Bool.and_eq_true, decide_eq_true_eq] at hok
      omega
    have hkl : k.len = true := by
      simp only [row_recovers, hcda, hv2, Bool.and_eq_true, decide_eq_true_eq] at hok
      simpa using hok.2.2
    have hm1 := c_bool_eq _ hm
    rw [hnum]
    conv_lhs =>
      arg 2
      rw [option_at_num, option_at_modify, if_pos ⟨rfl, hcur⟩]
    show (mem_write (F.option_at cur).value 0
      (mem_read (str_bytes row.tv) 0 (F.option_at cur).length)).take (P.option_at cur).length = _
    rw [hlen hkl, take_mem_write_zero _ _ _ (mem_read_length _ _ _), ← hm1,
      mem_read_eq_take _ _ (by omega)]
  all_goals
    first
    | exact c_bool_atoi8 _ _ (by assumption) hm
    | exact c_bool_atoi16 _ _ (by assumption) hm
    | exact c_bool_eq _ hm
    | exact c_bool_address _ _ _ (by simp [*]) (by assumption) hm

theorem mem_read_mid (a fb b : List Nat) (n : Nat) (h : fb.length = n) :
    mem_read (a ++ fb ++ b) a.length n = fb := by
  subst h
  rw [List.append_assoc, mem_read_append_right _ _ _ (by simp)]
  simp

theorem getD_mid (a b : List Nat) (x : Nat) : (a ++ [x] ++ b).getD a.length 0 = x := by
  rw [List.append_assoc, List.getD_eq_getElem?_getD, List.getElem?_append_right (le_refl _)]
  simp

/-- The offset after a `VALUE_SENT` row: the bytes of the field have been
consumed. -/
theorem value_sent_offset (P : field_values) (F : field_values)
    (k : Known) (cur : Nat) (row : field_description) (a b : List Nat)
    (hok : row_ok k cur row = true) (hcda : row.CDA = .VALUE_SENT)
    (hnum : F.coap_option_num = cur)
    (htkl : k.tkl = true → F.coap_tkl = P.coap_tkl)
    (hlen : k.len = true → (F.option_at cur).length = (P.option_at cur).length)
    (hsize : (a ++ field_bytes P row.fieldid cur ++ b).length ≤ 255) :
    (schc_DA_value_sent F row.fieldid (a ++ field_bytes P row.fieldid cur ++ b) a.length).2 =
      a.length + (field_bytes P row.fieldid cur).length := by
  unfold row_ok at hok
  unfold schc_DA_value_sent
  cases hf : row.fieldid <;> simp only [hf] at hok hsize ⊢
  case COAP_TOKEN =>
    have hk : k.tkl = true := by
      simp only [hcda, bne_self_eq_false, Bool.false_or, Bool.and_eq_true] at hok
      exact hok.2.2
    simp only [field_bytes, List.length_append, mem_read_length] at hsize ⊢
    rw [htkl hk]
    omega
  case COAP_OPTION_VALUE =>
    have hk : k.len = true := by
      simp only [row_recovers, hcda, Bool.and_eq_true, decide_eq_true_eq] at hok
      simpa using hok.2.2
    simp only [field_bytes, List.length_append, mem_read_length] at hsize ⊢
    rw [hnum, hlen hk]
    omega
  all_goals
    simp [field_bytes, mem_read_length] at hsize ⊢
    try omega

theorem overwrite_low_fresh (b : Nat) : overwrite_low 2 0 [b] = b := by
  simp [overwrite_low, le32_bytes, mem_read, mem_write, le_value, List.range_succ]

/-- A `VALUE_SENT` row accepted by `row_ok` keeps the invariant of the loop. -/
theorem value_sent_inv (P : field_values) (hv : P.valid) (s : DecompressState) (o : Nat)
    (k : Known) (cur : Nat) (row : field_description) (a b : List Nat)
    (hok : row_ok k cur row = true) (hcda : row.CDA = .VALUE_SENT)
    (hinv : decompress_inv P s cur k) :
    decompress_inv P
      { s with fv := (schc_DA_value_sent s.fv row.fieldid
                        (a ++ field_bytes P row.fieldid cur ++ b) a.length).1,
               offset := o }
      (cur_next cur row) (known_next k row) := by
  obtain ⟨⟨l1, l2, l3, l4, l5, l6⟩, hnum, hzero, hdf, hlf, htkl, hlen, hclen⟩ := hinv
  have hP2 := option_at_length_le P hv cur
  have hc : (k.clen || decide (row.CDA = .COMPUTE_LENGTH)) = true → s.compute_length ≠ 0 := by
    simpa [hcda] using hclen
  unfold row_ok at hok
  unfold decompress_inv lengths_ok cur_next known_next row_recovers schc_DA_value_sent
  cases hf : row.fieldid
  case COAP_OPTION_DELTA =>
    simp only [hf, reduceCtorEq, ↓reduceIte] at hok ⊢
    have hcur : cur < s.fv.coap_option.length := by
      simp only [Bool.and_eq_true, decide_eq_true_eq] at hok
      omega
    rw [hnum]
    refine ⟨⟨l1, l2, l3, l4, l5, by rw [modify_option_length]; exact l6⟩, hnum, ?_, ?_, ?_,
      htkl, ?_, hclen⟩
    · intro idx hidx
      rw [option_at_modify, if_neg (by omega)]
      exact hzero idx hidx
    · intro h; simp at h
    · intro h
      rw [option_at_modify, if_pos ⟨rfl, hcur⟩]
      exact hlf h
    · intro h
      rw [option_at_modify, if_pos ⟨rfl, hcur⟩]
      exact hlen h
  case COAP_OPTION_LENGTH =>
    simp only [hf, reduceCtorEq, ↓reduceIte] at hok ⊢
    have hcur : cur < s.fv.coap_option.length := by
      simp only [Bool.and_eq_true, decide_eq_true_eq] at hok
      omega
    have hfresh : k.len_fresh = true := by
      simp only [Bool.and_eq_true, decide_eq_true_eq] at hok
      exact hok.2.2
    rw [hnum]
    refine ⟨⟨l1, l2, l3, l4, l5, by rw [modify_option_length]; exact l6⟩, hnum, ?_, ?_, ?_,
      htkl, ?_, hclen⟩
    · intro idx hidx
      rw [option_at_modify, if_neg (by omega)]
      exact hzero idx hidx
    · intro h
      rw [option_at_modify, if_pos ⟨rfl, hcur⟩]
      exact hdf h
    · intro h; simp at h
    · intro _
      rw [option_at_modify, if_pos ⟨rfl, hcur⟩]
      show overwrite_low 2 (s.fv.option_at cur).length _ = _
      rw [hlf hfresh]
      simp only [field_bytes]
      rw [mem_read_mid a [_] b 1 rfl, overwrite_low_fresh]
      omega
  case COAP_OPTION_VALUE =>
    simp only [hf, reduceCtorEq, ↓reduceIte] at hok ⊢
    have hcur4 : cur < 4 := by
      simp only [Bool.and_eq_true, decide_eq_true_eq, SCHC_MAX_COAP_OPT] at hok
      omega
    rw [hnum]
    refine ⟨⟨l1, l2, l3, l4, l5, by rw [modify_option_length]; exact l6⟩, ?_, ?_, ?_, ?_,
      htkl, ?_, hclen⟩
    · show ((s.fv.modify_option cur _).coap_option_num + 1) % 256 = cur + 1
      rw [modify_option_num, hnum]
      omega
    · intro idx hidx
      rw [option_at_num, option_at_modify, if_neg (by omega)]
      exact hzero idx (by omega)
    · intro _
      rw [option_at_num, option_at_modify, if_neg (by omega)]
      exact (hzero (cur + 1) (by omega)).1
    · intro _
      rw [option_at_num, option_at_modify, if_neg (by omega)]
      exact (hzero (cur + 1) (by omega)).2
    · intro h; simp at h
  case COAP_TKL =>
    simp only [hf] at hok ⊢
    refine ⟨⟨l1, l2, l3, l4, l5, l6⟩, hnum, hzero, hdf, hlf, ?_, hlen, hc⟩
    intro _
    simp only [field_bytes]
    exact getD_mid _ _ _
  all_goals
    simp only [hf] at hok ⊢
    refine ⟨⟨?_, ?_, ?_, ?_, ?_, l6⟩, hnum, hzero, hdf, hlf, htkl, hlen, hc⟩ <;>
    first
    | assumption
    | simp [mem_write_zero_length, mem_read_length, *]

theorem overwrite_low_two (old x y : Nat) : overwrite_low 2 old [x, y] = x + 256 * y := by
  simp [overwrite_low, le32_bytes, mem_read, mem_write, le_value, List.range_succ]

theorem ntohs_bytes (v : Nat) (h : v < 65536) : ntohs (v / 256 % 256 + 256 * (v % 256)) = v := by
  unfold ntohs htons
  have hhi : v / 256 < 256 := by omega
  have hlo : v % 256 < 256 := by omega
  have hv : v = 256 * (v / 256) + v % 256 := by omega
  generalize v / 256 = hi at *
  generalize v % 256 = lo at *
  have e1 : (hi % 256 + 256 * lo) % 256 = hi := by omega
  have e2 : (hi % 256 + 256 * lo) / 256 = lo := by omega
  rw [e1, e2]
  omega

theorem value_sent_port (P_port old : Nat) (a b : List Nat) (h : P_port < 65536) :
    ntohs (overwrite_low 2 old
      (mem_read (a ++ [P_port / 256 % 256, P_port % 256] ++ b) a.length 2)) = P_port := by
  rw [mem_read_mid a [_, _] b 2 rfl, overwrite_low_two, ntohs_bytes _ h]

theorem value_sent_array (src dst a b : List Nat) (n : Nat) (hs : src.length = n)
    (hd : dst.length = n) :
    mem_write dst 0 (mem_read (a ++ mem_read src 0 n ++ b) a.length n) = src := by
  rw [mem_read_mid a _ b n (mem_read_length _ _ _), mem_read_whole src n hs,
    mem_write_whole _ _ (by omega)]

/-- A `VALUE_SENT` row gives the field the value it has in the packet. -/
theorem value_sent_recovers (P : field_values) (hv : P.valid) (F : field_values)
    (k : Known) (cur : Nat) (row : field_description) (a b : List Nat)
    (hok : row_ok k cur row = true) (hcda : row.CDA = .VALUE_SENT)
    (hl : lengths_ok F) (hnum : F.coap_option_num = cur)
    (hdf : k.delta_fresh = true → (F.option_at cur).delta = 0)
    (hlf : k.len_fresh = true → (F.option_at cur).length = 0)
    (htkl : k.tkl = true → F.coap_tkl = P.coap_tkl)
    (hlen : k.len = true → (F.option_at cur).length = (P.option_at cur).length) :
    field_recovered P
      (schc_DA_value_sent F row.fieldid (a ++ field_bytes P row.fieldid cur ++ b) a.length).1
      row cur := by
  obtain ⟨l1, l2, l3, l4, l5, l6⟩ := hl
  have hw := hv.1
  unfold field_values.wf at hw
  obtain ⟨w1, w2, w3, w4, w5, w6, w7, w8, w9, w10, w11, w12, w13, w14, w15, w16, w17, w18, w19,
    w20, w21, w22, w23, w24⟩ := hw
  obtain ⟨o1, o2, o3, o4⟩ := option_at_wf P hv cur
  have o5 := option_at_length_le P hv cur
  have t5 := hv.2.1
  unfold row_ok at hok
  unfold field_recovered schc_DA_value_sent
  cases hf : row.fieldid <;> simp only [hf, field_bytes] at hok ⊢
  case IPV6_FLOW_LABEL => simp [hcda] at hok
  case COAP_TOKEN =>
    have hk : k.tkl = true := by
      simp only [hcda, bne_self_eq_false, Bool.false_or, Bool.and_eq_true] at hok
      exact hok.2.2
    rw [htkl hk, mem_read_mid a _ b _ (mem_read_length _ _ _),
      take_mem_write_zero _ _ _ (mem_read_length _ _ _), mem_read_eq_take _ _ (by omega)]
  case COAP_OPTION_DELTA =>
    have hcur : cur < F.coap_option.length := by
      simp only [Bool.and_eq_true, decide_eq_true_eq] at hok
      omega
    have hfresh : k.delta_fresh = true := by
      simp only [Bool.and_eq_true, decide_eq_true_eq] at hok
      exact hok.2.2
    rw [hnum, option_at_modify, if_pos ⟨rfl, hcur⟩]
    simp only [hcda, ↓reduceIte]
    rw [hdf hfresh, mem_read_mid a [_] b 1 rfl, overwrite_low_fresh]
  case COAP_OPTION_LENGTH =>
    have hcur : cur < F.coap_option.length := by
      simp only [Bool.and_eq_true, decide_eq_true_eq] at hok
      omega
    have hfresh : k.len_fresh = true := by
      simp only [Bool.and_eq_true, decide_eq_true_eq] at hok
      exact hok.2.2
    rw [hnum, option_at_modify, if_pos ⟨rfl, hcur⟩]
    show overwrite_low 2 (F.option_at cur).length _ = _
    rw [hlf hfresh, mem_read_mid a [_] b 1 rfl, overwrite_low_fresh]
    omega
  case COAP_OPTION_VALUE =>
    have hcur : cur < F.coap_option.length := by
      simp only [Bool.and_eq_true, decide_eq_true_eq] at hok
      omega
    have hk : k.len = true := by
      simp only [row_recovers, hcda, Bool.and_eq_true, decide_eq_true_eq] at hok
      simpa using hok.2.2
    rw [hnum]
    conv_lhs =>
      arg 2
      rw [option_at_num, option_at_modify, if_pos ⟨rfl, hcur⟩]
    show (mem_write (F.option_at cur).value 0
      (mem_read _ a.length (F.option_at cur).length)).take (P.option_at cur).length = _
    rw [hlen hk, mem_read_mid a _ b _ (mem_read_length _ _ _),
      take_mem_write_zero _ _ _ (mem_read_length _ _ _), mem_read_eq_take _ _ (by omega)]
  all_goals
    first
    | exact getD_mid _ _ _
    | exact value_sent_port _ _ _ _ (by assumption)
    | exact value_sent_array _ _ _ _ _ (by simp [*]) (by assumption)

/-! ## Lemmas on the loop of `schc_decompress` -/

theorem row_ok_not_end (k : Known) (cur : Nat) (row : field_description)
    (hok : row_ok k cur row = true) : row.fieldid ≠ .END_OF_RULE := by
  intro h
  simp [row_ok, h] at hok

theorem row_ok_implemented (k : Known) (cur : Nat) (row : field_description)
    (hok : row_ok k cur row = true) : action_implemented row = true := by
  unfold row_ok at hok
  simp only [Bool.and_eq_true] at hok
  exact hok.1

theorem key_done_next (k : Known) (cur : Nat) (row : field_description) (fid : fieldid)
    (idx : Nat) (h : key_done k cur fid idx) :
    key_done (known_next k row) (cur_next cur row) fid idx := by
  unfold key_done at h ⊢
  unfold known_next cur_next
  cases hf : row.fieldid <;> cases fid <;> simp only [hf] at h ⊢ <;>
    first
    | exact h
    | (simp at h ⊢ <;> first | omega | tauto)

theorem key_done_self (k : Known) (cur : Nat) (row : field_description)
    (hok : row_ok k cur row = true) :
    key_done (known_next k row) (cur_next cur row) row.fieldid cur := by
  have hne := row_ok_not_end k cur row hok
  unfold key_done known_next cur_next
  cases hf : row.fieldid <;> simp [hf] at hne ⊢

theorem decompress_rows_cons (u : Indeterminate) (pkt : List Nat) (row : field_description)
    (rest : List field_description) (i : Nat) (s : DecompressState)
    (hne : row.fieldid ≠ .END_OF_RULE) :
    decompress_rows u pkt (row :: rest) i s =
      decompress_rows u pkt rest (i + 1) (decompress_rows u pkt [row] i s) := by
  simp [decompress_rows, hne]

/-- A `COMPUTE_LENGTH` or `COMPUTE_CHECKSUM` row accepted by `row_ok` keeps the
invariant of the loop. -/
theorem compute_inv (P : field_values) (s s' : DecompressState)
    (k : Known) (cur : Nat) (row : field_description)
    (hok : row_ok k cur row = true)
    (hcda : row.CDA = .COMPUTE_LENGTH ∨ row.CDA = .COMPUTE_CHECKSUM)
    (hfv : s'.fv = s.fv)
    (hcl : s.compute_length ≠ 0 ∨ row.CDA = .COMPUTE_LENGTH → s'.compute_length ≠ 0)
    (hinv : decompress_inv P s cur k) :
    decompress_inv P s' (cur_next cur row) (known_next k row) := by
  obtain ⟨hl, hnum, hzero, hdf, hlf, htkl, hlen, hclen⟩ := hinv
  have hrec : row_recovers row = false := by
    rcases hcda with h | h <;> simp [row_recovers, h]
  have hc : (k.clen || decide (row.CDA = .COMPUTE_LENGTH)) = true → s'.compute_length ≠ 0 := by
    intro h
    simp only [Bool.or_eq_true, decide_eq_true_eq] at h
    rcases h with h | h
    · exact hcl (Or.inl (hclen h))
    · exact hcl (Or.inr h)
  have hc0 : k.clen = true → s'.compute_length ≠ 0 := fun h => hcl (Or.inl (hclen h))
  unfold row_ok at hok
  unfold decompress_inv cur_next known_next
  rw [hfv]
  cases hf : row.fieldid <;> simp only [hf, reduceCtorEq, ↓reduceIte, hrec] at hok ⊢
  case COAP_OPTION_VALUE =>
    rcases hcda with h | h <;> simp [h] at hok
  case COAP_OPTION_DELTA =>
    exact ⟨hl, hnum, hzero, by intro h; simp at h, hlf, htkl, hlen, hc0⟩
  case COAP_OPTION_LENGTH =>
    exact ⟨hl, hnum, hzero, hdf, by intro h; simp at h, htkl, by intro h; simp at h, hc0⟩
  case COAP_TKL =>
    exact ⟨hl, hnum, hzero, hdf, hlf, by intro h; simp at h, hlen, hc⟩
  all_goals exact ⟨hl, hnum, hzero, hdf, hlf, htkl, hlen, hc⟩

/-- One row of the loop of `schc_decompress`, on a packet that holds at the
current offset the bytes the compressor produced for the row: the invariant
is kept, the offset moves past these bytes, the fields recovered so far stay
as they are and the field of the row is recovered. -/
theorem decompress_row_step (u : Indeterminate) (P : field_values) (hv : P.valid) (t : Nat)
    (row : field_description) (i : Nat) (s : DecompressState) (cur : Nat) (k : Known)
    (a b : List Nat) (hok : row_ok k cur row = true)
    (hm : (check_matching t row P cur).1 ≠ 0) (hinv : decompress_inv P s cur k)
    (hoff : s.offset = a.length)
    (hsize : (a ++ (if row.CDA = .VALUE_SENT then field_bytes P row.fieldid cur else []) ++
      b).length ≤ 255) :
    decompress_inv P
      (decompress_rows u
        (a ++ (if row.CDA = .VALUE_SENT then field_bytes P row.fieldid cur else []) ++ b)
        [row] i s)
      (cur_next cur row) (known_next k row) ∧
    (decompress_rows u
        (a ++ (if row.CDA = .VALUE_SENT then field_bytes P row.fieldid cur else []) ++ b)
        [row] i s).offset =
      a.length + (if row.CDA = .VALUE_SENT then field_bytes P row.fieldid cur else []).length ∧
    (∀ (row' : field_description) (idx' : Nat), key_done k cur row'.fieldid idx' →
      (field_recovered P (decompress_rows u
        (a ++ (if row.CDA = .VALUE_SENT then field_bytes P row.fieldid cur else []) ++ b)
        [row] i s).fv row' idx' ↔ field_recovered P s.fv row' idx')) ∧
    (row_recovers_in P row cur = true →
      field_recovered P (decompress_rows u
        (a ++ (if row.CDA = .VALUE_SENT then field_bytes P row.fieldid cur else []) ++ b)
        [row] i s).fv row cur) := by
  have hne := row_ok_not_end k cur row hok
  have himp := row_ok_implemented k cur row hok
  have hinv' := hinv
  obtain ⟨hl, hnum, hzero, hdf, hlf, htkl, hlen, hclen⟩ := hinv'
  simp only [decompress_rows, hne, ↓reduceIte]
  cases hcda : row.CDA
  case NOT_SENT =>
    simp only [reduceCtorEq, ↓reduceIte, List.length_nil, Nat.add_zero]
    refine ⟨not_sent_inv P hv s _ t k cur row hok hcda hm hinv, hoff, ?_, ?_⟩
    · intro row' idx' hd
      exact not_sent_frame P s.fv _ k cur row row' idx' hok hnum hd
    · intro hr
      exact not_sent_recovers P hv s.fv _ k cur row hok hcda hl hnum hlen hr
  case VALUE_SENT =>
    simp only [↓reduceIte]
    simp only [hcda, ↓reduceIte] at hsize
    rw [hoff]
    refine ⟨value_sent_inv P hv s _ k cur row a b hok hcda hinv,
      value_sent_offset P s.fv k cur row a b hok hcda hnum htkl hlen hsize, ?_, ?_⟩
    · intro row' idx' hd
      exact value_sent_frame P s.fv _ _ k cur row row' idx' hok hnum hd
    · intro _
      exact value_sent_recovers P hv s.fv k cur row a b hok hcda hl hnum hdf hlf htkl hlen
  case COMPUTE_LENGTH =>
    simp only [reduceCtorEq, ↓reduceIte, List.length_nil, Nat.add_zero]
    refine ⟨compute_inv P s _ k cur row hok (Or.inl hcda) rfl (fun _ => by simp) hinv, hoff,
      fun _ _ _ => trivial, ?_⟩
    intro hr
    simp [row_recovers_in, hcda] at hr
  case COMPUTE_CHECKSUM =>
    simp only [reduceCtorEq, ↓reduceIte, List.length_nil, Nat.add_zero]
    refine ⟨compute_inv P s _ k cur row hok (Or.inr hcda) rfl ?_ hinv, hoff,
      fun _ _ _ => trivial, ?_⟩
    · intro h
      rcases h with h | h
      · exact h
      · rw [hcda] at h; cases h
    · intro hr
      simp [row_recovers_in, hcda] at hr
  all_goals simp [action_implemented, hcda] at himp

/-- The loop of `schc_decompress` over rows accepted by `rows_ok`, on a packet
that holds at the current offset the residue the compressor produced for
these rows of a packet `P` that matches them: a `COMPUTE_LENGTH` row was
seen, `coap_option_num` has counted the option value rows, the offset is past
the residue, the fields recovered before stay as they are, and the fields of
the rows are recovered. -/
theorem decompress_rows_spec (u : Indeterminate) (P : field_values) (hv : P.valid)
    (tkl : Nat → Nat) (pkt : List Nat) (hsize : pkt.length ≤ 255) :
    ∀ (rows : List field_description) (i j : Nat) (s : DecompressState) (cur : Nat) (k : Known)
      (a b : List Nat),
      rows_ok k cur rows = true →
      (match_rows tkl P rows j cur).1 ≠ 0 →
      decompress_inv P s cur k →
      s.offset = a.length →
      pkt = a ++ residue_rows P rows cur ++ b →
      (decompress_rows u pkt rows i s).compute_length ≠ 0 ∧
      (decompress_rows u pkt rows i s).fv.coap_option_num =
        cur + (rows.filter (fun row => decide (row.fieldid = .COAP_OPTION_VALUE))).length ∧
      (decompress_rows u pkt rows i s).offset = a.length + (residue_rows P rows cur).length ∧
      (∀ (row' : field_description) (idx' : Nat), key_done k cur row'.fieldid idx' →
        (field_recovered P (decompress_rows u pkt rows i s).fv row' idx' ↔
          field_recovered P s.fv row' idx')) ∧
      rows_recovered P (decompress_rows u pkt rows i s).fv rows cur := by
  intro rows
  induction rows with
  | nil =>
    intro i j s cur k a b hok _ hinv hoff _
    simp only [rows_ok] at hok
    simp only [decompress_rows, List.filter_nil, List.length_nil, Nat.add_zero, residue_rows,
      rows_recovered, and_true]
    exact ⟨hinv.2.2.2.2.2.2.2 hok, hinv.2.1, hoff, fun _ _ _ => trivial⟩
  | cons row rest ih =>
    intro i j s cur k a b hok hm hinv hoff hpkt
    simp only [rows_ok, Bool.and_eq_true] at hok
    obtain ⟨hok1, hokr⟩ := hok
    have hne := row_ok_not_end k cur row hok1
    simp only [match_rows, hne, ↓reduceIte] at hm
    have hm1 : (check_matching (tkl j) row P cur).1 ≠ 0 := by
      intro h
      simp [h] at hm
    simp only [hm1, ↓reduceIte] at hm
    rw [check_matching_cur _ _ _ _ hm1] at hm
    have hpkt1 : pkt = a ++ (if row.CDA = .VALUE_SENT then field_bytes P row.fieldid cur else [])
        ++ (residue_rows P rest (cur_next cur row) ++ b) := by
      rw [hpkt]
      simp only [residue_rows, cur_next, List.append_assoc]
    have hpkt2 : pkt = (a ++ (if row.CDA = .VALUE_SENT then field_bytes P row.fieldid cur else []))
        ++ residue_rows P rest (cur_next cur row) ++ b := by
      rw [hpkt1]
      simp only [List.append_assoc]
    obtain ⟨s1inv, s1off, s1frame, s1rec⟩ :=
      decompress_row_step u P hv (tkl j) row i s cur k a
        (residue_rows P rest (cur_next cur row) ++ b) hok1 hm1 hinv hoff
        (by rw [← hpkt1]; exact hsize)
    rw [← hpkt1] at s1inv s1off s1frame s1rec
    have s1off' : (decompress_rows u pkt [row] i s).offset =
        (a ++ (if row.CDA = .VALUE_SENT then field_bytes P row.fieldid cur else [])).length := by
      rw [s1off, List.length_append]
    obtain ⟨r1, r2, r3, r4, r5⟩ :=
      ih (i + 1) (j + 1) (decompress_rows u pkt [row] i s) (cur_next cur row) (known_next k row)
        (a ++ (if row.CDA = .VALUE_SENT then field_bytes P row.fieldid cur else [])) b
        hokr hm s1inv s1off' hpkt2
    rw [decompress_rows_cons u pkt row rest i s hne]
    refine ⟨r1, ?_, ?_, ?_, ?_, r5⟩
    · rw [r2]
      unfold cur_next
      by_cases hf : row.fieldid = .COAP_OPTION_VALUE
      · simp [List.filter_cons, hf]; omega
      · simp [List.filter_cons, hf]
    · rw [r3]
      simp only [residue_rows, cur_next, List.length_append]
      omega
    · intro row' idx' hd
      rw [r4 row' idx' (key_done_next k cur row _ _ hd)]
      exact s1frame row' idx' hd
    · intro hr
      rw [r4 row cur (key_done_self k cur row hok1)]
      exact s1rec hr

theorem match_rows_rule_rows (tkl : Nat → Nat) (P : field_values) :
    ∀ (rule : List field_description) (j cur : Nat),
      match_rows tkl P (rule_rows rule) j cur = match_rows tkl P rule j cur := by
  intro rule
  induction rule with
  | nil => intro j cur; rfl
  | cons row rest ih =>
    intro j cur
    rw [rule_rows_cons]
    by_cases h : row.fieldid = .END_OF_RULE
    · simp [match_rows, h]
    · simp only [h, ↓reduceIte, match_rows, ih]

theorem decompress_rows_rule_rows (u : Indeterminate) (pkt : List Nat) :
    ∀ (rule : List field_description) (i : Nat) (s : DecompressState),
      decompress_rows u pkt (rule_rows rule) i s = decompress_rows u pkt rule i s := by
  intro rule
  induction rule with
  | nil => intro i s; rfl
  | cons row rest ih =>
    intro i s
    rw [rule_rows_cons]
    by_cases h : row.fieldid = .END_OF_RULE
    · simp [decompress_rows, h]
    · simp only [h, ↓reduceIte, decompress_rows, ih]

theorem option_at_zero (idx : Nat) : field_values_zero.option_at idx = coap_option_zero := by
  unfold field_values.option_at field_values_zero
  simp only [List.getD_eq_getElem?_getD]
  cases h : (List.replicate SCHC_MAX_COAP_OPT coap_option_zero)[idx]? with
  | none => rfl
  | some o =>
    have := List.getElem?_mem h
    rw [List.mem_replicate] at this
    simp [this.2]

theorem decompress_inv_init (P : field_values) :
    decompress_inv P
      { fv := field_values_zero, offset := 1, compute_length := 0, compute_checksum := 0 }
      0 Known.init := by
  refine ⟨⟨rfl, rfl, rfl, rfl, rfl, rfl⟩, rfl, ?_, ?_, ?_, ?_, ?_, ?_⟩
  · intro idx _
    rw [option_at_zero]
    exact ⟨rfl, rfl⟩
  · intro _; rfl
  · intro _; rfl
  · intro h; cases h
  · intro h; cases h
  · intro h; cases h

theorem option_index_zero (rows : List field_description) : option_index rows 0 = 0 := by
  simp [option_index]

theorem option_index_succ (cur : Nat) (row : field_description) (rest : List field_description) (n : Nat) :
    cur_next cur row + option_index rest n = cur + option_index (row :: rest) (n + 1) := by
  unfold cur_next option_index
  by_cases h : row.fieldid = .COAP_OPTION_VALUE
  · simp [List.filter_cons, h]; omega
  · simp [List.filter_cons, h]

theorem rows_recovered_index (P F : field_values) :
    ∀ (rows : List field_description) (cur : Nat), rows_recovered P F rows cur →
      ∀ (n : Nat) (row : field_description), rows[n]? = some row →
        row_recovers_in P row (cur + option_index rows n) = true →
        field_recovered P F row (cur + option_index rows n) := by
  intro rows
  induction rows with
  | nil => intro cur _ n row h; simp at h
  | cons r rest ih =>
    intro cur hrec n row hn hr
    obtain ⟨h1, h2⟩ := hrec
    cases n with
    | zero =>
      simp only [List.getElem?_cons_zero, Option.some.injEq] at hn
      subst hn
      rw [option_index_zero, Nat.add_zero] at hr ⊢
      exact h1 hr
    | succ n =>
      simp only [List.getElem?_cons_succ] at hn
      rw [← option_index_succ] at hr ⊢
      exact ih _ h2 n row hn hr

theorem schc_decompress_with_eq (table : List (List field_description)) (u : Indeterminate)
    (pkt : List Nat) (len : Nat) (h : pkt.getD 0 0 < table.length) :
    schc_decompress_with table u pkt len =
      { ret := 0,
        rx := some
          { finish_checksum u
              (decompress_rows u pkt (table.getD (pkt.getD 0 0) []) 0
                { fv := field_values_zero, offset := 1, compute_length := 0,
                  compute_checksum := 0 }).compute_checksum
              (finish_payload pkt
                (decompress_rows u pkt (table.getD (pkt.getD 0 0) []) 0
                  { fv := field_values_zero, offset := 1, compute_length := 0,
                    compute_checksum := 0 }).offset
                (finish_payload_length len
                  (decompress_rows u pkt (table.getD (pkt.getD 0 0) []) 0
                    { fv := field_values_zero, offset := 1, compute_length := 0,
                      compute_checksum := 0 }))
                (finish_lengths len
                  (decompress_rows u pkt (table.getD (pkt.getD 0 0) []) 0
                    { fv := field_values_zero, offset := 1, compute_length := 0,
                      compute_checksum := 0 })))
            with ipv6_hop_limit := 255 } } := by
  unfold schc_decompress_with
  rw [if_neg (by omega)]
  rfl

theorem same_recoverable_trans (F G H : field_values) (h1 : same_recoverable F G)
    (h2 : same_recoverable G H) : same_recoverable F H :=
  ⟨h2.1.trans h1.1, fun P row idx => (h2.2 P row idx).trans (h1.2 P row idx)⟩

theorem finish_lengths_same (len : Nat) (s : DecompressState) :
    same_recoverable s.fv (finish_lengths len s) := by
  unfold finish_lengths
  split
  · refine ⟨rfl, fun P row idx => ?_⟩
    unfold field_recovered
    cases row.fieldid <;> exact Iff.rfl
  · exact ⟨rfl, fun _ _ _ => Iff.rfl⟩

theorem finish_payload_same (pkt : List Nat) (offset n : Nat) (fv : field_values) :
    same_recoverable fv (finish_payload pkt offset n fv) := by
  unfold finish_payload
  split
  · refine ⟨rfl, fun P row idx => ?_⟩
    unfold field_recovered
    cases row.fieldid <;> exact Iff.rfl
  · exact ⟨rfl, fun _ _ _ => Iff.rfl⟩

theorem finish_checksum_same (u : Indeterminate) (c : Nat) (fv : field_values) :
    same_recoverable fv (finish_checksum u c fv) := by
  unfold finish_checksum
  split
  · refine ⟨rfl, fun P row idx => ?_⟩
    unfold field_recovered
    cases row.fieldid <;> exact Iff.rfl
  · exact ⟨rfl, fun _ _ _ => Iff.rfl⟩

theorem hop_limit_same (fv : field_values) (v : Nat) :
    same_recoverable fv { fv with ipv6_hop_limit := v } := by
  refine ⟨rfl, fun P row idx => ?_⟩
  unfold field_recovered
  cases row.fieldid <;> exact Iff.rfl

theorem finish_checksum_payload (u : Indeterminate) (c : Nat) (fv : field_values) :
    (finish_checksum u c fv).coap_payload = fv.coap_payload ∧
    (finish_checksum u c fv).coap_payload_length = fv.coap_payload_length := by
  unfold finish_checksum
  split <;> exact ⟨rfl, rfl⟩

theorem finish_payload_take (pkt : List Nat) (offset n : Nat) (fv : field_values) :
    (finish_payload pkt offset n fv).coap_payload.take n = mem_read pkt offset n ∧
    (finish_payload pkt offset n fv).coap_payload_length = fv.coap_payload_length := by
  unfold finish_payload
  split
  · exact ⟨take_mem_write_zero _ _ _ (mem_read_length _ _ _), rfl⟩
  · have h0 : n = 0 := by omega
    subst h0
    exact ⟨rfl, rfl⟩

theorem finish_lengths_payload_length (len : Nat) (s : DecompressState)
    (h : s.compute_length ≠ 0) :
    (finish_lengths len s).coap_payload_length = finish_payload_length len s % 256 := by
  unfold finish_lengths
  rw [if_pos h]

theorem rules_all_ok : ∀ rule ∈ rules, rule_ok rule = true := by
  decide

/-- C1, amended (round trip): when `schc_compress` selects rule `i` of the
table of `context.cpp` for a valid packet `P` and the compressed packet is at
most `MAX_SCHC_PKT_LEN` bytes long (so it is sent unfragmented),
`schc_decompress` applied to the bytes sent returns 0 and hands over a packet
`P'` such that: the hop limit of `P'` is 255, whatever it is in `P`; option
count, payload length and payload bytes are those of `P`; and every field
whose row is `VALUE_SENT`, or is `NOT_SENT` with the value in `P` equal to
the target value, has in `P'` the value it has in `P`.  Here a token and an
option value are compared in their bytes in use and an option delta sent by
value modulo 256 (`field_recovered`); nothing is stated for the hop limit
row, for the fields the decompressor computes (IPv6 payload length, UDP
length, UDP checksum), for the `NOT_SENT` rows of token and message id, and
for the `NOT_SENT` rows of an option value under `IGNORE`
(`row_recovers_in`). -/
theorem compress_decompress_roundtrip (tkl : Nat → Nat → Nat) (u : Indeterminate)
    (P : field_values) (i : Nat) (buf : List Nat) (len : Nat) (hv : P.valid)
    (hpkt : compress_rules tkl P rules 0 = .packet i buf len)
    (hlen : len ≤ MAX_SCHC_PKT_LEN) :
    ∃ P', schc_decompress u (buf.take len) len = { ret := 0, rx := some P' } ∧
      P'.ipv6_hop_limit = 255 ∧
      P'.coap_option_num = P.coap_option_num ∧
      P'.coap_payload_length = P.coap_payload_length ∧
      P'.coap_payload.take P.coap_payload_length =
        P.coap_payload.take P.coap_payload_length ∧
      ∀ (n : Nat) (row : field_description),
        (rule_rows (rules.getD i []))[n]? = some row →
        row_recovers_in P row (option_index (rule_rows (rules.getD i [])) n) = true →
        field_recovered P P' row (option_index (rule_rows (rules.getD i [])) n) := by
  obtain ⟨hi, hmatch, _, _⟩ := compress_rules_outcome tkl P rules i buf len hpkt
  obtain ⟨hbuf, hlen_eq, _, _⟩ := compress_rules_packet tkl P hv i buf len hpkt
  have hok : rows_ok Known.init 0 (rule_rows (rules.getD i [])) = true :=
    rules_all_ok _ (rules_getD_mem i hi)
  have hcount := rule_matches_option_rows (tkl i) P (rules.getD i []) hmatch
  have hm : (match_rows (tkl i) P (rule_rows (rules.getD i [])) 0 0).1 ≠ 0 := by
    rw [match_rows_rule_rows]
    unfold rule_matches at hmatch
    simp only [Bool.and_eq_true, decide_eq_true_eq] at hmatch
    simpa using hmatch.1
  have hcpl : P.coap_payload_length < 256 := by
    have hw := hv.1
    unfold field_values.wf at hw
    exact hw.2.2.2.2.2.2.2.2.2.2.2.2.2.2.2.2.2.2.2.2.2.2.1
  have hpl : P.coap_payload.length = SIZE_MTU_IPV6 := by
    have hw := hv.1
    unfold field_values.wf at hw
    exact hw.2.2.2.2.2.2.2.2.2.2.2.2.2.2.2.2.2.2.2.2.2.2.2.1
  have htl : (P.coap_payload.take P.coap_payload_length).length = P.coap_payload_length := by
    rw [List.length_take, hpl]
    simp only [SIZE_MTU_IPV6]
    omega
  have hsize : (buf.take len).length ≤ 255 := by
    rw [List.length_take]
    simp only [MAX_SCHC_PKT_LEN] at hlen
    omega
  have hg : (buf.take len).getD 0 0 = i := by
    rw [hbuf]
    simp
  obtain ⟨r1, r2, r3, _, r5⟩ :=
    decompress_rows_spec u P hv (tkl i) (buf.take len) hsize (rule_rows (rules.getD i [])) 0 0
      { fv := field_values_zero, offset := 1, compute_length := 0, compute_checksum := 0 }
      0 Known.init [i] (P.coap_payload.take P.coap_payload_length) hok hm
      (decompress_inv_init P) rfl hbuf
  rw [decompress_rows_rule_rows] at r1 r2 r3 r5
  have heq := schc_decompress_with_eq rules u (buf.take len) len (by rw [hg]; exact hi)
  rw [hg] at heq
  generalize decompress_rows u (buf.take len) (rules.getD i []) 0
    { fv := field_values_zero, offset := 1, compute_length := 0, compute_checksum := 0 } = S
    at r1 r2 r3 r5 heq
  have hfpl : finish_payload_length len S = P.coap_payload_length := by
    unfold finish_payload_length
    rw [if_pos r1, r3, hlen_eq]
    unfold residue
    simp only [List.length_singleton]
    omega
  have hsame : same_recoverable S.fv
      { finish_checksum u S.compute_checksum
          (finish_payload (buf.take len) S.offset (finish_payload_length len S)
            (finish_lengths len S)) with ipv6_hop_limit := 255 } :=
    same_recoverable_trans _ _ _
      (same_recoverable_trans _ _ _
        (same_recoverable_trans _ _ _ (finish_lengths_same len S)
          (finish_payload_same _ _ _ _))
        (finish_checksum_same _ _ _))
      (hop_limit_same _ 255)
  unfold schc_decompress
  refine ⟨_, heq, rfl, ?_, ?_, ?_, ?_⟩
  · rw [hsame.1, r2, ← hcount]
    unfold option_rows
    omega
  · show (finish_checksum u S.compute_checksum _).coap_payload_length = _
    rw [(finish_checksum_payload _ _ _).2, (finish_payload_take _ _ _ _).2,
      finish_lengths_payload_length len S r1, hfpl]
    omega
  · show (finish_checksum u S.compute_checksum _).coap_payload.take _ = _
    rw [(finish_checksum_payload _ _ _).1, hfpl, (finish_payload_take _ _ _ _).1, r3]
    have hb : buf.take len = ([i] ++ residue_rows P (rule_rows (rules.getD i [])) 0) ++
        P.coap_payload.take P.coap_payload_length ++ [] := by
      rw [hbuf]
      simp [residue]
    rw [hb, ← List.length_append]
    exact mem_read_mid _ _ _ _ htl
  · intro n row hn hr
    have h0 := rows_recovered_index P S.fv _ 0 r5 n row hn
    rw [Nat.zero_add] at h0
    exact (hsame.2 P row _).mpr (h0 hr)

/-- C1 (counterexample): the example packet has hop limit 64, which is the
target value of the `NOT_SENT` hop limit row of rule 2, the rule it matches;
it is compressed to the six bytes `02 12 34 07 08 09`, and `schc_decompress`
on these bytes returns 0 with a packet whose hop limit is 255. -/
theorem roundtrip_hop_limit_lost :
    example_packet.valid ∧
    compress_rules example_tkl example_packet rules 0 =
      .packet 2 (mem_write (mem_write (mem_write (List.replicate SIZE_MTU_IPV6 0) 0 [2]) 1
        [0x12, 0x34]) 3 [7, 8, 9]) 6 ∧
    (mem_write (mem_write (mem_write (List.replicate SIZE_MTU_IPV6 0) 0 [2]) 1
        [0x12, 0x34]) 3 [7, 8, 9]).take 6 = [2, 0x12, 0x34, 7, 8, 9] ∧
    ((rules.getD 2 []).getD 5 end_of_rule_row).fieldid = .IPV6_HOP_LIMIT ∧
    ((rules.getD 2 []).getD 5 end_of_rule_row).CDA = .NOT_SENT ∧
    atoi ((rules.getD 2 []).getD 5 end_of_rule_row).tv = (example_packet.ipv6_hop_limit : Int) ∧
    example_packet.ipv6_hop_limit = 64 ∧
    (schc_decompress example_indeterminate [2, 0x12, 0x34, 7, 8, 9] 6).ret = 0 ∧
    (schc_decompress example_indeterminate [2, 0x12, 0x34, 7, 8, 9] 6).rx.map
      (fun fv => fv.ipv6_hop_limit) = some 255 := by
  decide!

/-- Witness of C1: the example packet under rule 2. -/
theorem compress_decompress_roundtrip_witness :
    example_packet.valid ∧
    compress_rules example_tkl example_packet rules 0 =
      .packet 2 (mem_write (mem_write (mem_write (List.replicate SIZE_MTU_IPV6 0) 0 [2]) 1
        [0x12, 0x34]) 3 [7, 8, 9]) 6 ∧
    6 ≤ MAX_SCHC_PKT_LEN ∧
    ∃ P', schc_decompress example_indeterminate
        ((mem_write (mem_write (mem_write (List.replicate SIZE_MTU_IPV6 0) 0 [2]) 1
          [0x12, 0x34]) 3 [7, 8, 9]).take 6) 6 = { ret := 0, rx := some P' } ∧
      P'.ipv6_hop_limit = 255 ∧
      P'.coap_option_num = example_packet.coap_option_num ∧
      P'.coap_payload_length = example_packet.coap_payload_length ∧
      P'.coap_payload.take example_packet.coap_payload_length =
        example_packet.coap_payload.take example_packet.coap_payload_length ∧
      ∀ (n : Nat) (row : field_description),
        (rule_rows (rules.getD 2 []))[n]? = some row →
        row_recovers_in example_packet row (option_index (rule_rows (rules.getD 2 [])) n) = true →
        field_recovered example_packet P' row (option_index (rule_rows (rules.getD 2 [])) n) :=
  ⟨by decide!, by decide!, by decide,
    compress_decompress_roundtrip example_tkl example_indeterminate example_packet 2 _ 6
      (by decide!) (by decide!) (by decide)⟩

/-! ## `schc_reassemble`, one call -/

theorem mem_read_drop (msg : List Nat) (k : Nat) (h : k ≤ msg.length) :
    mem_read msg k (msg.length - k) = msg.drop k := by
  rw [mem_read_eq_take_drop _ _ _ (by omega)]
  rw [List.take_of_length_le (by simp)]

theorem to_uint_sub (len k : Nat) (h : k ≤ len) (hl : len < 2 ^ 32) :
    to_uint 32 ((len : Int) - (k : Int)) = len - k := by
  apply to_uint_eq
  · omega
  · omega

theorem mem_read_two (msg : List Nat) : mem_read msg 2 2 = [msg.getD 2 0, msg.getD 3 0] := rfl

theorem be16_bytes_eq (c : Nat) : le16_bytes (ntohs c) = be16_bytes c :=
  le16_bytes_htons c

/-- C11 (integrity check of a last fragment): for a last fragment (byte 0 =
0x80, byte 1 = 0xFF, at least the 4 header bytes) whose payload fits the
buffer, `schc_reassemble` calls `schc_decompress` if and only if bytes 2 and
3 of the fragment are the big-endian bytes of `crc16` over the accumulated
buffer (the bytes accumulated before and the bytes after the 4-byte header);
the call then gets a buffer that starts with the accumulated bytes and their
number; on a mismatch there is no call and nothing is delivered. -/
theorem schc_reassemble_last_integrity (u : Indeterminate) (st : ReassemblyState)
    (msg : List Nat) (h0 : msg.getD 0 0 = SCHC_FRG_RULEID) (h1 : msg.getD 1 0 = 0xFF)
    (hlen : 4 ≤ msg.length) (hmax : msg.length ≤ 255)
    (hbuf : st.schc_reassemble_buf.length = SIZE_MTU_IPV6)
    (hfit : st.schc_reassemble_offset + (msg.length - 4) ≤ SIZE_MTU_IPV6) :
    ((schc_reassemble u st msg msg.length).decompress_call ≠ none ↔
      [msg.getD 2 0, msg.getD 3 0] =
        be16_bytes (crc16 (accumulated_last st msg) (accumulated_last st msg).length)) ∧
    (∀ (b : List Nat) (n : Nat),
      (schc_reassemble u st msg msg.length).decompress_call = some (b, n) →
      n = (accumulated_last st msg).length ∧ b.take n = accumulated_last st msg ∧
      (schc_reassemble u st msg msg.length).decompressed = some (schc_decompress u b n)) ∧
    ((schc_reassemble u st msg msg.length).decompress_call = none →
      (schc_reassemble u st msg msg.length).decompressed = none) := by
  have hn : to_uint 32 ((msg.length : Int) - 4) = msg.length - 4 :=
    to_uint_sub msg.length 4 hlen (by omega)
  have hoff : (st.schc_reassemble_offset + (msg.length - 4)) % 2 ^ 32 =
      st.schc_reassemble_offset + (msg.length - 4) := by
    simp only [SIZE_MTU_IPV6] at hfit
    omega
  have hacc : (accumulated_last st msg).length =
      st.schc_reassemble_offset + (msg.length - 4) := by
    simp only [accumulated_last, List.length_append, List.length_take, List.length_drop, hbuf]
    simp only [SIZE_MTU_IPV6] at hfit ⊢
    omega
  have htake : (mem_write st.schc_reassemble_buf st.schc_reassemble_offset (msg.drop 4)).take
      (st.schc_reassemble_offset + (msg.length - 4)) = accumulated_last st msg := by
    have := take_mem_write st.schc_reassemble_buf st.schc_reassemble_offset (msg.drop 4)
      (by rw [hbuf]; omega)
    rw [List.length_drop] at this
    exact this
  have hcrc : crc16 (mem_write st.schc_reassemble_buf st.schc_reassemble_offset (msg.drop 4))
      (st.schc_reassemble_offset + (msg.length - 4)) =
      crc16 (accumulated_last st msg) (accumulated_last st msg).length := by
    rw [← crc16_take, htake, hacc]
  unfold schc_reassemble
  simp only [h0, h1, ne_eq, not_true_eq_false, ↓reduceIte, hn, hoff, mem_read_drop msg 4 hlen,
    mem_read_two, be16_bytes_eq, hcrc]
  by_cases hc : [msg.getD 2 0, msg.getD 3 0] =
      be16_bytes (crc16 (accumulated_last st msg) (accumulated_last st msg).length)
  · rw [if_pos hc]
    refine ⟨⟨fun _ => hc, fun _ h => (by cases h)⟩, ?_, fun h => (by cases h)⟩
    intro b n h
    simp only [Option.some.injEq, Prod.mk.injEq] at h
    obtain ⟨hb, hn2⟩ := h
    subst hb hn2
    exact ⟨hacc.symm, htake, rfl⟩
  · rw [if_neg hc]
    exact ⟨⟨fun h => absurd rfl h, fun h => absurd h hc⟩, fun _ _ h => (by cases h), fun _ => rfl⟩

/-- Witness of C11: the last fragment that carries the six bytes
`02 12 34 07 08 09` with their checksum `C1 DD`, taken in by an idle
reassembler. -/
theorem schc_reassemble_last_integrity_witness :
    ([0x80, 0xFF, 0xC1, 0xDD, 2, 0x12, 0x34, 7, 8, 9] : List Nat).getD 0 0 = SCHC_FRG_RULEID ∧
    (accumulated_last ReassemblyState.init [0x80, 0xFF, 0xC1, 0xDD, 2, 0x12, 0x34, 7, 8, 9] =
      [2, 0x12, 0x34, 7, 8, 9]) ∧
    ((schc_reassemble example_indeterminate ReassemblyState.init
        [0x80, 0xFF, 0xC1, 0xDD, 2, 0x12, 0x34, 7, 8, 9] 10).decompress_call ≠ none ↔
      [0xC1, 0xDD] = be16_bytes (crc16 [2, 0x12, 0x34, 7, 8, 9] 6)) ∧
    [0xC1, 0xDD] = be16_bytes (crc16 [2, 0x12, 0x34, 7, 8, 9] 6) :=
  ⟨by decide, by decide!,
    (schc_reassemble_last_integrity example_indeterminate ReassemblyState.init
      [0x80, 0xFF, 0xC1, 0xDD, 2, 0x12, 0x34, 7, 8, 9] (by decide) (by decide) (by decide)
      (by decide) (by decide!) (by decide)).1,
    by decide!⟩

/-- C13 (whole packets bypass reassembly): a link message whose first byte is
not 0x80 is passed as it is, with its length, to `schc_decompress`; the value
returned is the one `schc_decompress` returns, and the accumulation buffer
and offset are left as they were. -/
theorem schc_reassemble_whole_packet (u : Indeterminate) (st : ReassemblyState)
    (msg : List Nat) (len : Nat) (h0 : msg.getD 0 0 ≠ SCHC_FRG_RULEID) :
    (schc_reassemble u st msg len).decompress_call = some (msg, len) ∧
    (schc_reassemble u st msg len).decompressed = some (schc_decompress u msg len) ∧
    (schc_reassemble u st msg len).ret = (schc_decompress u msg len).ret ∧
    (schc_reassemble u st msg len).state = st := by
  unfold schc_reassemble
  rw [if_pos h0]
  exact ⟨rfl, rfl, rfl, rfl⟩

/-- Witness of C13: the compressed example packet arrives while a reassembly
is in flight (offset 40). -/
theorem schc_reassemble_whole_packet_witness :
    ([2, 0x12, 0x34, 7, 8, 9] : List Nat).getD 0 0 ≠ SCHC_FRG_RULEID ∧
    (schc_reassemble example_indeterminate
      { schc_reassemble_buf := List.replicate SIZE_MTU_IPV6 7, schc_reassemble_offset := 40 }
      [2, 0x12, 0x34, 7, 8, 9] 6).state =
      { schc_reassemble_buf := List.replicate SIZE_MTU_IPV6 7, schc_reassemble_offset := 40 } ∧
    (schc_reassemble example_indeterminate
      { schc_reassemble_buf := List.replicate SIZE_MTU_IPV6 7, schc_reassemble_offset := 40 }
      [2, 0x12, 0x34, 7, 8, 9] 6).decompress_call = some ([2, 0x12, 0x34, 7, 8, 9], 6) :=
  ⟨by decide,
    (schc_reassemble_whole_packet example_indeterminate _ [2, 0x12, 0x34, 7, 8, 9] 6
      (by decide)).2.2.2,
    (schc_reassemble_whole_packet example_indeterminate _ [2, 0x12, 0x34, 7, 8, 9] 6
      (by decide)).1⟩

/-- C14 (evaluation at the failing inputs): an idle reassembler takes in a
last fragment whose integrity bytes `00 00` are not the checksum `FE FF` of
its payload `01`: nothing is handed to `schc_decompress`, and the value
returned is 0.  It takes in a last fragment with the right checksum whose
payload is the unknown rule id 12: `schc_decompress` returns -1, and the value
returned by `schc_reassemble` is 0 again. -/
theorem schc_reassemble_failure_returns_zero :
    (schc_reassemble example_indeterminate ReassemblyState.init [0x80, 0xFF, 0, 0, 1]
      5).decompress_call = none ∧
    (schc_reassemble example_indeterminate ReassemblyState.init [0x80, 0xFF, 0, 0, 1] 5).ret = 0 ∧
    ((schc_reassemble example_indeterminate ReassemblyState.init [0x80, 0xFF, 0xF3, 0xFF, 12]
      5).decompressed.map fun r => r.ret) = some (-1) ∧
    (schc_reassemble example_indeterminate ReassemblyState.init [0x80, 0xFF, 0xF3, 0xFF, 12]
      5).ret = 0 := by
  decide!

/-- C15 (evaluation at the failing input): 33 fragments that are not the last,
each with a tile of 40 bytes, are fed to an idle reassembler.  Every call
returns 0; the call for fragment 33 starts at offset 1280, the capacity of
`schc_reassemble_buf`, and its 40 bytes are written past the array.  (The
offset 1320 after that call is the one of the embedding, in which the list
grows; in C the 40 bytes land on the variables that follow the array.) -/
theorem schc_reassemble_past_capacity :
    (reassemble_run example_indeterminate ReassemblyState.init
      (List.replicate 33 ([0x80, 0x00] ++ List.replicate 40 0))).map
        (fun r => (r.ret, r.state.schc_reassemble_offset)) =
      (List.range 33).map (fun i => ((0 : Int), 40 * (i + 1))) ∧
    ((List.range 33).map (fun i => ((0 : Int), 40 * (i + 1)))).getD 31 (0, 0) =
      (0, SIZE_MTU_IPV6) ∧
    ((List.range 33).map (fun i => ((0 : Int), 40 * (i + 1)))).getD 32 (0, 0) =
      (0, SIZE_MTU_IPV6 + 40) := by
  decide!

/-! ## `schc_decompress`, any packet -/

theorem schc_decompress_with_reject (table : List (List field_description))
    (u : Indeterminate) (pkt : List Nat) (len : Nat) (h : table.length ≤ pkt.getD 0 0) :
    schc_decompress_with table u pkt len = { ret := -1, rx := none } := by
  unfold schc_decompress_with
  rw [if_pos h]

/-- C18 (hop limit): whatever the rule table and the packet, when
`schc_decompress` returns 0 it hands over a packet whose hop limit is 255;
this holds in particular with the table of `context.cpp`, whose hop limit
rows are `NOT_SENT` with target value 64. -/
theorem schc_decompress_hop_limit (table : List (List field_description)) (u : Indeterminate)
    (pkt : List Nat) (len : Nat) (hret : (schc_decompress_with table u pkt len).ret = 0) :
    ∃ P', (schc_decompress_with table u pkt len).rx = some P' ∧ P'.ipv6_hop_limit = 255 := by
  by_cases h : table.length ≤ pkt.getD 0 0
  · rw [schc_decompress_with_reject table u pkt len h] at hret
    cases hret
  · rw [schc_decompress_with_eq table u pkt len (by omega)]
    exact ⟨_, rfl, rfl⟩

/-- Witness of C18: the compressed example packet, whose rule 2 has the hop
limit row `NOT_SENT` with target value 64. -/
theorem schc_decompress_hop_limit_witness :
    (schc_decompress example_indeterminate [2, 0x12, 0x34, 7, 8, 9] 6).ret = 0 ∧
    ((rules.getD 2 []).getD 5 end_of_rule_row).fieldid = .IPV6_HOP_LIMIT ∧
    ((rules.getD 2 []).getD 5 end_of_rule_row).tv = "64" ∧
    ∃ P', (schc_decompress_with rules example_indeterminate [2, 0x12, 0x34, 7, 8, 9] 6).rx =
      some P' ∧ P'.ipv6_hop_limit = 255 :=
  ⟨by decide!, by decide, by decide,
    schc_decompress_hop_limit rules example_indeterminate [2, 0x12, 0x34, 7, 8, 9] 6 (by decide!)⟩

/-! ## `crc16` and the Internet checksum -/

theorem ones_add_spec (x y : Nat) (hx : x ≤ 65535) (hy : y ≤ 65535) :
    ones_add x y ≤ 65535 ∧ ones_add x y % 65535 = (x + y) % 65535 ∧
    (ones_add x y = 0 ↔ x = 0 ∧ y = 0) := by
  unfold ones_add
  omega

theorem ones_foldl_spec : ∀ (ws : List Nat) (acc : Nat), acc ≤ 65535 → (∀ w ∈ ws, w ≤ 65535) →
    ws.foldl ones_add acc ≤ 65535 ∧
    ws.foldl ones_add acc % 65535 = (acc + ws.sum) % 65535 ∧
    (ws.foldl ones_add acc = 0 ↔ acc = 0 ∧ ws.sum = 0) := by
  intro ws
  induction ws with
  | nil => intro acc hacc _; simp [hacc]
  | cons w rest ih =>
    intro acc hacc hws
    have hw : w ≤ 65535 := hws w (List.mem_cons_self _ _)
    obtain ⟨h1, h2, h3⟩ := ones_add_spec acc w hacc hw
    obtain ⟨i1, i2, i3⟩ := ih (ones_add acc w) h1 (fun v hv => hws v (List.mem_cons_of_mem _ hv))
    simp only [List.foldl_cons, List.sum_cons]
    refine ⟨i1, ?_, ?_⟩
    · rw [i2]; omega
    · rw [i3, h3]; omega

theorem be_words_spec : ∀ (n : Nat) (p : List Nat), p.length ≤ n → bytes_ok p →
    (∀ w ∈ be_words p, w ≤ 65535) ∧
    (be_words p).sum % 65535 = (256 * word_sum p) % 65535 ∧
    ((be_words p).sum = 0 ↔ word_sum p = 0) := by
  intro n
  induction n with
  | zero =>
    intro p hp _
    have : p = [] := List.length_eq_zero.mp (by omega)
    subst this
    simp [be_words, word_sum]
  | succ n ih =>
    intro p hp hb
    match p, hp, hb with
    | [], _, _ => simp [be_words, word_sum]
    | [a], _, hb =>
      have ha : a < 256 := hb a (by simp)
      simp only [be_words, word_sum, List.mem_singleton, forall_eq, List.sum_cons, List.sum_nil]
      omega
    | a :: b :: rest, hp, hb =>
      have ha : a < 256 := hb a (by simp)
      have hb' : b < 256 := hb b (by simp)
      obtain ⟨i1, i2, i3⟩ := ih rest (by simp at hp; omega)
        (fun v hv => hb v (List.mem_cons_of_mem _ (List.mem_cons_of_mem _ hv)))
      simp only [be_words, word_sum, List.mem_cons, forall_eq_or_imp, List.sum_cons]
      refine ⟨⟨by omega, i1⟩, by omega, by omega⟩

theorem htons_swap (f : Nat) (hf : f < 65536) :
    htons f ≤ 65535 ∧ htons f % 65535 = (256 * f) % 65535 ∧ (htons f = 0 ↔ f = 0) := by
  unfold htons
  have hhi : f / 256 < 256 := by omega
  have hlo : f % 256 < 256 := by omega
  have hf2 : f = 256 * (f / 256) + f % 256 := by omega
  have e1 : f / 256 % 256 = f / 256 := by omega
  rw [e1]
  generalize f / 256 = hi at *
  generalize f % 256 = lo at *
  subst hf2
  omega

theorem checksum_arith (F H T B S : Nat) (c3 : F % 65535 = S % 65535)
    (hF0 : F = 0 ↔ S = 0) (s1 : H ≤ 65535) (s2 : H % 65535 = (256 * F) % 65535)
    (s3 : H = 0 ↔ F = 0) (f1 : T ≤ 65535) (f2 : T % 65535 = (0 + B) % 65535)
    (f3 : T = 0 ↔ 0 = 0 ∧ B = 0) (w2 : B % 65535 = (256 * S) % 65535)
    (w3 : B = 0 ↔ S = 0) : 65535 - H = 65535 - T := by
  have hT0 : T = 0 ↔ S = 0 := by
    rw [f3, w3]; omega
  have hmod : H % 65535 = T % 65535 := by
    rw [s2, f2]
    omega
  have hH0 : H = 0 ↔ T = 0 := by
    rw [s3, hF0, hT0]
  omega

/-- C20 (RFC 1071): for a buffer of bytes and a length from 1 to 1280 within
it, `crc16` returns the Internet checksum of the first `len` bytes: the
16-bit complement of the one's-complement sum, with end-around carry, of the
16-bit words taken in network byte order, an odd last byte forming a word
whose other byte is zero. -/
theorem crc16_internet_checksum (data : List Nat) (len : Nat) (hb : bytes_ok data)
    (h1 : 1 ≤ len) (h2 : len ≤ SIZE_MTU_IPV6) (hl : len ≤ data.length) :
    crc16 data len = internet_checksum (data.take len) := by
  have hpl : (data.take len).length = len := by simp; omega
  have hpb : bytes_ok (data.take len) := fun v hv => hb v (List.mem_of_mem_take hv)
  have h2n : len ≤ 1280 := h2
  obtain ⟨c1, c2, c3, c4⟩ := crc16_eq (data.take len) hpb
    (by rw [hpl]; exact h2n) (by rw [hpl]; omega)
  rw [hpl, crc16_take] at c1
  obtain ⟨e1, e2⟩ := crc16_fold_exit (word_sum (data.take len) / 65536)
    (word_sum (data.take len) % 65536) (by omega) (by omega)
  obtain ⟨w1, w2, w3⟩ := be_words_spec len (data.take len) (by omega) hpb
  obtain ⟨f1, f2, f3⟩ := ones_foldl_spec (be_words (data.take len)) 0 (by omega) w1
  obtain ⟨s1, s2, s3⟩ := htons_swap _ c2
  have hF0 : crc16_fold (word_sum (data.take len) / 65536)
      (word_sum (data.take len) % 65536) = 0 ↔ word_sum (data.take len) = 0 := by
    rw [e2]; split <;> omega
  rw [c1]
  exact checksum_arith _ _ _ _ _ c3 hF0 s1 s2 s3 f1 f2 f3 w2 w3

/-- Witness of C20: the three bytes `01 02 03`, whose words in network byte
order are `0102` and `0300`; the checksum is the complement `FBFD` of their
sum `0402`. -/
theorem crc16_internet_checksum_witness :
    bytes_ok [1, 2, 3] ∧ crc16 [1, 2, 3] 3 = internet_checksum ([1, 2, 3].take 3) ∧
    be_words [1, 2, 3] = [0x0102, 0x0300] ∧ internet_checksum ([1, 2, 3].take 3) = 0xFBFD :=
  ⟨by decide, crc16_internet_checksum [1, 2, 3] 3 (by decide) (by decide) (by decide) (by decide),
    by decide, by decide⟩

/-! ## Lemmas on `schc_decompress` on any packet -/

theorem to_uint_of_range (w : Nat) (v : Int) (h0 : 0 ≤ v) (h1 : v < 2 ^ w) :
    (to_uint w v : Int) = v := by
  unfold to_uint
  rw [Int.emod_eq_of_lt h0 (by exact_mod_cast h1)]
  exact Int.toNat_of_nonneg h0

theorem to_uint_byte (v : Int) (h0 : 0 ≤ v) (h1 : v < 256) : to_uint 16 v ≤ 255 := by
  have h := to_uint_of_range 16 v h0 (by omega)
  omega

theorem getD_byte (pkt : List Nat) (hb : bytes_ok pkt) (i : Nat) : pkt.getD i 0 ≤ 255 := by
  rw [List.getD_eq_getElem?_getD]
  cases h : pkt[i]? with
  | none => simp
  | some v =>
    have := hb v (List.getElem?_mem h)
    simp only [Option.getD_some]
    omega

theorem mem_read_one_at (pkt : List Nat) (off : Nat) : mem_read pkt off 1 = [pkt.getD off 0] := rfl

/-- A `NOT_SENT` row accepted by `row_ok` whose target value fits keeps the
invariant of the loop on any packet. -/
theorem not_sent_inv_any (pkt : List Nat) (s : DecompressState) (tmp : List Nat)
    (k : Known) (cur : Nat) (row : field_description)
    (hok : row_ok k cur row = true) (hcda : row.CDA = .NOT_SENT)
    (hfit : target_fits row = true) (hinv : decompress_inv_any pkt s cur k) :
    decompress_inv_any pkt { s with fv := schc_DA_not_sent tmp s.fv row.fieldid row.tv }
      (cur_next cur row) (known_next k row) := by
  obtain ⟨⟨l1, l2, l3, l4, l5, l6⟩, hnum, hzero, hdf, hlf, hclen, hbound, htk⟩ := hinv
  have hc : (k.clen || decide (row.CDA = .COMPUTE_LENGTH)) = true → s.compute_length ≠ 0 := by
    simpa [hcda] using hclen
  unfold row_ok at hok
  unfold target_fits at hfit
  unfold decompress_inv_any lengths_ok cur_next known_next schc_DA_not_sent
  cases hf : row.fieldid
  case COAP_OPTION_DELTA =>
    simp only [hf, reduceCtorEq, ↓reduceIte] at hok ⊢
    simp only [hf, hcda, bne_self_eq_false, Bool.false_or, decide_eq_true_eq] at hfit
    have hcur : cur < s.fv.coap_option.length := by
      simp only [Bool.and_eq_true, decide_eq_true_eq] at hok
      omega
    rw [hnum]
    refine ⟨⟨l1, l2, l3, l4, l5, by rw [modify_option_length]; exact l6⟩, hnum, ?_, ?_, ?_,
      hclen, ?_, htk⟩
    · intro idx hidx
      rw [option_at_modify, if_neg (by omega)]
      exact hzero idx hidx
    · intro h; simp at h
    · intro h
      rw [option_at_modify, if_pos ⟨rfl, hcur⟩]
      exact hlf h
    · intro hb idx
      rw [option_at_modify]
      split
      · exact ⟨to_uint_byte _ hfit.1 hfit.2, (hbound hb cur).2⟩
      · exact hbound hb idx
  case COAP_OPTION_LENGTH =>
    simp only [hf, reduceCtorEq, ↓reduceIte] at hok ⊢
    simp only [hf, hcda, bne_self_eq_false, Bool.false_or, decide_eq_true_eq] at hfit
    have hcur : cur < s.fv.coap_option.length := by
      simp only [Bool.and_eq_true, decide_eq_true_eq] at hok
      omega
    rw [hnum]
    refine ⟨⟨l1, l2, l3, l4, l5, by rw [modify_option_length]; exact l6⟩, hnum, ?_, ?_, ?_,
      hclen, ?_, htk⟩
    · intro idx hidx
      rw [option_at_modify, if_neg (by omega)]
      exact hzero idx hidx
    · intro h
      rw [option_at_modify, if_pos ⟨rfl, hcur⟩]
      exact hdf h
    · intro h; simp at h
    · intro hb idx
      rw [option_at_modify]
      split
      · exact ⟨(hbound hb cur).1, to_uint_byte _ hfit.1 hfit.2⟩
      · exact hbound hb idx
  case COAP_OPTION_VALUE =>
    simp only [hf, reduceCtorEq, ↓reduceIte] at hok ⊢
    have hcur4 : cur < 4 := by
      simp only [Bool.and_eq_true, decide_eq_true_eq, SCHC_MAX_COAP_OPT] at hok
      omega
    rw [hnum]
    refine ⟨⟨l1, l2, l3, l4, l5, by rw [modify_option_length]; exact l6⟩, ?_, ?_, ?_, ?_,
      hclen, ?_, htk⟩
    · show ((s.fv.modify_option cur _).coap_option_num + 1) % 256 = cur + 1
      rw [modify_option_num, hnum]
      omega
    · intro idx hidx
      rw [option_at_num, option_at_modify, if_neg (by omega)]
      exact hzero idx (by omega)
    · intro _
      rw [option_at_num, option_at_modify, if_neg (by omega)]
      exact (hzero (cur + 1) (by omega)).1
    · intro _
      rw [option_at_num, option_at_modify, if_neg (by omega)]
      exact (hzero (cur + 1) (by omega)).2
    · intro hb idx
      rw [option_at_num, option_at_modify]
      split
      · exact hbound hb cur
      · exact hbound hb idx
  case COAP_TKL =>
    simp only [hf] at hok ⊢
    simp only [hf, hcda, bne_self_eq_false, Bool.false_or, decide_eq_true_eq] at hfit
    refine ⟨⟨l1, l2, l3, l4, l5, l6⟩, hnum, hzero, hdf, hlf, hc, hbound, fun _ => ?_⟩
    have h := to_uint_of_range 8 _ hfit.1 (by omega)
    show to_uint 8 (atoi row.tv) ≤ 255
    omega
  all_goals
    simp only [hf] at hok ⊢
    refine ⟨⟨?_, ?_, ?_, ?_, ?_, l6⟩, hnum, hzero, hdf, hlf, hc, hbound, htk⟩ <;>
    first
    | assumption
    | simp [not_sent_hex2, mem_write_zero_length, string_to_bin_length, *]

/-- A `VALUE_SENT` row accepted by `row_ok` keeps the invariant of the loop on
any packet. -/
theorem value_sent_inv_any (pkt : List Nat) (s : DecompressState) (off o : Nat)
    (k : Known) (cur : Nat) (row : field_description)
    (hok : row_ok k cur row = true) (hcda : row.CDA = .VALUE_SENT)
    (hinv : decompress_inv_any pkt s cur k) :
    decompress_inv_any pkt
      { s with fv := (schc_DA_value_sent s.fv row.fieldid pkt off).1, offset := o }
      (cur_next cur row) (known_next k row) := by
  obtain ⟨⟨l1, l2, l3, l4, l5, l6⟩, hnum, hzero, hdf, hlf, hclen, hbound, htk⟩ := hinv
  have hc : (k.clen || decide (row.CDA = .COMPUTE_LENGTH)) = true → s.compute_length ≠ 0 := by
    simpa [hcda] using hclen
  unfold row_ok at hok
  unfold decompress_inv_any lengths_ok cur_next known_next schc_DA_value_sent
  cases hf : row.fieldid
  case COAP_OPTION_DELTA =>
    simp only [hf, reduceCtorEq, ↓reduceIte] at hok ⊢
    have hcur : cur < s.fv.coap_option.length := by
      simp only [Bool.and_eq_true, decide_eq_true_eq] at hok
      omega
    have hfresh : k.delta_fresh = true := by
      simp only [Bool.and_eq_true, decide_eq_true_eq] at hok
      exact hok.2.2
    rw [hnum]
    refine ⟨⟨l1, l2, l3, l4, l5, by rw [modify_option_length]; exact l6⟩, hnum, ?_, ?_, ?_,
      hclen, ?_, htk⟩
    · intro idx hidx
      rw [option_at_modify, if_neg (by omega)]
      exact hzero idx hidx
    · intro h; simp at h
    · intro h
      rw [option_at_modify, if_pos ⟨rfl, hcur⟩]
      exact hlf h
    · intro hb idx
      rw [option_at_modify]
      split
      · refine ⟨?_, (hbound hb cur).2⟩
        show overwrite_low 2 (s.fv.option_at cur).delta _ ≤ 255
        rw [hdf hfresh, mem_read_one_at, overwrite_low_fresh]
        exact getD_byte pkt hb off
      · exact hbound hb idx
  case COAP_OPTION_LENGTH =>
    simp only [hf, reduceCtorEq, ↓reduceIte] at hok ⊢
    have hcur : cur < s.fv.coap_option.length := by
      simp only [Bool.and_eq_true, decide_eq_true_eq] at hok
      omega
    have hfresh : k.len_fresh = true := by
      simp only [Bool.and_eq_true, decide_eq_true_eq] at hok
      exact hok.2.2
    rw [hnum]
    refine ⟨⟨l1, l2, l3, l4, l5, by rw [modify_option_length]; exact l6⟩, hnum, ?_, ?_, ?_,
      hclen, ?_, htk⟩
    · intro idx hidx
      rw [option_at_modify, if_neg (by omega)]
      exact hzero idx hidx
    · intro h
      rw [option_at_modify, if_pos ⟨rfl, hcur⟩]
      exact hdf h
    · intro h; simp at h
    · intro hb idx
      rw [option_at_modify]
      split
      · refine ⟨(hbound hb cur).1, ?_⟩
        show overwrite_low 2 (s.fv.option_at cur).length _ ≤ 255
        rw [hlf hfresh, mem_read_one_at, overwrite_low_fresh]
        exact getD_byte pkt hb off
      · exact hbound hb idx
  case COAP_OPTION_VALUE =>
    simp only [hf, reduceCtorEq, ↓reduceIte] at hok ⊢
    have hcur4 : cur < 4 := by
      simp only [Bool.and_eq_true, decide_eq_true_eq, SCHC_MAX_COAP_OPT] at hok
      omega
    rw [hnum]
    refine ⟨⟨l1, l2, l3, l4, l5, by rw [modify_option_length]; exact l6⟩, ?_, ?_, ?_, ?_,
      hclen, ?_, htk⟩
    · show ((s.fv.modify_option cur _).coap_option_num + 1) % 256 = cur + 1
      rw [modify_option_num, hnum]
      omega
    · intro idx hidx
      rw [option_at_num, option_at_modify, if_neg (by omega)]
      exact hzero idx (by omega)
    · intro _
      rw [option_at_num, option_at_modify, if_neg (by omega)]
      exact (hzero (cur + 1) (by omega)).1
    · intro _
      rw [option_at_num, option_at_modify, if_neg (by omega)]
      exact (hzero (cur + 1) (by omega)).2
    · intro hb idx
      rw [option_at_num, option_at_modify]
      split
      · exact hbound hb cur
      · exact hbound hb idx
  case COAP_TKL =>
    simp only [hf] at hok ⊢
    exact ⟨⟨l1, l2, l3, l4, l5, l6⟩, hnum, hzero, hdf, hlf, hc, hbound,
      fun hb => getD_byte pkt hb off⟩
  all_goals
    simp only [hf] at hok ⊢
    refine ⟨⟨?_, ?_, ?_, ?_, ?_, l6⟩, hnum, hzero, hdf, hlf, hc, hbound, htk⟩ <;>
    first
    | assumption
    | simp [mem_write_zero_length, mem_read_length, *]

/-- A `COMPUTE_LENGTH` or `COMPUTE_CHECKSUM` row accepted by `row_ok` keeps the
invariant of the loop on any packet. -/
theorem compute_inv_any (pkt : List Nat) (s s' : DecompressState)
    (k : Known) (cur : Nat) (row : field_description)
    (hok : row_ok k cur row = true)
    (hcda : row.CDA = .COMPUTE_LENGTH ∨ row.CDA = .COMPUTE_CHECKSUM)
    (hfv : s'.fv = s.fv)
    (hcl : s.compute_length ≠ 0 ∨ row.CDA = .COMPUTE_LENGTH → s'.compute_length ≠ 0)
    (hinv : decompress_inv_any pkt s cur k) :
    decompress_inv_any pkt s' (cur_next cur row) (known_next k row) := by
  obtain ⟨hl, hnum, hzero, hdf, hlf, hclen, hbound, htk⟩ := hinv
  have hc : (k.clen || decide (row.CDA = .COMPUTE_LENGTH)) = true → s'.compute_length ≠ 0 := by
    intro h
    simp only [Bool.or_eq_true, decide_eq_true_eq] at h
    rcases h with h | h
    · exact hcl (Or.inl (hclen h))
    · exact hcl (Or.inr h)
  have hc0 : k.clen = true → s'.compute_length ≠ 0 := fun h => hcl (Or.inl (hclen h))
  unfold row_ok at hok
  unfold decompress_inv_any cur_next known_next
  rw [hfv]
  cases hf : row.fieldid <;> simp only [hf, reduceCtorEq, ↓reduceIte] at hok ⊢
  case COAP_OPTION_VALUE =>
    rcases hcda with h | h <;> simp [h] at hok
  case COAP_OPTION_DELTA =>
    exact ⟨hl, hnum, hzero, by intro h; simp at h, hlf, hc0, hbound, htk⟩
  case COAP_OPTION_LENGTH =>
    exact ⟨hl, hnum, hzero, hdf, by intro h; simp at h, hc0, hbound, htk⟩
  all_goals exact ⟨hl, hnum, hzero, hdf, hlf, hc, hbound, htk⟩

theorem to_uint8_range (v : Int) (h : 0 ≤ v ∧ v < 256) : (to_uint 8 v : Int) = v :=
  to_uint_of_range 8 v h.1 (by omega)

theorem to_uint16_byte (v : Int) (h : 0 ≤ v ∧ v < 256) : (to_uint 16 v : Int) = v :=
  to_uint_of_range 16 v h.1 (by omega)

theorem to_uint16_range (v : Int) (h : 0 ≤ v ∧ v < 65536) : (to_uint 16 v : Int) = v :=
  to_uint_of_range 16 v h.1 (by omega)

theorem to_uint32_range (v : Int) (h : 0 ≤ v ∧ v < 2 ^ 32) : (to_uint 32 v : Int) = v :=
  to_uint_of_range 32 v h.1 h.2

theorem not_sent_address (dst : List Nat) (tv : String) (hd : dst.length = 8)
    (hfit : (!nine_free tv || decide (string_to_bin tv = hex_decode tv)) = true)
    (hn : nine_free tv = true) : mem_write dst 0 (string_to_bin tv) = hex_decode tv := by
  rw [mem_write_whole _ _ (by rw [string_to_bin_length]; exact hd)]
  simpa [hn] using hfit

theorem str_bytes_take (tv : String) (n : Nat) (h : n ≤ tv.length) :
    mem_read (str_bytes tv) 0 n = (tv.toList.map Char.toNat).take n := by
  have hl : tv.length = (tv.toList.map Char.toNat).length := by
    rw [List.length_map]; rfl
  unfold str_bytes
  rw [mem_read_eq_take _ _ (by simp; omega), List.take_append_of_le_length (by omega)]

/-- A `NOT_SENT` row whose target value fits writes the decoded target value
to its field. -/
theorem not_sent_target (F : field_values) (tmp : List Nat) (k : Known) (cur : Nat)
    (row : field_description) (hok : row_ok k cur row = true) (hcda : row.CDA = .NOT_SENT)
    (hfit : target_fits row = true) (hl : lengths_ok F) (hnum : F.coap_option_num = cur) :
    field_is_target (schc_DA_not_sent tmp F row.fieldid row.tv) row cur := by
  obtain ⟨l1, l2, l3, l4, l5, l6⟩ := hl
  unfold row_ok at hok
  unfold target_fits at hfit
  unfold field_is_target schc_DA_not_sent
  cases hf : row.fieldid <;>
    simp only [hf, hcda, bne_self_eq_false, Bool.false_or, decide_eq_true_eq] at hok hfit ⊢
  case COAP_OPTION_DELTA =>
    have hcur : cur < F.coap_option.length := by
      simp only [Bool.and_eq_true, decide_eq_true_eq] at hok
      omega
    rw [hnum, option_at_modify, if_pos ⟨rfl, hcur⟩]
    exact to_uint16_byte _ hfit
  case COAP_OPTION_LENGTH =>
    have hcur : cur < F.coap_option.length := by
      simp only [Bool.and_eq_true, decide_eq_true_eq] at hok
      omega
    rw [hnum, option_at_modify, if_pos ⟨rfl, hcur⟩]
    exact to_uint16_byte _ hfit
  case COAP_OPTION_VALUE =>
    have hcur : cur < F.coap_option.length := by
      simp only [Bool.and_eq_true, decide_eq_true_eq] at hok
      omega
    rw [hnum, option_at_num, option_at_modify, if_pos ⟨rfl, hcur⟩]
    intro hlen
    show (mem_write (F.option_at cur).value 0
      (mem_read (str_bytes row.tv) 0 (F.option_at cur).length)).take (F.option_at cur).length = _
    rw [take_mem_write_zero _ _ _ (mem_read_length _ _ _)]
    exact str_bytes_take row.tv _ hlen
  all_goals
    first
    | exact to_uint8_range _ hfit
    | exact to_uint16_range _ hfit
    | exact to_uint32_range _ hfit
    | exact fun hn => not_sent_address _ _ (by assumption) hfit hn

theorem field_recovered_refl (Q : field_values) (row : field_description) (idx : Nat)
    (hcda : row.CDA = .NOT_SENT) : field_recovered Q Q row idx := by
  unfold field_recovered
  cases hf : row.fieldid <;> simp [hcda]

theorem target_transfer (Q F : field_values) (row : field_description) (idx : Nat)
    (hrec : field_recovered Q F row idx)
    (hlen : row.fieldid = .COAP_OPTION_VALUE →
      (F.option_at idx).length = (Q.option_at idx).length)
    (hcda : row.CDA = .NOT_SENT) (ht : field_is_target Q row idx) :
    field_is_target F row idx := by
  unfold field_recovered at hrec
  unfold field_is_target at ht ⊢
  cases hf : row.fieldid <;> simp only [hf, hcda, reduceCtorEq, ↓reduceIte] at hrec ht hlen ⊢
  case COAP_OPTION_VALUE =>
    rw [hlen trivial, hrec]
    exact ht
  all_goals
    first
    | trivial
    | (rw [hrec]; exact ht)

/-- One row of the loop of `schc_decompress` on any packet: the invariant is
kept, the fields written before stay as they are, and a `NOT_SENT` row has
written its target value. -/
theorem decompress_row_step_any (u : Indeterminate) (pkt : List Nat)
    (row : field_description) (i : Nat) (s : DecompressState) (cur : Nat) (k : Known)
    (hok : row_ok k cur row = true) (hfit : target_fits row = true)
    (hinv : decompress_inv_any pkt s cur k) :
    decompress_inv_any pkt (decompress_rows u pkt [row] i s) (cur_next cur row)
      (known_next k row) ∧
    (∀ (Q : field_values) (row' : field_description) (idx' : Nat),
      key_done k cur row'.fieldid idx' →
      (field_recovered Q (decompress_rows u pkt [row] i s).fv row' idx' ↔
        field_recovered Q s.fv row' idx')) ∧
    (row.CDA = .NOT_SENT → field_is_target (decompress_rows u pkt [row] i s).fv row cur) := by
  have hne := row_ok_not_end k cur row hok
  have himp := row_ok_implemented k cur row hok
  have hinv2 := hinv
  obtain ⟨hl, hnum, _, _, _, _, _, _⟩ := hinv2
  simp only [decompress_rows, hne, ↓reduceIte]
  cases hcda : row.CDA
  case NOT_SENT =>
    simp only [true_implies]
    refine ⟨not_sent_inv_any pkt s _ k cur row hok hcda hfit hinv, ?_,
      not_sent_target s.fv _ k cur row hok hcda hfit hl hnum⟩
    intro Q row' idx' hd
    exact not_sent_frame Q s.fv _ k cur row row' idx' hok hnum hd
  case VALUE_SENT =>
    simp only [reduceCtorEq, false_implies, and_true]
    refine ⟨value_sent_inv_any pkt s _ _ k cur row hok hcda hinv, ?_⟩
    intro Q row' idx' hd
    exact value_sent_frame Q s.fv _ _ k cur row row' idx' hok hnum hd
  case COMPUTE_LENGTH =>
    simp only [reduceCtorEq, false_implies, and_true]
    exact ⟨compute_inv_any pkt s _ k cur row hok (Or.inl hcda) rfl (fun _ => by simp) hinv,
      fun _ _ _ _ => trivial⟩
  case COMPUTE_CHECKSUM =>
    simp only [reduceCtorEq, false_implies, and_true]
    refine ⟨compute_inv_any pkt s _ k cur row hok (Or.inr hcda) rfl ?_ hinv,
      fun _ _ _ _ => trivial⟩
    intro h
    rcases h with h | h
    · exact h
    · rw [hcda] at h; cases h
  all_goals simp [action_implemented, hcda] at himp

/-- The loop of `schc_decompress` over rows accepted by `rows_ok`, whose
target values fit, on any packet: a `COMPUTE_LENGTH` row was seen,
`coap_option_num` has counted the option value rows, the option deltas and
lengths fit one byte when the packet holds bytes, the fields written before
the rows stay as they are, and every `NOT_SENT` row has left its target value
in the struct. -/
theorem decompress_rows_any (u : Indeterminate) (pkt : List Nat) :
    ∀ (rows : List field_description) (i : Nat) (s : DecompressState) (cur : Nat) (k : Known),
      rows_ok k cur rows = true → (∀ row ∈ rows, target_fits row = true) →
      decompress_inv_any pkt s cur k →
      (decompress_rows u pkt rows i s).compute_length ≠ 0 ∧
      (decompress_rows u pkt rows i s).fv.coap_option_num =
        cur + (rows.filter (fun row => decide (row.fieldid = .COAP_OPTION_VALUE))).length ∧
      (bytes_ok pkt → (decompress_rows u pkt rows i s).fv.coap_tkl ≤ 255 ∧ ∀ idx,
        ((decompress_rows u pkt rows i s).fv.option_at idx).delta ≤ 255 ∧
        ((decompress_rows u pkt rows i s).fv.option_at idx).length ≤ 255) ∧
      (∀ (Q : field_values) (row' : field_description) (idx' : Nat),
        key_done k cur row'.fieldid idx' →
        (field_recovered Q (decompress_rows u pkt rows i s).fv row' idx' ↔
          field_recovered Q s.fv row' idx')) ∧
      rows_target (decompress_rows u pkt rows i s).fv rows cur := by
  intro rows
  induction rows with
  | nil =>
    intro i s cur k hok _ hinv
    simp only [rows_ok] at hok
    simp only [decompress_rows, List.filter_nil, List.length_nil, Nat.add_zero, rows_target,
      and_true]
    exact ⟨hinv.2.2.2.2.2.1 hok, hinv.2.1,
      fun hb => ⟨hinv.2.2.2.2.2.2.2 hb, hinv.2.2.2.2.2.2.1 hb⟩, fun _ _ _ _ => trivial⟩
  | cons row rest ih =>
    intro i s cur k hok hfit hinv
    simp only [rows_ok, Bool.and_eq_true] at hok
    obtain ⟨hok1, hokr⟩ := hok
    have hne := row_ok_not_end k cur row hok1
    obtain ⟨s1inv, s1frame, s1target⟩ :=
      decompress_row_step_any u pkt row i s cur k hok1 (hfit row (List.mem_cons_self _ _)) hinv
    obtain ⟨r1, r2, r3, r4, r5⟩ :=
      ih (i + 1) (decompress_rows u pkt [row] i s) (cur_next cur row) (known_next k row)
        hokr (fun r hr => hfit r (List.mem_cons_of_mem _ hr)) s1inv
    rw [decompress_rows_cons u pkt row rest i s hne]
    refine ⟨r1, ?_, r3, ?_, ?_, r5⟩
    · rw [r2]
      unfold cur_next
      by_cases hf : row.fieldid = .COAP_OPTION_VALUE
      · simp [List.filter_cons, hf]; omega
      · simp [List.filter_cons, hf]
    · intro Q row' idx' hd
      rw [r4 Q row' idx' (key_done_next k cur row _ _ hd)]
      exact s1frame Q row' idx' hd
    · intro hcda
      refine target_transfer (decompress_rows u pkt [row] i s).fv _ row cur ?_ ?_ hcda
        (s1target hcda)
      · rw [r4 _ row cur (key_done_self k cur row hok1)]
        exact field_recovered_refl _ row cur hcda
      · intro hf
        have hd : key_done (known_next k row) (cur_next cur row)
            ({ row with fieldid := .COAP_OPTION_LENGTH } : field_description).fieldid cur := by
          unfold key_done cur_next
          simp only [hf, ↓reduceIte]
          exact Or.inl (Nat.lt_succ_self cur)
        have h := (r4 (decompress_rows u pkt [row] i s).fv
          { row with fieldid := .COAP_OPTION_LENGTH } cur hd).mpr rfl
        exact h

theorem rows_target_index (F : field_values) :
    ∀ (rows : List field_description) (cur : Nat), rows_target F rows cur →
      ∀ (n : Nat) (row : field_description), rows[n]? = some row → row.CDA = .NOT_SENT →
        field_is_target F row (cur + option_index rows n) := by
  intro rows
  induction rows with
  | nil => intro cur _ n row h; simp at h
  | cons r rest ih =>
    intro cur hrec n row hn hc
    obtain ⟨h1, h2⟩ := hrec
    cases n with
    | zero =>
      simp only [List.getElem?_cons_zero, Option.some.injEq] at hn
      subst hn
      rw [option_index_zero, Nat.add_zero]
      exact h1 hc
    | succ n =>
      simp only [List.getElem?_cons_succ] at hn
      rw [← option_index_succ]
      exact ih _ h2 n row hn hc

theorem decompress_inv_any_init (pkt : List Nat) :
    decompress_inv_any pkt
      { fv := field_values_zero, offset := 1, compute_length := 0, compute_checksum := 0 }
      0 Known.init := by
  refine ⟨⟨rfl, rfl, rfl, rfl, rfl, rfl⟩, rfl, ?_, ?_, ?_, ?_, ?_, ?_⟩
  · intro idx _
    rw [option_at_zero]
    exact ⟨rfl, rfl⟩
  · intro _; rfl
  · intro _; rfl
  · intro h; cases h
  · intro _ idx
    rw [option_at_zero]
    exact ⟨by decide, by decide⟩
  · intro _
    exact Nat.zero_le _

theorem rules_targets_fit : ∀ rule ∈ rules, ∀ row ∈ rule_rows rule, target_fits row = true := by
  decide

theorem finish_same (u : Indeterminate) (pkt : List Nat) (len : Nat) (S : DecompressState) :
    same_recoverable S.fv
      { finish_checksum u S.compute_checksum
          (finish_payload pkt S.offset (finish_payload_length len S) (finish_lengths len S))
        with ipv6_hop_limit := 255 } :=
  same_recoverable_trans _ _ _
    (same_recoverable_trans _ _ _
      (same_recoverable_trans _ _ _ (finish_lengths_same len S) (finish_payload_same _ _ _ _))
      (finish_checksum_same _ _ _))
    (hop_limit_same _ 255)

theorem not_sent_offset (u : Indeterminate) (pkt : List Nat) (row : field_description)
    (i : Nat) (s : DecompressState) (hcda : row.CDA = .NOT_SENT) :
    (decompress_rows u pkt [row] i s).offset = s.offset := by
  unfold decompress_rows
  split
  · rfl
  · simp only [hcda, decompress_rows]

/-- C17 (counterexample): row 5 of rule 2 is the hop limit row, `NOT_SENT`
with target value "64", decimal 64; `schc_decompress` on the packet
`02 12 34 07 08 09` of rule 2, on which it stays inside its arrays, returns 0
and hands over a packet whose hop limit is 255. -/
theorem not_sent_hop_limit_overridden :
    ([2, 0x12, 0x34, 7, 8, 9] : List Nat).getD 0 0 < rules.length ∧
    decompress_in_bounds example_indeterminate [2, 0x12, 0x34, 7, 8, 9] 6 ∧
    (rule_rows (rules.getD 2 []))[5]?.map (fun row => (row.fieldid, row.CDA, atoi row.tv)) =
      some (.IPV6_HOP_LIMIT, .NOT_SENT, 64) ∧
    (schc_decompress example_indeterminate [2, 0x12, 0x34, 7, 8, 9] 6).ret = 0 ∧
    (schc_decompress example_indeterminate [2, 0x12, 0x34, 7, 8, 9] 6).rx.map
      (fun fv => fv.ipv6_hop_limit) = some 255 := by
  decide!

theorem finish_lengths_fields (len : Nat) (S : DecompressState) (h : S.compute_length ≠ 0) :
    (finish_lengths len S).coap_option = S.fv.coap_option ∧
    (finish_lengths len S).coap_tkl = S.fv.coap_tkl ∧
    (finish_lengths len S).coap_option_num = S.fv.coap_option_num ∧
    (finish_lengths len S).udp_length =
      (((if finish_payload_length len S > 0 then
          coap_options_len S.fv S.fv.coap_option_num 0 0 (4 + S.fv.coap_tkl) + 1
        else coap_options_len S.fv S.fv.coap_option_num 0 0 (4 + S.fv.coap_tkl)) +
        finish_payload_length len S) % 2 ^ 32 + SIZE_UDP) % 2 ^ 32 ∧
    (finish_lengths len S).ipv6_payload_length = (finish_lengths len S).udp_length := by
  unfold finish_lengths
  rw [if_pos h]
  exact ⟨rfl, rfl, rfl, rfl, rfl⟩

theorem finish_payload_fields (pkt : List Nat) (offset n : Nat) (fv : field_values) :
    (finish_payload pkt offset n fv).coap_option = fv.coap_option ∧
    (finish_payload pkt offset n fv).coap_tkl = fv.coap_tkl ∧
    (finish_payload pkt offset n fv).coap_option_num = fv.coap_option_num ∧
    (finish_payload pkt offset n fv).udp_length = fv.udp_length ∧
    (finish_payload pkt offset n fv).ipv6_payload_length = fv.ipv6_payload_length := by
  unfold finish_payload
  split <;> exact ⟨rfl, rfl, rfl, rfl, rfl⟩

theorem finish_checksum_fields (u : Indeterminate) (c : Nat) (fv : field_values) :
    (finish_checksum u c fv).coap_option = fv.coap_option ∧
    (finish_checksum u c fv).coap_tkl = fv.coap_tkl ∧
    (finish_checksum u c fv).coap_option_num = fv.coap_option_num ∧
    (finish_checksum u c fv).udp_length = fv.udp_length ∧
    (finish_checksum u c fv).ipv6_payload_length = fv.ipv6_payload_length := by
  unfold finish_checksum
  split <;> exact ⟨rfl, rfl, rfl, rfl, rfl⟩

theorem rule_rows_length_le (rule : List field_description) :
    (rule_rows rule).length ≤ rule.length := by
  unfold rule_rows
  exact (List.takeWhile_sublist _).length_le

/-- C21: `crc16` of a zero-length buffer returns 0xFFFF, whatever the pointer
`data` points to. -/
theorem crc16_zero_length (data : List Nat) : crc16 data 0 = 0xFFFF := by
  unfold crc16
  rw [if_pos rfl]

/-! ## A stored checksum validates -/

theorem mem_write_two_set (b : List Nat) (k x y : Nat) (h : k + 1 < b.length) :
    mem_write b k [x, y] = (b.set k x).set (k + 1) y := by
  induction k generalizing b with
  | zero =>
    match b, h with
    | p :: q :: rest, _ => simp [mem_write]
  | succ k ih =>
    match b, h with
    | p :: rest, h =>
      have h2 : k + 1 < rest.length := by simpa using h
      have := ih rest h2
      unfold mem_write at this ⊢
      simp only [List.take_succ_cons, List.cons_append, List.set_cons_succ, List.length_cons,
        List.length_nil, Nat.zero_add] at this ⊢
      rw [← this]
      congr 1

theorem word_sum_store (b : List Nat) (k x y : Nat) (hk : k % 2 = 0) (hk1 : k + 1 < b.length)
    (h0 : b.getD k 0 = 0) (h1 : b.getD (k + 1) 0 = 0) :
    word_sum (mem_write b k [x, y]) = word_sum b + x + 256 * y := by
  rw [mem_write_two_set b k x y hk1]
  have s1 := word_sum_set b k x (by omega)
  have s2 := word_sum_set (b.set k x) (k + 1) y (by rw [List.length_set]; omega)
  have hg : (b.set k x).getD (k + 1) 0 = 0 := by
    rw [List.getD_eq_getElem?_getD, List.getElem?_set_ne (by omega), ← List.getD_eq_getElem?_getD,
      h1]
  rw [hg] at s2
  rw [h0] at s1
  have m1 : (k + 1) % 2 ≠ 0 := by omega
  simp only [hk, m1, if_true, if_false] at s1 s2
  omega

theorem complement_swap (hi lo : Nat) (hhi : hi < 256) (hlo : lo < 256) :
    (65535 - (lo * 256 + hi)) / 256 % 256 + 256 * ((65535 - (lo * 256 + hi)) % 256) =
      65535 - (256 * hi + lo) := by
  have e : 65535 - (lo * 256 + hi) = (255 - lo) * 256 + (255 - hi) := by omega
  have e1 : (65535 - (lo * 256 + hi)) / 256 = 255 - lo := by omega
  have e2 : (65535 - (lo * 256 + hi)) % 256 = 255 - hi := by omega
  rw [e1, e2]
  omega

theorem htons_complement (f : Nat) (hf : f < 65536) :
    (65535 - htons f) / 256 % 256 + 256 * ((65535 - htons f) % 256) = 65535 - f := by
  unfold htons
  have hhi : f / 256 < 256 := by omega
  have hlo : f % 256 < 256 := by omega
  have e1 : f / 256 % 256 = f / 256 := by omega
  rw [e1, complement_swap (f / 256) (f % 256) hhi hlo]
  omega

/-- C22 (checksum validation): for a buffer of at most 1280 bytes and an even
offset `k` inside it at which the two bytes `k`, `k + 1` are zero, storing
`crc16` of the buffer at these two offsets, high byte first, gives a buffer of
the same length whose `crc16` is 0. -/
theorem crc16_stored_checksum_validates (b : List Nat) (k : Nat) (hb : bytes_ok b)
    (hlen : b.length ≤ SIZE_MTU_IPV6) (hk : k % 2 = 0) (hk1 : k + 1 < b.length)
    (h0 : b.getD k 0 = 0) (h1 : b.getD (k + 1) 0 = 0) :
    (mem_write b k (be16_bytes (crc16 b b.length))).length = b.length ∧
    crc16 (mem_write b k (be16_bytes (crc16 b b.length))) b.length = 0 := by
  have hlen2 : b.length ≤ 1280 := hlen
  have hwl : (mem_write b k (be16_bytes (crc16 b b.length))).length = b.length :=
    mem_write_length _ _ _ (by simp [be16_bytes]; omega)
  refine ⟨hwl, ?_⟩
  obtain ⟨c1, c2, c3, c4⟩ := crc16_eq b hb hlen2 (by omega)
  have hb2 : bytes_ok (mem_write b k (be16_bytes (crc16 b b.length))) := by
    intro v hv
    unfold mem_write be16_bytes at hv
    simp only [List.mem_append, List.mem_cons, List.mem_singleton, List.not_mem_nil,
      or_false] at hv
    rcases hv with (hv | hv | hv) | hv
    · exact hb v (List.mem_of_mem_take hv)
    · rw [hv]; exact Nat.mod_lt _ (by decide)
    · rw [hv]; exact Nat.mod_lt _ (by decide)
    · exact hb v (List.mem_of_mem_drop hv)
  obtain ⟨d1, d2, d3, d4⟩ := crc16_eq _ hb2 (by rw [hwl]; exact hlen2) (by rw [hwl]; omega)
  rw [hwl] at d1
  have hws := word_sum_store b k (crc16 b b.length / 256 % 256) (crc16 b b.length % 256)
    hk hk1 h0 h1
  have hbe : be16_bytes (crc16 b b.length) =
      [crc16 b b.length / 256 % 256, crc16 b b.length % 256] := rfl
  rw [← hbe] at hws
  have hc := htons_complement _ c2
  rw [← c1] at hc
  obtain ⟨_, e2⟩ := crc16_fold_exit
    (word_sum (mem_write b k (be16_bytes (crc16 b b.length))) / 65536)
    (word_sum (mem_write b k (be16_bytes (crc16 b b.length))) % 65536) (by omega)
    (Nat.mod_lt _ (by decide))
  obtain ⟨_, e2'⟩ := crc16_fold_exit (word_sum b / 65536) (word_sum b % 65536) (by omega)
    (Nat.mod_lt _ (by decide))
  rw [d1]
  generalize crc16_fold (word_sum (mem_write b k (be16_bytes (crc16 b b.length))) / 65536)
    (word_sum (mem_write b k (be16_bytes (crc16 b b.length))) % 65536) = F' at *
  generalize word_sum (mem_write b k (be16_bytes (crc16 b b.length))) = W' at *
  generalize crc16_fold (word_sum b / 65536) (word_sum b % 65536) = F at *
  generalize word_sum b = W at *
  generalize crc16 b b.length = c at *
  have hFW : F ≤ W := by rw [e2']; split <;> omega
  have hW' : W' = W + (65535 - F) := by omega
  have hF'0 : F' ≠ 0 := by rw [e2]; split <;> omega
  have hF' : F' = 65535 := by omega
  rw [hF']
  decide

/-- Witness of C22: the buffer `01 02 00 00 05`, whose checksum `F9FD` is
stored at offset 2; the checksum of `01 02 F9 FD 05` is 0. -/
theorem crc16_stored_checksum_validates_witness :
    crc16 [1, 2, 0, 0, 5] 5 = 0xF9FD ∧
    mem_write [1, 2, 0, 0, 5] 2 (be16_bytes (crc16 [1, 2, 0, 0, 5] 5)) = [1, 2, 0xF9, 0xFD, 5] ∧
    crc16 (mem_write [1, 2, 0, 0, 5] 2
      (be16_bytes (crc16 [1, 2, 0, 0, 5] ([1, 2, 0, 0, 5] : List Nat).length)))
      ([1, 2, 0, 0, 5] : List Nat).length = 0 :=
  ⟨by decide, by decide,
    (crc16_stored_checksum_validates [1, 2, 0, 0, 5] 2 (by decide) (by decide) (by decide)
      (by decide) (by decide) (by decide)).2⟩

/-! ## The rule id of a compressed packet -/

/-- C23: for a valid packet that `schc_compress` compresses with the rule
table of `context.cpp`, byte 0 of the compressed packet is the index of the
selected rule, which is less than 12 and so differs from the fragmentation
rule id 0x80.  When the packet has at most `MAX_SCHC_PKT_LEN` bytes it is
queued unfragmented, as the one link message made of its bytes, and
`schc_reassemble` hands that message as it is to `schc_decompress` and leaves
the reassembly state as it was: the message is not taken for a fragment. -/
theorem schc_compress_rule_id_not_fragment (tkl : Nat → Nat → Nat) (u : Indeterminate)
    (st : ReassemblyState) (queue : List Nat) (P : field_values) (i : Nat) (buf : List Nat)
    (len : Nat) (hv : P.valid) (hpkt : compress_rules tkl P rules 0 = .packet i buf len) :
    buf.getD 0 0 = i ∧ buf.getD 0 0 < 12 ∧ buf.getD 0 0 ≠ SCHC_FRG_RULEID ∧
    (buf.take len).getD 0 0 = buf.getD 0 0 ∧
    (len ≤ MAX_SCHC_PKT_LEN →
      (schc_compress tkl queue P).queue = queue ++ tx_frame (buf.take len)) ∧
    (schc_reassemble u st (buf.take len) len).decompress_call = some (buf.take len, len) ∧
    (schc_reassemble u st (buf.take len) len).state = st := by
  obtain ⟨h1, h2, h3, h4⟩ := compress_rules_packet tkl P hv i buf len hpkt
  obtain ⟨hi, _⟩ := compress_rules_outcome tkl P rules i buf len hpkt
  have hi12 : i < 12 := by simpa [rules_length] using hi
  have ht0 : (buf.take len).getD 0 0 = i := by rw [h1]; rfl
  have hb0 : (buf.take len).getD 0 0 = buf.getD 0 0 := by
    rw [List.getD_eq_getElem?_getD, List.getElem?_take_of_lt (by omega),
      ← List.getD_eq_getElem?_getD]
  have h0 : buf.getD 0 0 = i := by rw [← hb0, ht0]
  have hne : (buf.take len).getD 0 0 ≠ SCHC_FRG_RULEID := by
    rw [ht0]; simp only [SCHC_FRG_RULEID]; omega
  refine ⟨h0, by omega, by rw [h0]; simp only [SCHC_FRG_RULEID]; omega, hb0, ?_, ?_, ?_⟩
  · intro hL
    have hl : (buf.take len).length = len := by
      rw [List.length_take, h3]; simp only [SIZE_MTU_IPV6]; omega
    have hread : mem_read buf 0 len = buf.take len := by
      rw [mem_read_eq_take_drop _ _ _ (by rw [h3]; simp only [SIZE_MTU_IPV6]; omega)]; simp
    simp only [schc_compress, schc_compress_with, hpkt, schc_fragmentate, hL, if_true,
      tx_push_message, hread, tx_frame, hl]
    simp
  · unfold schc_reassemble
    rw [if_pos hne]
  · unfold schc_reassemble
    rw [if_pos hne]

/-- Witness of C23: the example packet is compressed under rule 2 into the 6
bytes `02 12 34 07 08 09`, queued as one link message. -/
theorem schc_compress_rule_id_not_fragment_witness :
    example_packet.valid ∧
    (schc_compress example_tkl [] example_packet).queue = [6, 2, 0x12, 0x34, 7, 8, 9] ∧
    (schc_reassemble example_indeterminate ReassemblyState.init
      ((mem_write (mem_write (mem_write (List.replicate SIZE_MTU_IPV6 0) 0 [2]) 1
        [0x12, 0x34]) 3 [7, 8, 9]).take 6) 6).state = ReassemblyState.init ∧
    (mem_write (mem_write (mem_write (List.replicate SIZE_MTU_IPV6 0) 0 [2]) 1
        [0x12, 0x34]) 3 [7, 8, 9]).getD 0 0 = 2 :=
  ⟨by decide!, by decide!,
    (schc_compress_rule_id_not_fragment example_tkl example_indeterminate ReassemblyState.init
      [] example_packet 2 _ 6 (by decide!) (by decide!)).2.2.2.2.2.2,
    (schc_compress_rule_id_not_fragment example_tkl example_indeterminate ReassemblyState.init
      [] example_packet 2 _ 6 (by decide!) (by decide!)).1⟩

/-! ## The rows of a matching rule -/

/-- The indeterminate `tkl` is read by `EQUALS` rows of the token only. -/
theorem check_matching_tkl (t t' : Nat) (row : field_description) (P : field_values)
    (cur : Nat) (h : ¬ (row.MO = .EQUALS ∧ row.fieldid = .COAP_TOKEN)) :
    check_matching t row P cur = check_matching t' row P cur := by
  unfold check_matching
  cases hmo : row.MO <;> simp only [hmo] at h ⊢
  cases hf : row.fieldid <;> simp only [hf] at h ⊢
  exact absurd ⟨trivial, trivial⟩ h

theorem match_rows_tkl (tkl tkl' : Nat → Nat) (P : field_values) :
    ∀ (rule : List field_description) (j cur : Nat),
      (∀ row ∈ rule_rows rule, ¬ (row.MO = .EQUALS ∧ row.fieldid = .COAP_TOKEN)) →
      match_rows tkl P rule j cur = match_rows tkl' P rule j cur := by
  intro rule
  induction rule with
  | nil => intro j cur _; rfl
  | cons r rest ih =>
    intro j cur h
    rw [rule_rows_cons] at h
    unfold match_rows
    by_cases hend : r.fieldid = .END_OF_RULE
    · simp only [hend, if_true]
    · simp only [hend, if_false] at h ⊢
      rw [check_matching_tkl (tkl j) (tkl' j) r P cur (h r (by simp)),
        ih _ _ (fun row hr => h row (by simp [hr]))]

theorem compress_rules_tkl (tkl tkl' : Nat → Nat → Nat) (P : field_values) :
    ∀ (table : List (List field_description)) (k : Nat),
      (∀ rule ∈ table, ∀ row ∈ rule_rows rule,
        ¬ (row.MO = .EQUALS ∧ row.fieldid = .COAP_TOKEN)) →
      compress_rules tkl P table k = compress_rules tkl' P table k := by
  intro table
  induction table with
  | nil => intro k _; rfl
  | cons rule rest ih =>
    intro k h
    unfold compress_rules rule_matches
    rw [match_rows_tkl (tkl k) (tkl' k) P rule 0 0 (h rule (by simp)),
      ih _ (fun r hr => h r (by simp [hr]))]

theorem rules_no_token_equals :
    ∀ rule ∈ rules, ∀ row ∈ rule_rows rule,
      ¬ (row.MO = .EQUALS ∧ row.fieldid = .COAP_TOKEN) := by
  decide

/-- When the rows of a rule all match, row `n` matched at the option index
that the `COAP_OPTION_VALUE` rows before it lead to. -/
theorem match_rows_all (tkl : Nat → Nat) (P : field_values) :
    ∀ (rule : List field_description) (j cur : Nat),
      (match_rows tkl P rule j cur).1 ≠ 0 →
      ∀ (n : Nat) (row : field_description), (rule_rows rule)[n]? = some row →
        (check_matching (tkl (j + n)) row P (cur + option_index (rule_rows rule) n)).1 ≠ 0 := by
  intro rule
  induction rule with
  | nil => intro j cur _ n row hn; simp [rule_rows] at hn
  | cons r rest ih =>
    intro j cur h n row hn
    rw [rule_rows_cons] at hn ⊢
    unfold match_rows at h
    by_cases hend : r.fieldid = .END_OF_RULE
    · simp [hend] at hn
    · simp only [hend, if_false] at h hn ⊢
      by_cases hc : (check_matching (tkl j) r P cur).1 = 0
      · simp [hc] at h
      · simp only [hc, if_false] at h
        match n with
        | 0 =>
          simp only [List.getElem?_cons_zero, Option.some.injEq] at hn
          subst hn
          rw [option_index_zero]
          exact hc
        | n + 1 =>
          simp only [List.getElem?_cons_succ] at hn
          rw [check_matching_cur _ _ _ _ hc] at h
          have := ih (j + 1) _ h n row hn
          rw [← option_index_succ]
          unfold cur_next
          rw [show j + (n + 1) = j + 1 + n by omega]
          exact this

/-- What an `EQUALS` row that matched says of a valid packet. -/
theorem check_matching_equals_target (t : Nat) (row : field_description) (P : field_values)
    (cur : Nat) (hv : P.valid) (hmo : row.MO = .EQUALS) (hfit : equals_target_ok row = true)
    (hnine : hex_target row.fieldid = true → nine_free row.tv = true)
    (h : (check_matching t row P cur).1 ≠ 0) : field_equals_target P row cur := by
  obtain ⟨_, _, _, _, _, _, ⟨a1, _⟩, ⟨a2, _⟩, ⟨a3, _⟩, ⟨a4, _⟩, _, _, _, _, _, _, _, _,
    ⟨a5, _⟩, _⟩ := hv.1
  have haddr : ∀ a : List Nat, a.length = 8 →
      c_bool (mem_read a 0 8 = mem_read (string_to_bin row.tv) 0 8) ≠ 0 →
      (!nine_free row.tv || decide (string_to_bin row.tv = hex_decode row.tv)) = true →
      nine_free row.tv = true → a = hex_decode row.tv := by
    intro a ha hc hf hn
    have h1 := c_bool_eq _ hc
    rw [mem_read_whole a 8 ha, mem_read_whole _ 8 (string_to_bin_length row.tv)] at h1
    rw [h1]
    simpa [hn] using hf
  have h32 : ∀ v : Nat, (0 ≤ atoi row.tv ∧ atoi row.tv < 2 ^ 32) →
      to_uint 32 (atoi row.tv) = v → (v : Int) = atoi row.tv := by
    intro v h0 hv32
    unfold to_uint at hv32
    rw [← hv32, Int.emod_eq_of_lt h0.1 h0.2, Int.toNat_of_nonneg h0.1]
  unfold check_matching at h
  unfold field_equals_target
  unfold equals_target_ok at hfit
  simp only [hmo, bne_self_eq_false, Bool.false_or] at hfit
  unfold hex_target at hnine
  simp only [hmo] at h
  cases hf : row.fieldid <;> simp only [hf] at h hfit hnine ⊢
  case IPV6_DEV_PREFIX => exact haddr _ a1 h hfit (hnine (by decide))
  case IPV6_DEVIID => exact haddr _ a2 h hfit (hnine (by decide))
  case IPV6_APP_PREFIX => exact haddr _ a3 h hfit (hnine (by decide))
  case IPV6_APPIID => exact haddr _ a4 h hfit (hnine (by decide))
  case COAP_MESSAGE_ID =>
    have h1 := c_bool_eq _ h
    have hn := hnine (by decide)
    rw [mem_read_whole _ 2 a5, mem_read_eq_take _ _ (by rw [string_to_bin_length]; omega)] at h1
    rw [h1]
    simpa [hn] using hfit
  case COAP_OPTION_VALUE =>
    intro hlen
    have h1 := c_bool_eq _ h
    have hl16 := option_at_length_le P hv cur
    have hw := option_at_wf P hv cur
    rw [mem_read_eq_take _ _ (by rw [hw.2.2.1]; exact hl16), str_bytes_take _ _ hlen] at h1
    exact h1
  case IPV6_FLOW_LABEL => exact h32 _ (by simpa using hfit) (c_bool_eq _ h)
  case IPV6_PAYLOAD_LENGTH => exact h32 _ (by simpa using hfit) (c_bool_eq _ h)
  case UDP_LENGTH => exact h32 _ (by simpa using hfit) (c_bool_eq _ h)
  all_goals first
    | trivial
    | exact (c_bool_eq _ h).symm

/-! ## The end-to-end scenario -/

/-- The rules of `context.cpp` with one `COAP_OPTION_VALUE` row ask in row 15
for a CoAP type other than 1. -/
theorem rules_one_option_type :
    ∀ j, j < 12 → option_rows (rules.getD j []) = 1 →
      ((rule_rows (rules.getD j []))[15]?).map
        (fun r => (r.fieldid, r.MO, decide (atoi r.tv = 1))) =
        some (.COAP_TYPE, .EQUALS, false) := by
  decide

/-- No rule of `context.cpp` matches a non-confirmable packet (CoAP type 1)
with one option. -/
theorem compress_rules_non_one_option (tkl : Nat → Nat → Nat) (P : field_values)
    (ht : P.coap_type = 1) (hn : P.coap_option_num = 1) :
    compress_rules tkl P rules 0 = .no_match := by
  rcases compress_rules_spec tkl P rules 0 with ⟨hno, _⟩ | ⟨j, hj, hmj, _, _⟩
  · exact hno
  · exfalso
    rw [Nat.zero_add] at hmj
    have hopt := rule_matches_option_rows _ _ _ hmj
    rw [hn] at hopt
    have hj12 : j < 12 := by simpa [rules_length] using hj
    have htab := rules_one_option_type j hj12 hopt
    obtain ⟨row, hrow, hr⟩ := Option.map_eq_some'.mp htab
    simp only [Prod.mk.injEq, decide_eq_false_iff_not] at hr
    obtain ⟨hf, hmo, hne⟩ := hr
    unfold rule_matches at hmj
    simp only [Bool.and_eq_true, decide_eq_true_eq] at hmj
    have hall := match_rows_all (tkl j) P (rules.getD j []) 0 0 (by simpa using hmj.1) 15 row hrow
    unfold check_matching at hall
    simp only [hmo, hf] at hall
    have := c_bool_eq _ hall
    rw [ht] at this
    exact hne this

/-- C24, as the code has it: the scenario packet as a confirmable request
(IPv6 version 6, next header 17, UDP application port 5683, CoAP version 1,
type 0, code 2, message id 0x0000, token length 0, one option with number 11,
length 1 and value "b") is compressed under rule 2 of `context.cpp`, which
asks with `EQUALS` for these values and has one `COAP_OPTION_VALUE` row; its
only `VALUE_SENT` row is the message id, so the compressed packet is the rule
id 2, the two message id bytes and the payload bytes; the option value is not
sent.  As a non-confirmable request (type 1) with one option, no packet
matches any rule. -/
theorem schc_compress_scenario (tkl : Nat → Nat → Nat) (queue : List Nat) :
    scenario_packet_con.valid ∧
    (scenario_packet_con.ipv6_version = 6 ∧ scenario_packet_con.ipv6_next_header = 17 ∧
      scenario_packet_con.udp_app_port = 5683 ∧ scenario_packet_con.coap_version = 1 ∧
      scenario_packet_con.coap_type = 0 ∧ scenario_packet_con.coap_code = 2 ∧
      scenario_packet_con.coap_message_id = [0, 0] ∧ scenario_packet_con.coap_tkl = 0 ∧
      scenario_packet_con.coap_option_num = 1 ∧
      (scenario_packet_con.option_at 0).delta = 11 ∧
      (scenario_packet_con.option_at 0).length = 1 ∧
      (scenario_packet_con.option_at 0).value.take 1 = [0x62] ∧
      scenario_packet_con.coap_payload.take scenario_packet_con.coap_payload_length =
        [7, 8, 9]) ∧
    compress_rules tkl scenario_packet_con rules 0 =
      .packet 2 (mem_write (mem_write (mem_write (List.replicate SIZE_MTU_IPV6 0) 0 [2]) 1
        [0, 0]) 3 [7, 8, 9]) 6 ∧
    (mem_write (mem_write (mem_write (List.replicate SIZE_MTU_IPV6 0) 0 [2]) 1
        [0, 0]) 3 [7, 8, 9]).take 6 = [2, 0, 0, 7, 8, 9] ∧
    schc_compress tkl queue scenario_packet_con =
      { queue := queue ++ [6, 2, 0, 0, 7, 8, 9], ret := 0 } ∧
    ((rule_rows (rules.getD 2 [])).filter (fun r => decide (r.MO = .EQUALS))).map
        (fun r => (r.fieldid, r.tv)) =
      [(.IPV6_VERSION, "6"), (.IPV6_TRAFFIC_CLASS, "0"), (.IPV6_NEXT_HEADER, "17"),
        (.IPV6_DEV_PREFIX, "FE80000000000000"), (.IPV6_DEVIID, "080027fffe000000"),
        (.IPV6_APP_PREFIX, "FE80000000000000"), (.IPV6_APPIID, "0A0027FFFE542E4A"),
        (.UDP_DEVPORT, "59355"), (.UDP_APPPORT, "5683"), (.COAP_VERSION, "1"),
        (.COAP_TYPE, "0"), (.COAP_TKL, "0"), (.COAP_CODE, "2"),
        (.COAP_OPTION_DELTA, "11"), (.COAP_OPTION_LENGTH, "1"), (.COAP_OPTION_VALUE, "b")] ∧
    option_rows (rules.getD 2 []) = 1 ∧
    ((rule_rows (rules.getD 2 [])).filter (fun r => decide (r.CDA = .VALUE_SENT))).map
        (fun r => r.fieldid) = [.COAP_MESSAGE_ID] ∧
    residue scenario_packet_con (rules.getD 2 []) = [0, 0] ∧
    (∀ P : field_values, P.coap_type = 1 → P.coap_option_num = 1 →
      compress_rules tkl P rules 0 = .no_match) := by
  have hc : compress_rules tkl scenario_packet_con rules 0 =
      .packet 2 (mem_write (mem_write (mem_write (List.replicate SIZE_MTU_IPV6 0) 0 [2]) 1
        [0, 0]) 3 [7, 8, 9]) 6 := by
    rw [compress_rules_tkl tkl example_tkl _ rules 0 rules_no_token_equals]
    decide!
  have hread : mem_read (mem_write (mem_write (mem_write (List.replicate SIZE_MTU_IPV6 0) 0 [2])
      1 [0, 0]) 3 [7, 8, 9]) 0 6 = [2, 0, 0, 7, 8, 9] := by decide!
  refine ⟨by decide!, by decide!, hc, by decide!, ?_, by decide, by decide, by decide,
    by decide!, fun P ht hn => compress_rules_non_one_option tkl P ht hn⟩
  simp only [schc_compress, schc_compress_with, hc, schc_fragmentate, MAX_SCHC_PKT_LEN,
    tx_push_message, hread]
  simp

/-- C24 (counterexample): the scenario packet, a non-confirmable request
(type 1) with the one option 11 = "b", matches no rule of `context.cpp`:
`schc_compress` returns -1 and queues nothing.  As a confirmable request
(type 0) it is compressed under rule 2 into `02 00 00 07 08 09`, in which the
option value 0x62 does not occur. -/
theorem scenario_non_not_compressed :
    scenario_packet.valid ∧
    (scenario_packet.ipv6_version = 6 ∧ scenario_packet.ipv6_next_header = 17 ∧
      scenario_packet.udp_app_port = 5683 ∧ scenario_packet.coap_version = 1 ∧
      scenario_packet.coap_type = 1 ∧ scenario_packet.coap_code = 2 ∧
      scenario_packet.coap_message_id = [0, 0] ∧ scenario_packet.coap_tkl = 0 ∧
      scenario_packet.coap_option_num = 1 ∧ (scenario_packet.option_at 0).delta = 11 ∧
      (scenario_packet.option_at 0).length = 1 ∧
      (scenario_packet.option_at 0).value.take 1 = [0x62]) ∧
    (∀ i, i < 12 → rule_matches (example_tkl i) scenario_packet (rules.getD i []) = false) ∧
    schc_compress example_tkl [] scenario_packet = { queue := [], ret := -1 } ∧
    schc_compress example_tkl [] scenario_packet_con =
      { queue := [6, 2, 0, 0, 7, 8, 9], ret := 0 } := by
  decide!

/-! ## `string_to_bin` and the digit 9 -/

theorem string_to_bin_hi_hex (c tmp : Nat) (h : (hex_digit c).isSome = true) (h9 : c ≠ 57) :
    string_to_bin_hi c tmp = (hex_digit c).getD 0 ∧ (hex_digit c).getD 0 < 16 := by
  have hr : (48 ≤ c ∧ c ≤ 56) ∨ (65 ≤ c ∧ c ≤ 70) ∨ (97 ≤ c ∧ c ≤ 102) := by
    unfold hex_digit at h
    split at h
    · omega
    · split at h
      · omega
      · split at h
        · omega
        · simp at h
  rcases hr with ⟨h1, h2⟩ | ⟨h1, h2⟩ | ⟨h1, h2⟩ <;> interval_cases c <;> exact ⟨rfl, by decide⟩

theorem string_to_bin_lo_hex (c d : Nat) (hd : d < 16) (h : (hex_digit c).isSome = true)
    (h9 : c ≠ 57) :
    string_to_bin_lo c ((d <<< 4) % 256) = d * 16 + (hex_digit c).getD 0 := by
  have hor : ∀ d, d < 16 → ∀ e, e < 16 → (d <<< 4) % 256 ||| e = d * 16 + e := by decide
  have hr : (48 ≤ c ∧ c ≤ 56) ∨ (65 ≤ c ∧ c ≤ 70) ∨ (97 ≤ c ∧ c ≤ 102) := by
    unfold hex_digit at h
    split at h
    · omega
    · split at h
      · omega
      · split at h
        · omega
        · simp at h
  rcases hr with ⟨h1, h2⟩ | ⟨h1, h2⟩ | ⟨h1, h2⟩ <;> interval_cases c <;>
    exact hor d hd _ (by decide)

theorem string_to_bin_loop_hex :
    ∀ (n : Nat) (a b : List Nat) (tmp : Nat), a.length = 2 * n →
      (∀ c ∈ a, (hex_digit c).isSome = true ∧ c ≠ 57) →
      string_to_bin_loop n (a ++ b) tmp = hex_pairs a := by
  intro n
  induction n with
  | zero =>
    intro a b tmp ha _
    have : a = [] := List.length_eq_zero.mp (by omega)
    subst this
    rfl
  | succ n ih =>
    intro a b tmp ha hc
    match a, ha, hc with
    | c0 :: c1 :: rest, ha, hc =>
      have h0 := hc c0 (by simp)
      have h1 := hc c1 (by simp)
      obtain ⟨e0, l0⟩ := string_to_bin_hi_hex c0 tmp h0.1 h0.2
      have e1 := string_to_bin_lo_hex c1 _ l0 h1.1 h1.2
      unfold string_to_bin_loop hex_pairs
      simp only [List.cons_append, List.getD_cons_zero, List.getD_cons_succ, List.drop_succ_cons,
        List.drop_zero]
      rw [e0, e1, ih rest b _ (by simp at ha; omega) (fun c hcr => hc c (by simp [hcr]))]

/-- On a string of 16 hexadecimal characters without the digit 9,
`string_to_bin` writes the 8 bytes of the hexadecimal decoding: byte `i` is
16 times the value of character `2 i` plus the value of character
`2 i + 1`. -/
theorem string_to_bin_nine_free (tv : String) (hl : tv.length = 16)
    (hc : ∀ c ∈ tv.toList.map Char.toNat, (hex_digit c).isSome = true ∧ c ≠ 57) :
    string_to_bin tv = hex_decode tv := by
  unfold string_to_bin str_bytes hex_decode
  exact string_to_bin_loop_hex 8 _ [0] 0 (by rw [List.length_map]; exact hl) hc

/-- C25 (evaluation at the failing input): the target value
`1234567891234567` of the device prefix row of rule 0 of `context.cpp` is 16
hexadecimal characters; its decoding is `12 34 56 78 91 23 45 67`, and
`string_to_bin` writes `12 34 56 78 81 23 45 67`: at the digit 9 the high
half keeps the low half of the byte before.  With that row `check_matching`
accepts the device prefix `12 34 56 78 81 23 45 67` and rejects
`12 34 56 78 91 23 45 67`.  A leading 9 reads as 0.  Every string of 16
hexadecimal characters without the digit 9 is decoded as written. -/
theorem string_to_bin_digit_nine :
    (rule_rows (rules.getD 0 []))[6]? =
      some ⟨.IPV6_DEV_PREFIX, 64, 1, .BI, "1234567891234567", .EQUALS, .NOT_SENT⟩ ∧
    (∀ c ∈ "1234567891234567".toList.map Char.toNat, (hex_digit c).isSome = true) ∧
    hex_decode "1234567891234567" = [0x12, 0x34, 0x56, 0x78, 0x91, 0x23, 0x45, 0x67] ∧
    string_to_bin "1234567891234567" = [0x12, 0x34, 0x56, 0x78, 0x81, 0x23, 0x45, 0x67] ∧
    (check_matching 0 ⟨.IPV6_DEV_PREFIX, 64, 1, .BI, "1234567891234567", .EQUALS, .NOT_SENT⟩
      { field_values_zero with
        ipv6_dev_prefix := [0x12, 0x34, 0x56, 0x78, 0x81, 0x23, 0x45, 0x67] } 0).1 = 1 ∧
    (check_matching 0 ⟨.IPV6_DEV_PREFIX, 64, 1, .BI, "1234567891234567", .EQUALS, .NOT_SENT⟩
      { field_values_zero with
        ipv6_dev_prefix := [0x12, 0x34, 0x56, 0x78, 0x91, 0x23, 0x45, 0x67] } 0).1 = 0 ∧
    string_to_bin "9000000000000000" = [0, 0, 0, 0, 0, 0, 0, 0] ∧
    hex_decode "9000000000000000" = [0x90, 0, 0, 0, 0, 0, 0, 0] ∧
    (∀ tv : String, tv.length = 16 →
      (∀ c ∈ tv.toList.map Char.toNat, (hex_digit c).isSome = true ∧ c ≠ 57) →
      string_to_bin tv = hex_decode tv) :=
  ⟨by decide, by decide, by decide, by decide, by decide, by decide, by decide, by decide,
    fun tv hl hc => string_to_bin_nine_free tv hl hc⟩

/-! ## The `EQUALS` match of an option value -/

/-- C26, as the code has it: for a row with operator `EQUALS` and field
`COAP_OPTION_VALUE`, and an option of the packet no longer than the target
string of the row (its characters and the terminating NUL), `check_matching`
returns 1 exactly when the value bytes of the option at the current option
index equal, byte for byte over the length of the option, the bytes of the
target string itself, not decoded; otherwise it returns 0; either way the
option index moves on by one. -/
theorem check_matching_option_value (t : Nat) (row : field_description) (P : field_values)
    (cur : Nat) (hv : P.valid) (hmo : row.MO = .EQUALS)
    (hf : row.fieldid = .COAP_OPTION_VALUE)
    (hlen : (P.option_at cur).length ≤ (str_bytes row.tv).length) :
    ((check_matching t row P cur).1 = 1 ↔
      (P.option_at cur).value.take (P.option_at cur).length =
        (str_bytes row.tv).take (P.option_at cur).length) ∧
    ((check_matching t row P cur).1 ≠ 1 → (check_matching t row P cur).1 = 0) ∧
    (check_matching t row P cur).2 = cur + 1 := by
  have hl16 := option_at_length_le P hv cur
  have hwf := option_at_wf P hv cur
  have h1 : mem_read (P.option_at cur).value 0 (P.option_at cur).length =
      (P.option_at cur).value.take (P.option_at cur).length :=
    mem_read_eq_take _ _ (by rw [hwf.2.2.1]; exact hl16)
  have h2 : mem_read (str_bytes row.tv) 0 (P.option_at cur).length =
      (str_bytes row.tv).take (P.option_at cur).length := mem_read_eq_take _ _ hlen
  unfold check_matching
  simp only [hmo, hf, h1, h2, c_bool]
  refine ⟨?_, ?_, trivial⟩
  · split <;> simp_all
  · split <;> simp_all

/-- Witness of C26: the option value row "b" of rule 2 on the example packet,
whose option 0 has the one value byte 0x62, the character b. -/
theorem check_matching_option_value_witness :
    example_packet.valid ∧ (example_packet.option_at 0).length = 1 ∧
    (str_bytes "b").take 1 = [0x62] ∧
    (check_matching 0 ⟨.COAP_OPTION_VALUE, 16, 1, .BI, "b", .EQUALS, .NOT_SENT⟩
      example_packet 0).2 = 1 ∧
    ((check_matching 0 ⟨.COAP_OPTION_VALUE, 16, 1, .BI, "b", .EQUALS, .NOT_SENT⟩
        example_packet 0).1 = 1 ↔
      (example_packet.option_at 0).value.take (example_packet.option_at 0).length =
        (str_bytes "b").take (example_packet.option_at 0).length) :=
  ⟨by decide!, by decide, by decide,
    (check_matching_option_value 0 ⟨.COAP_OPTION_VALUE, 16, 1, .BI, "b", .EQUALS, .NOT_SENT⟩
      example_packet 0 (by decide!) rfl rfl (by decide)).2.2,
    (check_matching_option_value 0 ⟨.COAP_OPTION_VALUE, 16, 1, .BI, "b", .EQUALS, .NOT_SENT⟩
      example_packet 0 (by decide!) rfl rfl (by decide)).1⟩

/-- C26 (counterexample): option 0 of the example packet has the one value
byte 0x62.  Against the target "62", whose hexadecimal decoding is that byte,
`check_matching` returns 0: it compares with the character 6.  Against the
target "b" of rule 2, the character 0x62, it returns 1, though "b" does not
decode to the byte 0x62. -/
theorem option_value_compared_as_text :
    (example_packet.option_at 0).value.take (example_packet.option_at 0).length = [0x62] ∧
    hex_decode "62" = [0x62] ∧
    check_matching 0 ⟨.COAP_OPTION_VALUE, 16, 1, .BI, "62", .EQUALS, .NOT_SENT⟩
      example_packet 0 = (0, 1) ∧
    hex_decode "b" ≠ [0x62] ∧ (string_to_bin "b").take 1 ≠ [0x62] ∧
    check_matching 0 ⟨.COAP_OPTION_VALUE, 16, 1, .BI, "b", .EQUALS, .NOT_SENT⟩
      example_packet 0 = (1, 1) := by
  decide

/-! ## The `EQUALS` rows of the selected rule -/

theorem rules_equals_ok :
    ∀ rule ∈ rules, ∀ row ∈ rule_rows rule, equals_target_ok row = true := by
  decide

/-- C27, as the code has it: when `schc_compress` selects rule `i` of the
table of `context.cpp` for a valid packet, the field described by a row of
that rule with operator `EQUALS` has in the packet the target value of the
row: the decimal value for a scalar field; for an address field whose target
has no digit 9, the bytes decoded from hexadecimal; for an option value, the
characters of the target string themselves, not decoded, over the length of
the option.  No such row of the table describes the token. -/
theorem schc_compress_equals_rows (tkl : Nat → Nat → Nat) (P : field_values) (i : Nat)
    (buf : List Nat) (len n : Nat) (row : field_description) (hv : P.valid)
    (hpkt : compress_rules tkl P rules 0 = .packet i buf len)
    (hrow : (rule_rows (rules.getD i []))[n]? = some row) (hmo : row.MO = .EQUALS)
    (hnine : hex_target row.fieldid = true → nine_free row.tv = true) :
    field_equals_target P row (option_index (rule_rows (rules.getD i [])) n) ∧
    row.fieldid ≠ .COAP_TOKEN := by
  obtain ⟨hi, hm, _⟩ := compress_rules_outcome tkl P rules i buf len hpkt
  have hmem := rules_getD_mem i hi
  have hin : row ∈ rule_rows (rules.getD i []) := List.getElem?_mem hrow
  unfold rule_matches at hm
  simp only [Bool.and_eq_true, decide_eq_true_eq] at hm
  have hall := match_rows_all (tkl i) P (rules.getD i []) 0 0 (by simpa using hm.1) n row hrow
  rw [Nat.zero_add, Nat.zero_add] at hall
  refine ⟨check_matching_equals_target _ row P _ hv hmo (rules_equals_ok _ hmem row hin) hnine
    hall, ?_⟩
  intro hf
  exact rules_no_token_equals _ hmem row hin ⟨hmo, hf⟩

/-- Witness of C27: the example packet is compressed under rule 2, whose row
6 asks for the device prefix `FE80000000000000`. -/
theorem schc_compress_equals_rows_witness :
    example_packet.valid ∧
    (rule_rows (rules.getD 2 []))[6]? =
      some ⟨.IPV6_DEV_PREFIX, 64, 1, .BI, "FE80000000000000", .EQUALS, .NOT_SENT⟩ ∧
    hex_decode "FE80000000000000" = [0xFE, 0x80, 0, 0, 0, 0, 0, 0] ∧
    field_equals_target example_packet
      ⟨.IPV6_DEV_PREFIX, 64, 1, .BI, "FE80000000000000", .EQUALS, .NOT_SENT⟩
      (option_index (rule_rows (rules.getD 2 [])) 6) :=
  ⟨by decide!, by decide, by decide,
    (schc_compress_equals_rows example_tkl example_packet 2
      (mem_write (mem_write (mem_write (List.replicate SIZE_MTU_IPV6 0) 0 [2]) 1
        [0x12, 0x34]) 3 [7, 8, 9]) 6 6
      ⟨.IPV6_DEV_PREFIX, 64, 1, .BI, "FE80000000000000", .EQUALS, .NOT_SENT⟩
      (by decide!) (by decide!) (by decide) rfl (fun _ => by decide)).1⟩

/-- C27 (counterexample): the example packet is compressed under rule 2, whose
row 22 asks with `EQUALS` for the option value "b"; the one value byte of the
option of the packet is 0x62, the character b, which is not what "b" decodes
to as a hexadecimal string. -/
theorem equals_option_value_not_decoded :
    compress_rules example_tkl example_packet rules 0 =
      .packet 2 (mem_write (mem_write (mem_write (List.replicate SIZE_MTU_IPV6 0) 0 [2]) 1
        [0x12, 0x34]) 3 [7, 8, 9]) 6 ∧
    (rule_rows (rules.getD 2 []))[22]? =
      some ⟨.COAP_OPTION_VALUE, 16, 1, .BI, "b", .EQUALS, .NOT_SENT⟩ ∧
    option_index (rule_rows (rules.getD 2 [])) 22 = 0 ∧
    (example_packet.option_at 0).value.take (example_packet.option_at 0).length = [0x62] ∧
    hex_decode "b" ≠ [0x62] ∧ (string_to_bin "b").take 1 ≠ [0x62] := by
  decide!

/-! ## The match operators that are not implemented -/

theorem check_matching_not_implemented (t : Nat) (row : field_description) (P : field_values)
    (cur : Nat) (h : row.MO = .MATCH_MAPPING ∨ row.MO = .MSB) :
    check_matching t row P cur = (0, cur) := by
  unfold check_matching
  rcases h with h | h <;> rw [h]

theorem match_rows_not_implemented (tkl : Nat → Nat) (P : field_values)
    (row : field_description) (h : row.MO = .MATCH_MAPPING ∨ row.MO = .MSB) :
    ∀ (rule : List field_description) (j cur : Nat), row ∈ rule_rows rule →
      (match_rows tkl P rule j cur).1 = 0 := by
  intro rule
  induction rule with
  | nil => intro j cur hm; simp [rule_rows] at hm
  | cons r rest ih =>
    intro j cur hm
    by_cases hend : r.fieldid = .END_OF_RULE
    · simp [rule_rows, List.takeWhile_cons, hend] at hm
    · have hrr : rule_rows (r :: rest) = r :: rule_rows rest := by
        simp [rule_rows, List.takeWhile_cons, hend]
      rw [hrr] at hm
      unfold match_rows
      rw [if_neg hend]
      by_cases h0 : (check_matching (tkl j) r P cur).1 = 0
      · simp only [h0, if_true]
      · simp only [h0, if_false]
        rcases List.mem_cons.mp hm with he | hin
        · subst he
          rw [check_matching_not_implemented _ _ _ _ h] at h0
          exact absurd rfl h0
        · exact ih _ _ hin

/-- C28: for a row whose match operator is `MATCH_MAPPING` or `MSB` and for
every packet, `check_matching` returns 0 (and leaves the option index as it
was); a rule that has such a row among its rows (those before `END_OF_RULE`)
matches no packet, and `schc_compress` never selects it, at whatever index of
whatever rule table it stands. -/
theorem check_matching_unimplemented_operator (t : Nat) (row : field_description)
    (P : field_values) (cur : Nat) (h : row.MO = .MATCH_MAPPING ∨ row.MO = .MSB) :
    (check_matching t row P cur).1 = 0 ∧ (check_matching t row P cur).2 = cur ∧
    (∀ (tkl : Nat → Nat) (rule : List field_description), row ∈ rule_rows rule →
      rule_matches tkl P rule = false) ∧
    (∀ (tkl : Nat → Nat → Nat) (table : List (List field_description)) (i : Nat)
        (buf : List Nat) (len : Nat), row ∈ rule_rows (table.getD i []) →
      compress_rules tkl P table 0 ≠ .packet i buf len) := by
  have hrm : ∀ (tkl : Nat → Nat) (rule : List field_description), row ∈ rule_rows rule →
      rule_matches tkl P rule = false := by
    intro tkl rule hm
    unfold rule_matches
    simp [match_rows_not_implemented tkl P row h rule 0 0 hm]
  rw [check_matching_not_implemented t row P cur h]
  refine ⟨rfl, rfl, hrm, ?_⟩
  intro tkl table i buf len hm hpkt
  have h1 := (compress_rules_outcome tkl P table i buf len hpkt).2.1
  rw [hrm (tkl i) _ hm] at h1
  cases h1

/-- Witness of C28: rule 2 of `context.cpp` with the operator of its version
row changed to `MSB`; the example packet, which matches rule 2, does not
match it. -/
theorem check_matching_unimplemented_operator_witness :
    rule_matches (example_tkl 2) example_packet (rules.getD 2 []) = true ∧
    rule_matches (example_tkl 2) example_packet
      (⟨.IPV6_VERSION, 4, 1, .BI, "6", .MSB, .NOT_SENT⟩ :: (rules.getD 2 []).drop 1) = false ∧
    (check_matching 0 ⟨.IPV6_VERSION, 4, 1, .BI, "6", .MSB, .NOT_SENT⟩ example_packet 0).1 = 0 :=
  ⟨by decide!,
    (check_matching_unimplemented_operator 0 ⟨.IPV6_VERSION, 4, 1, .BI, "6", .MSB, .NOT_SENT⟩
      example_packet 0 (Or.inr rfl)).2.2.1 (example_tkl 2) _ (by decide),
    (check_matching_unimplemented_operator 0 ⟨.IPV6_VERSION, 4, 1, .BI, "6", .MSB, .NOT_SENT⟩
      example_packet 0 (Or.inr rfl)).1⟩

/-! ## The compression actions that are not implemented -/

theorem do_compression_action_not_implemented (row : field_description) (P : field_values)
    (s : CompressState)
    (h : row.CDA = .MAPPING_SENT ∨ row.CDA = .LSB ∨ row.CDA = .DEVIID ∨ row.CDA = .APPIID) :
    do_compression_action row P s = (-1, s) := by
  unfold do_compression_action
  rcases h with h | h | h | h <;> simp [h]

/-- C29, as the code has it: a row whose action is `MAPPING_SENT`, `LSB`,
`DEVIID` or `APPIID` lets `do_compression_action` return -1, with the output
bytes, the offset and the option index left as they were; when the first rule
of a table that matches the packet has such a row among its rows (those
before `END_OF_RULE`), `schc_compress` returns -1 and the transmit queue is
left as it was: no packet is emitted. -/
theorem do_compression_action_unimplemented (row : field_description) (P : field_values)
    (s : CompressState)
    (h : row.CDA = .MAPPING_SENT ∨ row.CDA = .LSB ∨ row.CDA = .DEVIID ∨ row.CDA = .APPIID) :
    (do_compression_action row P s).1 = -1 ∧ (do_compression_action row P s).2 = s ∧
    (∀ (tkl : Nat → Nat → Nat) (table : List (List field_description)) (queue : List Nat)
        (i : Nat), i < table.length → row ∈ rule_rows (table.getD i []) →
      rule_matches (tkl i) P (table.getD i []) = true →
      (∀ j, j < i → rule_matches (tkl j) P (table.getD j []) = false) →
      compress_rules tkl P table 0 = .action_failed i ∧
      schc_compress_with table tkl queue P = { queue := queue, ret := -1 }) := by
  rw [do_compression_action_not_implemented row P s h]
  refine ⟨rfl, rfl, ?_⟩
  intro tkl table queue i hi hmem hmatch hbefore
  have hni : action_implemented row ≠ true := by
    rcases h with h | h | h | h <;> simp [action_implemented, h]
  have hfail : compress_rules tkl P table 0 = .action_failed i := by
    rcases compress_rules_spec tkl P table 0 with ⟨_, hall⟩ | ⟨j, hj, hmj, hbj, hout⟩
    · have := hall i hi
      rw [Nat.zero_add, hmatch] at this
      cases this
    · simp only [Nat.zero_add] at hmj hbj hout
      have hij : j = i := by
        rcases Nat.lt_trichotomy j i with hlt | heq | hgt
        · have := hbefore j hlt
          rw [hmj] at this; cases this
        · exact heq
        · have := hbj i hgt
          rw [hmatch] at this; cases this
      subst hij
      rcases hout with ⟨hf, _⟩ | ⟨s', hs', _⟩
      · exact hf
      · exact absurd (compress_rows_implemented P _ _ _ hs' row hmem) hni
  refine ⟨hfail, ?_⟩
  unfold schc_compress_with
  rw [hfail]

/-- Witness of C29: rule 2 of `context.cpp` with the action of its message id
row (row 18) changed to `LSB`, alone in a table: the example packet matches
it, and nothing is emitted. -/
theorem do_compression_action_unimplemented_witness :
    rule_matches (example_tkl 0) example_packet
      ((rules.getD 2 []).set 18 ⟨.COAP_MESSAGE_ID, 16, 1, .BI, "0", .IGNORE, .LSB⟩) = true ∧
    schc_compress_with
      [(rules.getD 2 []).set 18 ⟨.COAP_MESSAGE_ID, 16, 1, .BI, "0", .IGNORE, .LSB⟩]
      example_tkl [5, 6] example_packet = { queue := [5, 6], ret := -1 } :=
  ⟨by decide!,
    ((do_compression_action_unimplemented ⟨.COAP_MESSAGE_ID, 16, 1, .BI, "0", .IGNORE, .LSB⟩
      example_packet { schc_packet := [], offset := 0, current_coap_option_num := 0 }
      (Or.inr (Or.inl rfl))).2.2 example_tkl
      [(rules.getD 2 []).set 18 ⟨.COAP_MESSAGE_ID, 16, 1, .BI, "0", .IGNORE, .LSB⟩] [5, 6] 0
      (by decide) (by decide) (by decide!) (fun j hj => absurd hj (Nat.not_lt_zero j))).2⟩

/-- C29 (counterexample): the message id row of rule 2 of `context.cpp` with
the action `LSB` does not report success: `do_compression_action` returns -1;
and with that row in rule 2, alone in a table, `schc_compress` emits nothing
for the example packet, which matches the rule, and returns -1. -/
theorem unimplemented_action_fails :
    (do_compression_action ⟨.COAP_MESSAGE_ID, 16, 1, .BI, "0", .IGNORE, .LSB⟩ example_packet
      { schc_packet := [2], offset := 1, current_coap_option_num := 0 }).1 = -1 ∧
    rule_matches (example_tkl 0) example_packet
      ((rules.getD 2 []).set 18 ⟨.COAP_MESSAGE_ID, 16, 1, .BI, "0", .IGNORE, .LSB⟩) = true ∧
    schc_compress_with
      [(rules.getD 2 []).set 18 ⟨.COAP_MESSAGE_ID, 16, 1, .BI, "0", .IGNORE, .LSB⟩]
      example_tkl [5, 6] example_packet = { queue := [5, 6], ret := -1 } ∧
    schc_compress_with [rules.getD 2 []] example_tkl [5, 6] example_packet =
      { queue := [5, 6, 6, 0, 0x12, 0x34, 7, 8, 9], ret := 0 } := by
  decide!

/-! ## The actions that send nothing -/

/-- C30: for a row whose action is `NOT_SENT`, `COMPUTE_LENGTH` or
`COMPUTE_CHECKSUM`, `do_compression_action` returns 0 (success), leaves
`schc_packet` and `*offset` as they were, and adds one to
`*current_coap_option_num` exactly when the field of the row is
`COAP_OPTION_VALUE`; for any other field the index is left as it was. -/
theorem do_compression_action_nothing_sent (row : field_description) (P : field_values)
    (s : CompressState)
    (h : row.CDA = .NOT_SENT ∨ row.CDA = .COMPUTE_LENGTH ∨ row.CDA = .COMPUTE_CHECKSUM) :
    (do_compression_action row P s).1 = 0 ∧
    (do_compression_action row P s).2.schc_packet = s.schc_packet ∧
    (do_compression_action row P s).2.offset = s.offset ∧
    (row.fieldid = .COAP_OPTION_VALUE →
      (do_compression_action row P s).2.current_coap_option_num =
        s.current_coap_option_num + 1) ∧
    (row.fieldid ≠ .COAP_OPTION_VALUE →
      (do_compression_action row P s).2.current_coap_option_num =
        s.current_coap_option_num) := by
  have hc : row.CDA = .COMPUTE_LENGTH ∨ row.CDA = .NOT_SENT ∨ row.CDA = .COMPUTE_CHECKSUM := by
    rcases h with h | h | h
    · exact Or.inr (Or.inl h)
    · exact Or.inl h
    · exact Or.inr (Or.inr h)
  unfold do_compression_action
  rw [if_pos hc]
  by_cases hf : row.fieldid = .COAP_OPTION_VALUE
  · rw [if_pos hf]
    exact ⟨rfl, rfl, rfl, fun _ => rfl, fun hne => absurd hf hne⟩
  · rw [if_neg hf]
    exact ⟨rfl, rfl, rfl, fun he => absurd he hf, fun _ => rfl⟩

/-- Witness of C30: the `NOT_SENT` row of the option value "b" of rule 2 adds
one to the option index and sends nothing; the `COMPUTE_CHECKSUM` row of the
UDP checksum changes nothing at all. -/
theorem do_compression_action_nothing_sent_witness :
    do_compression_action ⟨.COAP_OPTION_VALUE, 16, 1, .BI, "b", .EQUALS, .NOT_SENT⟩
      example_packet { schc_packet := [2, 0x12, 0x34], offset := 3,
                       current_coap_option_num := 0 } =
      (0, { schc_packet := [2, 0x12, 0x34], offset := 3, current_coap_option_num := 1 }) ∧
    do_compression_action ⟨.UDP_CHECKSUM, 16, 1, .BI, "0", .IGNORE, .COMPUTE_CHECKSUM⟩
      example_packet { schc_packet := [2, 0x12, 0x34], offset := 3,
                       current_coap_option_num := 0 } =
      (0, { schc_packet := [2, 0x12, 0x34], offset := 3, current_coap_option_num := 0 }) ∧
    (do_compression_action ⟨.COAP_OPTION_VALUE, 16, 1, .BI, "b", .EQUALS, .NOT_SENT⟩
      example_packet { schc_packet := [2, 0x12, 0x34], offset := 3,
                       current_coap_option_num := 0 }).2.offset = 3 :=
  ⟨by decide, by decide,
    (do_compression_action_nothing_sent
      ⟨.COAP_OPTION_VALUE, 16, 1, .BI, "b", .EQUALS, .NOT_SENT⟩ example_packet
      { schc_packet := [2, 0x12, 0x34], offset := 3, current_coap_option_num := 0 }
      (Or.inl rfl)).2.2.1⟩

/-! ## `crc16` and the order of the words -/

/-- `crc16` depends on the buffer only through its length and the sum of its
words modulo `2 ^ 32`. -/
theorem crc16_of_word_sum (b c : List Nat) (hl : b.length = c.length)
    (hs : word_sum b % 2 ^ 32 = word_sum c % 2 ^ 32) : crc16 b b.length = crc16 c c.length := by
  unfold crc16
  rw [mem_read_all, mem_read_all, crc16_sum_eq _ _ (by decide), crc16_sum_eq _ _ (by decide),
    Nat.zero_add, Nat.zero_add, hs, hl]

theorem word_sum_words16 : ∀ (n : Nat) (b : List Nat), b.length ≤ n → b.length % 2 = 0 →
    word_sum b = ((words16 b).map (fun w => w.1 + 256 * w.2)).sum ∧
    b.length = 2 * (words16 b).length := by
  intro n
  induction n with
  | zero =>
    intro b hb _
    have : b = [] := List.length_eq_zero.mp (by omega)
    subst this
    simp [word_sum, words16]
  | succ n ih =>
    intro b hb he
    match b, hb, he with
    | [], _, _ => simp [word_sum, words16]
    | [a], _, he => simp at he
    | a :: c :: rest, hb, he =>
      obtain ⟨i1, i2⟩ := ih rest (by simp at hb; omega) (by simp at he; omega)
      simp only [word_sum, words16, List.map_cons, List.sum_cons, List.length_cons]
      omega

/-- C37: for two buffers of even length of which one holds the aligned 2-byte
words of the other in another order, `crc16` gives the same value. -/
theorem crc16_word_permutation (b c : List Nat) (hb : b.length % 2 = 0)
    (hc : c.length % 2 = 0) (hp : (words16 b).Perm (words16 c)) :
    c.length = b.length ∧ crc16 c c.length = crc16 b b.length := by
  obtain ⟨s1, l1⟩ := word_sum_words16 b.length b (Nat.le_refl _) hb
  obtain ⟨s2, l2⟩ := word_sum_words16 c.length c (Nat.le_refl _) hc
  have hlen : c.length = b.length := by rw [l1, l2, hp.length_eq]
  have hsum : word_sum c = word_sum b := by
    rw [s1, s2]
    exact ((hp.map _).sum_eq).symm
  exact ⟨hlen, crc16_of_word_sum c b hlen (by rw [hsum])⟩

/-- Witness of C37: the three words `01 02`, `03 04`, `05 06` in the order
3, 1, 2. -/
theorem crc16_word_permutation_witness :
    words16 [5, 6, 1, 2, 3, 4] = [(5, 6), (1, 2), (3, 4)] ∧
    crc16 [1, 2, 3, 4, 5, 6] 6 = 0xF6F3 ∧
    crc16 [5, 6, 1, 2, 3, 4] ([5, 6, 1, 2, 3, 4] : List Nat).length =
      crc16 [1, 2, 3, 4, 5, 6] ([1, 2, 3, 4, 5, 6] : List Nat).length :=
  ⟨by decide, by decide,
    (crc16_word_permutation [1, 2, 3, 4, 5, 6] [5, 6, 1, 2, 3, 4] (by decide) (by decide)
      (by decide)).2⟩

/-! ## `checksum_udp_ipv6` and the pseudo-header -/

/-- The value of `crc16` as an Internet checksum. -/
theorem crc16_eq_internet_checksum (data : List Nat) (len : Nat) (hb : bytes_ok data)
    (h1 : 1 ≤ len) (h2 : len ≤ 1280) (hl : len ≤ data.length) :
    crc16 data len = internet_checksum (data.take len) := by
  have hpl : (data.take len).length = len := by simp; omega
  have hpb : bytes_ok (data.take len) := fun v hv => hb v (List.mem_of_mem_take hv)
  obtain ⟨c1, c2, c3, c4⟩ := crc16_eq (data.take len) hpb
    (by rw [hpl]; exact h2) (by rw [hpl]; omega)
  rw [hpl, crc16_take] at c1
  obtain ⟨e1, e2⟩ := crc16_fold_exit (word_sum (data.take len) / 65536)
    (word_sum (data.take len) % 65536) (by omega) (by omega)
  obtain ⟨w1, w2, w3⟩ := be_words_spec len (data.take len) (by omega) hpb
  obtain ⟨f1, f2, f3⟩ := ones_foldl_spec (be_words (data.take len)) 0 (by omega) w1
  obtain ⟨s1, s2, s3⟩ := htons_swap _ c2
  have hF0 : crc16_fold (word_sum (data.take len) / 65536)
      (word_sum (data.take len) % 65536) = 0 ↔ word_sum (data.take len) = 0 := by
    rw [e2]; split <;> omega
  rw [c1]
  exact checksum_arith _ _ _ _ _ c3 hF0 s1 s2 s3 f1 f2 f3 w2 w3

theorem be_words_append : ∀ (n : Nat) (x y : List Nat), x.length ≤ n → x.length % 2 = 0 →
    be_words (x ++ y) = be_words x ++ be_words y := by
  intro n
  induction n with
  | zero =>
    intro x y hx _
    have : x = [] := List.length_eq_zero.mp (by omega)
    subst this
    simp [be_words]
  | succ n ih =>
    intro x y hx he
    match x, hx, he with
    | [], _, _ => simp [be_words]
    | [a], _, he => simp at he
    | a :: c :: rest, hx, he =>
      have := ih rest y (by simp at hx; omega) (by simp at he; omega)
      show be_words (a :: c :: (rest ++ y)) = be_words (a :: c :: rest) ++ be_words y
      rw [be_words, this, be_words]
      rfl

/-- Two lists of 16-bit words with the same sum have the same one's-complement
sum. -/
theorem ones_sum_congr (ws vs : List Nat) (hw : ∀ w ∈ ws, w ≤ 65535) (hv : ∀ w ∈ vs, w ≤ 65535)
    (h : ws.sum = vs.sum) : ones_sum ws = ones_sum vs := by
  obtain ⟨a1, a2, a3⟩ := ones_foldl_spec ws 0 (by omega) hw
  obtain ⟨b1, b2, b3⟩ := ones_foldl_spec vs 0 (by omega) hv
  unfold ones_sum
  rw [h] at a2 a3
  have hz : List.foldl ones_add 0 ws = 0 ↔ List.foldl ones_add 0 vs = 0 := by
    rw [a3, b3]
  omega

theorem bytes_ok_append (x y : List Nat) : bytes_ok (x ++ y) ↔ bytes_ok x ∧ bytes_ok y := by
  unfold bytes_ok
  simp only [List.mem_append]
  constructor
  · intro h
    exact ⟨fun b hb => h b (Or.inl hb), fun b hb => h b (Or.inr hb)⟩
  · rintro ⟨h1, h2⟩ b (hb | hb)
    · exact h1 b hb
    · exact h2 b hb

theorem be_words_le (p : List Nat) (hp : bytes_ok p) : ∀ w ∈ be_words p, w ≤ 65535 :=
  (be_words_spec p.length p (Nat.le_refl _) hp).1

theorem mem_write_append_at (a rest src : List Nat) (k : Nat) (hk : a.length = k) :
    mem_write (a ++ rest) k src = (a ++ src) ++ rest.drop src.length := by
  subst hk
  exact mem_write_append a rest src

/-- The buffer `aux` that `checksum_udp_ipv6` hands to `crc16`, up to
`aux_offset`. -/
theorem checksum_udp_ipv6_aux (buffer : List Nat) (n : Nat) (hn1 : 40 ≤ n) (hn2 : n ≤ 65535)
    (hl : n ≤ buffer.length) :
    checksum_udp_ipv6 buffer n =
      crc16 ((buffer.drop 8).take 32 ++ [0, 17] ++ [buffer.getD 4 0, buffer.getD 5 0] ++
        (buffer.drop 40).take (n - 40)) (n - 4) := by
  have hu : to_uint 16 ((n : Int) - 40) = n - 40 := by
    apply to_uint_eq
    · omega
    · omega
  have r1 : mem_read buffer 8 32 = (buffer.drop 8).take 32 := by
    rw [mem_read_eq_take_drop _ _ _ (by omega)]
  have r2 : mem_read buffer 40 (n - 40) = (buffer.drop 40).take (n - 40) := by
    rw [mem_read_eq_take_drop _ _ _ (by omega)]
  have l1 : ((buffer.drop 8).take 32).length = 32 := by simp; omega
  have l2 : ((buffer.drop 40).take (n - 40)).length = n - 40 := by simp; omega
  unfold checksum_udp_ipv6
  simp only [hu, r1, r2]
  rw [mem_write_zero, mem_write_append_at _ _ _ 32 l1,
    mem_write_append_at _ _ _ 34 (by simp [l1]), mem_write_append_at _ _ _ 36 (by simp [l1])]
  have hlen : 36 + (n - 40) = n - 4 := by omega
  rw [hlen, ← crc16_take, List.take_left' (by simp [l1, l2]; omega)]

/-- C36: for a buffer of bytes that holds a packet of `n` bytes, `48 ≤ n ≤
1280`, the 40-byte IPv6 header first, `checksum_udp_ipv6 (buffer, n)` is the
Internet checksum (RFC 1071) of the IPv6 pseudo-header (source address,
destination address, the 32-bit upper-layer length made of the header bytes
4 and 5, three zero bytes, next header 17) followed by the bytes 40 to
`n - 1` of the buffer. -/
theorem checksum_udp_ipv6_standard (buffer : List Nat) (n : Nat) (hb : bytes_ok buffer)
    (hn1 : 48 ≤ n) (hn2 : n ≤ SIZE_MTU_IPV6) (hl : n ≤ buffer.length) :
    checksum_udp_ipv6 buffer n = internet_checksum (udp_checksum_input buffer n) := by
  have hn3 : n ≤ 1280 := hn2
  have hg : ∀ i, buffer.getD i 0 < 256 := by
    intro i
    rw [List.getD_eq_getElem?_getD]
    cases h : buffer[i]? with
    | none => simp
    | some v => exact hb v (List.getElem?_mem h)
  have hA : bytes_ok ((buffer.drop 8).take 32) :=
    fun v hv => hb v (List.mem_of_mem_drop (List.mem_of_mem_take hv))
  have hP : bytes_ok ((buffer.drop 40).take (n - 40)) :=
    fun v hv => hb v (List.mem_of_mem_drop (List.mem_of_mem_take hv))
  have h4 := hg 4
  have h5 := hg 5
  have l1 : ((buffer.drop 8).take 32).length = 32 := by simp; omega
  have l2 : ((buffer.drop 40).take (n - 40)).length = n - 40 := by simp; omega
  have hsplit : (buffer.drop 8).take 16 ++ (buffer.drop 24).take 16 = (buffer.drop 8).take 32 := by
    have : buffer.drop 24 = (buffer.drop 8).drop 16 := by rw [List.drop_drop]
    rw [this, show 32 = 16 + 16 from rfl, List.take_add]
  have hok : bytes_ok ((buffer.drop 8).take 32 ++ [0, 17] ++
      [buffer.getD 4 0, buffer.getD 5 0] ++ (buffer.drop 40).take (n - 40)) := by
    rw [bytes_ok_append, bytes_ok_append, bytes_ok_append]
    refine ⟨⟨⟨hA, by decide⟩, ?_⟩, hP⟩
    intro v hv
    simp only [List.mem_cons, List.mem_singleton, List.not_mem_nil, or_false] at hv
    rcases hv with h | h <;> rw [h] <;> assumption
  have hlen : ((buffer.drop 8).take 32 ++ [0, 17] ++
      [buffer.getD 4 0, buffer.getD 5 0] ++ (buffer.drop 40).take (n - 40)).length = n - 4 := by
    simp [l1, l2]; omega
  rw [checksum_udp_ipv6_aux buffer n (by omega) (by omega) hl,
    crc16_eq_internet_checksum _ _ hok (by omega) (by omega) (by rw [hlen]),
    List.take_of_length_le (by rw [hlen])]
  unfold internet_checksum udp_checksum_input udp_pseudo_header
  rw [hsplit]
  congr 1
  have e1 : be_words ((buffer.drop 8).take 32 ++ [0, 17] ++
      [buffer.getD 4 0, buffer.getD 5 0] ++ (buffer.drop 40).take (n - 40)) =
      be_words ((buffer.drop 8).take 32) ++ [17, 256 * buffer.getD 4 0 + buffer.getD 5 0] ++
        be_words ((buffer.drop 40).take (n - 40)) := by
    rw [List.append_assoc, List.append_assoc,
      be_words_append 32 _ _ (by rw [l1]) (by rw [l1]),
      show [0, 17] ++ ([buffer.getD 4 0, buffer.getD 5 0] ++ (buffer.drop 40).take (n - 40)) =
        [0, 17, buffer.getD 4 0, buffer.getD 5 0] ++ (buffer.drop 40).take (n - 40) from rfl,
      be_words_append 4 _ _ (by simp) (by simp)]
    simp [be_words]
  have e2 : be_words ((buffer.drop 8).take 32 ++ [0, 0, buffer.getD 4 0, buffer.getD 5 0] ++
      [0, 0, 0] ++ [17] ++ (buffer.drop 40).take (n - 40)) =
      be_words ((buffer.drop 8).take 32) ++
        [0, 256 * buffer.getD 4 0 + buffer.getD 5 0, 0, 17] ++
        be_words ((buffer.drop 40).take (n - 40)) := by
    rw [List.append_assoc, List.append_assoc, List.append_assoc,
      be_words_append 32 _ _ (by rw [l1]) (by rw [l1]),
      show [0, 0, buffer.getD 4 0, buffer.getD 5 0] ++ ([0, 0, 0] ++ ([17] ++
          (buffer.drop 40).take (n - 40))) =
        [0, 0, buffer.getD 4 0, buffer.getD 5 0, 0, 0, 0, 17] ++
          (buffer.drop 40).take (n - 40) from rfl,
      be_words_append 8 _ _ (by simp) (by simp)]
    simp [be_words]
  rw [e1, e2]
  have hwA := be_words_le _ hA
  have hwP := be_words_le _ hP
  apply ones_sum_congr
  · intro w hw
    simp only [List.mem_append, List.mem_cons, List.mem_singleton, List.not_mem_nil,
      or_false] at hw
    rcases hw with (hw | hw | hw) | hw
    · exact hwA w hw
    · omega
    · omega
    · exact hwP w hw
  · intro w hw
    simp only [List.mem_append, List.mem_cons, List.mem_singleton, List.not_mem_nil,
      or_false] at hw
    rcases hw with (hw | hw | hw | hw | hw) | hw
    · exact hwA w hw
    · omega
    · omega
    · omega
    · omega
    · exact hwP w hw
  · simp only [List.sum_append, List.sum_cons, List.sum_nil]
    omega

/-- Witness of C36: a packet of 49 bytes whose byte `i` is `i`, with the
payload length 9 in the bytes 4 and 5; the pseudo-header ends in the length
`00 00 00 09`, three zero bytes and 17; the checksum is `ADB3`. -/
theorem checksum_udp_ipv6_standard_witness :
    checksum_udp_ipv6 ((List.range 49).set 5 9) 49 = 0xADB3 ∧
    (udp_pseudo_header ((List.range 49).set 5 9)).drop 32 = [0, 0, 4, 9, 0, 0, 0, 17] ∧
    checksum_udp_ipv6 ((List.range 49).set 5 9) ((49 : Nat) : Int) =
      internet_checksum (udp_checksum_input ((List.range 49).set 5 9) 49) :=
  ⟨by decide!, by decide,
    checksum_udp_ipv6_standard ((List.range 49).set 5 9) 49 (by decide) (by decide) (by decide)
      (by decide)⟩

/-! ## The bytes of a field sent by value -/

theorem field_bytes_length (P : field_values) (fid : fieldid) (cur : Nat) :
    (field_bytes P fid cur).length =
      residue_size fid P.coap_tkl (P.option_at cur).length := by
  cases fid <;> simp [field_bytes, residue_size, mem_read_length]

theorem schc_DA_value_sent_offset (fv : field_values) (fid : fieldid) (pkt : List Nat)
    (off : Nat) (hoff : off < 256) :
    (schc_DA_value_sent fv fid pkt off).2 =
      (off + residue_size fid fv.coap_tkl (fv.option_at fv.coap_option_num).length) % 256 := by
  cases fid <;> simp [schc_DA_value_sent, residue_size]
  omega

/-- C31 (evaluation at the failing input): for the flow label 0x12345 a
`VALUE_SENT` row of `IPV6_FLOW_LABEL` appends the 3 bytes `00 00 01`, not
`01 23 45`; for every flow label `f` below `2 ^ 20` it appends `00`, `00` and
`f >> 16`.  `schc_DA_value_sent` reads the three bytes in network byte order:
it takes `01 23 45` for 0x12345 and `00 00 01` for 1.  For the 16-bit fields
(IPv6 payload length, UDP ports, UDP length, UDP checksum) with a value `v`
below `2 ^ 16` the row appends the 2 bytes `v >> 8`, `v & 0xFF`. -/
theorem value_sent_flow_label_bytes :
    do_compression_action ⟨.IPV6_FLOW_LABEL, 20, 1, .BI, "0", .IGNORE, .VALUE_SENT⟩
      { field_values_zero with ipv6_flow_label := 0x12345 }
      { schc_packet := [7, 0, 0, 0, 0], offset := 1, current_coap_option_num := 0 } =
      (0, { schc_packet := [7, 0x00, 0x00, 0x01, 0], offset := 4,
            current_coap_option_num := 0 }) ∧
    schc_DA_value_sent field_values_zero .IPV6_FLOW_LABEL [7, 0x01, 0x23, 0x45, 0] 1 =
      ({ field_values_zero with ipv6_flow_label := 0x12345 }, 4) ∧
    schc_DA_value_sent field_values_zero .IPV6_FLOW_LABEL [7, 0x00, 0x00, 0x01, 0] 1 =
      ({ field_values_zero with ipv6_flow_label := 0x000001 }, 4) ∧
    (∀ (row : field_description) (P : field_values) (s : CompressState),
      row.CDA = .VALUE_SENT → row.fieldid = .IPV6_FLOW_LABEL → P.ipv6_flow_label < 2 ^ 20 →
      do_compression_action row P s = append_residue s [0, 0, P.ipv6_flow_label >>> 16]) ∧
    (∀ (row : field_description) (P : field_values) (s : CompressState),
      row.CDA = .VALUE_SENT →
      (row.fieldid = .IPV6_PAYLOAD_LENGTH → P.ipv6_payload_length < 2 ^ 16 →
        do_compression_action row P s =
          append_residue s [P.ipv6_payload_length >>> 8, P.ipv6_payload_length &&& 0xFF]) ∧
      (row.fieldid = .UDP_DEVPORT → P.udp_dev_port < 2 ^ 16 →
        do_compression_action row P s =
          append_residue s [P.udp_dev_port >>> 8, P.udp_dev_port &&& 0xFF]) ∧
      (row.fieldid = .UDP_APPPORT → P.udp_app_port < 2 ^ 16 →
        do_compression_action row P s =
          append_residue s [P.udp_app_port >>> 8, P.udp_app_port &&& 0xFF]) ∧
      (row.fieldid = .UDP_LENGTH → P.udp_length < 2 ^ 16 →
        do_compression_action row P s =
          append_residue s [P.udp_length >>> 8, P.udp_length &&& 0xFF]) ∧
      (row.fieldid = .UDP_CHECKSUM → P.udp_checksum < 2 ^ 16 →
        do_compression_action row P s =
          append_residue s [P.udp_checksum >>> 8, P.udp_checksum &&& 0xFF])) := by
  have hb : ∀ v : Nat, v < 2 ^ 16 → [v / 256 % 256, v % 256] = [v >>> 8, v &&& 0xFF] := by
    intro v hv
    have h1 : v >>> 8 = v / 256 := by rw [Nat.shiftRight_eq_div_pow]
    have h2 : v &&& 0xFF = v % 256 := Nat.and_pow_two_sub_one_eq_mod v 8
    rw [h1, h2]
    congr 1
    omega
  have hgen : ∀ (row : field_description) (P : field_values) (s : CompressState),
      row.CDA = .VALUE_SENT → row.fieldid ≠ .END_OF_RULE →
      do_compression_action row P s =
        (if row.fieldid = .COAP_OPTION_VALUE then
          ((append_residue s (field_bytes P row.fieldid s.current_coap_option_num)).1,
            { (append_residue s (field_bytes P row.fieldid s.current_coap_option_num)).2 with
              current_coap_option_num := s.current_coap_option_num + 1 })
        else append_residue s (field_bytes P row.fieldid s.current_coap_option_num)) := by
    intro row P s hc hf
    rw [do_compression_action_value_sent row P s hc hf]
    unfold append_residue
    split <;> rfl
  refine ⟨by decide, by decide!, by decide!, ?_, ?_⟩
  · intro row P s hc hf hlt
    rw [hgen row P s hc (by rw [hf]; decide), hf, if_neg (by decide)]
    simp only [field_bytes]
    have h1 : P.ipv6_flow_label / 2 ^ 24 % 256 = 0 := by omega
    have h2 : P.ipv6_flow_label / 2 ^ 16 % 256 = P.ipv6_flow_label >>> 16 := by
      rw [Nat.shiftRight_eq_div_pow]; omega
    rw [h1, h2]
  · intro row P s hc
    refine ⟨?_, ?_, ?_, ?_, ?_⟩ <;> intro hf hlt <;>
      rw [hgen row P s hc (by rw [hf]; decide), hf, if_neg (by decide)] <;>
      simp only [field_bytes] <;> rw [hb _ hlt]

/-- C32, amended (residue byte counts): for a `VALUE_SENT` row of any field
but the `END_OF_RULE` mark, `do_compression_action` appends at its offset a
number of bytes that is the size of the field (1, 2, 3 or 8 bytes for the
fixed fields, `coap_tkl` bytes for the token, the length of the current
option for an option value), and `schc_DA_value_sent` moves its read offset,
a `uint8_t`, on by the same number modulo 256: by exactly that number
whenever the new offset is below 256.  The token length and the length of
the current option are the same on both sides.  For `END_OF_RULE` nothing is
appended and the read offset stays. -/
theorem value_sent_byte_counts (row : field_description) (P fv : field_values)
    (s : CompressState) (pkt : List Nat) (off : Nat) (hc : row.CDA = .VALUE_SENT)
    (hoff : off < 256) (htkl : fv.coap_tkl = P.coap_tkl)
    (hlen : (fv.option_at fv.coap_option_num).length =
      (P.option_at s.current_coap_option_num).length) :
    (row.fieldid ≠ .END_OF_RULE →
      ∃ bytes : List Nat,
        (do_compression_action row P s).1 = 0 ∧
        (do_compression_action row P s).2.schc_packet =
          mem_write s.schc_packet s.offset bytes ∧
        (do_compression_action row P s).2.offset = (s.offset + bytes.length) % 2 ^ 32 ∧
        bytes.length = residue_size row.fieldid P.coap_tkl
          (P.option_at s.current_coap_option_num).length ∧
        (schc_DA_value_sent fv row.fieldid pkt off).2 = (off + bytes.length) % 256 ∧
        (off + bytes.length < 256 →
          (schc_DA_value_sent fv row.fieldid pkt off).2 = off + bytes.length)) ∧
    (row.fieldid = .END_OF_RULE →
      (do_compression_action row P s).2 = s ∧
      (schc_DA_value_sent fv row.fieldid pkt off).2 = off) := by
  constructor
  · intro hf
    refine ⟨field_bytes P row.fieldid s.current_coap_option_num, ?_⟩
    rw [do_compression_action_value_sent row P s hc hf]
    have hl := field_bytes_length P row.fieldid s.current_coap_option_num
    have ho := schc_DA_value_sent_offset fv row.fieldid pkt off hoff
    rw [htkl, hlen, ← hl] at ho
    refine ⟨rfl, rfl, rfl, hl, ho, fun hlt => ?_⟩
    rw [ho, Nat.mod_eq_of_lt hlt]
  · intro hf
    constructor
    · unfold do_compression_action
      simp [hc, hf]
    · rw [hf]; rfl

/-- Witness of C32: the token of two bytes `A1 A2`; the compressor appends 2
bytes at offset 3 and the decompressor moves its read offset from 3 to 5. -/
theorem value_sent_byte_counts_witness :
    (do_compression_action ⟨.COAP_TOKEN, 16, 1, .BI, "0", .IGNORE, .VALUE_SENT⟩
      { field_values_zero with
        coap_tkl := 2
        coap_token := [0xA1, 0xA2] ++ List.replicate 14 0 }
      { schc_packet := [8, 0, 0, 0, 0, 0], offset := 3, current_coap_option_num := 0 }) =
      (0, { schc_packet := [8, 0, 0, 0xA1, 0xA2, 0], offset := 5,
            current_coap_option_num := 0 }) ∧
    (schc_DA_value_sent { field_values_zero with coap_tkl := 2 } .COAP_TOKEN
      [8, 0, 0, 0xA1, 0xA2, 0] 3).2 = 5 ∧
    ((⟨.COAP_TOKEN, 16, 1, .BI, "0", .IGNORE, .VALUE_SENT⟩ : field_description).fieldid ≠
        .END_OF_RULE →
      ∃ bytes : List Nat,
        (do_compression_action ⟨.COAP_TOKEN, 16, 1, .BI, "0", .IGNORE, .VALUE_SENT⟩
          { field_values_zero with
            coap_tkl := 2
            coap_token := [0xA1, 0xA2] ++ List.replicate 14 0 }
          { schc_packet := [8, 0, 0, 0, 0, 0], offset := 3,
            current_coap_option_num := 0 }).1 = 0 ∧
        (do_compression_action ⟨.COAP_TOKEN, 16, 1, .BI, "0", .IGNORE, .VALUE_SENT⟩
          { field_values_zero with
            coap_tkl := 2
            coap_token := [0xA1, 0xA2] ++ List.replicate 14 0 }
          { schc_packet := [8, 0, 0, 0, 0, 0], offset := 3,
            current_coap_option_num := 0 }).2.schc_packet =
          mem_write [8, 0, 0, 0, 0, 0] 3 bytes ∧
        (do_compression_action ⟨.COAP_TOKEN, 16, 1, .BI, "0", .IGNORE, .VALUE_SENT⟩
          { field_values_zero with
            coap_tkl := 2
            coap_token := [0xA1, 0xA2] ++ List.replicate 14 0 }
          { schc_packet := [8, 0, 0, 0, 0, 0], offset := 3,
            current_coap_option_num := 0 }).2.offset = (3 + bytes.length) % 2 ^ 32 ∧
        bytes.length = residue_size .COAP_TOKEN 2 0 ∧
        (schc_DA_value_sent { field_values_zero with coap_tkl := 2 } .COAP_TOKEN
          [8, 0, 0, 0xA1, 0xA2, 0] 3).2 = (3 + bytes.length) % 256 ∧
        (3 + bytes.length < 256 →
          (schc_DA_value_sent { field_values_zero with coap_tkl := 2 } .COAP_TOKEN
            [8, 0, 0, 0xA1, 0xA2, 0] 3).2 = 3 + bytes.length)) :=
  ⟨by decide, by decide,
    (value_sent_byte_counts ⟨.COAP_TOKEN, 16, 1, .BI, "0", .IGNORE, .VALUE_SENT⟩
      { field_values_zero with
        coap_tkl := 2
        coap_token := [0xA1, 0xA2] ++ List.replicate 14 0 }
      { field_values_zero with coap_tkl := 2 }
      { schc_packet := [8, 0, 0, 0, 0, 0], offset := 3, current_coap_option_num := 0 }
      [8, 0, 0, 0xA1, 0xA2, 0] 3 rfl (by decide) rfl rfl).1⟩

/-! ## The extension bytes of an option -/

theorem option_extension_length (v : Int) :
    (option_extension v).length = if v ≤ 12 then 0 else if v ≤ 255 then 1 else 2 := by
  unfold option_extension
  split
  · rfl
  · split <;> rfl

/-- C33 (evaluation at the failing input): for an option with delta 260 and
length 1, `create_udpIp6_packet` writes the initial byte `E1` and the two
extension bytes `FF F7` (`htons (260 - 269)`) before the value, 4 bytes in
all, and the header-length computation of `schc_decompress` counts 4 bytes;
RFC 7252 asks for the initial byte `D1` and the one extension byte 247, 3
bytes in all, which is what `read_coap_packet` reads as the delta 260; read
by the RFC the bytes `E1 FF F7` of the code stand for the delta 65796.  For
every value from 256 to 268 the code uses two extension bytes where the RFC
asks for one.  For the values up to 255 and from 269 on the code does what
the RFC asks: no extension byte up to 12, one byte holding `v - 13` from 13
to 255, two bytes holding `v - 269` in network byte order from 269 on. -/
theorem option_extension_threshold :
    ((create_udpIp6_coap (List.replicate 64 0) option_260_packet).1.drop 52).take 4 =
      [0xE1, 0xFF, 0xF7, 0x78] ∧
    (create_udpIp6_coap (List.replicate 64 0) option_260_packet).2 = 52 + 4 ∧
    coap_options_len option_260_packet 1 0 0 0 = 4 ∧
    options_encoded_size option_260_packet 1 0 0 = 3 ∧
    wire_delta [0x40, 0x01, 0, 0, 0xD1, 247, 0x78] 4 = 260 ∧
    wire_delta [0x40, 0x01, 0, 0, 0xE1, 0xFF, 0xF7, 0x78] 4 = 65796 ∧
    ((read_coap_packet { field_values_zero with udp_length := 15 }
      [0x40, 0x01, 0, 0, 0xD1, 247, 0x78]).option_at 0).delta = 260 ∧
    (∀ v : Nat, 256 ≤ v → v ≤ 268 →
      (option_extension (v : Int)).length = 2 ∧ ext_bytes (v : Int) = 1) ∧
    (∀ v : Nat, v ≤ 255 ∨ 269 ≤ v →
      (option_extension (v : Int)).length = ext_bytes (v : Int)) ∧
    (∀ v : Nat, 13 ≤ v → v ≤ 255 → option_extension (v : Int) = [v - 13]) ∧
    (∀ v : Nat, 269 ≤ v → v < 65536 →
      option_extension (v : Int) = be16_bytes (v - 269)) := by
  refine ⟨by decide, by decide, by decide, by decide, by decide, by decide, by decide!,
    ?_, ?_, ?_, ?_⟩
  · intro v h1 h2
    rw [option_extension_length]
    unfold ext_bytes
    constructor
    · rw [if_neg (by omega), if_neg (by omega)]
    · rw [if_neg (by omega), if_pos (by omega)]
  · intro v h
    rw [option_extension_length]
    unfold ext_bytes
    split_ifs <;> omega
  · intro v h1 h2
    unfold option_extension
    rw [if_neg (by omega), if_pos (by omega)]
    congr 1
    apply to_uint_eq
    · omega
    · omega
  · intro v h1 h2
    unfold option_extension
    rw [if_neg (by omega), if_neg (by omega)]
    have : to_uint 16 ((v : Int) - 269) = v - 269 := by
      apply to_uint_eq
      · omega
      · omega
    rw [this, le16_bytes_htons]
    rfl

/-! ## `read_coap_packet`: the options it stores -/

theorem nibble_high : ∀ b, b < 256 → (b &&& 0xF0) >>> 4 = b / 16 := by decide!

theorem nibble_low : ∀ b, b < 256 → b &&& 0x0F = b % 16 := by decide!

theorem getD_drop_add (l : List Nat) (off k : Nat) :
    (l.drop off).getD k 0 = l.getD (off + k) 0 := by
  simp [List.getD_eq_getElem?_getD, List.getElem?_drop]

theorem read_coap_extended_wire (payload : List Nat) (hb : bytes_ok payload) (offset nib : Nat)
    (hn : nib < 16) :
    read_coap_extended payload offset nib =
      (wire_value nib (payload.drop offset) % 65536, wire_ext_size nib) := by
  unfold read_coap_extended wire_value wire_ext_size
  have h0 := getD_byte payload hb offset
  have h1 := getD_byte payload hb (offset + 1)
  rw [getD_drop_add, getD_drop_add, Nat.add_zero offset]
  by_cases h13 : nib = 13
  · rw [if_pos h13, if_pos h13, if_pos h13, h13]
  · rw [if_neg h13, if_neg h13, if_neg h13]
    by_cases h14 : nib = 14
    · rw [if_pos h14, if_pos h14, if_pos h14, h14]
      have hm : mem_read payload offset 2 = [payload.getD offset 0, payload.getD (offset + 1) 0] :=
        rfl
      rw [hm]
      simp only [le_value, ntohs, htons]
      have hd : (payload.getD offset 0 + 256 * (payload.getD (offset + 1) 0 + 256 * 0)) / 256 =
          payload.getD (offset + 1) 0 := by omega
      have hm : (payload.getD offset 0 + 256 * (payload.getD (offset + 1) 0 + 256 * 0)) % 256 =
          payload.getD offset 0 := by omega
      rw [hd, hm]
      congr 1
      omega
    · rw [if_neg h14, if_neg h14, if_neg h14]
      congr 1
      omega

theorem read_coap_option_num (payload : List Nat) (s : ReadState) :
    (read_coap_option payload s).fv.coap_option_num = (s.fv.coap_option_num + 1) % 256 := rfl

theorem read_coap_option_length (payload : List Nat) (s : ReadState) :
    (read_coap_option payload s).fv.coap_option.length = s.fv.coap_option.length := by
  simp only [read_coap_option, modify_option_length]

theorem read_coap_more_num (payload : List Nat) (packet_length : Nat) (s : ReadState)
    (h : read_coap_more payload packet_length s = true) :
    s.fv.coap_option_num < SCHC_MAX_COAP_OPT := by
  unfold read_coap_more at h
  simp only [Bool.and_eq_true, decide_eq_true_eq] at h
  exact h.2

/-- The loop of `read_coap_packet` ends within `SCHC_MAX_COAP_OPT` rounds when
it starts with no option stored: its test fails in the state it returns, and
that state holds at most `SCHC_MAX_COAP_OPT` options. -/
theorem read_coap_options_exit (payload : List Nat) (packet_length : Nat) :
    ∀ (fuel : Nat) (s : ReadState), s.fv.coap_option_num ≤ SCHC_MAX_COAP_OPT →
      SCHC_MAX_COAP_OPT ≤ s.fv.coap_option_num + fuel →
      read_coap_more payload packet_length
        (read_coap_options payload packet_length fuel s) = false ∧
      (read_coap_options payload packet_length fuel s).fv.coap_option_num ≤ SCHC_MAX_COAP_OPT ∧
      s.fv.coap_option_num ≤
        (read_coap_options payload packet_length fuel s).fv.coap_option_num := by
  intro fuel
  induction fuel with
  | zero =>
    intro s h1 h2
    simp only [read_coap_options]
    refine ⟨?_, h1, le_refl _⟩
    unfold read_coap_more
    have : ¬ s.fv.coap_option_num < SCHC_MAX_COAP_OPT := by omega
    simp [this]
  | succ fuel ih =>
    intro s h1 h2
    simp only [read_coap_options]
    by_cases hm : read_coap_more payload packet_length s = true
    · rw [if_pos hm]
      have hlt := read_coap_more_num _ _ _ hm
      have hnum := read_coap_option_num payload s
      simp only [SCHC_MAX_COAP_OPT] at hlt h1 h2 ⊢
      have hn : (read_coap_option payload s).fv.coap_option_num = s.fv.coap_option_num + 1 := by
        rw [hnum]; omega
      obtain ⟨a, b, c⟩ := ih (read_coap_option payload s)
        (by simp only [SCHC_MAX_COAP_OPT]; omega) (by simp only [SCHC_MAX_COAP_OPT]; omega)
      simp only [SCHC_MAX_COAP_OPT] at b
      exact ⟨a, b, by omega⟩
    · rw [if_neg hm]
      exact ⟨by simpa using hm, h1, le_refl _⟩

theorem read_coap_payload_num (payload : List Nat) (packet_length : Nat) (s : ReadState) :
    (read_coap_payload payload packet_length s).coap_option_num = s.fv.coap_option_num := by
  unfold read_coap_payload
  split <;> rfl

theorem read_coap_payload_option (payload : List Nat) (packet_length : Nat) (s : ReadState)
    (i : Nat) : (read_coap_payload payload packet_length s).option_at i = s.fv.option_at i := by
  unfold read_coap_payload
  split <;> rfl

theorem read_coap_packet_num (fv : field_values) (payload : List Nat) :
    (read_coap_packet fv payload).coap_option_num =
      (read_coap_options payload ((fv.udp_length + 2 ^ 32 - 8) % 2 ^ 32 % 256) SCHC_MAX_COAP_OPT
        (read_coap_header fv payload)).fv.coap_option_num := by
  unfold read_coap_packet
  exact read_coap_payload_num _ _ _

theorem read_coap_packet_option (fv : field_values) (payload : List Nat) (i : Nat) :
    (read_coap_packet fv payload).option_at i =
      (read_coap_options payload ((fv.udp_length + 2 ^ 32 - 8) % 2 ^ 32 % 256) SCHC_MAX_COAP_OPT
        (read_coap_header fv payload)).fv.option_at i := by
  unfold read_coap_packet
  exact read_coap_payload_option _ _ _ _

theorem rules_option_rows : ∀ rule ∈ rules,
    ((rule_rows rule).filter (fun row => decide (row.fieldid = .COAP_OPTION_VALUE))).length ≤
      SCHC_MAX_COAP_OPT := by
  decide

theorem read_coap_options_mono (payload : List Nat) (packet_length : Nat) :
    ∀ (fuel : Nat) (s : ReadState),
      s.fv.coap_option_num ≤
        (read_coap_options payload packet_length fuel s).fv.coap_option_num := by
  intro fuel
  induction fuel with
  | zero => intro s; exact le_refl _
  | succ fuel ih =>
    intro s
    simp only [read_coap_options]
    by_cases hm : read_coap_more payload packet_length s = true
    · rw [if_pos hm]
      have hlt := read_coap_more_num _ _ _ hm
      have hnum := read_coap_option_num payload s
      simp only [SCHC_MAX_COAP_OPT] at hlt
      have h := ih (read_coap_option payload s)
      omega
    · rw [if_neg hm]

/-- One round of the loop of `read_coap_packet` in terms of the option on the
wire at the read offset: the delta it stores is the delta on the wire plus
the delta stored for the option before, and the offset moves past the
initial byte, the extension bytes and the value. -/
theorem read_coap_option_wire (payload : List Nat) (hb : bytes_ok payload) (s : ReadState) :
    (read_coap_option payload s).last_delta =
      (wire_delta payload s.offset % 65536 + s.last_delta) % 65536 ∧
    (read_coap_option payload s).offset =
      s.offset + 1 + wire_ext_size (payload.getD s.offset 0 / 16) +
        wire_ext_size (payload.getD s.offset 0 % 16) + wire_length payload s.offset % 65536 ∧
    ∀ i, ((read_coap_option payload s).fv.option_at i).delta =
      if i = s.fv.coap_option_num ∧ s.fv.coap_option_num < s.fv.coap_option.length then
        (wire_delta payload s.offset % 65536 + s.last_delta) % 65536
      else (s.fv.option_at i).delta := by
  have hb0 : payload.getD s.offset 0 < 256 := Nat.lt_succ_of_le (getD_byte payload hb s.offset)
  have e1 := read_coap_extended_wire payload hb (s.offset + 1) (payload.getD s.offset 0 / 16)
    (by omega)
  have e2 := read_coap_extended_wire payload hb
    (s.offset + 1 + wire_ext_size (payload.getD s.offset 0 / 16)) (payload.getD s.offset 0 % 16)
    (by omega)
  unfold read_coap_option
  simp only [nibble_high _ hb0, nibble_low _ hb0, e1, e2]
  refine ⟨rfl, rfl, ?_⟩
  intro i
  rw [option_at_num, option_at_modify]
  split <;> rfl

/-- The loop of `read_coap_packet` from a state in which `k` options are
stored with their option numbers: every option stored at the end has its
option number in `delta`. -/
theorem read_coap_options_wire (payload : List Nat) (hb : bytes_ok payload)
    (packet_length start : Nat) :
    ∀ (fuel : Nat) (s : ReadState) (k : Nat),
      s.fv.coap_option_num = k → s.fv.coap_option.length = SCHC_MAX_COAP_OPT →
      s.offset = wire_option_start payload start k →
      (k = 0 → s.last_delta = 0) →
      (∀ j, j + 1 = k → s.last_delta = wire_option_number payload start j % 65536) →
      (∀ i, i < k → (s.fv.option_at i).delta = wire_option_number payload start i % 65536) →
      (∀ j, j < (read_coap_options payload packet_length fuel s).fv.coap_option_num →
        wire_length payload (wire_option_start payload start j) < 65536) →
      ∀ i, i < (read_coap_options payload packet_length fuel s).fv.coap_option_num →
        ((read_coap_options payload packet_length fuel s).fv.option_at i).delta =
          wire_option_number payload start i % 65536 := by
  intro fuel
  induction fuel with
  | zero =>
    intro s k hk _ _ _ _ hopt _ i hi
    simp only [read_coap_options] at hi ⊢
    exact hopt i (by omega)
  | succ fuel ih =>
    intro s k hk hlen hoff h0 hlast hopt hw
    simp only [read_coap_options] at hw ⊢
    by_cases hm : read_coap_more payload packet_length s = true
    · rw [if_pos hm] at hw ⊢
      have hlt := read_coap_more_num _ _ _ hm
      have hnum := read_coap_option_num payload s
      simp only [SCHC_MAX_COAP_OPT] at hlt hlen
      have hn : (read_coap_option payload s).fv.coap_option_num = k + 1 := by
        rw [hnum]; omega
      have hmono := read_coap_options_mono payload packet_length fuel (read_coap_option payload s)
      have hwk := hw k (by omega)
      obtain ⟨w1, w2, w3⟩ := read_coap_option_wire payload hb s
      rw [hoff] at w1 w2 w3
      have hD : (wire_delta payload (wire_option_start payload start k) % 65536 +
          s.last_delta) % 65536 = wire_option_number payload start k % 65536 := by
        cases k with
        | zero =>
          rw [h0 rfl]
          simp only [wire_option_start, wire_option_number]
          omega
        | succ j =>
          rw [hlast j rfl]
          simp only [wire_option_number]
          omega
      refine ih (read_coap_option payload s) (k + 1) hn ?_ ?_ ?_ ?_ ?_ hw
      · rw [read_coap_option_length, hlen]; rfl
      · rw [w2]
        simp only [wire_option_start, wire_option_size]
        omega
      · intro h; omega
      · intro j hj
        have : j = k := by omega
        subst this
        rw [w1, hD]
      · intro i hi
        rw [w3 i]
        by_cases hik : i = k
        · subst hik
          rw [if_pos ⟨hk.symm, by omega⟩, hD]
        · rw [if_neg (fun h => hik (h.1.trans hk))]
          exact hopt i (by omega)
    · rw [if_neg hm] at hw ⊢
      intro i hi
      exact hopt i (by omega)

/-- C34, amended (stored option numbers): for a message of bytes read by
`read_coap_packet` into a struct whose option array has its
`SCHC_MAX_COAP_OPT` entries, the wire lengths of the options read fitting 16
bits, the value stored in `coap_option[i].delta` of every option read is the
option number of option `i`: the sum of the deltas on the wire of the
options 0 to `i` (as a 16-bit value). -/
theorem read_coap_packet_option_numbers (fv : field_values) (payload : List Nat)
    (hb : bytes_ok payload) (hl : fv.coap_option.length = SCHC_MAX_COAP_OPT)
    (hw : ∀ j, j < (read_coap_packet fv payload).coap_option_num →
      wire_length payload (wire_option_start payload (4 + payload.getD 0 0 % 16) j) < 65536) :
    ∀ i, i < (read_coap_packet fv payload).coap_option_num →
      ((read_coap_packet fv payload).option_at i).delta =
        wire_option_number payload (4 + payload.getD 0 0 % 16) i % 65536 := by
  intro i hi
  rw [read_coap_packet_num] at hw hi
  rw [read_coap_packet_option]
  have hb0 : payload.getD 0 0 < 256 := Nat.lt_succ_of_le (getD_byte payload hb 0)
  refine read_coap_options_wire payload hb _ (4 + payload.getD 0 0 % 16) SCHC_MAX_COAP_OPT
    (read_coap_header fv payload) 0 rfl hl ?_ (fun _ => rfl) (fun j hj => by omega)
    (fun i hi => by omega) hw i hi
  show 4 + (payload.getD 0 0 &&& 0x0F) = 4 + payload.getD 0 0 % 16
  rw [nibble_low _ hb0]

/-- C34 (counterexample): the CoAP message `40 01 00 00 B1 62 D1 04 78` holds
the option 11 (delta 11 on the wire) and the option 28 (delta 17 on the wire,
at offset 6); `read_coap_packet` stores 11 and 28 in the `delta` fields, so
the second is the option number and not the delta on the wire. -/
theorem read_coap_packet_stores_option_numbers :
    (read_coap_packet { field_values_zero with udp_length := 17 }
      [0x40, 0x01, 0, 0, 0xB1, 0x62, 0xD1, 0x04, 0x78]).coap_option_num = 2 ∧
    ((read_coap_packet { field_values_zero with udp_length := 17 }
      [0x40, 0x01, 0, 0, 0xB1, 0x62, 0xD1, 0x04, 0x78]).option_at 0).delta = 11 ∧
    ((read_coap_packet { field_values_zero with udp_length := 17 }
      [0x40, 0x01, 0, 0, 0xB1, 0x62, 0xD1, 0x04, 0x78]).option_at 1).delta = 28 ∧
    wire_delta [0x40, 0x01, 0, 0, 0xB1, 0x62, 0xD1, 0x04, 0x78] 4 = 11 ∧
    wire_option_start [0x40, 0x01, 0, 0, 0xB1, 0x62, 0xD1, 0x04, 0x78] 4 1 = 6 ∧
    wire_delta [0x40, 0x01, 0, 0, 0xB1, 0x62, 0xD1, 0x04, 0x78] 6 = 17 ∧
    wire_option_number [0x40, 0x01, 0, 0, 0xB1, 0x62, 0xD1, 0x04, 0x78] 4 1 = 28 ∧
    ((read_coap_packet { field_values_zero with udp_length := 17 }
      [0x40, 0x01, 0, 0, 0xB1, 0x62, 0xD1, 0x04, 0x78]).option_at 1).delta ≠
      wire_delta [0x40, 0x01, 0, 0, 0xB1, 0x62, 0xD1, 0x04, 0x78] 6 := by
  decide!

/-- Witness of C34: the message `40 01 00 00 51 61 61 62 FF 07` with the
options 5 and 11 (delta 6 on the wire), read with a UDP length of 18. -/
theorem read_coap_packet_option_numbers_witness :
    bytes_ok [0x40, 0x01, 0, 0, 0x51, 0x61, 0x61, 0x62, 0xFF, 0x07] ∧
    (read_coap_packet { field_values_zero with udp_length := 18 }
      [0x40, 0x01, 0, 0, 0x51, 0x61, 0x61, 0x62, 0xFF, 0x07]).coap_option_num = 2 ∧
    wire_option_number [0x40, 0x01, 0, 0, 0x51, 0x61, 0x61, 0x62, 0xFF, 0x07] 4 1 = 11 ∧
    ∀ i, i < (read_coap_packet { field_values_zero with udp_length := 18 }
        [0x40, 0x01, 0, 0, 0x51, 0x61, 0x61, 0x62, 0xFF, 0x07]).coap_option_num →
      ((read_coap_packet { field_values_zero with udp_length := 18 }
        [0x40, 0x01, 0, 0, 0x51, 0x61, 0x61, 0x62, 0xFF, 0x07]).option_at i).delta =
        wire_option_number [0x40, 0x01, 0, 0, 0x51, 0x61, 0x61, 0x62, 0xFF, 0x07]
          (4 + ([0x40, 0x01, 0, 0, 0x51, 0x61, 0x61, 0x62, 0xFF, 0x07] : List Nat).getD 0 0 % 16)
          i % 65536 :=
  ⟨by decide, by decide!, by decide,
    read_coap_packet_option_numbers { field_values_zero with udp_length := 18 }
      [0x40, 0x01, 0, 0, 0x51, 0x61, 0x61, 0x62, 0xFF, 0x07] (by decide) rfl (by decide!)⟩

/-! ## The writes of `create_udpIp6_packet` -/

theorem bytes_ok_mem_read (src : List Nat) (h : bytes_ok src) (off n : Nat) :
    bytes_ok (mem_read src off n) := by
  intro b hb
  unfold mem_read at hb
  simp only [List.mem_map, List.mem_range] at hb
  obtain ⟨k, _, rfl⟩ := hb
  exact Nat.lt_succ_of_le (getD_byte src h _)

theorem bytes_ok_mem_write (dst src : List Nat) (off : Nat) (hd : bytes_ok dst)
    (hs : bytes_ok src) : bytes_ok (mem_write dst off src) := by
  intro b hb
  unfold mem_write at hb
  simp only [List.mem_append] at hb
  rcases hb with (hb | hb) | hb
  · exact hd b (List.mem_of_mem_take hb)
  · exact hs b hb
  · exact hd b (List.mem_of_mem_drop hb)

theorem to_uint_lt (w : Nat) (v : Int) : to_uint w v < 2 ^ w := by
  unfold to_uint
  have hpos : (0 : Int) < 2 ^ w := by positivity
  have h1 := Int.emod_lt_of_pos v hpos
  have h2 := Int.emod_nonneg v (ne_of_gt hpos)
  have h3 : ((v % 2 ^ w).toNat : Int) = v % 2 ^ w := Int.toNat_of_nonneg h2
  have h4 : ((v % 2 ^ w).toNat : Int) < ((2 ^ w : Nat) : Int) := by
    rw [h3]; push_cast; exact h1
  exact_mod_cast h4

theorem option_initial_byte_lt (delta : Int) (length : Nat) :
    option_initial_byte delta length < 256 := by
  have h1 : to_uint 8 (delta * 16) < 2 ^ 8 := to_uint_lt 8 _
  have h2 : ∀ x : Nat, x &&& 0x0F < 2 ^ 8 := fun x =>
    lt_of_le_of_lt Nat.and_le_right (by decide)
  unfold option_initial_byte
  simp only []
  split_ifs <;> exact Nat.or_lt_two_pow (by first | exact h1 | decide) (h2 _)

theorem option_extension_bytes (v : Int) : bytes_ok (option_extension v) := by
  unfold option_extension
  split_ifs
  · intro b hb; cases hb
  · intro b hb
    simp only [List.mem_singleton] at hb
    rw [hb]
    exact to_uint_lt 8 _
  · intro b hb
    unfold le16_bytes at hb
    simp only [List.mem_cons, List.mem_singleton, List.not_mem_nil, or_false] at hb
    rcases hb with hb | hb <;> rw [hb] <;> exact Nat.mod_lt _ (by decide)

theorem coap_write_step (base p : List Nat) (off : Nat) (src : List Nat)
    (h : coap_write_inv base p off) (hs : bytes_ok src) :
    coap_write_inv base (mem_write p off src) (off + src.length) := by
  obtain ⟨h1, h2, h3, h4, h5⟩ := h
  refine ⟨?_, by omega, ?_, ?_, bytes_ok_mem_write _ _ _ h5 hs⟩
  · unfold mem_write
    rw [List.append_assoc, List.take_append_of_le_length (by simp; omega), List.take_take,
      min_eq_left h2]
    exact h1
  · unfold mem_write
    simp
    omega
  · unfold mem_write
    simp
    omega

theorem coap_write_one (base p : List Nat) (off v : Nat)
    (h : coap_write_inv base p off) (hv : v < 256) :
    coap_write_inv base (mem_write p off [v]) (off + 1) :=
  coap_write_step base p off [v] h (fun b hb => by
    simp only [List.mem_singleton] at hb
    rw [hb]; exact hv)

theorem coap_write_read (base p : List Nat) (off : Nat) (src : List Nat) (n : Nat)
    (h : coap_write_inv base p off) (hs : bytes_ok src) :
    coap_write_inv base (mem_write p off (mem_read src 0 n)) (off + n) := by
  have := coap_write_step base p off (mem_read src 0 n) h (bytes_ok_mem_read src hs 0 n)
  rw [mem_read_length] at this
  exact this

theorem option_at_value_bytes (fv : field_values) (h : ∀ o ∈ fv.coap_option, o.wf) (i : Nat) :
    bytes_ok (fv.option_at i).value := by
  unfold field_values.option_at
  rw [List.getD_eq_getElem?_getD]
  cases hi : fv.coap_option[i]? with
  | none => simp only [Option.getD_none]; decide
  | some o =>
    simp only [Option.getD_some]
    exact (h o (List.getElem?_mem hi)).2.2.2

theorem create_udpIp6_options_skip (fv : field_values) (n i last_delta : Nat) (packet : List Nat)
    (coap_offset : Nat) (hl : ¬ (fv.option_at i).length > 0) (hi : i < SCHC_MAX_COAP_OPT) :
    create_udpIp6_options fv (n + 1) i last_delta packet coap_offset =
      create_udpIp6_options fv n (i + 1) last_delta packet coap_offset := by
  rw [create_udpIp6_options]
  simp only [hl, ↓reduceIte]
  rw [if_neg (by omega)]

theorem create_udpIp6_options_break (fv : field_values) (n i last_delta : Nat)
    (packet : List Nat) (coap_offset : Nat) (hl : ¬ (fv.option_at i).length > 0)
    (hi : i ≥ SCHC_MAX_COAP_OPT) :
    create_udpIp6_options fv (n + 1) i last_delta packet coap_offset = (packet, coap_offset) := by
  rw [create_udpIp6_options]
  simp only [hl, ↓reduceIte]
  rw [if_pos hi]

/-- The loop of `create_udpIp6_packet` over the options writes behind the UDP
header and keeps the buffer a buffer of bytes. -/
theorem create_udpIp6_options_inv (fv : field_values) (hv : ∀ i, bytes_ok (fv.option_at i).value)
    (base : List Nat) :
    ∀ (n i last_delta : Nat) (p : List Nat) (off : Nat), coap_write_inv base p off →
      coap_write_inv base (create_udpIp6_options fv n i last_delta p off).1
        (create_udpIp6_options fv n i last_delta p off).2 := by
  intro n
  induction n with
  | zero => intro i last_delta p off h; exact h
  | succ n ih =>
    intro i last_delta p off h
    rw [create_udpIp6_options]
    by_cases hl : (fv.option_at i).length > 0
    · simp only [hl, ↓reduceIte]
      have h1 := coap_write_one base p off
        (option_initial_byte (((fv.option_at i).delta : Int) - (last_delta : Int))
          (fv.option_at i).length) h (option_initial_byte_lt _ _)
      have h2 := coap_write_step base _ _
        (option_extension (((fv.option_at i).delta : Int) - (last_delta : Int))) h1
        (option_extension_bytes _)
      have h3 := coap_write_step base _ _ (option_extension ((fv.option_at i).length : Int)) h2
        (option_extension_bytes _)
      have h4 := coap_write_read base _ _ (fv.option_at i).value (fv.option_at i).length h3
        (hv i)
      split
      · exact h4
      · exact ih _ _ _ _ h4
    · simp only [hl, ↓reduceIte]
      split
      · exact h
      · exact ih _ _ _ _ h

/-- The bytes that `create_udpIp6_packet` writes for the CoAP message lie
behind the UDP header, and the buffer stays a buffer of bytes. -/
theorem create_udpIp6_coap_inv (fv : field_values) (hw : fv.wf) (packet : List Nat)
    (hp : bytes_ok packet) (hlen : 48 ≤ packet.length) :
    coap_write_inv packet (create_udpIp6_coap packet fv).1 (create_udpIp6_coap packet fv).2 := by
  unfold field_values.wf at hw
  obtain ⟨_, _, _, _, _, _, _, _, _, _, _, _, _, _, _, _, _, hcode, ⟨_, hmid⟩, ⟨_, htok⟩, _,
    ⟨_, hopt⟩, _, ⟨_, hpay⟩⟩ := hw
  have h0 : coap_write_inv packet packet (SIZE_IPV6 + SIZE_UDP) :=
    ⟨rfl, le_refl _, hlen, le_refl _, hp⟩
  have h1 := coap_write_one packet packet (SIZE_IPV6 + SIZE_UDP)
    ((((packet.getD (SIZE_IPV6 + SIZE_UDP) 0 ||| (0x1 <<< 6)) % 256 |||
      (fv.coap_type <<< 4)) % 256 ||| (fv.coap_tkl &&& 0x0F)) % 256) h0
    (Nat.mod_lt _ (by decide))
  have h2 := coap_write_one packet _ _ fv.coap_code h1 hcode
  have h3 := coap_write_read packet _ _ fv.coap_message_id 2 h2 hmid
  have h5 := fun p off h => create_udpIp6_options_inv fv (option_at_value_bytes fv hopt) packet
    fv.coap_option_num 0 0 p off h
  unfold create_udpIp6_coap
  simp only []
  by_cases ht : fv.coap_tkl > 0
  · have h4 := coap_write_read packet _ _ fv.coap_token fv.coap_tkl h3 htok
    have h6 := h5 _ _ h4
    simp only [ht, ↓reduceIte]
    split
    · exact coap_write_read packet _ _ fv.coap_payload fv.coap_payload_length
        (coap_write_one packet _ _ 0xFF h6 (by decide)) hpay
    · exact h6
  · have h6 := h5 _ _ h3
    simp only [ht, ↓reduceIte]
    split
    · exact coap_write_read packet _ _ fv.coap_payload fv.coap_payload_length
        (coap_write_one packet _ _ 0xFF h6 (by decide)) hpay
    · exact h6

/-- Storing the `crc16` of a buffer in two zero bytes of it at an even offset,
high byte first, gives a buffer whose `crc16` is 0. -/
theorem crc16_store_own (b : List Nat) (k : Nat) (hb : bytes_ok b)
    (hlen : b.length ≤ SIZE_MTU_IPV6) (hk : k % 2 = 0) (hk1 : k + 1 < b.length)
    (h0 : b.getD k 0 = 0) (h1 : b.getD (k + 1) 0 = 0) :
    (mem_write b k (be16_bytes (crc16 b b.length))).length = b.length ∧
    crc16 (mem_write b k (be16_bytes (crc16 b b.length))) b.length = 0 := by
  have hlen2 : b.length ≤ 1280 := hlen
  have hwl : (mem_write b k (be16_bytes (crc16 b b.length))).length = b.length :=
    mem_write_length _ _ _ (by simp [be16_bytes]; omega)
  refine ⟨hwl, ?_⟩
  obtain ⟨c1, c2, c3, c4⟩ := crc16_eq b hb hlen2 (by omega)
  have hb2 : bytes_ok (mem_write b k (be16_bytes (crc16 b b.length))) := by
    intro v hv
    unfold mem_write be16_bytes at hv
    simp only [List.mem_append, List.mem_cons, List.mem_singleton, List.not_mem_nil,
      or_false] at hv
    rcases hv with (hv | hv | hv) | hv
    · exact hb v (List.mem_of_mem_take hv)
    · rw [hv]; exact Nat.mod_lt _ (by decide)
    · rw [hv]; exact Nat.mod_lt _ (by decide)
    · exact hb v (List.mem_of_mem_drop hv)
  obtain ⟨d1, d2, d3, d4⟩ := crc16_eq _ hb2 (by rw [hwl]; exact hlen2) (by rw [hwl]; omega)
  rw [hwl] at d1
  have hws := word_sum_store b k (crc16 b b.length / 256 % 256) (crc16 b b.length % 256)
    hk hk1 h0 h1
  have hbe : be16_bytes (crc16 b b.length) =
      [crc16 b b.length / 256 % 256, crc16 b b.length % 256] := rfl
  rw [← hbe] at hws
  have hc := htons_complement _ c2
  rw [← c1] at hc
  obtain ⟨_, e2⟩ := crc16_fold_exit
    (word_sum (mem_write b k (be16_bytes (crc16 b b.length))) / 65536)
    (word_sum (mem_write b k (be16_bytes (crc16 b b.length))) % 65536) (by omega)
    (Nat.mod_lt _ (by decide))
  obtain ⟨_, e2'⟩ := crc16_fold_exit (word_sum b / 65536) (word_sum b % 65536) (by omega)
    (Nat.mod_lt _ (by decide))
  rw [d1]
  generalize crc16_fold (word_sum (mem_write b k (be16_bytes (crc16 b b.length))) / 65536)
    (word_sum (mem_write b k (be16_bytes (crc16 b b.length))) % 65536) = F' at *
  generalize word_sum (mem_write b k (be16_bytes (crc16 b b.length))) = W' at *
  generalize crc16_fold (word_sum b / 65536) (word_sum b % 65536) = F at *
  generalize word_sum b = W at *
  generalize crc16 b b.length = c at *
  have hFW : F ≤ W := by rw [e2']; split <;> omega
  have hW' : W' = W + (65535 - F) := by omega
  have hF'0 : F' ≠ 0 := by rw [e2]; split <;> omega
  have hF' : F' = 65535 := by omega
  rw [hF']
  decide

theorem checksum_udp_ipv6_parts (H8 S32 T6 c R : List Nat) (n : Nat) (h8 : H8.length = 8)
    (h32 : S32.length = 32) (h6 : T6.length = 6) (hc : c.length = 2) (hn1 : 48 ≤ n)
    (hn2 : n ≤ 65535) (hn3 : n ≤ 48 + R.length) :
    checksum_udp_ipv6 (H8 ++ S32 ++ T6 ++ c ++ R) n =
      crc16 (S32 ++ [0, 17] ++ [H8.getD 4 0, H8.getD 5 0] ++ T6 ++ c ++ R.take (n - 48))
        (n - 4) := by
  rw [checksum_udp_ipv6_aux _ n (by omega) hn2 (by simp; omega)]
  have e1 : ((H8 ++ S32 ++ T6 ++ c ++ R).drop 8).take 32 = S32 := by
    rw [List.append_assoc, List.append_assoc, List.append_assoc, List.drop_left' h8,
      List.take_left' h32]
  have e2 : (H8 ++ S32 ++ T6 ++ c ++ R).getD 4 0 = H8.getD 4 0 := by
    rw [List.append_assoc, List.append_assoc, List.append_assoc, List.getD_append _ _ _ _ (by omega)]
  have e3 : (H8 ++ S32 ++ T6 ++ c ++ R).getD 5 0 = H8.getD 5 0 := by
    rw [List.append_assoc, List.append_assoc, List.append_assoc, List.getD_append _ _ _ _ (by omega)]
  have e4 : ((H8 ++ S32 ++ T6 ++ c ++ R).drop 40).take (n - 40) = T6 ++ c ++ R.take (n - 48) := by
    have : H8 ++ S32 ++ T6 ++ c ++ R = (H8 ++ S32) ++ (T6 ++ c ++ R) := by
      simp only [List.append_assoc]
    rw [this, List.drop_left' (by simp; omega), List.take_append_eq_append_take,
      List.take_of_length_le (by simp; omega)]
    congr 1
    simp only [List.length_append, h6, hc]
    congr 1
  rw [e1, e2, e3, e4]
  simp only [List.append_assoc]

theorem create_udpIp6_ip6_length (fv : field_values) : (create_udpIp6_ip6 fv).length = 40 := by
  simp [create_udpIp6_ip6, le32_bytes, le16_bytes, mem_read_length]

theorem le16_bytes_ok (v : Nat) : bytes_ok (le16_bytes v) := by
  intro b hb
  unfold le16_bytes at hb
  simp only [List.mem_cons, List.mem_singleton, List.not_mem_nil, or_false] at hb
  rcases hb with hb | hb <;> rw [hb] <;> exact Nat.mod_lt _ (by decide)

theorem create_udpIp6_ip6_bytes (fv : field_values) (hw : fv.wf) :
    bytes_ok (create_udpIp6_ip6 fv) := by
  unfold field_values.wf at hw
  obtain ⟨_, _, _, _, hnh, hhl, ⟨_, h1⟩, ⟨_, h2⟩, ⟨_, h3⟩, ⟨_, h4⟩, _⟩ := hw
  unfold create_udpIp6_ip6
  simp only [bytes_ok_append]
  refine ⟨⟨⟨⟨⟨⟨?_, le16_bytes_ok _⟩, ?_⟩, bytes_ok_mem_read _ h3 _ _⟩, bytes_ok_mem_read _ h4 _ _⟩,
    bytes_ok_mem_read _ h1 _ _⟩, bytes_ok_mem_read _ h2 _ _⟩
  · intro b hb
    unfold le32_bytes at hb
    simp only [List.mem_cons, List.mem_singleton, List.not_mem_nil, or_false] at hb
    rcases hb with hb | hb | hb | hb <;> rw [hb] <;> exact Nat.mod_lt _ (by decide)
  · intro b hb
    simp only [List.mem_cons, List.mem_singleton, List.not_mem_nil, or_false] at hb
    rcases hb with hb | hb <;> rw [hb] <;> assumption

theorem create_udpIp6_udp_split (fv : field_values) (uh_sum : Nat) :
    create_udpIp6_udp fv uh_sum =
      (le16_bytes (htons fv.udp_app_port) ++ le16_bytes (htons fv.udp_dev_port) ++
        le16_bytes (htons (fv.udp_length % 65536))) ++ le16_bytes uh_sum := rfl

/-- The buffer that `create_udpIp6_packet` returns, in parts: the IPv6
header, the first 6 bytes of the UDP header, the checksum of the buffer as it
was with a zero checksum field, high byte first, and the bytes behind the UDP
header. -/
theorem create_udpIp6_packet_parts (fv : field_values) (hw : fv.wf) (packet : List Nat)
    (hp : bytes_ok packet) (hlen : 48 ≤ packet.length) (h1 : 8 ≤ fv.udp_length)
    (h2 : fv.udp_length < 2 ^ 32 - 40) :
    ∃ T6 R : List Nat, T6.length = 6 ∧ packet.length ≤ 48 + R.length ∧
      bytes_ok (create_udpIp6_ip6 fv ++ T6 ++ [0, 0] ++ R) ∧
      create_udpIp6_packet packet fv =
        create_udpIp6_ip6 fv ++ T6 ++
          be16_bytes (checksum_udp_ipv6 (create_udpIp6_ip6 fv ++ T6 ++ [0, 0] ++ R)
            ((40 + fv.udp_length : Nat) : Int)) ++ R := by
  have hip := create_udpIp6_ip6_length fv
  have hipb := create_udpIp6_ip6_bytes fv hw
  obtain ⟨T6, hT6⟩ : ∃ T6, T6 = le16_bytes (htons fv.udp_app_port) ++
    le16_bytes (htons fv.udp_dev_port) ++ le16_bytes (htons (fv.udp_length % 65536)) := ⟨_, rfl⟩
  have hT6l : T6.length = 6 := by rw [hT6]; rfl
  have hT6b : bytes_ok T6 := by
    rw [hT6]
    simp only [bytes_ok_append]
    exact ⟨⟨le16_bytes_ok _, le16_bytes_ok _⟩, le16_bytes_ok _⟩
  have hudp : ∀ s, mem_read (create_udpIp6_udp fv s) 0 SIZE_UDP = T6 ++ le16_bytes s := by
    intro s
    rw [create_udpIp6_udp_split, ← hT6]
    exact mem_read_whole _ _ (by simp [hT6l, le16_bytes, SIZE_UDP])
  have hP1 : mem_write (mem_write packet 0 (mem_read (create_udpIp6_ip6 fv) 0 SIZE_IPV6))
      SIZE_IPV6 (mem_read (create_udpIp6_udp fv 0) 0 SIZE_UDP) =
      create_udpIp6_ip6 fv ++ (T6 ++ [0, 0]) ++ packet.drop 48 := by
    rw [hudp 0, mem_read_whole _ SIZE_IPV6 hip, mem_write_zero,
      mem_write_append_at _ _ _ SIZE_IPV6 hip, List.drop_drop, hip]
    have : (T6 ++ le16_bytes 0).length = 8 := by simp [hT6l, le16_bytes]
    rw [this]
    rfl
  have hP1b : bytes_ok (create_udpIp6_ip6 fv ++ (T6 ++ [0, 0]) ++ packet.drop 48) := by
    simp only [bytes_ok_append]
    exact ⟨⟨hipb, hT6b, by decide⟩, fun b hb => hp b (List.mem_of_mem_drop hb)⟩
  have hP1l : (create_udpIp6_ip6 fv ++ (T6 ++ [0, 0]) ++ packet.drop 48).length =
      packet.length := by
    simp [hip, hT6l]
    omega
  obtain ⟨i1, _, _, i4, i5⟩ := create_udpIp6_coap_inv fv hw _ hP1b (by rw [hP1l]; exact hlen)
  rw [hP1l] at i4
  have htake : (create_udpIp6_ip6 fv ++ (T6 ++ [0, 0]) ++ packet.drop 48).take 48 =
      create_udpIp6_ip6 fv ++ (T6 ++ [0, 0]) :=
    List.take_left' (by simp [hip, hT6l])
  rw [htake] at i1
  obtain ⟨P2, hP2⟩ : ∃ P2, P2 = (create_udpIp6_coap
    (create_udpIp6_ip6 fv ++ (T6 ++ [0, 0]) ++ packet.drop 48) fv).1 := ⟨_, rfl⟩
  rw [← hP2] at i1 i4 i5
  have hsplit : P2 = create_udpIp6_ip6 fv ++ (T6 ++ [0, 0]) ++ P2.drop 48 := by
    conv_lhs => rw [← List.take_append_drop 48 P2, i1]
  have hn : ((SIZE_IPV6 + SIZE_UDP + (fv.udp_length + 2 ^ 32 - SIZE_UDP) % 2 ^ 32) % 2 ^ 32 : Nat) =
      40 + fv.udp_length := by
    simp only [SIZE_IPV6, SIZE_UDP]
    omega
  refine ⟨T6, P2.drop 48, hT6l, by simp; omega, ?_, ?_⟩
  · have := i5
    rw [hsplit] at this
    simpa only [List.append_assoc] using this
  · unfold create_udpIp6_packet
    simp only []
    have hbe : ∀ c, le16_bytes (htons c) = be16_bytes c := fun c => le16_bytes_htons c
    rw [hP1, ← hP2, hn, hudp, hbe]
    have e : create_udpIp6_ip6 fv ++ T6 ++ [0, 0] ++ P2.drop 48 = P2 := by
      conv_rhs => rw [hsplit]
      simp only [List.append_assoc]
    rw [e]
    conv_lhs => arg 1; rw [hsplit]
    rw [List.append_assoc, mem_write_append_at _ _ _ SIZE_IPV6 hip]
    have hl8 : (T6 ++ be16_bytes (checksum_udp_ipv6 P2 ((40 + fv.udp_length : Nat) : Int))).length =
        8 := by simp [hT6l, be16_bytes]
    rw [hl8, List.drop_left' (by simp [hT6l])]
    simp only [List.append_assoc]

/-- C40 (the serialized packet carries a valid UDP checksum): for a struct
that fits its C type with `8 ≤ udp_length ≤ 1240` and an output buffer of
`SIZE_MTU_IPV6` bytes (the zero-initialised buffer of `ipv6_process_rx` is
one), the packet that `create_udpIp6_packet` leaves in the buffer, with the
checksum stored in the bytes 46 and 47, satisfies
`checksum_udp_ipv6 (packet, 40 + udp_length) = 0`.  This holds whatever the
IPv6 payload length of the struct. -/
theorem create_udpIp6_packet_checksum (fv : field_values) (packet : List Nat) (hw : fv.wf)
    (hp : bytes_ok packet) (hlen : packet.length = SIZE_MTU_IPV6) (h1 : 8 ≤ fv.udp_length)
    (h2 : fv.udp_length ≤ 1240) :
    checksum_udp_ipv6 (create_udpIp6_packet packet fv) ((40 + fv.udp_length : Nat) : Int) = 0 := by
  simp only [SIZE_MTU_IPV6] at hlen
  obtain ⟨T6, R, hT6, hR, hb, heq⟩ :=
    create_udpIp6_packet_parts fv hw packet hp (by omega) h1 (by omega)
  rw [heq]
  have hip := create_udpIp6_ip6_length fv
  obtain ⟨H8, S32, hH, h8, h32⟩ : ∃ H8 S32, create_udpIp6_ip6 fv = H8 ++ S32 ∧
      H8.length = 8 ∧ S32.length = 32 :=
    ⟨(create_udpIp6_ip6 fv).take 8, (create_udpIp6_ip6 fv).drop 8,
      (List.take_append_drop _ _).symm, by simp [hip], by simp [hip]⟩
  rw [hH] at hb ⊢
  rw [checksum_udp_ipv6_parts H8 S32 T6 [0, 0] R (40 + fv.udp_length) h8 h32 hT6 rfl (by omega)
    (by omega) (by omega)]
  rw [checksum_udp_ipv6_parts H8 S32 T6 _ R (40 + fv.udp_length) h8 h32 hT6
    (by simp [be16_bytes]) (by omega) (by omega) (by omega)]
  simp only [bytes_ok_append] at hb
  obtain ⟨⟨⟨⟨hbH, hbS⟩, hbT⟩, _⟩, hbR⟩ := hb
  obtain ⟨X, hX⟩ : ∃ X, X = S32 ++ [0, 17] ++ [H8.getD 4 0, H8.getD 5 0] ++ T6 := ⟨_, rfl⟩
  obtain ⟨Y, hY⟩ : ∃ Y, Y = R.take (40 + fv.udp_length - 48) := ⟨_, rfl⟩
  rw [← hX, ← hY]
  have hXl : X.length = 42 := by rw [hX]; simp [h32, hT6]
  have hYl : Y.length = 40 + fv.udp_length - 48 := by rw [hY]; simp; omega
  have hXb : bytes_ok X := by
    rw [hX]
    simp only [bytes_ok_append]
    refine ⟨⟨⟨hbS, by decide⟩, ?_⟩, hbT⟩
    intro b hb
    simp only [List.mem_cons, List.mem_singleton, List.not_mem_nil, or_false] at hb
    rcases hb with hb | hb <;> rw [hb] <;> exact Nat.lt_succ_of_le (getD_byte H8 hbH _)
  have hYb : bytes_ok Y := by
    rw [hY]
    exact fun b hb => hbR b (List.mem_of_mem_take hb)
  have hBl : (X ++ [0, 0] ++ Y).length = 40 + fv.udp_length - 4 := by
    simp [hXl, hYl]; omega
  have hBb : bytes_ok (X ++ [0, 0] ++ Y) := by
    simp only [bytes_ok_append]
    exact ⟨⟨hXb, by decide⟩, hYb⟩
  have g0 : (X ++ [0, 0] ++ Y).getD 42 0 = 0 := by
    have h := getD_mid X ([0] ++ Y) 0
    rw [hXl] at h
    simpa using h
  have g1 : (X ++ [0, 0] ++ Y).getD (42 + 1) 0 = 0 := by
    have h := getD_mid (X ++ [0]) Y 0
    rw [List.length_append, hXl] at h
    simpa using h
  obtain ⟨_, hz⟩ := crc16_store_own (X ++ [0, 0] ++ Y) 42 hBb
    (by rw [hBl]; simp only [SIZE_MTU_IPV6]; omega) (by decide) (by rw [hBl]; omega) g0 g1
  rw [hBl] at hz
  rw [List.append_assoc X, mem_write_append_at X _ _ 42 hXl] at hz
  have hd : ([0, 0] ++ Y).drop
      (be16_bytes (crc16 (X ++ ([0, 0] ++ Y)) (40 + fv.udp_length - 4))).length = Y := by
    simp [be16_bytes]
  rw [hd, ← List.append_assoc X] at hz
  exact hz

/-- Witness of C40: the example packet, whose UDP length is 18, written into
a buffer of 1280 zero bytes. -/
theorem create_udpIp6_packet_checksum_witness :
    example_packet.wf ∧ 8 ≤ example_packet.udp_length ∧ example_packet.udp_length ≤ 1240 ∧
    ((create_udpIp6_packet (List.replicate SIZE_MTU_IPV6 0) example_packet).drop 40).take 18 =
      [0x16, 0x33, 0xE7, 0xDB, 0, 18, 0x6D, 0x71, 0x40, 2, 0x12, 0x34, 0xB1, 0x62, 0xFF, 7, 8, 9] ∧
    checksum_udp_ipv6 (create_udpIp6_packet (List.replicate SIZE_MTU_IPV6 0) example_packet)
      ((40 + example_packet.udp_length : Nat) : Int) = 0 :=
  ⟨by decide!, by decide, by decide, by decide!,
    create_udpIp6_packet_checksum example_packet (List.replicate SIZE_MTU_IPV6 0) (by decide!)
      (fun b hb => by rw [List.eq_of_mem_replicate hb]; decide) (List.length_replicate _ _)
      (by decide) (by decide)⟩

/-! ## The lengths of `schc_decompress` and the bytes of `create_udpIp6_packet` -/

theorem exchange_exchange (a b k : Nat) : exchange a b (exchange a b k) = k := by
  unfold exchange
  split_ifs <;> omega

theorem exchange_lt (a b k n : Nat) (ha : a < n) (hb : b < n) (hk : k < n) :
    exchange a b k < n := by
  unfold exchange
  split_ifs <;> omega

theorem exchange_perm (a b n : Nat) (ha : a < n) (hb : b < n) :
    ((List.range n).map (exchange a b)).Perm (List.range n) := by
  rw [List.perm_ext_iff_of_nodup
    ((List.nodup_range n).map (Function.LeftInverse.injective (exchange_exchange a b)))
    (List.nodup_range n)]
  intro x
  simp only [List.mem_map, List.mem_range]
  constructor
  · rintro ⟨k, hk, rfl⟩
    exact exchange_lt a b k n ha hb hk
  · intro hx
    exact ⟨exchange a b x, exchange_lt a b x n ha hb hx, exchange_exchange a b x⟩

theorem word_sum_append : ∀ (n : Nat) (x y : List Nat), x.length ≤ n → x.length % 2 = 0 →
    word_sum (x ++ y) = word_sum x + word_sum y := by
  intro n
  induction n with
  | zero =>
    intro x y hx _
    have : x = [] := List.length_eq_zero.mp (by omega)
    subst this
    simp [word_sum]
  | succ n ih =>
    intro x y hx he
    match x, hx, he with
    | [], _, _ => simp [word_sum]
    | [a], _, he => simp at he
    | a :: c :: rest, hx, he =>
      have := ih rest y (by simp at hx; omega) (by simp at he; omega)
      show word_sum (a :: c :: (rest ++ y)) = word_sum (a :: c :: rest) + word_sum y
      simp only [word_sum]
      omega

/-- The bytes, the length and the word sum of a sequence of chunks laid end
to end, every chunk but the last holding 40 bytes and the last at most 40:
tile `k` is chunk `k`. -/
theorem chunks_flatten : ∀ (L : List (List Nat)),
    (∀ j, j + 1 < L.length → (L.getD j []).length = 40) →
    (∀ j, j < L.length → (L.getD j []).length ≤ 40) →
    (∀ k, k < L.length → tile L.flatten k = L.getD k []) ∧
    word_sum L.flatten = (L.map word_sum).sum ∧
    L.flatten.length = (L.map List.length).sum := by
  intro L
  induction L with
  | nil => intro _ _; exact ⟨fun k hk => by simp at hk, rfl, rfl⟩
  | cons c rest ih =>
    intro h40 hle
    obtain ⟨i1, i2, i3⟩ := ih
      (fun j hj => by
        have := h40 (j + 1) (by simp at hj ⊢; omega)
        simpa using this)
      (fun j hj => by
        have := hle (j + 1) (by simp at hj ⊢; omega)
        simpa using this)
    refine ⟨?_, ?_, ?_⟩
    · intro k hk
      cases k with
      | zero =>
        simp only [tile, SCHC_FRG_TILE_SIZE, List.flatten_cons, Nat.mul_zero, List.drop_zero,
          List.getD_cons_zero]
        cases rest with
        | nil =>
          have := hle 0 (by simp)
          simp only [List.getD_cons_zero] at this
          simp only [List.flatten_nil, List.append_nil]
          exact List.take_of_length_le this
        | cons d rest2 =>
          have := h40 0 (by simp)
          simp only [List.getD_cons_zero] at this
          exact List.take_left' this
      | succ k =>
        have hc := h40 0 (by simp at hk ⊢; omega)
        simp only [List.getD_cons_zero] at hc
        have := i1 k (by simp at hk; omega)
        simp only [tile, SCHC_FRG_TILE_SIZE, List.flatten_cons, List.getD_cons_succ] at this ⊢
        rw [← this]
        congr 1
        have e : 40 * (k + 1) = c.length + 40 * k := by omega
        rw [e, List.drop_append]
    · simp only [List.flatten_cons, List.map_cons, List.sum_cons]
      cases rest with
      | nil => simp [word_sum]
      | cons d rest2 =>
        have hc := h40 0 (by simp)
        simp only [List.getD_cons_zero] at hc
        rw [word_sum_append c.length c _ (le_refl _) (by omega), i2]
    · simp only [List.flatten_cons, List.map_cons, List.sum_cons, List.length_append, i3]

theorem tiles_flatten (p : List Nat) :
    ∀ m, ((List.range m).map (tile p)).flatten = p.take (40 * m) := by
  intro m
  induction m with
  | zero => simp
  | succ m ih =>
    rw [List.range_succ, List.map_append, List.flatten_append, ih]
    simp only [List.map_cons, List.map_nil, List.flatten_cons, List.flatten_nil, List.append_nil]
    exact take_append_tile p m

theorem tile_length_nonlast (p : List Nat) (k : Nat) (h : k + 1 < (p.length + 39) / 40) :
    (tile p k).length = 40 :=
  tile_length_full p k (by omega)

/-- Exchanging two tiles that are not the last one keeps the length of the
packet and its `crc16`, and moves the two tiles. -/
theorem exchange_tiles_spec (p : List Nat) (a b : Nat) (ha : a + 1 < (p.length + 39) / 40)
    (hb : b + 1 < (p.length + 39) / 40) :
    (exchange_tiles p a b).length = p.length ∧
    (∀ k, k < (p.length + 39) / 40 → tile (exchange_tiles p a b) k = tile p (exchange a b k)) ∧
    crc16 (exchange_tiles p a b) (exchange_tiles p a b).length = crc16 p p.length := by
  obtain ⟨n, hn⟩ : ∃ n, n = (p.length + 39) / 40 := ⟨_, rfl⟩
  rw [← hn] at ha hb ⊢
  have hperm := exchange_perm a b n (by omega) (by omega)
  have hex : ∀ k, k + 1 < n → exchange a b k + 1 < n := by
    intro k hk
    unfold exchange
    split_ifs <;> omega
  have hflat : ((List.range n).map (tile p)).flatten = p := by
    rw [tiles_flatten, List.take_of_length_le (by omega)]
  have hgetp : ∀ j, j < n → ((List.range n).map (tile p)).getD j [] = tile p j := by
    intro j hj
    simp [List.getD_eq_getElem?_getD, List.getElem?_map, List.getElem?_range hj]
  have hgetq : ∀ j, j < n →
      ((List.range n).map (fun k => tile p (exchange a b k))).getD j [] =
        tile p (exchange a b j) := by
    intro j hj
    simp [List.getD_eq_getElem?_getD, List.getElem?_map, List.getElem?_range hj]
  obtain ⟨_, p2, p3⟩ := chunks_flatten ((List.range n).map (tile p))
    (fun j hj => by
      simp only [List.length_map, List.length_range] at hj
      rw [hgetp j (by omega)]
      exact tile_length_nonlast p j (by omega))
    (fun j hj => by
      simp only [List.length_map, List.length_range] at hj
      rw [hgetp j hj]
      exact tile_length_le p j)
  obtain ⟨q1, q2, q3⟩ := chunks_flatten ((List.range n).map (fun k => tile p (exchange a b k)))
    (fun j hj => by
      simp only [List.length_map, List.length_range] at hj
      rw [hgetq j (by omega)]
      exact tile_length_nonlast p _ (by rw [← hn]; exact hex j hj))
    (fun j hj => by
      simp only [List.length_map, List.length_range] at hj
      rw [hgetq j hj]
      exact tile_length_le p _)
  rw [hflat] at p2 p3
  have hq : exchange_tiles p a b =
      ((List.range n).map (fun k => tile p (exchange a b k))).flatten := by
    unfold exchange_tiles
    rw [← hn]
  have hsum : ∀ f : List Nat → Nat,
      (((List.range n).map (fun k => tile p (exchange a b k))).map f).sum =
        (((List.range n).map (tile p)).map f).sum := by
    intro f
    have e : ((List.range n).map (fun k => tile p (exchange a b k))).map f =
        ((List.range n).map (exchange a b)).map (fun k => f (tile p k)) := by
      simp [List.map_map, Function.comp_def]
    have e2 : ((List.range n).map (tile p)).map f =
        (List.range n).map (fun k => f (tile p k)) := by
      simp [List.map_map, Function.comp_def]
    rw [e, e2]
    exact (hperm.map _).sum_eq
  have hlen : (exchange_tiles p a b).length = p.length := by
    rw [hq, q3, hsum, ← p3]
  refine ⟨hlen, ?_, ?_⟩
  · intro k hk
    rw [hq, q1 k (by simpa using hk), hgetq k hk]
  · apply crc16_of_word_sum _ _ hlen
    rw [hq, q2, hsum, ← p2]

theorem exchange_msgs_fragments (p : List Nat) (mic a b : Nat)
    (ha : a + 1 < (p.length + 39) / 40) (hb : b + 1 < (p.length + 39) / 40) :
    exchange_msgs (spec_fragments p mic) a b = spec_fragments (exchange_tiles p a b) mic := by
  obtain ⟨hlen, htile, _⟩ := exchange_tiles_spec p a b ha hb
  unfold exchange_msgs
  rw [spec_fragments_length]
  unfold spec_fragments
  rw [hlen]
  apply List.map_congr_left
  intro k hk
  rw [List.mem_range] at hk
  have hg := spec_fragments_getD p mic (exchange a b k)
    (exchange_lt a b k _ (by omega) (by omega) hk)
  unfold spec_fragments at hg
  rw [hg]
  unfold spec_fragment
  rw [htile k hk]
  by_cases hlast : k + 1 < (p.length + 39) / 40
  · have : exchange a b k + 1 < (p.length + 39) / 40 := by
      unfold exchange
      split_ifs <;> omega
    rw [if_pos hlast, if_pos this]
  · have hk2 : exchange a b k = k := by
      unfold exchange
      split_ifs <;> omega
    rw [hk2]

/-- C38 (reordered fragments are not detected): for a compressed packet of
`schc_packet_len ≤ 1280` bytes and two distinct indices `a`, `b` of messages
that are not the last of the messages queued by `schc_fragmentate` (so there
are at least three messages), feeding the messages with the messages `a` and
`b` exchanged to `schc_reassemble` from an idle state gives no call of
`schc_decompress` before the last message; at the last message the integrity
check passes and `schc_decompress` is called on the buffer, which starts with
the packet with its tiles `a` and `b` exchanged, with length
`schc_packet_len`. -/
theorem reassemble_exchanged_fragments (u : Indeterminate) (st : ReassemblyState)
    (schc_packet : List Nat) (schc_packet_len a b : Nat)
    (hbuf : schc_packet_len ≤ schc_packet.length) (hmax : schc_packet_len ≤ SIZE_MTU_IPV6)
    (hidle : st.schc_reassemble_offset = 0)
    (hsize : st.schc_reassemble_buf.length = SIZE_MTU_IPV6)
    (hab : a ≠ b) (ha : a + 1 < (schc_packet_len + 39) / 40)
    (hb : b + 1 < (schc_packet_len + 39) / 40) :
    3 ≤ (tx_messages (schc_fragmentate [] schc_packet schc_packet_len).queue).length ∧
    ∃ pre last,
      reassemble_run u st
        (exchange_msgs (tx_messages (schc_fragmentate [] schc_packet schc_packet_len).queue)
          a b) = pre ++ [last] ∧
      (∀ r ∈ pre, r.decompress_call = none ∧ r.ret = 0) ∧
      last.state.schc_reassemble_buf.take schc_packet_len =
        exchange_tiles (schc_packet.take schc_packet_len) a b ∧
      last.decompress_call = some (last.state.schc_reassemble_buf, schc_packet_len) ∧
      last.decompressed =
        some (schc_decompress u last.state.schc_reassemble_buf schc_packet_len) ∧
      last.state.schc_reassemble_offset = 0 ∧ last.ret = 0 := by
  simp only [SIZE_MTU_IPV6] at hmax hsize
  have hl : (schc_packet.take schc_packet_len).length = schc_packet_len := by simp; omega
  rw [tx_messages_fragmentate _ _ hbuf (by omega), ← crc16_take]
  obtain ⟨p, hp⟩ : ∃ p, p = schc_packet.take schc_packet_len := ⟨_, rfl⟩
  rw [← hp] at hl ⊢
  rw [← hl] at ha hb
  obtain ⟨hlen, _, hcrc⟩ := exchange_tiles_spec p a b ha hb
  have hmic : crc16 p schc_packet_len = crc16 (exchange_tiles p a b) (exchange_tiles p a b).length := by
    rw [hcrc, hl]
  refine ⟨by rw [spec_fragments_length]; omega, ?_⟩
  rw [exchange_msgs_fragments p _ a b ha hb, hmic]
  obtain ⟨pre, buf, hrun, hpre, _, _, hbp⟩ :=
    reassemble_run_fragments u (exchange_tiles p a b)
      (crc16 (exchange_tiles p a b) (exchange_tiles p a b).length)
      (crc16_lt _ _) (by omega) ((schc_packet_len + 39) / 40) 0 st (by rw [hlen, hl]; omega)
      (by omega) (by rw [hidle]) hsize (by simp)
  rw [if_pos rfl] at hrun
  simp only [Nat.zero_add, hlen, hl] at hrun hbp
  refine ⟨pre, ReassembleResult.mk (ReassemblyState.mk buf 0) 0 (some (buf, schc_packet_len))
    (some (schc_decompress u buf schc_packet_len)), ?_,
    fun r hr => ⟨(hpre r hr).1, (hpre r hr).2.2⟩, ?_, rfl, rfl, rfl, rfl⟩
  · simpa [spec_fragments, hlen, hl] using hrun
  · exact hbp

/-- Witness of C38: a packet of 81 bytes, three fragments, the first two
exchanged; the buffer handed to `schc_decompress` differs from the packet. -/
theorem reassemble_exchanged_fragments_witness :
    81 ≤ (List.range 81).length ∧ 81 ≤ SIZE_MTU_IPV6 ∧
    ReassemblyState.init.schc_reassemble_offset = 0 ∧
    ReassemblyState.init.schc_reassemble_buf.length = SIZE_MTU_IPV6 ∧
    exchange_tiles ((List.range 81).take 81) 0 1 ≠ List.range 81 ∧
    (3 ≤ (tx_messages (schc_fragmentate [] (List.range 81) 81).queue).length ∧
    ∃ pre last,
      reassemble_run ⟨fun _ => [], []⟩ ReassemblyState.init
          (exchange_msgs (tx_messages (schc_fragmentate [] (List.range 81) 81).queue) 0 1) =
        pre ++ [last] ∧
      (∀ r ∈ pre, r.decompress_call = none ∧ r.ret = 0) ∧
      last.state.schc_reassemble_buf.take 81 = exchange_tiles ((List.range 81).take 81) 0 1 ∧
      last.decompress_call = some (last.state.schc_reassemble_buf, 81) ∧
      last.decompressed =
        some (schc_decompress ⟨fun _ => [], []⟩ last.state.schc_reassemble_buf 81) ∧
      last.state.schc_reassemble_offset = 0 ∧ last.ret = 0) :=
  ⟨by decide, by decide, rfl, List.length_replicate _ _, by decide,
    reassemble_exchanged_fragments ⟨fun _ => [], []⟩ ReassemblyState.init (List.range 81) 81 0 1
      (by decide) (by decide) rfl (List.length_replicate _ _) (by decide) (by decide)
      (by decide)⟩

/-! ## `schc_decompress` inside its arrays -/

/-- With the 16 bytes of a token and of every option value, no rule of
`context.cpp` has a residue that ends behind offset 91: the 8-bit read offset
of `schc_decompress` does not wrap on a packet that stays inside the
arrays. -/
theorem rules_residue_fits : ∀ rule ∈ rules,
    1 + (((rule_rows rule).filter (fun row => decide (row.CDA = .VALUE_SENT))).map
      (fun row => residue_size row.fieldid 16 16)).sum ≤ 91 := by
  decide

/-- What `schc_decompress` hands over for a rule of `context.cpp`, in terms of
the state after the loop over the rows. -/
theorem schc_decompress_delivered (u : Indeterminate) (pkt : List Nat) (len : Nat)
    (hid : pkt.getD 0 0 < rules.length) :
    ∃ P', schc_decompress u pkt len = { ret := 0, rx := some P' } ∧
      (decompress_loop u pkt).compute_length ≠ 0 ∧
      (decompress_loop u pkt).fv.coap_option_num ≤ SCHC_MAX_COAP_OPT ∧
      P'.coap_option = (decompress_loop u pkt).fv.coap_option ∧
      P'.coap_tkl = (decompress_loop u pkt).fv.coap_tkl ∧
      P'.coap_option_num = (decompress_loop u pkt).fv.coap_option_num ∧
      P'.udp_length = (finish_lengths len (decompress_loop u pkt)).udp_length ∧
      P'.ipv6_payload_length = P'.udp_length ∧
      P'.coap_payload_length = finish_payload_length len (decompress_loop u pkt) % 256 ∧
      same_recoverable (decompress_loop u pkt).fv P' := by
  have hmem := rules_getD_mem (pkt.getD 0 0) hid
  obtain ⟨r1, r2, _, _, _⟩ :=
    decompress_rows_any u pkt (rule_rows (rules.getD (pkt.getD 0 0) [])) 0
      { fv := field_values_zero, offset := 1, compute_length := 0, compute_checksum := 0 }
      0 Known.init (rules_all_ok _ hmem) (rules_targets_fit _ hmem) (decompress_inv_any_init pkt)
  rw [decompress_rows_rule_rows] at r1 r2
  have hcount := rules_option_rows _ hmem
  have heq := schc_decompress_with_eq rules u pkt len hid
  unfold decompress_loop
  generalize decompress_rows u pkt (rules.getD (pkt.getD 0 0) []) 0
    { fv := field_values_zero, offset := 1, compute_length := 0, compute_checksum := 0 } = S
    at r1 r2 heq
  obtain ⟨a1, a2, a3, _, a5⟩ := finish_lengths_fields len S r1
  obtain ⟨b1, b2, b3, b4, b5⟩ := finish_payload_fields pkt S.offset
    (finish_payload_length len S) (finish_lengths len S)
  obtain ⟨c1, c2, c3, c4, c5⟩ := finish_checksum_fields u S.compute_checksum
    (finish_payload pkt S.offset (finish_payload_length len S) (finish_lengths len S))
  unfold schc_decompress
  refine ⟨_, heq, r1, ?_, c1.trans (b1.trans a1), c2.trans (b2.trans a2),
    c3.trans (b3.trans a3), c4.trans b4, ?_, ?_, finish_same u pkt len S⟩
  · rw [r2, Nat.zero_add]; exact hcount
  · exact (c5.trans b5).trans (a5.trans (c4.trans b4).symm)
  · exact ((finish_checksum_payload _ _ _).2.trans (finish_payload_take _ _ _ _).2).trans
      (finish_lengths_payload_length len S r1)

/-- C16, amended (unknown rule id): the table of `context.cpp` has 12 rules.
When byte 0 of the packet is 12 or more, `schc_decompress` returns -1 and
hands over nothing.  When byte 0 is below 12 and the call stays inside the
arrays of the code (`decompress_in_bounds`: the packet holds the residue that
its rule reads, token and option values fit their 16 bytes, the
reconstructed packet fits the buffers of `ipv6_process_rx`), it returns 0
and hands over a reconstructed packet, of at most `SIZE_MTU_IPV6` bytes.
So on these packets it returns a value other than 0, and hands over nothing,
if and only if byte 0 is 12 or more. -/
theorem schc_decompress_fails_iff (u : Indeterminate) (pkt : List Nat) (len : Nat)
    (hin : pkt.getD 0 0 < rules.length → decompress_in_bounds u pkt len) :
    rules.length = 12 ∧
    (12 ≤ pkt.getD 0 0 → schc_decompress u pkt len = { ret := -1, rx := none }) ∧
    (pkt.getD 0 0 < 12 →
      ∃ P', schc_decompress u pkt len = { ret := 0, rx := some P' } ∧
        SIZE_IPV6 + P'.udp_length ≤ SIZE_MTU_IPV6) ∧
    ((schc_decompress u pkt len).ret ≠ 0 ↔ 12 ≤ pkt.getD 0 0) ∧
    ((schc_decompress u pkt len).rx = none ↔ 12 ≤ pkt.getD 0 0) := by
  by_cases h : 12 ≤ pkt.getD 0 0
  · have hr : schc_decompress u pkt len = { ret := -1, rx := none } :=
      schc_decompress_with_reject rules u pkt len (by rw [rules_length]; exact h)
    rw [hr]
    exact ⟨rfl, fun _ => rfl, fun h2 => absurd h (by omega),
      ⟨fun _ => h, fun _ => (by decide)⟩, ⟨fun _ => h, fun _ => rfl⟩⟩
  · have hid : pkt.getD 0 0 < rules.length := by rw [rules_length]; omega
    obtain ⟨P', hP, _, _, _, _, _, hu, _, _, _⟩ := schc_decompress_delivered u pkt len hid
    obtain ⟨_, _, _, _, _, b5⟩ := hin hid
    rw [hP]
    refine ⟨rfl, fun h2 => absurd h2 h, fun _ => ⟨P', rfl, ?_⟩,
      ⟨fun h2 => absurd rfl h2, fun h2 => absurd h2 h⟩,
      ⟨fun h2 => (by cases h2), fun h2 => absurd h2 h⟩⟩
    rw [hu]
    exact b5

/-- C16 (counterexample): the packet `02` of 1 byte names rule 2, whose rows
read the message id from the bytes 1 and 2 and leave the read offset at 3.
The rule has a `COMPUTE_LENGTH` row, so the code computes
`coap_payload_length = schc_packet_len - offset` = 1 - 3 as a `size_t`,
4294967294, and, this being positive, copies that many bytes into
`coap_payload[SIZE_MTU_IPV6]`: the call does not stay inside its arrays, it
does not return 0 and hand over a packet. -/
theorem schc_decompress_truncated_packet :
    ([2] : List Nat).getD 0 0 < 12 ∧
    (decompress_loop example_indeterminate [2]).offset = 3 ∧
    (decompress_loop example_indeterminate [2]).compute_length ≠ 0 ∧
    finish_payload_length 1 (decompress_loop example_indeterminate [2]) = 4294967294 ∧
    SIZE_MTU_IPV6 < finish_payload_length 1 (decompress_loop example_indeterminate [2]) ∧
    ¬ decompress_in_bounds example_indeterminate [2] 1 := by
  decide!

/-- Witness of C16: the packet `02 12 34 07 08 09` of rule 2, for which the
code hands over a packet with message id `12 34`, the payload `07 08 09` and
the UDP length 18; and the packet `0C`, whose rule id 12 is not in the
table. -/
theorem schc_decompress_fails_iff_witness :
    decompress_in_bounds example_indeterminate [2, 0x12, 0x34, 7, 8, 9] 6 ∧
    (schc_decompress example_indeterminate [2, 0x12, 0x34, 7, 8, 9] 6).rx.map
      (fun fv => (fv.coap_message_id, fv.coap_payload_length, fv.coap_payload.take 3,
        fv.udp_length)) = some ([0x12, 0x34], 3, [7, 8, 9], 18) ∧
    schc_decompress example_indeterminate [12] 1 = { ret := -1, rx := none } ∧
    (rules.length = 12 ∧
    (12 ≤ ([2, 0x12, 0x34, 7, 8, 9] : List Nat).getD 0 0 →
      schc_decompress example_indeterminate [2, 0x12, 0x34, 7, 8, 9] 6 =
        { ret := -1, rx := none }) ∧
    (([2, 0x12, 0x34, 7, 8, 9] : List Nat).getD 0 0 < 12 →
      ∃ P', schc_decompress example_indeterminate [2, 0x12, 0x34, 7, 8, 9] 6 =
          { ret := 0, rx := some P' } ∧
        SIZE_IPV6 + P'.udp_length ≤ SIZE_MTU_IPV6) ∧
    ((schc_decompress example_indeterminate [2, 0x12, 0x34, 7, 8, 9] 6).ret ≠ 0 ↔
      12 ≤ ([2, 0x12, 0x34, 7, 8, 9] : List Nat).getD 0 0) ∧
    ((schc_decompress example_indeterminate [2, 0x12, 0x34, 7, 8, 9] 6).rx = none ↔
      12 ≤ ([2, 0x12, 0x34, 7, 8, 9] : List Nat).getD 0 0)) :=
  ⟨by decide!, by decide!, by decide,
    schc_decompress_fails_iff example_indeterminate [2, 0x12, 0x34, 7, 8, 9] 6
      (fun _ => by decide!)⟩

/-- C17, amended (`NOT_SENT` recovery): for every packet whose byte 0 is the
index of a rule of `context.cpp` and on which `schc_decompress` stays inside
the arrays of the code (`decompress_in_bounds`: the packet holds the residue
that its rule reads, token and option values fit their 16 bytes, the
reconstructed packet fits the buffers of `ipv6_process_rx`),
`schc_decompress` returns 0 and hands over a packet, of at most
`SIZE_MTU_IPV6` bytes, in which the field of every `NOT_SENT` row of that
rule, other than the hop limit row, has the target value of the row decoded
from its string form: decimal for the scalar fields, option delta and option
length included; hexadecimal for the four address fields when the digit 9
does not occur in the target value; for an option value the characters of
the target value themselves, as many as the option is long
(`field_is_target`).  Such a row leaves the read offset where it is, in
whatever state it is applied.  Nothing is stated for the hop limit, for token
and message id, for an address whose target value holds the digit 9, and for
a packet on which the code leaves its arrays. -/
theorem schc_decompress_not_sent (u : Indeterminate) (pkt : List Nat) (len : Nat)
    (hid : pkt.getD 0 0 < rules.length) (hin : decompress_in_bounds u pkt len) :
    ∃ P', schc_decompress u pkt len = { ret := 0, rx := some P' } ∧
      SIZE_IPV6 + P'.udp_length ≤ SIZE_MTU_IPV6 ∧
      ∀ (n : Nat) (row : field_description),
        (rule_rows (rules.getD (pkt.getD 0 0) []))[n]? = some row → row.CDA = .NOT_SENT →
        field_is_target P' row (option_index (rule_rows (rules.getD (pkt.getD 0 0) [])) n) ∧
        ∀ (i : Nat) (s : DecompressState), (decompress_rows u pkt [row] i s).offset = s.offset := by
  have hmem := rules_getD_mem (pkt.getD 0 0) hid
  obtain ⟨_, _, _, _, r5⟩ :=
    decompress_rows_any u pkt (rule_rows (rules.getD (pkt.getD 0 0) [])) 0
      { fv := field_values_zero, offset := 1, compute_length := 0, compute_checksum := 0 }
      0 Known.init (rules_all_ok _ hmem) (rules_targets_fit _ hmem) (decompress_inv_any_init pkt)
  rw [decompress_rows_rule_rows] at r5
  obtain ⟨P', hP, _, _, _, _, _, hu, _, _, hsame⟩ := schc_decompress_delivered u pkt len hid
  obtain ⟨_, _, _, _, _, b5⟩ := hin
  unfold decompress_loop at hsame
  refine ⟨P', hP, by rw [hu]; exact b5,
    fun n row hn hcda => ⟨?_, fun i s => not_sent_offset u pkt row i s hcda⟩⟩
  generalize decompress_rows u pkt (rules.getD (pkt.getD 0 0) []) 0
    { fv := field_values_zero, offset := 1, compute_length := 0, compute_checksum := 0 } = S
    at r5 hsame
  have h0 := rows_target_index S.fv _ 0 r5 n row hn hcda
  rw [Nat.zero_add] at h0
  refine target_transfer S.fv _ row _ ?_ ?_ hcda h0
  · exact (hsame.2 S.fv row _).mpr (field_recovered_refl _ row _ hcda)
  · intro _
    exact (hsame.2 S.fv { row with fieldid := .COAP_OPTION_LENGTH } _).mpr rfl

/-- Witness of C17: the packet `02 12 34 07 08 09` of rule 2. -/
theorem schc_decompress_not_sent_witness :
    ([2, 0x12, 0x34, 7, 8, 9] : List Nat).getD 0 0 < rules.length ∧
    decompress_in_bounds example_indeterminate [2, 0x12, 0x34, 7, 8, 9] 6 ∧
    ∃ P', schc_decompress example_indeterminate [2, 0x12, 0x34, 7, 8, 9] 6 =
        { ret := 0, rx := some P' } ∧
      SIZE_IPV6 + P'.udp_length ≤ SIZE_MTU_IPV6 ∧
      ∀ (n : Nat) (row : field_description),
        (rule_rows (rules.getD (([2, 0x12, 0x34, 7, 8, 9] : List Nat).getD 0 0) []))[n]? =
          some row → row.CDA = .NOT_SENT →
        field_is_target P' row
          (option_index (rule_rows
            (rules.getD (([2, 0x12, 0x34, 7, 8, 9] : List Nat).getD 0 0) [])) n) ∧
        ∀ (i : Nat) (s : DecompressState),
          (decompress_rows example_indeterminate [2, 0x12, 0x34, 7, 8, 9] [row] i s).offset =
            s.offset :=
  ⟨by decide, by decide!,
    schc_decompress_not_sent example_indeterminate [2, 0x12, 0x34, 7, 8, 9] 6 (by decide)
      (by decide!)⟩

theorem read_coap_option_wire_length (payload : List Nat) (hb : bytes_ok payload)
    (s : ReadState) (i : Nat) :
    ((read_coap_option payload s).fv.option_at i).length =
      if i = s.fv.coap_option_num ∧ s.fv.coap_option_num < s.fv.coap_option.length then
        wire_length payload s.offset % 65536
      else (s.fv.option_at i).length := by
  have hb0 : payload.getD s.offset 0 < 256 := Nat.lt_succ_of_le (getD_byte payload hb s.offset)
  have e1 := read_coap_extended_wire payload hb (s.offset + 1) (payload.getD s.offset 0 / 16)
    (by omega)
  have e2 := read_coap_extended_wire payload hb
    (s.offset + 1 + wire_ext_size (payload.getD s.offset 0 / 16)) (payload.getD s.offset 0 % 16)
    (by omega)
  unfold read_coap_option
  simp only [nibble_high _ hb0, nibble_low _ hb0, e1, e2]
  rw [option_at_num, option_at_modify]
  split <;> rfl

/-- The loop of `read_coap_packet` from a state in which `k` options are
stored with their lengths on the wire: every option stored at the end has
its length on the wire in `length`. -/
theorem read_coap_options_wire_length (payload : List Nat) (hb : bytes_ok payload)
    (packet_length start : Nat) :
    ∀ (fuel : Nat) (s : ReadState) (k : Nat),
      s.fv.coap_option_num = k → s.fv.coap_option.length = SCHC_MAX_COAP_OPT →
      s.offset = wire_option_start payload start k →
      (∀ i, i < k →
        (s.fv.option_at i).length = wire_length payload (wire_option_start payload start i)) →
      (∀ j, j < (read_coap_options payload packet_length fuel s).fv.coap_option_num →
        wire_length payload (wire_option_start payload start j) < 65536) →
      ∀ i, i < (read_coap_options payload packet_length fuel s).fv.coap_option_num →
        ((read_coap_options payload packet_length fuel s).fv.option_at i).length =
          wire_length payload (wire_option_start payload start i) := by
  intro fuel
  induction fuel with
  | zero =>
    intro s k hk _ _ hopt _ i hi
    simp only [read_coap_options] at hi ⊢
    exact hopt i (by omega)
  | succ fuel ih =>
    intro s k hk hlen hoff hopt hw
    simp only [read_coap_options] at hw ⊢
    by_cases hm : read_coap_more payload packet_length s = true
    · rw [if_pos hm] at hw ⊢
      have hlt := read_coap_more_num _ _ _ hm
      have hnum := read_coap_option_num payload s
      simp only [SCHC_MAX_COAP_OPT] at hlt hlen
      have hn : (read_coap_option payload s).fv.coap_option_num = k + 1 := by
        rw [hnum]; omega
      have hmono := read_coap_options_mono payload packet_length fuel (read_coap_option payload s)
      have hwk := hw k (by omega)
      obtain ⟨_, w2, _⟩ := read_coap_option_wire payload hb s
      rw [hoff] at w2
      refine ih (read_coap_option payload s) (k + 1) hn ?_ ?_ ?_ hw
      · rw [read_coap_option_length, hlen]; rfl
      · rw [w2]
        simp only [wire_option_start, wire_option_size]
        omega
      · intro i hi
        rw [read_coap_option_wire_length payload hb s i, hoff]
        by_cases hik : i = k
        · subst hik
          rw [if_pos ⟨hk.symm, by omega⟩, Nat.mod_eq_of_lt hwk]
        · rw [if_neg (fun h => hik (h.1.trans hk))]
          exact hopt i (by omega)
    · rw [if_neg hm] at hw ⊢
      intro i hi
      exact hopt i (by omega)

/-- C35, amended (option-count bound): `SCHC_MAX_COAP_OPT` is 4.  For a
message of bytes read by `read_coap_packet` into a struct whose option array
has its 4 entries, the options read having a length on the wire of at most
16 (the size of `value[16]`), the loop over the options ends (its test fails
in the state reached), `coap_option_num` is at most 4 and every option stored
has its length on the wire, at most 16.  For a compressed packet whose byte 0
is the index of a rule of `context.cpp` and on which `schc_decompress` stays
inside the arrays of the code (`decompress_in_bounds`), `schc_decompress`
returns 0 and hands over a struct with `coap_option_num ≤ 4`, for a packet of
at most `SIZE_MTU_IPV6` bytes. -/
theorem coap_option_num_bound (fv : field_values) (payload : List Nat) (u : Indeterminate)
    (pkt : List Nat) (len : Nat) (hb : bytes_ok payload)
    (hl : fv.coap_option.length = SCHC_MAX_COAP_OPT)
    (hw : ∀ j, j < (read_coap_packet fv payload).coap_option_num →
      wire_length payload (wire_option_start payload (4 + payload.getD 0 0 % 16) j) ≤ 16)
    (hid : pkt.getD 0 0 < rules.length) (hin : decompress_in_bounds u pkt len) :
    SCHC_MAX_COAP_OPT = 4 ∧
    read_coap_more payload ((fv.udp_length + 2 ^ 32 - 8) % 2 ^ 32 % 256)
      (read_coap_options payload ((fv.udp_length + 2 ^ 32 - 8) % 2 ^ 32 % 256) SCHC_MAX_COAP_OPT
        (read_coap_header fv payload)) = false ∧
    (read_coap_packet fv payload).coap_option_num ≤ SCHC_MAX_COAP_OPT ∧
    (∀ i, i < (read_coap_packet fv payload).coap_option_num →
      ((read_coap_packet fv payload).option_at i).length =
        wire_length payload (wire_option_start payload (4 + payload.getD 0 0 % 16) i) ∧
      ((read_coap_packet fv payload).option_at i).length ≤ 16) ∧
    ∃ P', schc_decompress u pkt len = { ret := 0, rx := some P' } ∧
      P'.coap_option_num ≤ SCHC_MAX_COAP_OPT ∧ SIZE_IPV6 + P'.udp_length ≤ SIZE_MTU_IPV6 := by
  obtain ⟨e1, e2, _⟩ := read_coap_options_exit payload
    ((fv.udp_length + 2 ^ 32 - 8) % 2 ^ 32 % 256) SCHC_MAX_COAP_OPT (read_coap_header fv payload)
    (Nat.zero_le _) (Nat.le_add_left _ _)
  have hb0 : payload.getD 0 0 < 256 := Nat.lt_succ_of_le (getD_byte payload hb 0)
  have hlenw : ∀ i, i < (read_coap_packet fv payload).coap_option_num →
      ((read_coap_packet fv payload).option_at i).length =
        wire_length payload (wire_option_start payload (4 + payload.getD 0 0 % 16) i) := by
    intro i hi
    have hw2 := hw
    rw [read_coap_packet_num] at hw2 hi
    rw [read_coap_packet_option]
    refine read_coap_options_wire_length payload hb _ (4 + payload.getD 0 0 % 16)
      SCHC_MAX_COAP_OPT (read_coap_header fv payload) 0 rfl hl ?_ (fun i hi => by omega)
      (fun j hj => lt_of_le_of_lt (hw2 j hj) (by decide)) i hi
    show 4 + (payload.getD 0 0 &&& 0x0F) = 4 + payload.getD 0 0 % 16
    rw [nibble_low _ hb0]
  obtain ⟨P', hP, _, hnum, _, _, q3, q4, _, _, _⟩ := schc_decompress_delivered u pkt len hid
  obtain ⟨_, _, _, _, _, b5⟩ := hin
  refine ⟨rfl, e1, ?_, fun i hi => ⟨hlenw i hi, ?_⟩, P', hP, ?_, ?_⟩
  · rw [read_coap_packet_num]
    exact e2
  · rw [hlenw i hi]
    exact hw i hi
  · rw [q3]
    exact hnum
  · rw [q4]
    exact b5

/-- C35 (counterexample): the message `40 01 00 00 1E FE F2` holds one option
whose length field 14 and extension bytes `FE F2` stand for a length of
269 + 65266 = 65535; `read_coap_packet`, called with a UDP length of 20,
stores the length 65535 and copies that many bytes into `value[16]`.  The
packet `02 12` of 2 bytes names rule 2, whose rows leave the read offset at
3; the code computes `coap_payload_length` = 2 - 3 as a `size_t`, 4294967295,
and copies that many bytes into `coap_payload[SIZE_MTU_IPV6]`.  Neither call
stays inside its arrays: neither yields a struct with `coap_option_num ≤ 4`. -/
theorem option_count_out_of_bounds :
    wire_length [0x40, 0x01, 0, 0, 0x1E, 0xFE, 0xF2] 4 = 65535 ∧
    ((read_coap_packet { field_values_zero with udp_length := 20 }
      [0x40, 0x01, 0, 0, 0x1E, 0xFE, 0xF2]).option_at 0).length = 65535 ∧
    (16 : Nat) < 65535 ∧
    ([2, 0x12] : List Nat).getD 0 0 < rules.length ∧
    (decompress_loop example_indeterminate [2, 0x12]).offset = 3 ∧
    (decompress_loop example_indeterminate [2, 0x12]).compute_length ≠ 0 ∧
    finish_payload_length 2 (decompress_loop example_indeterminate [2, 0x12]) = 4294967295 ∧
    SIZE_MTU_IPV6 < finish_payload_length 2 (decompress_loop example_indeterminate [2, 0x12]) ∧
    ¬ decompress_in_bounds example_indeterminate [2, 0x12] 2 := by
  decide!

/-- Witness of C35: the CoAP message `40 01 00 00 B1 62 D1 04 78` with two
options of length 1, read with a UDP length of 17, and the compressed packet
`02 12 34 07 08 09` of rule 2. -/
theorem coap_option_num_bound_witness :
    bytes_ok [0x40, 0x01, 0, 0, 0xB1, 0x62, 0xD1, 0x04, 0x78] ∧
    ([2, 0x12, 0x34, 7, 8, 9] : List Nat).getD 0 0 < rules.length ∧
    decompress_in_bounds example_indeterminate [2, 0x12, 0x34, 7, 8, 9] 6 ∧
    (read_coap_packet { field_values_zero with udp_length := 17 }
      [0x40, 0x01, 0, 0, 0xB1, 0x62, 0xD1, 0x04, 0x78]).coap_option_num = 2 ∧
    (schc_decompress example_indeterminate [2, 0x12, 0x34, 7, 8, 9] 6).rx.map
      (fun fv => fv.coap_option_num) = some 1 ∧
    (SCHC_MAX_COAP_OPT = 4 ∧
    read_coap_more [0x40, 0x01, 0, 0, 0xB1, 0x62, 0xD1, 0x04, 0x78]
      ((({ field_values_zero with udp_length := 17 } : field_values).udp_length + 2 ^ 32 - 8) %
        2 ^ 32 % 256)
      (read_coap_options [0x40, 0x01, 0, 0, 0xB1, 0x62, 0xD1, 0x04, 0x78]
        ((({ field_values_zero with udp_length := 17 } : field_values).udp_length + 2 ^ 32 - 8) %
          2 ^ 32 % 256) SCHC_MAX_COAP_OPT
        (read_coap_header { field_values_zero with udp_length := 17 }
          [0x40, 0x01, 0, 0, 0xB1, 0x62, 0xD1, 0x04, 0x78])) = false ∧
    (read_coap_packet { field_values_zero with udp_length := 17 }
      [0x40, 0x01, 0, 0, 0xB1, 0x62, 0xD1, 0x04, 0x78]).coap_option_num ≤ SCHC_MAX_COAP_OPT ∧
    (∀ i, i < (read_coap_packet { field_values_zero with udp_length := 17 }
        [0x40, 0x01, 0, 0, 0xB1, 0x62, 0xD1, 0x04, 0x78]).coap_option_num →
      ((read_coap_packet { field_values_zero with udp_length := 17 }
        [0x40, 0x01, 0, 0, 0xB1, 0x62, 0xD1, 0x04, 0x78]).option_at i).length =
        wire_length [0x40, 0x01, 0, 0, 0xB1, 0x62, 0xD1, 0x04, 0x78]
          (wire_option_start [0x40, 0x01, 0, 0, 0xB1, 0x62, 0xD1, 0x04, 0x78]
            (4 + ([0x40, 0x01, 0, 0, 0xB1, 0x62, 0xD1, 0x04, 0x78] : List Nat).getD 0 0 % 16)
            i) ∧
      ((read_coap_packet { field_values_zero with udp_length := 17 }
        [0x40, 0x01, 0, 0, 0xB1, 0x62, 0xD1, 0x04, 0x78]).option_at i).length ≤ 16) ∧
    ∃ P', schc_decompress example_indeterminate [2, 0x12, 0x34, 7, 8, 9] 6 =
        { ret := 0, rx := some P' } ∧
      P'.coap_option_num ≤ SCHC_MAX_COAP_OPT ∧ SIZE_IPV6 + P'.udp_length ≤ SIZE_MTU_IPV6) :=
  ⟨by decide, by decide, by decide!, by decide!, by decide!,
    coap_option_num_bound { field_values_zero with udp_length := 17 }
      [0x40, 0x01, 0, 0, 0xB1, 0x62, 0xD1, 0x04, 0x78] example_indeterminate
      [2, 0x12, 0x34, 7, 8, 9] 6 (by decide) rfl (by decide!) (by decide) (by decide!)⟩

/-! ## The 8-bit read offset of the decompressor -/

/-- C32 (counterexample): at the offset 250 a `VALUE_SENT` row of the device
prefix makes `do_compression_action` append 8 bytes and move its offset to
258, and makes `schc_DA_value_sent` read 8 bytes and move its read offset,
a `uint8_t`, to 2: the read offset has gone back by 248, not on by 8. -/
theorem value_sent_offset_wraps :
    (do_compression_action ⟨.IPV6_DEV_PREFIX, 64, 1, .BI, "0", .IGNORE, .VALUE_SENT⟩
      field_values_zero
      { schc_packet := List.replicate 300 0, offset := 250,
        current_coap_option_num := 0 }).2.offset = 250 + 8 ∧
    residue_size .IPV6_DEV_PREFIX 0 0 = 8 ∧
    (schc_DA_value_sent field_values_zero .IPV6_DEV_PREFIX (List.replicate 300 0) 250).2 = 2 ∧
    (2 : Nat) ≠ 250 + 8 := by
  decide!

end SCHC
